import Mathlib

/-!
# Word binding routines of the R3 (Ren-C) interpreter: `c-bind.c`

A shallow embedding of the binding walks of `src/core/c-bind.c`
(`Bind_Values_Core`, `Bind_Values_Inner_Loop`, `Unbind_Values_Core`,
`Rebind_Values_Deep`, `Bind_Relative_Inner_Loop`,
`Copy_And_Bind_Relative_Deep_Managed`, `Virtual_Bind_Deep_To_New_Context`) and
of the array copies of `src/core/f-blocks.c` (`Clonify`,
`Copy_Array_Core_Managed`, `Copy_Array_At_Max_Shallow`,
`Copy_Rerelativized_Array_Deep_Managed`), the single word binding
`Try_Bind_Word`, the interning Binder (`Init_Interning_Binder`,
`Shutdown_Interning_Binder`) and `Flatten_Core` of `src/core/n-reduce.c`,
together
with the cell classification macros of `src/include/sys-ordered.h` and the
word accessors of `src/include/sys-word.h`.

Conventions of the embedding.

* A series node is named by a natural number; pointer comparison is equality
  of `REBNOD` values.
* An array is a list of cells and a cell that holds an array holds the list
  itself, so arrays are trees: two cells never alias one array and an array
  never contains itself.  Where the identity of an array matters, the copy
  routines are given a second time over a heap of series (`Heap`), in which
  an array cell holds the number of its series.
* An array cell keeps its array split at `VAL_INDEX`: the cells before the
  index and the cells from the index on (`VAL_ARRAY_AT`).  The index of such
  a cell is therefore never past the tail.
* C routines that mutate their arguments return the new values; a `fail`
  (non-local exit) is reported in the `error` field of the result together
  with the state reached when it was raised.
* The C stack is a budget: the number of nested `Clonify` calls it still has
  room for, zero being the state in which `C_STACK_OVERFLOWING` holds.
* Indices are mathematical integers; the 32-bit width of `REBINT`/`REBCNT`
  plays no part in the binding routines as long as a context has fewer than
  2^31 keys.  The sum `index + max` of `Copy_Array_At_Max_Shallow` is taken
  modulo 2^32, `REBCNT` being an unsigned 32-bit integer.
-/

/-! ## Symbols, kinds, nodes -/

/-- An interned spelling (`REBSTR`): its own identity and the identity of its
canon form (`STR_CANON`). -/
structure REBSTR where
  spelling : Nat
  canon : Nat
  deriving DecidableEq, Repr

/-- The kinds for which `ANY_WORD_KIND` holds (members of `TS_WORD`); the
comment in `sys-ordered.h` records that ISSUE! is one of them. -/
inductive WordKind where
  | REB_WORD
  | REB_SET_WORD
  | REB_GET_WORD
  | REB_SYM_WORD
  | REB_ISSUE
  deriving DecidableEq, Repr

/-- The kinds for which `ANY_ARRAY_OR_PATH_KIND` holds (members of
`TS_ARRAY | TS_PATH`). -/
inductive ArrayKind where
  | REB_BLOCK
  | REB_SET_BLOCK
  | REB_GET_BLOCK
  | REB_SYM_BLOCK
  | REB_GROUP
  | REB_SET_GROUP
  | REB_GET_GROUP
  | REB_SYM_GROUP
  | REB_PATH
  | REB_SET_PATH
  | REB_GET_PATH
  | REB_SYM_PATH
  deriving DecidableEq, Repr

/-- The kind of an unescaped cell (`enum Reb_Kind`, always below `REB_64`).
Kinds that are neither words, arrays, paths nor ACTION! are kept by their
kind byte. -/
inductive Reb_Kind where
  | word (k : WordKind)
  | array (k : ArrayKind)
  | REB_ACTION
  | other (byte : Nat)
  deriving DecidableEq, Repr

/-- A set of kinds as tested by `FLAGIT_KIND(kind) & types` on a `REBU64`. -/
abbrev REBU64 := Reb_Kind → Bool

/-- The typeset `TS_WORD`: every word kind. -/
def TS_WORD : REBU64
  | .word _ => true
  | _ => false

/-- A node that a binding can point to: the varlist of a context (with its
`SERIES_FLAG_STACK` bit) or the paramlist of an action. -/
inductive REBNOD where
  | varlist (id : Nat) (stack : Bool)
  | paramlist (id : Nat)
  deriving DecidableEq, Repr

/-- The value of `UNBOUND`: the null binding. -/
def UNBOUND : Option REBNOD := none

/-- The flag test `GET_SER_FLAG(binding, SERIES_FLAG_STACK)`. -/
def REBNOD.isStack : REBNOD → Bool
  | .varlist _ s => s
  | .paramlist _ => false

/-! ## Cells -/

/-- A value cell.  `quotes` is the number of quote levels (`VAL_NUM_QUOTES`);
the other fields describe the unescaped cell (`VAL_UNESCAPED`).

* `word`: ANY-WORD! payload: spelling, binding (`EXTRA(Binding, v)`) and the
  stored index (`PAYLOAD(Any, v).second.i32`).
* `array`: ANY-ARRAY! or ANY-PATH!: the cells before `VAL_INDEX` (`past`),
  the cells from `VAL_INDEX` on (`rest`, what `VAL_ARRAY_AT` points to) and
  the binding (specifier) of the cell.
* `action`: ACTION! with its binding.
* `other`: any other kind, by kind byte. -/
inductive Cell where
  | word (kind : WordKind) (quotes : Nat) (spelling : REBSTR)
      (binding : Option REBNOD) (index : Int)
  | array (kind : ArrayKind) (quotes : Nat) (past : List Cell) (rest : List Cell)
      (binding : Option REBNOD)
  | action (quotes : Nat) (binding : Option REBNOD)
  | other (byte : Nat) (quotes : Nat)
  deriving Repr

/-- The kind of the unescaped cell: `CELL_KIND(VAL_UNESCAPED(v))`. -/
def CELL_KIND : Cell → Reb_Kind
  | .word k _ _ _ _ => .word k
  | .array k _ _ _ _ => .array k
  | .action _ _ => .REB_ACTION
  | .other b _ => .other b

/-- The number of quote levels of a cell: `VAL_NUM_QUOTES(v)`. -/
def VAL_NUM_QUOTES : Cell → Nat
  | .word _ q _ _ _ => q
  | .array _ q _ _ _ => q
  | .action q _ => q
  | .other _ q => q

/-- The test `ANY_WORD(v)`: `ANY_WORD_KIND(KIND_BYTE(v))`, which needs
`k < 64`.  The kind byte of a quoted cell is `REB_QUOTED` or at least
`REB_64`, so a quoted word does not pass. -/
def ANY_WORD : Cell → Bool
  | .word _ q _ _ _ => q == 0
  | _ => false

/-- The test `ANY_ARRAY_OR_PATH(v)`: `ANY_ARRAY_OR_PATH_KIND(KIND_BYTE(v))`,
which needs `k < REB_64`, so a quoted array does not pass. -/
def ANY_ARRAY_OR_PATH : Cell → Bool
  | .array _ q _ _ _ => q == 0
  | _ => false

/-- The test `IS_ACTION(v)`: `KIND_BYTE(v) == REB_ACTION`. -/
def IS_ACTION : Cell → Bool
  | .action q _ => q == 0
  | _ => false

/-- The binding of a cell, `VAL_BINDING(v)`; cells of unbindable kinds have
none. -/
def VAL_BINDING : Cell → Option REBNOD
  | .word _ _ _ b _ => b
  | .array _ _ _ _ b => b
  | .action _ b => b
  | .other _ _ => none

/-- The macro `INIT_BINDING(v, binding)`: store a binding in a bindable cell. -/
def INIT_BINDING (v : Cell) (binding : Option REBNOD) : Cell :=
  match v with
  | .word k q s _ i => .word k q s binding i
  | .array k q p r _ => .array k q p r binding
  | .action q _ => .action q binding
  | .other b q => .other b q

/-- The routine `INIT_WORD_INDEX(v, i)` of `sys-word.h`: store the index of a
word. -/
def INIT_WORD_INDEX (v : Cell) (i : Int) : Cell :=
  match v with
  | .word k q s b _ => .word k q s b i
  | c => c

/-- The routine `Unbind_Any_Word(v)` of `sys-word.h`: `INIT_BINDING(v, UNBOUND)`.
The index is reset only in debug builds and is left as it is here. -/
def Unbind_Any_Word (v : Cell) : Cell :=
  INIT_BINDING v UNBOUND

/-- Modelled from the spec: `Dequotify` (sys-quoted.h, not among the sources)
unwraps a quote-escaped cell and returns the quote count it removed. -/
def Dequotify : Cell → Nat × Cell
  | .word k q s b i => (q, .word k 0 s b i)
  | .array k q p r b => (q, .array k 0 p r b)
  | .action q b => (q, .action 0 b)
  | .other y q => (q, .other y 0)

/-- Modelled from the spec: `Quotify` (sys-quoted.h, not among the sources)
wraps a cell in `depth` further quote levels. -/
def Quotify (v : Cell) (depth : Nat) : Cell :=
  match v with
  | .word k q s b i => .word k (q + depth) s b i
  | .array k q p r b => .array k (q + depth) p r b
  | .action q b => .action (q + depth) b
  | .other y q => .other y (q + depth)

/-! ## Errors -/

/-- The failures of the binding engine (spec section 7), and the failure of a
C `assert` whose violation leaves the routine without a defined result. -/
inductive Error where
  | UnboundWord
  | InvalidLoopSpec
  | DuplicateLoopVariable (symbol : REBSTR)
  | DuplicateKey (canon : Nat)
  | StackOverflow
  | AssertFailed
  deriving DecidableEq, Repr

/-! ## Binder -/

/-- Modelled from the spec: the Binder (`struct Reb_Binder`, sys-bind.h, not
among the sources) maps a canon symbol to a signed index, zero meaning
absent.  The index lives on the symbol itself, so the table is a total
function from canon identities. -/
structure Reb_Binder where
  index : Nat → Int

/-- The Binder that holds no entry. -/
def Reb_Binder.empty : Reb_Binder := ⟨fun _ => 0⟩

/-- Modelled from the spec: `lookupOr0(symbol) -> int`. -/
def Get_Binder_Index_Else_0 (binder : Reb_Binder) (canon : Nat) : Int :=
  binder.index canon

/-- Modelled from the spec: `tryAdd -> bool`, false and no change when the
symbol is already present. -/
def Try_Add_Binder_Index (binder : Reb_Binder) (canon : Nat) (index : Int) :
    Bool × Reb_Binder :=
  if binder.index canon ≠ 0 then (false, binder)
  else (true, ⟨Function.update binder.index canon index⟩)

/-- Modelled from the spec: `add(symbol, index)` fails DuplicateKey if the
symbol is already present. -/
def Add_Binder_Index (binder : Reb_Binder) (canon : Nat) (index : Int) :
    Except Error Reb_Binder :=
  match Try_Add_Binder_Index binder canon index with
  | (true, b) => .ok b
  | (false, _) => .error (.DuplicateKey canon)

/-- Modelled from the spec: `removeOr0(symbol) -> int`, the old index (zero
when absent), leaving the symbol absent. -/
def Remove_Binder_Index_Else_0 (binder : Reb_Binder) (canon : Nat) :
    Int × Reb_Binder :=
  (binder.index canon, ⟨Function.update binder.index canon 0⟩)

/-- Modelled from the spec: `Remove_Binder_Index` is `removeOr0` with the old
index dropped. -/
def Remove_Binder_Index (binder : Reb_Binder) (canon : Nat) : Reb_Binder :=
  (Remove_Binder_Index_Else_0 binder canon).2

/-! ## Contexts -/

/-- A key descriptor of a context (a typeset cell): its spelling and the
flags `REB_TS_UNBINDABLE` and `REB_TS_HIDDEN`. -/
structure REBKEY where
  spelling : REBSTR
  unbindable : Bool
  hidden : Bool
  deriving DecidableEq, Repr

/-- The accessor `VAL_KEY_CANON(key)`. -/
def VAL_KEY_CANON (key : REBKEY) : Nat := key.spelling.canon

/-- The test `Is_Param_Unbindable(key)`. -/
def Is_Param_Unbindable (key : REBKEY) : Bool := key.unbindable

/-- A variable slot of a context: the cell and its `CELL_FLAG_PROTECTED` and
`VAR_MARKED_REUSE` flags. -/
structure REBVAR where
  cell : Cell
  isProtected : Bool
  marked : Bool

/-- A context (`REBCTX`): the identity and stack flag of its varlist, its
keys and its variable slots, both 1-indexed in the C code, and the
`SERIES_FLAG_DONT_RELOCATE` bit of the varlist. -/
structure REBCTX where
  id : Nat
  stack : Bool
  keys : List REBKEY
  vars : List REBVAR
  dontRelocate : Bool

/-- The node of a context, `NOD(context)`: its varlist. -/
def NOD (context : REBCTX) : REBNOD := .varlist context.id context.stack

/-- The length of a context, `CTX_LEN(context)`. -/
def CTX_LEN (context : REBCTX) : Nat := context.keys.length

/-- The kind byte `REB_NULLED`. -/
def REB_NULLED : Nat := 1

/-- Modelled from the spec: `Append(context, symbol) -> index` extends the
context by one key and slot.  `Append_Context(context, word, 0)`
(c-context.c, not among the sources) takes the spelling from the word and
leaves the word bound to the context at the new last index, which the caller
reads back with `VAL_WORD_INDEX`. -/
def Append_Context (context : REBCTX) (any_word : Cell) : REBCTX × Cell :=
  match any_word with
  | .word k q s _ _ =>
    let c : REBCTX :=
      { context with
        keys := context.keys ++ [{ spelling := s, unbindable := false, hidden := false }]
        vars := context.vars ++
          [{ cell := .other REB_NULLED 0, isProtected := false, marked := false }] }
    (c, .word k q s (some (NOD context)) (CTX_LEN c))
  | v => (context, v)

/-- The accessor `VAL_WORD_CANON(v)` of `sys-word.h`; its
`assert(ANY_WORD_KIND(CELL_KIND(v)))` is the `none` case. -/
def VAL_WORD_CANON : Cell → Option Nat
  | .word _ _ s _ _ => some s.canon
  | _ => none

/-- The accessor `VAL_WORD_INDEX(v)` of `sys-word.h`. -/
def VAL_WORD_INDEX : Cell → Int
  | .word _ _ _ _ i => i
  | _ => 0

/-! ## Bind -/

/-- What a binding walk leaves behind: the Binder, the context, the cells
of the array walked, and the error when a `fail` stopped the walk. -/
structure BindResult where
  binder : Reb_Binder
  context : REBCTX
  cells : List Cell
  error : Option Error

/-- The body of `if (type_bit & bind_types)` in `Bind_Values_Inner_Loop`
(c-bind.c lines 58-87) for one cell `head` whose unescaped kind is in
`bind_types`.  The result holds the one cell.  The debug check
`assert(n <= CTX_LEN(context))` of the found branch is not part of the
result; `INIT_BINDING_MAY_MANAGE` is `INIT_BINDING` as far as cells go. -/
def Bind_Values_Inner_Loop_word (binder : Reb_Binder) (head : Cell)
    (context : REBCTX) (add_midstream_types : REBU64) : BindResult :=
  match VAL_WORD_CANON head with
  | none => ⟨binder, context, [head], some .AssertFailed⟩
  | some canon =>
    let n := Get_Binder_Index_Else_0 binder canon
    if n > 0 then
      let depth := (Dequotify head).1
      let v := INIT_BINDING (Dequotify head).2 (some (NOD context))
      let v := INIT_WORD_INDEX v n
      ⟨binder, context, [Quotify v depth], none⟩
    else if add_midstream_types (CELL_KIND head) then
      let depth := (Dequotify head).1
      let appended := Append_Context context (Dequotify head).2
      match Add_Binder_Index binder canon (VAL_WORD_INDEX appended.2) with
      | .error e => ⟨binder, appended.1, [appended.2], some e⟩
      | .ok b => ⟨b, appended.1, [Quotify appended.2 depth], none⟩
    else
      ⟨binder, context, [head], none⟩

mutual
/-- The routine `Bind_Values_Inner_Loop` (c-bind.c lines 44-102): the loop
over the cells from `head` to the END marker.  `deep` is `flags & BIND_DEEP`. -/
def Bind_Values_Inner_Loop (binder : Reb_Binder) (head : List Cell)
    (context : REBCTX) (bind_types add_midstream_types : REBU64) (deep : Bool) :
    BindResult :=
  match head with
  | [] => ⟨binder, context, [], none⟩
  | v :: rest =>
    let r := Bind_Values_Inner_Loop_cell binder v context bind_types
      add_midstream_types deep
    match r.error with
    | some e => ⟨r.binder, r.context, r.cells ++ rest, some e⟩
    | none =>
      let r2 := Bind_Values_Inner_Loop r.binder rest r.context bind_types
        add_midstream_types deep
      ⟨r2.binder, r2.context, r.cells ++ r2.cells, r2.error⟩
/-- One iteration of the loop of `Bind_Values_Inner_Loop`, on the cell `v`. -/
def Bind_Values_Inner_Loop_cell (binder : Reb_Binder) (v : Cell)
    (context : REBCTX) (bind_types add_midstream_types : REBU64) (deep : Bool) :
    BindResult :=
  match v with
  | .array k q past rest b =>
    if bind_types (.array k) then
      Bind_Values_Inner_Loop_word binder (.array k q past rest b) context
        add_midstream_types
    else if deep then
      let r := Bind_Values_Inner_Loop binder rest context bind_types
        add_midstream_types deep
      ⟨r.binder, r.context, [.array k q past r.cells b], r.error⟩
    else
      ⟨binder, context, [.array k q past rest b], none⟩
  | .word k q s b i =>
    if bind_types (.word k) then
      Bind_Values_Inner_Loop_word binder (.word k q s b i) context add_midstream_types
    else
      ⟨binder, context, [.word k q s b i], none⟩
  | .action q b =>
    if bind_types .REB_ACTION then
      Bind_Values_Inner_Loop_word binder (.action q b) context add_midstream_types
    else
      ⟨binder, context, [.action q b], none⟩
  | .other y q =>
    if bind_types (.other y) then
      Bind_Values_Inner_Loop_word binder (.other y q) context add_midstream_types
    else
      ⟨binder, context, [.other y q], none⟩
end

/-- The first loop of `Bind_Values_Core` (c-bind.c lines 129-133): give every
key that is not unbindable its position as Binder index, starting at
`index`. -/
def Bind_Values_Core_seed (binder : Reb_Binder) (keys : List REBKEY) (index : Nat) :
    Reb_Binder × Option Error :=
  match keys with
  | [] => (binder, none)
  | key :: rest =>
    if !Is_Param_Unbindable key then
      match Add_Binder_Index binder (VAL_KEY_CANON key) index with
      | .error e => (binder, some e)
      | .ok b => Bind_Values_Core_seed b rest (index + 1)
    else
      Bind_Values_Core_seed binder rest (index + 1)

/-- The last loop of `Bind_Values_Core` (c-bind.c lines 141-144): remove the
Binder index of every key that is not unbindable. -/
def Bind_Values_Core_reset (binder : Reb_Binder) (keys : List REBKEY) : Reb_Binder :=
  match keys with
  | [] => binder
  | key :: rest =>
    if !Is_Param_Unbindable key then
      Bind_Values_Core_reset (Remove_Binder_Index binder (VAL_KEY_CANON key)) rest
    else
      Bind_Values_Core_reset binder rest

/-- The routine `Bind_Values_Core` (c-bind.c lines 115-147).  `binder` is the
state of the Binder indices when the routine is entered (`INIT_BINDER` does
not clear them: they live on the symbols).  A `fail` leaves the routine at
once, with no later statement run. -/
def Bind_Values_Core (binder : Reb_Binder) (head : List Cell) (context : REBCTX)
    (bind_types add_midstream_types : REBU64) (deep : Bool) : BindResult :=
  match Bind_Values_Core_seed binder context.keys 1 with
  | (b, some e) => ⟨b, context, head, some e⟩
  | (b, none) =>
    let r := Bind_Values_Inner_Loop b head context bind_types add_midstream_types deep
    match r.error with
    | some e => ⟨r.binder, r.context, r.cells, some e⟩
    | none => ⟨Bind_Values_Core_reset r.binder r.context.keys, r.context, r.cells, none⟩

/-! ## Unbind -/

mutual
/-- The routine `Unbind_Values_Core` (c-bind.c lines 157-170); `context` is
`none` for a null target. -/
def Unbind_Values_Core (head : List Cell) (context : Option REBCTX) (deep : Bool) :
    List Cell :=
  match head with
  | [] => []
  | v :: rest =>
    Unbind_Values_Core_cell v context deep :: Unbind_Values_Core rest context deep
/-- One iteration of the loop of `Unbind_Values_Core`, on the cell `v`. -/
def Unbind_Values_Core_cell (v : Cell) (context : Option REBCTX) (deep : Bool) : Cell :=
  match v with
  | .word k q s b i =>
    if ANY_WORD (.word k q s b i)
        && (context.isNone || VAL_BINDING (.word k q s b i) == context.map NOD) then
      Unbind_Any_Word (.word k q s b i)
    else
      .word k q s b i
  | .array k q past rest b =>
    if ANY_ARRAY_OR_PATH (.array k q past rest b) && deep then
      .array k q past (Unbind_Values_Core rest context true) b
    else
      .array k q past rest b
  | .action q b => .action q b
  | .other y q => .other y q
end

/-! ## Rebind -/

mutual
/-- The routine `Rebind_Values_Deep` (c-bind.c lines 312-368).
`Is_Overriding_Context` (sys-context.h, not among the sources) is taken as a
parameter: the relation between the node a function is bound to and the node
of a context derived from it. -/
def Rebind_Values_Deep (Is_Overriding_Context : REBNOD → REBNOD → Bool)
    (src dst : REBCTX) (head : List Cell) (opt_binder : Option Reb_Binder) :
    List Cell :=
  match head with
  | [] => []
  | v :: rest =>
    Rebind_Values_Deep_cell Is_Overriding_Context src dst v opt_binder ::
      Rebind_Values_Deep Is_Overriding_Context src dst rest opt_binder
/-- One iteration of the loop of `Rebind_Values_Deep`, on the cell `v`. -/
def Rebind_Values_Deep_cell (Is_Overriding_Context : REBNOD → REBNOD → Bool)
    (src dst : REBCTX) (v : Cell) (opt_binder : Option Reb_Binder) : Cell :=
  match v with
  | .array k q past rest b =>
    if ANY_ARRAY_OR_PATH (.array k q past rest b) then
      .array k q past
        (Rebind_Values_Deep Is_Overriding_Context src dst rest opt_binder) b
    else
      .array k q past rest b
  | .word k q s b i =>
    if ANY_WORD (.word k q s b i)
        && VAL_BINDING (.word k q s b i) == some (NOD src) then
      let v := INIT_BINDING (.word k q s b i) (some (NOD dst))
      match opt_binder with
      | some binder => INIT_WORD_INDEX v (Get_Binder_Index_Else_0 binder s.canon)
      | none => v
    else
      .word k q s b i
  | .action q b =>
    if IS_ACTION (.action q b) then
      match VAL_BINDING (.action q b) with
      | none => .action q b
      | some binding =>
        if binding.isStack then .action q b
        else if Is_Overriding_Context binding (NOD dst) then
          INIT_BINDING (.action q b) (some (NOD dst))
        else .action q b
    else
      .action q b
  | .other y q => .other y q
end

/-! ## The cells a Bind walk tests, in document order -/

mutual
/-- The cells of an array for which the walk of `Bind_Values_Inner_Loop`
finds `type_bit & bind_types` set, in the order the walk reaches them
(left to right, depth first, entering a sub-array from its index when `deep`
is set and its own kind is not in `bind_types`). -/
def Bind_targets (bind_types : REBU64) (deep : Bool) : List Cell → List Cell
  | [] => []
  | v :: rest => Bind_targets_cell bind_types deep v ++ Bind_targets bind_types deep rest
/-- The cells tested positive at or below one cell. -/
def Bind_targets_cell (bind_types : REBU64) (deep : Bool) : Cell → List Cell
  | .array k q past rest b =>
    if bind_types (.array k) then [.array k q past rest b]
    else if deep then Bind_targets bind_types deep rest
    else []
  | .word k q s b i => if bind_types (.word k) then [.word k q s b i] else []
  | .action q b => if bind_types .REB_ACTION then [.action q b] else []
  | .other y q => if bind_types (.other y) then [.other y q] else []
end

/-- The effect of `Bind_Values_Inner_Loop` on a plain sequence of tested
cells: the body of the `bind_types` branch applied to each in turn, stopping
at the first failure. -/
def Bind_flat (binder : Reb_Binder) (ws : List Cell) (context : REBCTX)
    (add_midstream_types : REBU64) : BindResult :=
  match ws with
  | [] => ⟨binder, context, [], none⟩
  | w :: rest =>
    let r := Bind_Values_Inner_Loop_word binder w context add_midstream_types
    match r.error with
    | some e => ⟨r.binder, r.context, r.cells ++ rest, some e⟩
    | none =>
      let r2 := Bind_flat r.binder rest r.context add_midstream_types
      ⟨r2.binder, r2.context, r.cells ++ r2.cells, r2.error⟩

/-- The 1-based position of the first key that is not unbindable and has the
given canon, counting the head of `keys` as position `index`; zero when no
key qualifies. -/
def bindableIndex (keys : List REBKEY) (canon : Nat) (index : Nat) : Nat :=
  match keys with
  | [] => 0
  | key :: rest =>
    if !Is_Param_Unbindable key && VAL_KEY_CANON key == canon then index
    else bindableIndex rest canon (index + 1)

/-- The canons of the keys of a context that are not unbindable, in key
order. -/
def bindableCanons (keys : List REBKEY) : List Nat :=
  (keys.filter (fun key => !Is_Param_Unbindable key)).map VAL_KEY_CANON

/-- Whether every `Remove_Binder_Index` of the last loop of `Bind_Values_Core`
finds an entry to remove. -/
def Bind_Values_Core_reset_hits (binder : Reb_Binder) (keys : List REBKEY) : Bool :=
  match keys with
  | [] => true
  | key :: rest =>
    if !Is_Param_Unbindable key then
      Get_Binder_Index_Else_0 binder (VAL_KEY_CANON key) != 0 &&
        Bind_Values_Core_reset_hits (Remove_Binder_Index binder (VAL_KEY_CANON key)) rest
    else
      Bind_Values_Core_reset_hits binder rest

/-- Agreement of a walk over an array with the flat walk over its targets. -/
def FlatAgrees (bt : REBU64) (deep : Bool) (r f : BindResult) : Prop :=
  r.binder = f.binder ∧ r.context = f.context ∧ r.error = f.error ∧
    Bind_targets bt deep r.cells = f.cells

/-- The Binder holds exactly the positions of the bindable keys: what the
first loop of `Bind_Values_Core` establishes from an empty Binder. -/
def Seeded (binder : Reb_Binder) (keys : List REBKEY) : Prop :=
  ∀ s, binder.index s = ((bindableIndex keys s 1 : Nat) : Int)

/-- The macro `FLAGIT_KIND(t)` of `sys-ordered.h`: the typeset holding the
one kind `t`. -/
def FLAGIT_KIND (t : Reb_Kind) : REBU64 := fun kind => kind == t

/-! ## Sample values -/

/-- The symbol `a`, its own canon. -/
def sym_a : REBSTR := ⟨1, 1⟩

/-- The symbol `b`, its own canon. -/
def sym_b : REBSTR := ⟨2, 2⟩

/-- An unbound, unquoted WORD! cell of the given spelling. -/
def plain_word (s : REBSTR) : Cell := .word .REB_WORD 0 s none 0

/-- An unbound, unquoted SET-WORD! cell of the given spelling. -/
def plain_set_word (s : REBSTR) : Cell := .word .REB_SET_WORD 0 s none 0

/-- A heap context with the given identity and no keys. -/
def empty_context (id : Nat) : REBCTX := ⟨id, false, [], [], false⟩

/-- A heap context with the given identity and one ordinary key per
spelling, every slot a null cell. -/
def context_of (id : Nat) (spellings : List REBSTR) : REBCTX :=
  ⟨id, false, spellings.map (fun s => ⟨s, false, false⟩),
    spellings.map (fun _ => ⟨.other REB_NULLED 0, false, false⟩), false⟩

/-! ## Cells by position -/

/-- The array of an array cell, `VAL_ARRAY(v)`: all its cells, those before
the index and those from it. -/
def VAL_ARRAY : Cell → List Cell
  | .array _ _ past rest _ => past ++ rest
  | _ => []

/-- The cell reached from a cell by a path of positions, each position
taken in the array (`VAL_ARRAY`) of the cell reached so far. -/
def cellUnder : Option Cell → List Nat → Option Cell
  | o, [] => o
  | none, _ :: _ => none
  | some c, j :: path => cellUnder ((VAL_ARRAY c)[j]?) path

/-- The cell at position `i` of `cells` when `path` is empty, else the cell
that `path` leads to below it. -/
def cellAt (cells : List Cell) (i : Nat) (path : List Nat) : Option Cell :=
  cellUnder (cells[i]?) path

/-- Whether a walk that enters the sub-arrays for which `ANY_ARRAY_OR_PATH`
holds, from their index (`VAL_ARRAY_AT`) and only when `deep` is set, runs
its loop body on the cell that `path` leads to below a cell it runs its loop
body on. -/
def reachedUnder (deep : Bool) : Option Cell → List Nat → Bool
  | _, [] => true
  | some (.array _ q past rest _), j :: path =>
    deep && q == 0 && decide (past.length ≤ j) &&
      reachedUnder deep (rest[j - past.length]?) path
  | _, _ :: _ => false

/-- Whether the loops of `Unbind_Values_Core` (with its `deep`) and of
`Rebind_Values_Deep` (always deep), started on `cells`, run their body on
the cell at position `i` and `path`. -/
def Walk_reaches (deep : Bool) (cells : List Cell) (i : Nat) (path : List Nat) : Bool :=
  reachedUnder deep (cells[i]?) path

/-! ## What a Bind walk keeps -/

mutual
/-- An array with the binding and index of every word in it, at any depth,
erased: what a Bind walk never changes. -/
def skeleton : List Cell → List Cell
  | [] => []
  | v :: rest => skeleton_cell v :: skeleton rest
/-- One cell with the binding and index of every word in it erased. -/
def skeleton_cell : Cell → Cell
  | .word k q s _ _ => .word k q s none 0
  | .array k q past rest b => .array k q (skeleton past) (skeleton rest) b
  | .action q b => .action q b
  | .other y q => .other y q
end

/-! ## Relative cells and the copy that swaps their template -/

/-- Modelled from the spec: a binding reference is Relative when its target
is a function template.  `IS_RELATIVE(v)` (sys-bind.h, not among the
sources) holds when the binding of the cell is a paramlist. -/
def IS_RELATIVE (v : Cell) : Bool :=
  match VAL_BINDING v with
  | some (.paramlist _) => true
  | _ => false

mutual
/-- The routine `Copy_Rerelativized_Array_Deep_Managed` (f-blocks.c lines
327-371).  `before` and `after` are actions, named by the identity of their
paramlists.  The copy of `VAL_ARRAY(src)` is taken cell by cell, so the
copies of the cells before and from the index are kept apart and the index
of the new cell is that of `src`.  `before` enters the C code only through
`assert(VAL_RELATIVE(src) == before)`; that check and `assert(ANY_WORD(src))`
are debug checks and not part of the result. -/
def Copy_Rerelativized_Array_Deep_Managed (original : List Cell) (before after : Nat) :
    List Cell :=
  match original with
  | [] => []
  | src :: rest =>
    Copy_Rerelativized_Array_Deep_Managed_cell src before after ::
      Copy_Rerelativized_Array_Deep_Managed rest before after
/-- One iteration of the loop of `Copy_Rerelativized_Array_Deep_Managed`: the
cell written to `dest` for the cell `src`. -/
def Copy_Rerelativized_Array_Deep_Managed_cell (src : Cell) (before after : Nat) : Cell :=
  match src with
  | .array k q past rest b =>
    if !IS_RELATIVE (.array k q past rest b) then .array k q past rest b
    else if ANY_ARRAY_OR_PATH (.array k q past rest b) then
      .array k q (Copy_Rerelativized_Array_Deep_Managed past before after)
        (Copy_Rerelativized_Array_Deep_Managed rest before after) (some (.paramlist after))
    else INIT_BINDING (.array k q past rest b) (some (.paramlist after))
  | .word k q s b i =>
    if !IS_RELATIVE (.word k q s b i) then .word k q s b i
    else INIT_BINDING (.word k q s b i) (some (.paramlist after))
  | .action q b =>
    if !IS_RELATIVE (.action q b) then .action q b
    else INIT_BINDING (.action q b) (some (.paramlist after))
  | .other y q => .other y q
end

/-- Whether the cell that `path` leads to below a cell lies under relative
array or path cells only: every cell on the way passes `ANY_ARRAY_OR_PATH`
and `IS_RELATIVE`; positions are taken in the whole array. -/
def relativeUnder : Option Cell → List Nat → Bool
  | _, [] => true
  | some (.array k q past rest b), j :: path =>
    ANY_ARRAY_OR_PATH (.array k q past rest b) && IS_RELATIVE (.array k q past rest b) &&
      relativeUnder ((past ++ rest)[j]?) path
  | _, _ :: _ => false

/-! ## Copying arrays -/

/-- The typeset `TS_ARRAY`: the block and group kinds.  The constant comes
from a generated header that is not among the sources; `sys-ordered.h` tests
`ANY_ARRAY_KIND` with `TS_ARRAY`, `ANY_PATH_KIND` with `TS_PATH` and
`ANY_ARRAY_OR_PATH_KIND` with `TS_ARRAY | TS_PATH`, and lists the block and the
group kinds in `ANY_BLOCK_KIND` and `ANY_GROUP_KIND`. -/
def TS_ARRAY : REBU64
  | .array .REB_BLOCK => true
  | .array .REB_SET_BLOCK => true
  | .array .REB_GET_BLOCK => true
  | .array .REB_SYM_BLOCK => true
  | .array .REB_GROUP => true
  | .array .REB_SET_GROUP => true
  | .array .REB_GET_GROUP => true
  | .array .REB_SYM_GROUP => true
  | _ => false

/-- The typeset `TS_PATH`: the path kinds. -/
def TS_PATH : REBU64
  | .array .REB_PATH => true
  | .array .REB_SET_PATH => true
  | .array .REB_GET_PATH => true
  | .array .REB_SYM_PATH => true
  | _ => false

/-- The typeset constants that the copy routines use and whose definitions
are in generated headers that are not among the sources. -/
structure Typesets where
  TS_SERIES : REBU64
  TS_NOT_COPIED : REBU64
  TS_SERIES_OBJ : REBU64
  TS_ARRAYS_OBJ : REBU64

/-- The macro `VAL_SPECIFIER(v)`: the binding of an array cell, `SPECIFIED`
being no binding. -/
def VAL_SPECIFIER (v : Cell) : Option REBNOD := VAL_BINDING v

/-- Modelled from the spec: a relative cell copied with a specifier gets the
specifier as its binding, and becomes unbound when there is none; a cell
that is not relative is copied verbatim (`Derelativize`, sys-bind.h, not among
the sources). -/
def Derelativize (v : Cell) (specifier : Option REBNOD) : Cell :=
  if IS_RELATIVE v then INIT_BINDING v specifier else v

/-- The routine `Copy_Array_At_Extra_Shallow` (f-blocks.c lines 40-65): the
cells from `index` on, each through `Derelativize`; no cell when `index` is
beyond the length.  The spare capacity `extra` and the series flags are not
part of the embedding. -/
def Copy_Array_At_Extra_Shallow (original : List Cell) (index : Nat)
    (specifier : Option REBNOD) : List Cell :=
  if index > original.length then []
  else (original.drop index).map (fun src => Derelativize src specifier)

/-- The test `types & FLAGIT_KIND(kind) & TS_SERIES_OBJ` of `Clonify`: whether
the series of a cell of this kind is copied. -/
def Clonify_copies (ts : Typesets) (types : REBU64) (kind : Reb_Kind) : Bool :=
  types kind && ts.TS_SERIES_OBJ kind

/-- The test `types & FLAGIT_KIND(kind) & TS_ARRAYS_OBJ` of `Clonify`: whether
the cells of the copied series are cloned in turn. -/
def Clonify_deep (ts : Typesets) (types : REBU64) (kind : Reb_Kind) : Bool :=
  types kind && ts.TS_ARRAYS_OBJ kind

mutual
/-- The call `Clonify(Derelativize(dest, src, specifier), flags, types)` of
`Copy_Array_Core_Managed_Inner_Loop` (f-blocks.c lines 137-226 and 261-265).
`stack` is the number of nested `Clonify` calls the C stack still has room
for: `C_STACK_OVERFLOWING` holds when it is zero.  The array of an array cell
is copied from position 0 (`Copy_Array_At_Extra_Shallow(VAL_ARRAY(v), 0,
VAL_SPECIFIER(v), ...)`), and `INIT_VAL_ARRAY` keeps the index, so the copies
of the cells before and from the index are kept apart; the deep pass runs
`Clonify` on every cell of that shallow copy, which is this call with the
specifier of `v`.  Of a cell that is not an array the embedding has no
series to copy.  `assert(false)` for an action and the const bit are not
part of the embedding. -/
def Clonify_Derelativized (ts : Typesets) (types : REBU64) (stack : Nat)
    (specifier : Option REBNOD) (src : Cell) : Except Error Cell :=
  match stack with
  | 0 => .error .StackOverflow
  | stack + 1 =>
    match src with
    | .array k q past rest b =>
      let binding := VAL_SPECIFIER (Derelativize (.array k q past rest b) specifier)
      if Clonify_copies ts types (.array k) then
        if Clonify_deep ts types (.array k) then
          match Clonify_Derelativized_each ts types stack binding past with
          | .error e => .error e
          | .ok past2 =>
            match Clonify_Derelativized_each ts types stack binding rest with
            | .error e => .error e
            | .ok rest2 => .ok (.array k q past2 rest2 UNBOUND)
        else
          .ok (.array k q (past.map (fun sub => Derelativize sub binding))
            (rest.map (fun sub => Derelativize sub binding)) UNBOUND)
      else .ok (.array k q past rest binding)
    | .word k q s b i => .ok (Derelativize (.word k q s b i) specifier)
    | .action q b => .ok (Derelativize (.action q b) specifier)
    | .other y q => .ok (.other y q)
/-- The loop `for (; count < len; ...) Clonify(Derelativize(dest, src,
specifier), flags, types)`, which stops at the first failure. -/
def Clonify_Derelativized_each (ts : Typesets) (types : REBU64) (stack : Nat)
    (specifier : Option REBNOD) (srcs : List Cell) : Except Error (List Cell) :=
  match srcs with
  | [] => .ok []
  | src :: rest =>
    match Clonify_Derelativized ts types stack specifier src with
    | .error e => .error e
    | .ok dest =>
      match Clonify_Derelativized_each ts types stack specifier rest with
      | .error e => .error e
      | .ok dests => .ok (dest :: dests)
end

/-- The routine `Clonify(v, flags, types)` (f-blocks.c lines 137-226) on a cell
in place: `Derelativize` against the binding the cell has changes nothing. -/
def Clonify (ts : Typesets) (types : REBU64) (stack : Nat) (v : Cell) : Except Error Cell :=
  Clonify_Derelativized ts types stack (VAL_BINDING v) v

/-- The routine `Copy_Array_Core_Managed_Inner_Loop` (f-blocks.c lines
233-271).  `assert(index <= tail and tail <= ARR_LEN(original))` guards the
reads of the loop. -/
def Copy_Array_Core_Managed_Inner_Loop (ts : Typesets) (stack : Nat) (original : List Cell)
    (index : Nat) (specifier : Option REBNOD) (tail : Nat) (types : REBU64) :
    Except Error (List Cell) :=
  if index ≤ tail ∧ tail ≤ original.length then
    Clonify_Derelativized_each ts types stack specifier
      ((original.drop index).take (tail - index))
  else .error .AssertFailed

/-- The routine `Copy_Array_Core_Managed` (f-blocks.c lines 283-306). -/
def Copy_Array_Core_Managed (ts : Typesets) (stack : Nat) (original : List Cell)
    (index : Nat) (specifier : Option REBNOD) (tail : Nat) (types : REBU64) :
    Except Error (List Cell) :=
  let index := if index > tail then tail else index
  if index > original.length then .ok []
  else Copy_Array_Core_Managed_Inner_Loop ts stack original index specifier tail types

/-! ## Relative binding of a function body -/

/-- The paramlist of an action: its identity and the keys from position 1 on
(position 0 holds the ACTION! value itself). -/
structure Paramlist where
  id : Nat
  params : List REBKEY

mutual
/-- The routine `Bind_Relative_Inner_Loop` (c-bind.c lines 197-249): the cells
as the loop leaves them, and the failure that stopped it.  `paramlist` is the
identity of the paramlist.  `assert(not IS_RELATIVE(head))` is a debug check
and not part of the result. -/
def Bind_Relative_Inner_Loop (binder : Reb_Binder) (head : List Cell) (paramlist : Nat)
    (bind_types : REBU64) : List Cell × Option Error :=
  match head with
  | [] => ([], none)
  | v :: rest =>
    match Bind_Relative_Inner_Loop_cell binder v paramlist bind_types with
    | (v2, some e) => (v2 :: rest, some e)
    | (v2, none) =>
      let r := Bind_Relative_Inner_Loop binder rest paramlist bind_types
      (v2 :: r.1, r.2)
/-- One iteration of the loop of `Bind_Relative_Inner_Loop`, on the cell `v`.
`VAL_WORD_CANON` of a cell that is not a word is an assertion failure. -/
def Bind_Relative_Inner_Loop_cell (binder : Reb_Binder) (v : Cell) (paramlist : Nat)
    (bind_types : REBU64) : Cell × Option Error :=
  match v with
  | .word k q s b i =>
    if bind_types (.word k) then
      let n := Get_Binder_Index_Else_0 binder s.canon
      if n ≠ 0 then
        let depth := (Dequotify (.word k q s b i)).1
        let head := Unbind_Any_Word (Dequotify (.word k q s b i)).2
        let head := INIT_BINDING head (some (.paramlist paramlist))
        let head := INIT_WORD_INDEX head n
        (Quotify head depth, none)
      else (.word k q s b i, none)
    else (.word k q s b i, none)
  | .array k q past rest b =>
    if bind_types (.array k) then (.array k q past rest b, some .AssertFailed)
    else
      let r := Bind_Relative_Inner_Loop binder rest paramlist bind_types
      match r.2 with
      | some e => (.array k q past r.1 b, some e)
      | none =>
        let depth := (Dequotify (.array k q past r.1 b)).1
        let head := INIT_BINDING (Dequotify (.array k q past r.1 b)).2
          (some (.paramlist paramlist))
        (Quotify head depth, none)
  | .action q b =>
    if bind_types .REB_ACTION then (.action q b, some .AssertFailed) else (.action q b, none)
  | .other y q =>
    if bind_types (.other y) then (.other y q, some .AssertFailed) else (.other y q, none)
end

/-- The loop of `Copy_And_Bind_Relative_Deep_Managed` that sets up the Binder
(c-bind.c lines 288-290): `Add_Binder_Index` of every key of the paramlist,
with its position. -/
def Copy_And_Bind_Relative_seed (binder : Reb_Binder) (params : List REBKEY) (index : Nat) :
    Reb_Binder × Option Error :=
  match params with
  | [] => (binder, none)
  | param :: rest =>
    match Add_Binder_Index binder (VAL_KEY_CANON param) index with
    | .error e => (binder, some e)
    | .ok b => Copy_And_Bind_Relative_seed b rest (index + 1)

/-- The loop of `Copy_And_Bind_Relative_Deep_Managed` that resets the Binder
(c-bind.c lines 296-298). -/
def Copy_And_Bind_Relative_reset (binder : Reb_Binder) (params : List REBKEY) : Reb_Binder :=
  match params with
  | [] => binder
  | param :: rest =>
    Copy_And_Bind_Relative_reset (Remove_Binder_Index binder (VAL_KEY_CANON param)) rest

/-- What `Copy_And_Bind_Relative_Deep_Managed` leaves: the Binder indices, the
array it made, and the failure that stopped it. -/
structure RelativeBindResult where
  binder : Reb_Binder
  copy : List Cell
  error : Option Error

/-- The routine `Copy_And_Bind_Relative_Deep_Managed` (c-bind.c lines
263-303).  `binder` is the state of the Binder indices when the routine is
entered.  The copy runs from `VAL_INDEX(body)` to the tail `VAL_LEN_AT(body)`
and clones the kinds `(TS_SERIES | TS_PATH) & ~TS_NOT_COPIED`. -/
def Copy_And_Bind_Relative_Deep_Managed (ts : Typesets) (stack : Nat) (binder : Reb_Binder)
    (body : Cell) (paramlist : Paramlist) (bind_types : REBU64) : RelativeBindResult :=
  match body with
  | .array k q past rest b =>
    match Copy_Array_Core_Managed ts stack (past ++ rest) past.length
        (VAL_SPECIFIER (.array k q past rest b)) rest.length
        (fun kind => (ts.TS_SERIES kind || TS_PATH kind) && !ts.TS_NOT_COPIED kind) with
    | .error e => ⟨binder, [], some e⟩
    | .ok copy =>
      match Copy_And_Bind_Relative_seed binder paramlist.params 1 with
      | (b, some e) => ⟨b, copy, some e⟩
      | (b, none) =>
        let r := Bind_Relative_Inner_Loop b copy paramlist.id bind_types
        match r.2 with
        | some e => ⟨b, r.1, some e⟩
        | none => ⟨Copy_And_Bind_Relative_reset b paramlist.params, r.1, none⟩
  | _ => ⟨binder, [], some .AssertFailed⟩

/-- Whether the loop of `Bind_Relative_Inner_Loop`, which enters the array
and path cells at any quote level from their index (`VAL_ARRAY_AT`), runs its
body on the cell that `path` leads to below a cell it runs its body on. -/
def relativeWalkUnder : Option Cell → List Nat → Bool
  | _, [] => true
  | some (.array _ _ past rest _), j :: path =>
    decide (past.length ≤ j) && relativeWalkUnder (rest[j - past.length]?) path
  | _, _ :: _ => false

/-- A sample assignment of the typeset constants: the array kinds are the
series, nothing is exempt from copying, and arrays and paths are copied
deeply. -/
def sample_typesets : Typesets :=
  ⟨TS_ARRAY, fun _ => false, fun kind => TS_ARRAY kind || TS_PATH kind,
    fun kind => TS_ARRAY kind || TS_PATH kind⟩

/-! ## Virtual binding of a loop body -/

/-- The test `IS_BLOCK(v)`: `KIND_BYTE(v) == REB_BLOCK`. -/
def IS_BLOCK : Cell → Bool
  | .array .REB_BLOCK q _ _ _ => q == 0
  | _ => false

/-- The test `IS_WORD(v)`: `KIND_BYTE(v) == REB_WORD`. -/
def IS_WORD : Cell → Bool
  | .word .REB_WORD q _ _ _ => q == 0
  | _ => false

/-- Modelled from the spec: a quote-escaped word declares a loop variable
that reuses its binding.  `IS_QUOTED_WORD(v)` (sys-quoted.h, not among the
sources) holds of a WORD! under one quote level, the LIT-WORD! of the
comments of `Virtual_Bind_Deep_To_New_Context`. -/
def IS_QUOTED_WORD : Cell → Bool
  | .word .REB_WORD q _ _ _ => q == 1
  | _ => false

/-- The pointer `VAL_ARRAY_AT(v)`: the cells from the index on. -/
def VAL_ARRAY_AT : Cell → List Cell
  | .array _ _ _ rest _ => rest
  | _ => []

/-- The accessor `VAL_INDEX(v)`. -/
def VAL_INDEX : Cell → Nat
  | .array _ _ past _ _ => past.length
  | _ => 0

/-- The routine `Init_Block(out, array)`: a BLOCK! at the head of the array,
with no binding. -/
def Init_Block (array : List Cell) : Cell := .array .REB_BLOCK 0 [] array UNBOUND

/-- The spec items that `Virtual_Bind_Deep_To_New_Context` walks, `num_vars` of
them: the cells of a block spec from its index on (`VAL_ARRAY_AT(spec)`,
`VAL_LEN_AT(spec)`), and the spec itself when it is not a block. -/
def Virtual_Bind_Deep_To_New_Context_items (spec : Cell) : List Cell :=
  if IS_BLOCK spec then VAL_ARRAY_AT spec else [spec]

/-- The loop that checks the items of a block spec (c-bind.c lines 435-448):
whether a plain word was met, and the failure raised at the first item that
is neither a plain nor a quoted word. -/
def Virtual_Bind_Deep_To_New_Context_check (items : List Cell) (rebinding : Bool) :
    Bool × Option Error :=
  match items with
  | [] => (rebinding, none)
  | item :: rest =>
    if IS_WORD item then Virtual_Bind_Deep_To_New_Context_check rest true
    else if !IS_QUOTED_WORD item then (rebinding, some .InvalidLoopSpec)
    else Virtual_Bind_Deep_To_New_Context_check rest rebinding

/-- What one pass of the loop that fills the context has to give: the key and
the variable slot written, the Binder indices and the first duplicate. -/
structure VirtualBindSlot where
  key : REBKEY
  var : REBVAR
  binder : Reb_Binder
  duplicate : Option REBSTR

/-- One pass of the loop that fills the context (c-bind.c lines 504-591), for
the spec item `item` at position `index`.  `assert(rebinding)` is a debug
check; `assert(IS_QUOTED_WORD(item))` guards the read of the spelling of the
item. -/
def Virtual_Bind_Deep_To_New_Context_slot (rebinding : Bool) (specifier : Option REBNOD)
    (binder : Reb_Binder) (duplicate : Option REBSTR) (item : Cell) (index : Nat) :
    Except Error VirtualBindSlot :=
  match item with
  | .word k q s b i =>
    if IS_WORD (.word k q s b i) then
      let added := Try_Add_Binder_Index binder s.canon index
      .ok ⟨⟨s, false, false⟩, ⟨.other REB_NULLED 0, false, false⟩, added.2,
        if added.1 then duplicate
        else match duplicate with
          | none => some s
          | some d => some d⟩
    else if IS_QUOTED_WORD (.word k q s b i) then
      let key : REBKEY := ⟨s, true, true⟩
      let var : REBVAR := ⟨Derelativize (.word k q s b i) specifier, true, true⟩
      if rebinding then
        let stored := Get_Binder_Index_Else_0 binder s.canon
        if stored > 0 then
          .ok ⟨key, var, binder,
            match duplicate with
            | none => some s
            | some d => some d⟩
        else if stored = 0 then
          match Add_Binder_Index binder s.canon (-1) with
          | .error e => .error e
          | .ok b2 => .ok ⟨key, var, b2, duplicate⟩
        else .ok ⟨key, var, binder, duplicate⟩
      else .ok ⟨key, var, binder, duplicate⟩
    else .error .AssertFailed
  | _ => .error .AssertFailed

/-- What the loop that fills the context leaves: the Binder indices, the keys
and slots written, the first duplicate, and the failure that stopped it. -/
structure VirtualBindSlots where
  binder : Reb_Binder
  keys : List REBKEY
  vars : List REBVAR
  duplicate : Option REBSTR
  error : Option Error

/-- The loop `while (index <= num_vars)` of `Virtual_Bind_Deep_To_New_Context`
(c-bind.c lines 503-591) over the spec items. -/
def Virtual_Bind_Deep_To_New_Context_slots (rebinding : Bool) (specifier : Option REBNOD)
    (binder : Reb_Binder) (duplicate : Option REBSTR) (items : List Cell) (index : Nat) :
    VirtualBindSlots :=
  match items with
  | [] => ⟨binder, [], [], duplicate, none⟩
  | item :: rest =>
    match Virtual_Bind_Deep_To_New_Context_slot rebinding specifier binder duplicate item
        index with
    | .error e => ⟨binder, [], [], duplicate, some e⟩
    | .ok slot =>
      let r := Virtual_Bind_Deep_To_New_Context_slots rebinding specifier slot.binder
        slot.duplicate rest (index + 1)
      ⟨r.binder, slot.key :: r.keys, slot.var :: r.vars, r.duplicate, r.error⟩

/-- The loop that removes the Binder index of every key (c-bind.c lines
636-647).  Its three assertions are debug checks. -/
def Virtual_Bind_Deep_To_New_Context_reset (binder : Reb_Binder) (keys : List REBKEY) :
    Reb_Binder :=
  match keys with
  | [] => binder
  | key :: rest =>
    Virtual_Bind_Deep_To_New_Context_reset
      (Remove_Binder_Index_Else_0 binder (VAL_KEY_CANON key)).2 rest

/-- What `Virtual_Bind_Deep_To_New_Context` leaves: the cell `body_in_out`,
the context written to `context_out` (none as long as none is allocated),
the Binder indices, and the failure raised. -/
structure VirtualBindResult where
  body : Cell
  context : Option REBCTX
  binder : Reb_Binder
  error : Option Error

/-- The routine `Virtual_Bind_Deep_To_New_Context` (c-bind.c lines 414-656).
`id` is the identity of the varlist that `Alloc_Context` makes; `binder` is
the state of the Binder indices when the routine is entered.  When the body
is bound it is the block that `Init_Block` made of the copy, and the walk
changes the cells of that copy in place. -/
def Virtual_Bind_Deep_To_New_Context (ts : Typesets) (stack : Nat) (id : Nat)
    (binder : Reb_Binder) (body_in_out : Cell) (spec : Cell) : VirtualBindResult :=
  if !IS_BLOCK body_in_out then ⟨body_in_out, none, binder, some .AssertFailed⟩
  else
    let items := Virtual_Bind_Deep_To_New_Context_items spec
    let num_vars := items.length
    if num_vars = 0 then ⟨body_in_out, none, binder, some .InvalidLoopSpec⟩
    else
      let specifier := if IS_BLOCK spec then VAL_SPECIFIER spec else none
      let checked :=
        if IS_BLOCK spec then Virtual_Bind_Deep_To_New_Context_check items false
        else (IS_WORD spec, none)
      match checked with
      | (_, some e) => ⟨body_in_out, none, binder, some e⟩
      | (rebinding, none) =>
        let copied : Except Error Cell :=
          if rebinding then
            match Copy_Array_Core_Managed ts stack (VAL_ARRAY body_in_out)
                (VAL_INDEX body_in_out) (VAL_SPECIFIER body_in_out)
                (VAL_ARRAY body_in_out).length TS_ARRAY with
            | .error e => .error e
            | .ok copy => .ok (Init_Block copy)
          else .ok body_in_out
        match copied with
        | .error e => ⟨body_in_out, none, binder, some e⟩
        | .ok body =>
          let slots := Virtual_Bind_Deep_To_New_Context_slots rebinding specifier binder none
            items 1
          match slots.error with
          | some e => ⟨body, some ⟨id, false, slots.keys, slots.vars, false⟩, slots.binder,
              some e⟩
          | none =>
            let c : REBCTX := ⟨id, false, slots.keys, slots.vars, true⟩
            if !rebinding then ⟨body, some c, slots.binder, none⟩
            else
              let bound : BindResult :=
                match slots.duplicate with
                | none => Bind_Values_Inner_Loop slots.binder (VAL_ARRAY_AT body) c TS_WORD
                    (fun _ => false) true
                | some _ => ⟨slots.binder, c, VAL_ARRAY_AT body, none⟩
              match bound.error with
              | some e =>
                ⟨.array .REB_BLOCK 0 [] bound.cells UNBOUND, some bound.context, bound.binder,
                  some e⟩
              | none =>
                ⟨.array .REB_BLOCK 0 [] bound.cells UNBOUND, some bound.context,
                  Virtual_Bind_Deep_To_New_Context_reset bound.binder bound.context.keys,
                  match slots.duplicate with
                  | none => none
                  | some d => some (.DuplicateLoopVariable d)⟩

/-- The accessor `VAL_WORD_SPELLING(v)` of `sys-word.h`; its assertion that the
cell is a word is the `none` case. -/
def VAL_WORD_SPELLING : Cell → Option REBSTR
  | .word _ _ s _ _ => some s
  | _ => none

/-- Whether two spec items are in conflict: they name the same canon and at
least one of the two is a plain word. -/
def specConflict (a b : Cell) : Bool :=
  VAL_WORD_CANON a == VAL_WORD_CANON b && (IS_WORD a || IS_WORD b)

/-- The spelling of the leftmost item of `items` that is in conflict with an
item before it, the items of `seen` counting as coming before all of them;
none when no item is. -/
def firstConflict (seen : List Cell) (items : List Cell) : Option REBSTR :=
  match items with
  | [] => none
  | item :: rest =>
    if seen.any (fun e => specConflict e item) then VAL_WORD_SPELLING item
    else firstConflict (seen ++ [item]) rest

/-- The key that the loop of `Virtual_Bind_Deep_To_New_Context` writes for a
spec item that is a plain or a quoted word. -/
def specKey (item : Cell) : Option REBKEY :=
  match VAL_WORD_SPELLING item with
  | none => none
  | some s => some ⟨s, !IS_WORD item, !IS_WORD item⟩

/-- The variable slot that the loop of `Virtual_Bind_Deep_To_New_Context`
writes for a spec item that is a plain or a quoted word. -/
def specVar (specifier : Option REBNOD) (item : Cell) : REBVAR :=
  if IS_WORD item then ⟨.other REB_NULLED 0, false, false⟩
  else ⟨Derelativize item specifier, true, true⟩

/-- The Binder indices that the loop over the spec items leaves after the
items of `seen` when it has met no conflict: a canon has an index exactly
when an item names it, the canon of the plain word at position `i + 1` has
the index `i + 1`, and only the canon of a plain word has a positive index. -/
def SpecSeeded (binder : Reb_Binder) (seen : List Cell) : Prop :=
  (∀ c, binder.index c ≠ 0 ↔ ∃ e ∈ seen, VAL_WORD_CANON e = some c) ∧
  (∀ c (i : Nat) e, seen[i]? = some e → VAL_WORD_CANON e = some c → IS_WORD e = true →
    binder.index c = ((i + 1 : Nat) : Int)) ∧
  (∀ c, binder.index c > 0 → ∃ e ∈ seen, VAL_WORD_CANON e = some c ∧ IS_WORD e = true)

/-- An unbound WORD! cell of the given spelling under one quote level. -/
def quoted_word (s : REBSTR) : Cell := .word .REB_WORD 1 s none 0

/-! ## Binding one word -/

/-- The scan of `Find_Canon_In_Context` from the key at position `n` on. -/
def Find_Canon_In_Context_scan (keys : List REBKEY) (canon : Nat) (always : Bool) (n : Nat) :
    Nat :=
  match keys with
  | [] => 0
  | key :: rest =>
    if VAL_KEY_CANON key == canon && (always || !Is_Param_Unbindable key) then n
    else Find_Canon_In_Context_scan rest canon always (n + 1)

/-- Modelled from the spec: `Find(context, symbol) -> index|0` is a linear
scan that skips the unbindable keys.  `Find_Canon_In_Context(context, canon,
always)` (c-context.c, not among the sources) takes the unbindable keys too
when `always` is set. -/
def Find_Canon_In_Context (context : REBCTX) (canon : Nat) (always : Bool) : Nat :=
  Find_Canon_In_Context_scan context.keys canon always 1

/-- The routine `Try_Bind_Word` (c-bind.c lines 179-187): the count returned
and the word as the routine leaves it.  `VAL_WORD_CANON` of a cell that is
not a word is an assertion failure. -/
def Try_Bind_Word (context : REBCTX) (word : Cell) : Except Error (Nat × Cell) :=
  match VAL_WORD_CANON word with
  | none => .error .AssertFailed
  | some canon =>
    let n := Find_Canon_In_Context context canon false
    if n ≠ 0 then .ok (n, INIT_WORD_INDEX (INIT_BINDING word (some (NOD context))) n)
    else .ok (n, word)

/-! ## A shallow copy of at most `max` cells -/

/-- The loop `for (; count < max; ++count, ++src, ++dest) Derelativize(dest,
src, specifier)` of `Copy_Array_At_Max_Shallow`, with `src` the cells from the
read position to the tail and `count` the cells still to copy.  A read past
the tail has no defined result: it is the `none` case. -/
def Copy_Array_At_Max_Shallow_loop (src : List Cell) (count : Nat)
    (specifier : Option REBNOD) : Option (List Cell) :=
  match src with
  | [] => if count = 0 then some [] else none
  | v :: rest =>
    if count = 0 then some []
    else
      match Copy_Array_At_Max_Shallow_loop rest (count - 1) specifier with
      | none => none
      | some dests => some (Derelativize v specifier :: dests)

/-- The routine `Copy_Array_At_Max_Shallow` (f-blocks.c lines 75-100).
`index` and `max` are `REBCNT`, 32-bit unsigned counts, so the sum
`index + max` of the test is taken modulo `2 ^ 32`. -/
def Copy_Array_At_Max_Shallow (original : List Cell) (index : Nat)
    (specifier : Option REBNOD) (max : Nat) : Option (List Cell) :=
  if index > original.length then some []
  else
    let max := if (index + max) % 2 ^ 32 > original.length then original.length - index
      else max
    Copy_Array_At_Max_Shallow_loop (original.drop index) max specifier

/-! ## The interning Binder -/

/-- The first loop of `Init_Interning_Binder` (c-bind.c lines 681-684): the
position of every key of the context as its Binder index. -/
def Init_Interning_Binder_positives (binder : Reb_Binder) (keys : List REBKEY) (index : Nat) :
    Reb_Binder × Option Error :=
  match keys with
  | [] => (binder, none)
  | key :: rest =>
    match Add_Binder_Index binder (VAL_KEY_CANON key) index with
    | .error e => (binder, some e)
    | .ok b => Init_Interning_Binder_positives b rest (index + 1)

/-- The second loop of `Init_Interning_Binder` (c-bind.c lines 692-699): minus
its position for every key of the lib context whose canon has no index. -/
def Init_Interning_Binder_negatives (binder : Reb_Binder) (keys : List REBKEY) (index : Nat) :
    Reb_Binder × Option Error :=
  match keys with
  | [] => (binder, none)
  | key :: rest =>
    if Get_Binder_Index_Else_0 binder (VAL_KEY_CANON key) = 0 then
      match Add_Binder_Index binder (VAL_KEY_CANON key) (-(index : Int)) with
      | .error e => (binder, some e)
      | .ok b => Init_Interning_Binder_negatives b rest (index + 1)
    else Init_Interning_Binder_negatives binder rest (index + 1)

/-- The routine `Init_Interning_Binder` (c-bind.c lines 670-701).  The global
`Lib_Context` is a parameter; `ctx != Lib_Context` compares the two varlists.
`binder` is the state of the Binder indices when the routine is entered. -/
def Init_Interning_Binder (Lib_Context : REBCTX) (binder : Reb_Binder) (ctx : REBCTX) :
    Reb_Binder × Option Error :=
  match Init_Interning_Binder_positives binder ctx.keys 1 with
  | (b, some e) => (b, some e)
  | (b, none) =>
    if NOD ctx ≠ NOD Lib_Context then Init_Interning_Binder_negatives b Lib_Context.keys 1
    else (b, none)

/-- The first loop of `Shutdown_Interning_Binder` (c-bind.c lines 717-723): the
Binder left, and whether `assert(n == index)` held every time. -/
def Shutdown_Interning_Binder_positives (binder : Reb_Binder) (keys : List REBKEY)
    (index : Nat) : Reb_Binder × Bool :=
  match keys with
  | [] => (binder, true)
  | key :: rest =>
    let removed := Remove_Binder_Index_Else_0 binder (VAL_KEY_CANON key)
    let r := Shutdown_Interning_Binder_positives removed.2 rest (index + 1)
    (r.1, decide (removed.1 = (index : Int)) && r.2)

/-- The second loop of `Shutdown_Interning_Binder` (c-bind.c lines 729-735):
the Binder left, and whether `assert(n == 0 or n == -index)` held every
time. -/
def Shutdown_Interning_Binder_negatives (binder : Reb_Binder) (keys : List REBKEY)
    (index : Nat) : Reb_Binder × Bool :=
  match keys with
  | [] => (binder, true)
  | key :: rest =>
    let removed := Remove_Binder_Index_Else_0 binder (VAL_KEY_CANON key)
    let r := Shutdown_Interning_Binder_negatives removed.2 rest (index + 1)
    (r.1, (decide (removed.1 = 0) || decide (removed.1 = -(index : Int))) && r.2)

/-- The routine `Shutdown_Interning_Binder` (c-bind.c lines 710-739): the
Binder it leaves and whether every one of its assertions held.  The
assertions are debug checks: the Binder left does not depend on them. -/
def Shutdown_Interning_Binder (Lib_Context : REBCTX) (binder : Reb_Binder) (ctx : REBCTX) :
    Reb_Binder × Bool :=
  let r := Shutdown_Interning_Binder_positives binder ctx.keys 1
  if NOD ctx ≠ NOD Lib_Context then
    let r2 := Shutdown_Interning_Binder_negatives r.1 Lib_Context.keys 1
    (r2.1, r.2 && r2.2)
  else r

/-! ## What a deep copy returns -/

mutual
/-- The cell that `Clonify(Derelativize(dest, src, specifier), flags, types)`
leaves when the stack suffices: `Clonify_Derelativized` without the stack
check. -/
def Clonify_value (ts : Typesets) (types : REBU64) (specifier : Option REBNOD) :
    Cell → Cell
  | .array k q past rest b =>
    if Clonify_copies ts types (.array k) then
      if Clonify_deep ts types (.array k) then
        .array k q
          (Clonify_value_each ts types
            (VAL_SPECIFIER (Derelativize (.array k q [] [] b) specifier)) past)
          (Clonify_value_each ts types
            (VAL_SPECIFIER (Derelativize (.array k q [] [] b) specifier)) rest) UNBOUND
      else
        .array k q
          (past.map (fun sub => Derelativize sub
            (VAL_SPECIFIER (Derelativize (.array k q [] [] b) specifier))))
          (rest.map (fun sub => Derelativize sub
            (VAL_SPECIFIER (Derelativize (.array k q [] [] b) specifier)))) UNBOUND
    else .array k q past rest (VAL_SPECIFIER (Derelativize (.array k q [] [] b) specifier))
  | .word k q s b i => Derelativize (.word k q s b i) specifier
  | .action q b => Derelativize (.action q b) specifier
  | .other y q => .other y q
/-- The cells that the loop over `Clonify(Derelativize(dest, src, specifier),
flags, types)` leaves when the stack suffices. -/
def Clonify_value_each (ts : Typesets) (types : REBU64) (specifier : Option REBNOD) :
    List Cell → List Cell
  | [] => []
  | src :: rest => Clonify_value ts types specifier src ::
      Clonify_value_each ts types specifier rest
end

/-- Whether the cell that `path` leads to below a cell of the original is, in
the deep copy, a cell of an array that the copy made: every array cell on
the way has its series copied (`Clonify_copies`) and, when the way goes on
below the next cell, its cells cloned in turn (`Clonify_deep`). -/
def clonedUnder (ts : Typesets) (types : REBU64) : Option Cell → List Nat → Bool
  | _, [] => true
  | some (.array k _ past rest _), j :: path =>
    Clonify_copies ts types (.array k) &&
      (path.isEmpty || Clonify_deep ts types (.array k)) &&
      clonedUnder ts types ((past ++ rest)[j]?) path
  | _, _ :: _ => false

/-- Whether `Clonify` runs on the cell that `path` leads to below a cell it
runs on: every array cell on the way has its series copied and its cells
cloned in turn. -/
def clonifiedUnder (ts : Typesets) (types : REBU64) : Option Cell → List Nat → Bool
  | _, [] => true
  | some (.array k _ past rest _), j :: path =>
    Clonify_copies ts types (.array k) && Clonify_deep ts types (.array k) &&
      clonifiedUnder ts types ((past ++ rest)[j]?) path
  | _, _ :: _ => false

/-! ## Arrays as series of a heap

The routines above take an array as the list of its cells, so no two cells
refer to one array.  To speak of which array a cell refers to, the copy
routines are given a second time over a heap of series, in which an array
cell holds the number of its series and a routine that writes a cell in
place is given the series and the position of the cell. -/

/-- A value cell whose array is a series of the heap: `series` is
`VAL_ARRAY(v)`, `index` is `VAL_INDEX(v)`; the other fields are those of
`Cell`. -/
inductive HeapCell where
  | word (kind : WordKind) (quotes : Nat) (spelling : REBSTR)
      (binding : Option REBNOD) (index : Int)
  | array (kind : ArrayKind) (quotes : Nat) (series : Nat) (index : Nat)
      (binding : Option REBNOD)
  | action (quotes : Nat) (binding : Option REBNOD)
  | other (byte : Nat) (quotes : Nat)
  deriving DecidableEq, Repr

/-- The arrays made so far, each the list of its cells; the number of a
series is its position.  Modelled from the spec: making an array
(`Make_Arr_Core`, `Make_Arr_For_Copy`, not among the sources) gives a series
that no cell refers to yet: it is put at the end. -/
abbrev Heap := List (List HeapCell)

/-- The cells of the series `id` of the heap. -/
def Heap.cells (heap : Heap) (id : Nat) : List HeapCell := heap.getD id []

/-- The heap after the cell at position `j` of the series `id` is written. -/
def Heap.write (heap : Heap) (id j : Nat) (v : HeapCell) : Heap :=
  heap.set id ((heap.cells id).set j v)

/-- The heap after a cell is written at the tail of the series `id`, which
becomes one cell longer. -/
def Heap.push (heap : Heap) (id : Nat) (v : HeapCell) : Heap :=
  heap.set id (heap.cells id ++ [v])

/-- The macro `INIT_BINDING(v, binding)` on a cell of the heap. -/
def HeapCell.INIT_BINDING (v : HeapCell) (binding : Option REBNOD) : HeapCell :=
  match v with
  | .word k q s _ i => .word k q s binding i
  | .array k q ser idx _ => .array k q ser idx binding
  | .action q _ => .action q binding
  | .other y q => .other y q

/-- The binding of a cell of the heap. -/
def HeapCell.VAL_BINDING : HeapCell → Option REBNOD
  | .word _ _ _ b _ => b
  | .array _ _ _ _ b => b
  | .action _ b => b
  | .other _ _ => none

/-- Modelled from the spec: `Derelativize` on a cell of the heap, as
`Derelativize` on a `Cell`. -/
def HeapCell.Derelativize (v : HeapCell) (specifier : Option REBNOD) : HeapCell :=
  match v.VAL_BINDING with
  | some (.paramlist _) => v.INIT_BINDING specifier
  | _ => v

/-- The loop `for (; NOT_END(sub); ++sub) Clonify(sub, flags, types)` of
`Clonify` (f-blocks.c lines 198-202) over the cells of the series `series`
from position `j`: `clonify` is given the heap, the series and the position
of `sub`.  `count` is the number of cells from `j` to the tail when the
loop starts. -/
def Clonify_heap_loop (clonify : Heap → Nat → Nat → Except Error Heap) (series : Nat) :
    Heap → Nat → Nat → Except Error Heap
  | heap, _, 0 => .ok heap
  | heap, j, count + 1 =>
    if j < (heap.cells series).length then
      match clonify heap series j with
      | .error e => .error e
      | .ok heap1 => Clonify_heap_loop clonify series heap1 (j + 1) count
    else .ok heap

/-- The routine `Clonify(v, flags, types)` (f-blocks.c lines 137-226) over the
heap, `v` being the cell at position `j` of the series `place`: the heap as
the routine leaves it.  `stack` is the number of nested calls the C stack
still has room for.  The new series is the shallow copy of the whole array
of the cell (`Copy_Array_At_Extra_Shallow(VAL_ARRAY(v), 0, VAL_SPECIFIER(v),
...)`); the cell is written before the cells of the new series are cloned.
A cell that holds no array has no series to copy; `assert(false)` for an
action and the const bit are not part of the embedding. -/
def Clonify_heap (ts : Typesets) (types : REBU64) :
    Nat → Heap → Nat → Nat → Except Error Heap
  | 0, _, _, _ => .error .StackOverflow
  | stack + 1, heap, place, j =>
    match (heap.cells place)[j]? with
    | some (.array k q ser idx b) =>
      if Clonify_copies ts types (.array k) then
        let series := heap.length
        let copied := (heap.cells ser).map (fun src => src.Derelativize b)
        let heap1 := (heap ++ [copied]).write place j (.array k q series idx UNBOUND)
        if Clonify_deep ts types (.array k) then
          Clonify_heap_loop (Clonify_heap ts types stack) series heap1 0 copied.length
        else .ok heap1
      else .ok heap
    | _ => .ok heap

/-- The loop of `Copy_Array_Core_Managed_Inner_Loop` (f-blocks.c lines 261-267):
`src` is the position read in the series `original`, `dest` the position
written in the series `copy`, `count` the number of cells still to copy.
`Derelativize(dest, src, specifier)` writes the cell at the tail of the
copy, where `Clonify` then finds it. -/
def Copy_Array_Core_Managed_Inner_Loop_heap_loop (ts : Typesets) (types : REBU64)
    (stack : Nat) (original copy : Nat) (specifier : Option REBNOD) :
    Heap → Nat → Nat → Nat → Except Error Heap
  | heap, _, _, 0 => .ok heap
  | heap, src, dest, count + 1 =>
    match (heap.cells original)[src]? with
    | none => .error .AssertFailed
    | some v =>
      match Clonify_heap ts types stack (heap.push copy (v.Derelativize specifier)) copy dest with
      | .error e => .error e
      | .ok heap1 =>
        Copy_Array_Core_Managed_Inner_Loop_heap_loop ts types stack original copy specifier
          heap1 (src + 1) (dest + 1) count

/-- The routine `Copy_Array_Core_Managed_Inner_Loop` (f-blocks.c lines 233-271)
over the heap: the heap it leaves and the number of the series it made. -/
def Copy_Array_Core_Managed_Inner_Loop_heap (ts : Typesets) (stack : Nat) (heap : Heap)
    (original : Nat) (index : Nat) (specifier : Option REBNOD) (tail : Nat) (types : REBU64) :
    Except Error (Heap × Nat) :=
  if index ≤ tail ∧ tail ≤ (heap.cells original).length then
    let copy := heap.length
    match Copy_Array_Core_Managed_Inner_Loop_heap_loop ts types stack original copy specifier
        (heap ++ [[]]) index 0 (tail - index) with
    | .error e => .error e
    | .ok heap1 => .ok (heap1, copy)
  else .error .AssertFailed

/-- The routine `Copy_Array_Core_Managed` (f-blocks.c lines 283-307) over the
heap: the heap it leaves and the number of the series it made. -/
def Copy_Array_Core_Managed_heap (ts : Typesets) (stack : Nat) (heap : Heap) (original : Nat)
    (index : Nat) (specifier : Option REBNOD) (tail : Nat) (types : REBU64) :
    Except Error (Heap × Nat) :=
  let index := if index > tail then tail else index
  if index > (heap.cells original).length then .ok (heap ++ [[]], heap.length)
  else Copy_Array_Core_Managed_Inner_Loop_heap ts stack heap original index specifier tail types

/-- Whether the series `id` is in the heap and so is every array nested in it,
the nesting being at most `depth` levels deep. -/
def Heap.nests (heap : Heap) : Nat → Nat → Bool
  | 0, _ => false
  | depth + 1, id =>
    decide (id < heap.length) &&
      (heap.cells id).all (fun v =>
        match v with
        | .array _ _ ser _ _ => heap.nests depth ser
        | _ => true)

/-- Whether the array of a cell, if it has one, nests to at most `depth`
levels in the heap. -/
def Heap.holds (heap : Heap) (depth : Nat) : HeapCell → Bool
  | .array _ _ ser _ _ => heap.nests depth ser
  | _ => true

/-- A heap that has every series of `original`, unchanged. -/
def Heap.keeps (heap original : Heap) : Prop :=
  original.length ≤ heap.length ∧ ∀ id, id < original.length → heap.cells id = original.cells id

/-- The relation between a cell `v` given to `Clonify` and the cell `v2` it
leaves, followed down to `depth` levels of arrays, the new series being
those from `lo` up to `hi` of the heap `after`.  When the series of an
array cell is copied, `v2` refers to a new series of the length of the
array of `v`, and keeps kind, quote level and index, with no binding; each
cell of the new series answers to the `Derelativize` of the cell of the
original, in the same way when the cells are cloned in turn, and is that
cell otherwise.  Any other cell is left as it is. -/
def ClonedIn (ts : Typesets) (types : REBU64) (original after : Heap) (lo hi : Nat) :
    Nat → HeapCell → HeapCell → Prop
  | 0, _, _ => True
  | depth + 1, .array k q ser idx b, v2 =>
    if Clonify_copies ts types (.array k) then
      ∃ series, v2 = .array k q series idx UNBOUND ∧ lo ≤ series ∧ series < hi ∧
        (after.cells series).length = (original.cells ser).length ∧
        ∀ (j : Nat) (sub : HeapCell), (original.cells ser)[j]? = some sub →
          ∃ sub2, (after.cells series)[j]? = some sub2 ∧
            if Clonify_deep ts types (.array k)
            then ClonedIn ts types original after lo hi depth (sub.Derelativize b) sub2
            else sub2 = sub.Derelativize b
    else v2 = .array k q ser idx b
  | _ + 1, .word k q s b i, v2 => v2 = .word k q s b i
  | _ + 1, .action q b, v2 => v2 = .action q b
  | _ + 1, .other y q, v2 => v2 = .other y q

/-- The relation between a cell `v` of the heap `original` and the cell `v2`
that answers to it in a deep copy, in the heap `after`, followed down to
`depth` levels of arrays.  When the series of an array cell is copied, `v2`
refers to a series that `original` does not have, hence another than the
series of `v`, so that writing a cell of either leaves the other as it is;
the new series has the length of the array of `v`, and `v2` keeps kind,
quote level and index, with no binding; each cell of the new series answers
to the `Derelativize` of the cell of the original, in the same way when the
cells are cloned in turn, and is that cell otherwise.  Any other cell is
left as it is. -/
def ClonedTo (ts : Typesets) (types : REBU64) (original after : Heap) :
    Nat → HeapCell → HeapCell → Prop
  | 0, _, _ => True
  | depth + 1, .array k q ser idx b, v2 =>
    if Clonify_copies ts types (.array k) then
      ∃ series, v2 = .array k q series idx UNBOUND ∧
        ser < original.length ∧ original.length ≤ series ∧ series < after.length ∧
        (∀ (j : Nat) (x : HeapCell), (after.write series j x).cells ser = after.cells ser) ∧
        (∀ (j : Nat) (x : HeapCell), (after.write ser j x).cells series = after.cells series) ∧
        (after.cells series).length = (original.cells ser).length ∧
        ∀ (j : Nat) (sub : HeapCell), (original.cells ser)[j]? = some sub →
          ∃ sub2, (after.cells series)[j]? = some sub2 ∧
            if Clonify_deep ts types (.array k)
            then ClonedTo ts types original after depth (sub.Derelativize b) sub2
            else sub2 = sub.Derelativize b
    else v2 = .array k q ser idx b
  | _ + 1, .word k q s b i, v2 => v2 = .word k q s b i
  | _ + 1, .action q b, v2 => v2 = .action q b
  | _ + 1, .other y q, v2 => v2 = .other y q

/-- A heap of three series: the block `[a [b (a)]]`, its nested block, which
is relative to the paramlist 7, and the group nested in that one. -/
def sample_heap : Heap :=
  [[.word .REB_WORD 0 sym_a none 0, .array .REB_BLOCK 0 1 0 (some (.paramlist 7))],
   [.word .REB_WORD 0 sym_b (some (.paramlist 7)) 1, .array .REB_GROUP 1 2 0 none],
   [.word .REB_WORD 0 sym_a none 0]]

/-! ## The steps of `Clonify` on the quote level, and the depth of its recursion -/

/-- The loop `for (; NOT_END(sub); ++sub) Clonify(sub, flags, types)` of `Clonify`
(f-blocks.c lines 198-202) over the cells of the new series, which stops at
the first failure. -/
def Clonify_each (ts : Typesets) (types : REBU64) (stack : Nat) :
    List Cell → Except Error (List Cell)
  | [] => .ok []
  | sub :: rest =>
    match Clonify ts types stack sub with
    | .error e => .error e
    | .ok r =>
      match Clonify_each ts types stack rest with
      | .error e => .error e
      | .ok rs => .ok (r :: rs)

/-- The part of `Clonify` between `Dequotify(v)` and `Quotify(v, num_quotes)`
(f-blocks.c lines 156-222), on the cell as `Dequotify` left it: the series is
copied by `Copy_Array_At_Extra_Shallow(VAL_ARRAY(v), 0, VAL_SPECIFIER(v), ...)`,
the cell is given the new series and `INIT_BINDING(v, UNBOUND)`, and the
cells of the new series are then cloned in place.  The cells before and
from the index are kept apart as in `Cell`. -/
def Clonify_unescaped (ts : Typesets) (types : REBU64) (stack : Nat) (v : Cell) :
    Except Error Cell :=
  match v with
  | .array k q past rest b =>
    if Clonify_copies ts types (CELL_KIND (.array k q past rest b)) then
      let series_past :=
        Copy_Array_At_Extra_Shallow past 0 (VAL_SPECIFIER (.array k q past rest b))
      let series_rest :=
        Copy_Array_At_Extra_Shallow rest 0 (VAL_SPECIFIER (.array k q past rest b))
      if Clonify_deep ts types (CELL_KIND (.array k q past rest b)) then
        match Clonify_each ts types stack series_past with
        | .error e => .error e
        | .ok past2 =>
          match Clonify_each ts types stack series_rest with
          | .error e => .error e
          | .ok rest2 => .ok (INIT_BINDING (.array k q past2 rest2 b) UNBOUND)
      else .ok (INIT_BINDING (.array k q series_past series_rest b) UNBOUND)
    else .ok (.array k q past rest b)
  | .word k q s b i => .ok (.word k q s b i)
  | .action q b => .ok (.action q b)
  | .other y q => .ok (.other y q)

/-- The routine `Clonify(v, flags, types)` (f-blocks.c lines 137-226) with its
steps on the quote level written out: the stack check, `VAL_NUM_QUOTES(v)`,
`Dequotify(v)`, the cloning of the unescaped cell, `Quotify(v, num_quotes)`. -/
def Clonify_quoted (ts : Typesets) (types : REBU64) (stack : Nat) (v : Cell) :
    Except Error Cell :=
  match stack with
  | 0 => .error .StackOverflow
  | stack + 1 =>
    let num_quotes := VAL_NUM_QUOTES v
    match Clonify_unescaped ts types stack (Dequotify v).2 with
    | .error e => .error e
    | .ok r => .ok (Quotify r num_quotes)

mutual
/-- The number of nested `Clonify` calls that cloning the cell makes, its own
call counted: one more than the deepest call on a cell of its series when
the series is copied and its cells are cloned in turn, and one otherwise. -/
def Clonify_levels (ts : Typesets) (types : REBU64) : Cell → Nat
  | .array k _ past rest _ =>
    if Clonify_copies ts types (.array k) && Clonify_deep ts types (.array k) then
      max (Clonify_levels_each ts types past) (Clonify_levels_each ts types rest) + 1
    else 1
  | .word _ _ _ _ _ => 1
  | .action _ _ => 1
  | .other _ _ => 1
/-- The deepest nesting of `Clonify` calls over the cells of a list, zero for
the empty list. -/
def Clonify_levels_each (ts : Typesets) (types : REBU64) : List Cell → Nat
  | [] => 0
  | v :: rest => max (Clonify_levels ts types v) (Clonify_levels_each ts types rest)
end

/-! ## Flattening a block of blocks -/

/-- The levels of `enum FLATTEN_LEVEL` (n-reduce.c lines 444-448). -/
inductive FLATTEN_LEVEL where
  | FLATTEN_NOT
  | FLATTEN_ONCE
  | FLATTEN_DEEP
  deriving DecidableEq, Repr

/-- Modelled from the spec: `DS_PUSH_RELVAL(v, specifier)` (sys-stack.h, not
among the sources) writes the cell on the data stack as a copy into
context-free storage, through `Derelativize`. -/
def DS_PUSH_RELVAL (v : Cell) (specifier : Option REBNOD) : Cell :=
  Derelativize v specifier

mutual
/-- The routine `Flatten_Core` (n-reduce.c lines 452-470): the cells it pushes
on the data stack, in the order of the pushes.  `Derive_Specifier`
(sys-bind.h, not among the sources) is taken as a parameter: the specifier
for the cells of an array cell met under a given specifier. -/
def Flatten_Core (Derive_Specifier : Option REBNOD → Cell → Option REBNOD)
    (head : List Cell) (specifier : Option REBNOD) (level : FLATTEN_LEVEL) : List Cell :=
  match head with
  | [] => []
  | item :: rest =>
    Flatten_Core_item Derive_Specifier item specifier level ++
      Flatten_Core Derive_Specifier rest specifier level
/-- One iteration of the loop of `Flatten_Core`, on the cell `item`. -/
def Flatten_Core_item (Derive_Specifier : Option REBNOD → Cell → Option REBNOD)
    (item : Cell) (specifier : Option REBNOD) (level : FLATTEN_LEVEL) : List Cell :=
  match item with
  | .array k q past rest b =>
    if IS_BLOCK (.array k q past rest b) && level != .FLATTEN_NOT then
      Flatten_Core Derive_Specifier rest
        (Derive_Specifier specifier (.array k q past rest b))
        (if level == .FLATTEN_ONCE then .FLATTEN_NOT else .FLATTEN_DEEP)
    else [DS_PUSH_RELVAL (.array k q past rest b) specifier]
  | .word k q s b i => [DS_PUSH_RELVAL (.word k q s b i) specifier]
  | .action q b => [DS_PUSH_RELVAL (.action q b) specifier]
  | .other y q => [DS_PUSH_RELVAL (.other y q) specifier]
end

/-- The native `flatten` (n-reduce.c lines 473-498): the block made of the
cells that `Flatten_Core` pushed (`Pop_Stack_Values`), `deep` being the
refinement `/deep`. -/
def flatten (Derive_Specifier : Option REBNOD → Cell → Option REBNOD) (block : Cell)
    (deep : Bool) : Cell :=
  Init_Block (Flatten_Core Derive_Specifier (VAL_ARRAY_AT block) (VAL_SPECIFIER block)
    (if deep then .FLATTEN_DEEP else .FLATTEN_ONCE))

mutual
/-- The leaves of the tree of blocks below a list of cells, from left to
right: the cells that are not plain blocks, a plain block standing for the
leaves of its cells from its index on. -/
def block_leaves : List Cell → List Cell
  | [] => []
  | c :: rest => block_leaves_cell c ++ block_leaves rest
/-- The leaves of the tree of blocks below one cell. -/
def block_leaves_cell : Cell → List Cell
  | .array k q past rest b =>
    if IS_BLOCK (.array k q past rest b) then block_leaves rest
    else [.array k q past rest b]
  | .word k q s b i => [.word k q s b i]
  | .action q b => [.action q b]
  | .other y q => [.other y q]
end

/-- The cells of a list with every plain block among them replaced by its
cells from its index on. -/
def blocks_opened_once (head : List Cell) : List Cell :=
  head.flatMap (fun c => if IS_BLOCK c then VAL_ARRAY_AT c else [c])

/-- The cells `out` are the cells `src`, one for one and in order, each as
`DS_PUSH_RELVAL` writes it under some specifier. -/
def PushedFrom (out src : List Cell) : Prop :=
  List.Forall₂ (fun o v => ∃ specifier, o = DS_PUSH_RELVAL v specifier) out src

/-! ## The assertions of the loop that empties the Binder of the virtual bind -/

/-- The loop that removes the Binder index of every key, `key` and `var`
advancing together (c-bind.c lines 636-647), with its three assertions:
whether all of them hold.  A removed index of 0 asserts `duplicate`, a
positive one asserts that the slot has not `NODE_FLAG_MARKED`, a negative one
that it has. -/
def Virtual_Bind_Deep_To_New_Context_reset_asserts (binder : Reb_Binder)
    (keys : List REBKEY) (vars : List REBVAR) (duplicate : Option REBSTR) : Bool :=
  match keys, vars with
  | key :: keys, var :: vars =>
    let stored := Remove_Binder_Index_Else_0 binder (VAL_KEY_CANON key)
    (if stored.1 = 0 then duplicate.isSome
      else if stored.1 > 0 then !var.marked
      else var.marked) &&
    Virtual_Bind_Deep_To_New_Context_reset_asserts stored.2 keys vars duplicate
  | _, _ => true

/-! ## The walk over an array and the flat walk over its targets -/

theorem Bind_word_cells (b : Reb_Binder) (w : Cell) (ctx : REBCTX) (amt : REBU64) :
    ∃ w2, (Bind_Values_Inner_Loop_word b w ctx amt).cells = [w2] ∧ CELL_KIND w2 = CELL_KIND w := by
  unfold Bind_Values_Inner_Loop_word
  cases w <;> simp [VAL_WORD_CANON, CELL_KIND]
  rename_i k q s bd i
  split_ifs
  · simp [Dequotify, INIT_BINDING, INIT_WORD_INDEX, Quotify, CELL_KIND]
  · simp only [Append_Context, Dequotify]
    split <;> simp [Quotify, CELL_KIND]
  · simp [CELL_KIND]

theorem Bind_flat_append (amt : REBU64) : ∀ (xs ys : List Cell) (b : Reb_Binder) (ctx : REBCTX),
    Bind_flat b (xs ++ ys) ctx amt =
      match (Bind_flat b xs ctx amt).error with
      | some e => ⟨(Bind_flat b xs ctx amt).binder, (Bind_flat b xs ctx amt).context,
          (Bind_flat b xs ctx amt).cells ++ ys, some e⟩
      | none =>
        ⟨(Bind_flat (Bind_flat b xs ctx amt).binder ys (Bind_flat b xs ctx amt).context amt).binder,
         (Bind_flat (Bind_flat b xs ctx amt).binder ys (Bind_flat b xs ctx amt).context amt).context,
         (Bind_flat b xs ctx amt).cells ++
           (Bind_flat (Bind_flat b xs ctx amt).binder ys (Bind_flat b xs ctx amt).context amt).cells,
         (Bind_flat (Bind_flat b xs ctx amt).binder ys (Bind_flat b xs ctx amt).context amt).error⟩ := by
  intro xs
  induction xs with
  | nil => intro ys b ctx; simp [Bind_flat]
  | cons x xs ih =>
    intro ys b ctx
    rw [List.cons_append, Bind_flat, Bind_flat]
    cases h : (Bind_Values_Inner_Loop_word b x ctx amt).error with
    | some e => simp
    | none =>
      simp only []
      rw [ih]
      cases h2 : (Bind_flat (Bind_Values_Inner_Loop_word b x ctx amt).binder xs
        (Bind_Values_Inner_Loop_word b x ctx amt).context amt).error with
      | some e => simp
      | none => simp

theorem Bind_flat_single (b : Reb_Binder) (w : Cell) (ctx : REBCTX) (amt : REBU64) :
    Bind_flat b [w] ctx amt = Bind_Values_Inner_Loop_word b w ctx amt := by
  obtain ⟨w2, hw2, -⟩ := Bind_word_cells b w ctx amt
  rw [Bind_flat]
  cases h : (Bind_Values_Inner_Loop_word b w ctx amt).error with
  | some e =>
    simp only [List.append_nil]
    rw [← h]
  | none =>
    simp only [Bind_flat, List.append_nil]
    rw [← h]

theorem Bind_targets_append (bt : REBU64) (deep : Bool) (xs ys : List Cell) :
    Bind_targets bt deep (xs ++ ys) = Bind_targets bt deep xs ++ Bind_targets bt deep ys := by
  induction xs with
  | nil => simp [Bind_targets]
  | cons x xs ih => simp [Bind_targets, ih]

theorem Bind_targets_cell_pos (bt : REBU64) (deep : Bool) (c : Cell)
    (h : bt (CELL_KIND c) = true) : Bind_targets_cell bt deep c = [c] := by
  cases c <;> simp_all [Bind_targets_cell, CELL_KIND]

theorem Bind_word_agrees (bt amt : REBU64) (deep : Bool) (b : Reb_Binder) (c : Cell)
    (ctx : REBCTX) (h : bt (CELL_KIND c) = true) :
    FlatAgrees bt deep (Bind_Values_Inner_Loop_word b c ctx amt)
      (Bind_flat b (Bind_targets_cell bt deep c) ctx amt) := by
  rw [Bind_targets_cell_pos bt deep c h, Bind_flat_single]
  obtain ⟨w2, hw2, hk⟩ := Bind_word_cells b c ctx amt
  refine ⟨rfl, rfl, rfl, ?_⟩
  rw [hw2]
  simp [Bind_targets, Bind_targets_cell_pos bt deep w2 (hk ▸ h)]

mutual
theorem Bind_loop_agrees (bt amt : REBU64) (deep : Bool) :
    ∀ (head : List Cell) (b : Reb_Binder) (ctx : REBCTX),
      FlatAgrees bt deep (Bind_Values_Inner_Loop b head ctx bt amt deep)
        (Bind_flat b (Bind_targets bt deep head) ctx amt)
  | [], b, ctx => by
    simp [FlatAgrees, Bind_Values_Inner_Loop, Bind_targets, Bind_flat]
  | v :: rest, b, ctx => by
    obtain ⟨h1, h2, h3, h4⟩ := Bind_cell_agrees bt amt deep v b ctx
    rw [Bind_Values_Inner_Loop, Bind_targets, Bind_flat_append]
    cases he : (Bind_Values_Inner_Loop_cell b v ctx bt amt deep).error with
    | some e =>
      rw [he] at h3
      simp only [← h3]
      exact ⟨h1, h2, rfl, by simp [Bind_targets_append, h4]⟩
    | none =>
      rw [he] at h3
      simp only [← h3]
      obtain ⟨g1, g2, g3, g4⟩ := Bind_loop_agrees bt amt deep rest
        (Bind_Values_Inner_Loop_cell b v ctx bt amt deep).binder
        (Bind_Values_Inner_Loop_cell b v ctx bt amt deep).context
      rw [h1, h2] at g1 g2 g3 g4
      exact ⟨by rw [h1, h2]; exact g1, by rw [h1, h2]; exact g2, by rw [h1, h2]; exact g3,
        by rw [h1, h2]; simp [Bind_targets_append, h4, g4]⟩
theorem Bind_cell_agrees (bt amt : REBU64) (deep : Bool) :
    ∀ (v : Cell) (b : Reb_Binder) (ctx : REBCTX),
      FlatAgrees bt deep (Bind_Values_Inner_Loop_cell b v ctx bt amt deep)
        (Bind_flat b (Bind_targets_cell bt deep v) ctx amt)
  | .array k q past rest bd, b, ctx => by
    by_cases hb : bt (.array k) = true
    · have := Bind_word_agrees bt amt deep b (.array k q past rest bd) ctx hb
      simpa [Bind_Values_Inner_Loop_cell, hb] using this
    · cases deep with
      | true =>
        obtain ⟨g1, g2, g3, g4⟩ := Bind_loop_agrees bt amt true rest b ctx
        simp only [Bind_Values_Inner_Loop_cell, Bind_targets_cell, hb]
        exact ⟨g1, g2, g3, by simpa [Bind_targets, Bind_targets_cell, hb] using g4⟩
      | false =>
        simp [FlatAgrees, Bind_Values_Inner_Loop_cell, Bind_targets_cell, hb, Bind_flat,
          Bind_targets]
  | .word k q s bd i, b, ctx => by
    by_cases hb : bt (.word k) = true
    · have := Bind_word_agrees bt amt deep b (.word k q s bd i) ctx hb
      simpa [Bind_Values_Inner_Loop_cell, hb] using this
    · simp [FlatAgrees, Bind_Values_Inner_Loop_cell, Bind_targets_cell, hb, Bind_flat,
        Bind_targets]
  | .action q bd, b, ctx => by
    by_cases hb : bt .REB_ACTION = true
    · have := Bind_word_agrees bt amt deep b (.action q bd) ctx hb
      simpa [Bind_Values_Inner_Loop_cell, hb] using this
    · simp [FlatAgrees, Bind_Values_Inner_Loop_cell, Bind_targets_cell, hb, Bind_flat,
        Bind_targets]
  | .other y q, b, ctx => by
    by_cases hb : bt (.other y) = true
    · have := Bind_word_agrees bt amt deep b (.other y q) ctx hb
      simpa [Bind_Values_Inner_Loop_cell, hb] using this
    · simp [FlatAgrees, Bind_Values_Inner_Loop_cell, Bind_targets_cell, hb, Bind_flat,
        Bind_targets]
end

/-! ## Positions of bindable keys -/

theorem bindableIndex_range (s : Nat) : ∀ (keys : List REBKEY) (idx : Nat),
    bindableIndex keys s idx = 0 ∨
      (idx ≤ bindableIndex keys s idx ∧ bindableIndex keys s idx < idx + keys.length)
  | [], idx => by simp [bindableIndex]
  | key :: rest, idx => by
    rw [bindableIndex]
    split_ifs with h
    · right; simp
    · rcases bindableIndex_range s rest (idx + 1) with h0 | ⟨h1, h2⟩
      · left; exact h0
      · right; simp only [List.length_cons]; omega

theorem bindableIndex_eq_zero_iff (s : Nat) : ∀ (keys : List REBKEY) (idx : Nat), 0 < idx →
    (bindableIndex keys s idx = 0 ↔ s ∉ bindableCanons keys)
  | [], idx, _ => by simp [bindableIndex, bindableCanons]
  | key :: rest, idx, hidx => by
    have ih := bindableIndex_eq_zero_iff s rest (idx + 1) (Nat.succ_pos idx)
    rw [bindableIndex]
    by_cases hu : Is_Param_Unbindable key = true
    · simp only [hu, Bool.not_true, Bool.false_and, Bool.false_eq_true, if_false, ih]
      simp [bindableCanons, List.filter_cons, hu]
    · simp only [Bool.not_eq_true] at hu
      by_cases hc : VAL_KEY_CANON key = s
      · simp [hu, hc, bindableCanons, List.filter_cons]
        omega
      · have hc2 : ¬ s = VAL_KEY_CANON key := fun h => hc h.symm
        simp [hu, hc, hc2, ih, bindableCanons, List.filter_cons]

theorem bindableIndex_append (s : Nat) : ∀ (keys more : List REBKEY) (idx : Nat), 0 < idx →
    bindableIndex (keys ++ more) s idx =
      if bindableIndex keys s idx ≠ 0 then bindableIndex keys s idx
      else bindableIndex more s (idx + keys.length)
  | [], more, idx, _ => by simp [bindableIndex]
  | key :: rest, more, idx, hp => by
    rw [List.cons_append, bindableIndex, bindableIndex]
    by_cases h : (!Is_Param_Unbindable key && VAL_KEY_CANON key == s) = true
    · simp only [h, if_true]
      simp [Nat.pos_iff_ne_zero.mp hp]
    · simp only [h]
      rw [bindableIndex_append s rest more (idx + 1) (Nat.succ_pos idx)]
      simp [Nat.add_assoc, Nat.add_comm 1]

theorem bindableIndex_get (s : Nat) : ∀ (keys : List REBKEY) (idx : Nat), 0 < idx →
    bindableIndex keys s idx ≠ 0 →
    ∃ key, keys[bindableIndex keys s idx - idx]? = some key ∧
      Is_Param_Unbindable key = false ∧ VAL_KEY_CANON key = s
  | [], idx, _, h => by simp [bindableIndex] at h
  | key :: rest, idx, hp, h => by
    rw [bindableIndex] at h ⊢
    by_cases hk : (!Is_Param_Unbindable key && VAL_KEY_CANON key == s) = true
    · rw [if_pos hk]
      simp only [Nat.sub_self, List.getElem?_cons_zero]
      refine ⟨key, rfl, ?_⟩
      simpa using hk
    · rw [if_neg hk] at h ⊢
      obtain ⟨key2, h1, h2⟩ := bindableIndex_get s rest (idx + 1) (Nat.succ_pos idx) h
      rcases bindableIndex_range s rest (idx + 1) with h0 | ⟨hr, -⟩
      · exact absurd h0 h
      · refine ⟨key2, ?_, h2⟩
        have : bindableIndex rest s (idx + 1) - idx = (bindableIndex rest s (idx + 1) - (idx + 1)) + 1 := by
          omega
        rw [this, List.getElem?_cons_succ]
        exact h1

theorem bindableCanons_cons_nodup (k0 : REBKEY) (rest : List REBKEY)
    (hnd : (bindableCanons (k0 :: rest)).Nodup) : (bindableCanons rest).Nodup := by
  simp only [bindableCanons, List.filter_cons] at hnd ⊢
  split_ifs at hnd
  · exact (List.nodup_cons.mp hnd).2
  · exact hnd

theorem bindableIndex_of_get (s : Nat) : ∀ (keys : List REBKEY) (idx p : Nat) (key : REBKEY),
    (bindableCanons keys).Nodup → keys[p]? = some key →
    Is_Param_Unbindable key = false → VAL_KEY_CANON key = s →
    bindableIndex keys s idx = idx + p
  | [], idx, p, key, _, h, _, _ => by simp at h
  | k0 :: rest, idx, p, key, hnd, h, hu, hc => by
    rw [bindableIndex]
    cases p with
    | zero =>
      simp only [List.getElem?_cons_zero, Option.some.injEq] at h
      subst h
      simp [hu, hc]
    | succ p =>
      simp only [List.getElem?_cons_succ] at h
      have hmem : s ∈ bindableCanons rest := by
        simp only [bindableCanons, List.mem_map, List.mem_filter]
        exact ⟨key, ⟨List.getElem?_mem h, by simp [hu]⟩, hc⟩
      by_cases hk : (!Is_Param_Unbindable k0 && VAL_KEY_CANON k0 == s) = true
      · exfalso
        simp only [Bool.and_eq_true, Bool.not_eq_true', beq_iff_eq] at hk
        simp only [bindableCanons, List.filter_cons, hk.1, Bool.not_false, if_true,
          List.map_cons, List.nodup_cons] at hnd
        exact hnd.1 (hk.2 ▸ hmem)
      · rw [if_neg hk]
        rw [bindableIndex_of_get s rest (idx + 1) p key (bindableCanons_cons_nodup k0 rest hnd)
          h hu hc]
        omega

theorem bindableCanons_append (xs ys : List REBKEY) :
    bindableCanons (xs ++ ys) = bindableCanons xs ++ bindableCanons ys := by
  simp [bindableCanons]

theorem Seeded_snoc (b : Reb_Binder) (pre : List REBKEY) (key : REBKEY) (h : Seeded b pre) :
    (Is_Param_Unbindable key = true → Seeded b (pre ++ [key])) ∧
    (Is_Param_Unbindable key = false → b.index (VAL_KEY_CANON key) = 0 →
      Seeded ⟨Function.update b.index (VAL_KEY_CANON key) ((pre.length + 1 : Nat) : Int)⟩
        (pre ++ [key])) := by
  constructor
  · intro hu s
    rw [h s, bindableIndex_append s pre [key] 1 Nat.one_pos]
    by_cases hz : bindableIndex pre s 1 = 0 <;> simp [bindableIndex, hu, hz]
  · intro hu h0 s
    rw [bindableIndex_append s pre [key] 1 Nat.one_pos]
    by_cases hs : s = VAL_KEY_CANON key
    · subst hs
      have : bindableIndex pre (VAL_KEY_CANON key) 1 = 0 := by
        have := h (VAL_KEY_CANON key)
        rw [h0] at this
        exact_mod_cast this.symm
      simp [this, bindableIndex, hu, Nat.add_comm]
    · have hs2 : ¬ VAL_KEY_CANON key = s := fun h => hs h.symm
      by_cases hz : bindableIndex pre s 1 = 0 <;>
        simp [Function.update_noteq hs, h s, bindableIndex, hs2, hz]

theorem Bind_Values_Core_seed_ok : ∀ (keys pre : List REBKEY) (b : Reb_Binder),
    Seeded b pre → (bindableCanons (pre ++ keys)).Nodup →
    (Bind_Values_Core_seed b keys (pre.length + 1)).2 = none ∧
      Seeded (Bind_Values_Core_seed b keys (pre.length + 1)).1 (pre ++ keys)
  | [], pre, b, hs, _ => by simpa [Bind_Values_Core_seed] using hs
  | key :: rest, pre, b, hs, hnd => by
    have hnd2 : (bindableCanons ((pre ++ [key]) ++ rest)).Nodup := by simpa using hnd
    have hlen : (pre ++ [key]).length + 1 = pre.length + 1 + 1 := by simp
    have happ : (pre ++ [key]) ++ rest = pre ++ key :: rest := by simp
    rw [Bind_Values_Core_seed]
    by_cases hu : Is_Param_Unbindable key = true
    · have ih := Bind_Values_Core_seed_ok rest (pre ++ [key]) b ((Seeded_snoc b pre key hs).1 hu) hnd2
      rw [hlen, happ] at ih
      simpa [hu] using ih
    · simp only [Bool.not_eq_true] at hu
      have h0 : b.index (VAL_KEY_CANON key) = 0 := by
        rw [hs (VAL_KEY_CANON key)]
        have : bindableIndex pre (VAL_KEY_CANON key) 1 = 0 := by
          rw [bindableIndex_eq_zero_iff _ _ _ Nat.one_pos]
          intro hmem
          rw [bindableCanons_append] at hnd
          have hdis := (List.nodup_append.mp hnd).2.2
          have : VAL_KEY_CANON key ∈ bindableCanons (key :: rest) := by
            simp [bindableCanons, List.filter_cons, hu]
          exact hdis hmem this
        exact_mod_cast this
      have ih := Bind_Values_Core_seed_ok rest (pre ++ [key]) _
        ((Seeded_snoc b pre key hs).2 hu h0) hnd2
      rw [hlen, happ] at ih
      simpa [hu, Add_Binder_Index, Try_Add_Binder_Index, h0] using ih

theorem Bind_Values_Core_seed_fail : ∀ (keys pre : List REBKEY) (b : Reb_Binder) (e : Error),
    Seeded b pre → (Bind_Values_Core_seed b keys (pre.length + 1)).2 = some e →
    ∃ p key, pre.length ≤ p ∧ (pre ++ keys)[p]? = some key ∧
      Is_Param_Unbindable key = false ∧ e = .DuplicateKey (VAL_KEY_CANON key) ∧
      bindableIndex ((pre ++ keys).take p) (VAL_KEY_CANON key) 1 ≠ 0 ∧
      Seeded (Bind_Values_Core_seed b keys (pre.length + 1)).1 ((pre ++ keys).take p)
  | [], pre, b, e, _, he => by simp [Bind_Values_Core_seed] at he
  | key :: rest, pre, b, e, hs, he => by
    have hlen : (pre ++ [key]).length + 1 = pre.length + 1 + 1 := by simp
    have happ : (pre ++ [key]) ++ rest = pre ++ key :: rest := by simp
    rw [Bind_Values_Core_seed] at he ⊢
    by_cases hu : Is_Param_Unbindable key = true
    · simp only [hu, Bool.not_true, Bool.false_eq_true, if_false] at he ⊢
      have ih := Bind_Values_Core_seed_fail rest (pre ++ [key]) b e
        ((Seeded_snoc b pre key hs).1 hu) (by rw [hlen]; exact he)
      rw [hlen, happ] at ih
      obtain ⟨p, k2, hp, rest2⟩ := ih
      exact ⟨p, k2, by simp at hp; omega, rest2⟩
    · simp only [Bool.not_eq_true] at hu
      by_cases h0 : b.index (VAL_KEY_CANON key) = 0
      · simp only [hu, Bool.not_false, if_true, Add_Binder_Index, Try_Add_Binder_Index, h0,
          ne_eq, not_true_eq_false, if_false] at he ⊢
        have ih := Bind_Values_Core_seed_fail rest (pre ++ [key]) _ e
          ((Seeded_snoc b pre key hs).2 hu h0) (by rw [hlen]; exact he)
        rw [hlen, happ] at ih
        obtain ⟨p, k2, hp, rest2⟩ := ih
        exact ⟨p, k2, by simp at hp; omega, rest2⟩
      · simp only [hu, Bool.not_false, if_true, Add_Binder_Index, Try_Add_Binder_Index, h0,
          ne_eq, not_false_eq_true, Option.some.injEq] at he ⊢
        refine ⟨pre.length, key, le_refl _,
          by rw [List.getElem?_append_right (le_refl _)]; simp, hu, he.symm, ?_, ?_⟩
        · simp only [List.take_left']
          intro hz
          apply h0
          rw [hs, hz]
          rfl
        · simpa using hs

theorem Bind_Values_Core_reset_spec : ∀ (keys : List REBKEY) (idx : Nat) (b : Reb_Binder),
    0 < idx → (∀ s, b.index s = ((bindableIndex keys s idx : Nat) : Int)) →
    (bindableCanons keys).Nodup →
    (∀ s, (Bind_Values_Core_reset b keys).index s = 0) ∧
      Bind_Values_Core_reset_hits b keys = true
  | [], idx, b, _, hs, _ => by
    simpa [Bind_Values_Core_reset, Bind_Values_Core_reset_hits, bindableIndex] using hs
  | key :: rest, idx, b, hp, hs, hnd => by
    rw [Bind_Values_Core_reset, Bind_Values_Core_reset_hits]
    by_cases hu : Is_Param_Unbindable key = true
    · simp only [hu, Bool.not_true, Bool.false_eq_true, if_false]
      apply Bind_Values_Core_reset_spec rest (idx + 1) b (Nat.succ_pos idx) _
        (bindableCanons_cons_nodup key rest hnd)
      intro s
      rw [hs s, bindableIndex]
      simp [hu]
    · simp only [Bool.not_eq_true] at hu
      have hc : b.index (VAL_KEY_CANON key) = ((idx : Nat) : Int) := by
        rw [hs, bindableIndex]
        simp [hu]
      have hnot : VAL_KEY_CANON key ∉ bindableCanons rest := by
        simp only [bindableCanons, List.filter_cons, hu, Bool.not_false, if_true,
          List.map_cons, List.nodup_cons] at hnd
        exact hnd.1
      have ih := Bind_Values_Core_reset_spec rest (idx + 1)
        (Remove_Binder_Index b (VAL_KEY_CANON key)) (Nat.succ_pos idx) (by
          intro s
          simp only [Remove_Binder_Index, Remove_Binder_Index_Else_0]
          by_cases hsc : s = VAL_KEY_CANON key
          · subst hsc
            simp [(bindableIndex_eq_zero_iff _ rest (idx + 1) (Nat.succ_pos idx)).mpr hnot]
          · have hsc2 : ¬ VAL_KEY_CANON key = s := fun h => hsc h.symm
            rw [Function.update_noteq hsc, hs s, bindableIndex]
            simp [hsc2])
        (bindableCanons_cons_nodup key rest hnd)
      simp only [hu, Bool.not_false, if_true, Get_Binder_Index_Else_0, hc, Bool.and_eq_true]
      refine ⟨ih.1, ?_, ih.2⟩
      simp
      omega

/-! ## One tested word under a seeded Binder -/

theorem Bind_word_step (b : Reb_Binder) (ctx : REBCTX) (amt : REBU64) (k : WordKind) (q : Nat)
    (s : REBSTR) (bd : Option REBNOD) (ix : Int) (hs : Seeded b ctx.keys) :
    ∃ b2 ctx2 w2,
      Bind_Values_Inner_Loop_word b (.word k q s bd ix) ctx amt = ⟨b2, ctx2, [w2], none⟩ ∧
      Seeded b2 ctx2.keys ∧ NOD ctx2 = NOD ctx ∧
      ctx2.keys = ctx.keys ++
        (if bindableIndex ctx.keys s.canon 1 = 0 ∧ amt (.word k) = true
          then [⟨s, false, false⟩] else []) ∧
      ((bindableIndex ctx.keys s.canon 1 ≠ 0 ∨ amt (.word k) = true) →
        w2 = .word k q s (some (NOD ctx)) (bindableIndex ctx2.keys s.canon 1) ∧
        bindableIndex ctx2.keys s.canon 1 ≠ 0) ∧
      (¬ (bindableIndex ctx.keys s.canon 1 ≠ 0 ∨ amt (.word k) = true) →
        w2 = .word k q s bd ix) := by
  have hn := hs s.canon
  by_cases h0 : bindableIndex ctx.keys s.canon 1 = 0
  · by_cases ha : amt (.word k) = true
    · have hb0 : b.index s.canon = 0 := by rw [hn, h0]; rfl
      have hsn := (Seeded_snoc b ctx.keys ⟨s, false, false⟩ hs).2 rfl hb0
      have hidx : bindableIndex (ctx.keys ++ [⟨s, false, false⟩]) s.canon 1
          = ctx.keys.length + 1 := by
        rw [bindableIndex_append _ _ _ _ Nat.one_pos]
        simp [h0, bindableIndex, VAL_KEY_CANON, Is_Param_Unbindable, Nat.add_comm]
      refine ⟨_, (Append_Context ctx (.word k 0 s bd ix)).1,
        .word k q s (some (NOD ctx)) ((ctx.keys.length + 1 : Nat) : Int), ?_, hsn, ?_, ?_, ?_, ?_⟩
      · simp only [Bind_Values_Inner_Loop_word, VAL_WORD_CANON, Get_Binder_Index_Else_0, hn, h0,
          CELL_KIND, ha, Dequotify, Append_Context, Add_Binder_Index, Try_Add_Binder_Index,
          VAL_WORD_INDEX, CTX_LEN, Quotify]
        simp [VAL_KEY_CANON]
      · rfl
      · simp [h0, ha, Append_Context]
      · intro _
        simp only [Append_Context, hidx]
        simp
      · intro hne
        exact absurd (Or.inr ha) hne
    · refine ⟨b, ctx, .word k q s bd ix, ?_, hs, rfl, ?_, ?_, ?_⟩
      · simp only [Bind_Values_Inner_Loop_word, VAL_WORD_CANON, Get_Binder_Index_Else_0, hn, h0,
          CELL_KIND, ha]
        simp
      · simp [ha]
      · intro hor
        rcases hor with h | h
        · exact absurd h0 h
        · exact absurd h ha
      · intro _
        rfl
  · have hpos : (0 : Int) < ((bindableIndex ctx.keys s.canon 1 : Nat) : Int) := by
      exact_mod_cast Nat.pos_of_ne_zero h0
    refine ⟨b, ctx, .word k q s (some (NOD ctx)) ((bindableIndex ctx.keys s.canon 1 : Nat) : Int),
      ?_, hs, rfl, ?_, ?_, ?_⟩
    · simp only [Bind_Values_Inner_Loop_word, VAL_WORD_CANON, Get_Binder_Index_Else_0, hn,
        gt_iff_lt, hpos, if_true, Dequotify, INIT_BINDING, INIT_WORD_INDEX, Quotify,
        Nat.zero_add]
    · simp [h0]
    · intro _
      exact ⟨rfl, h0⟩
    · intro hne
      exact absurd (Or.inl h0) hne

/-! ## The flat walk under a seeded Binder -/

theorem bindableIndex_step (keys : List REBKEY) (s : REBSTR) (a : Bool) (t : Nat) :
    bindableIndex (keys ++ (if bindableIndex keys s.canon 1 = 0 ∧ a = true
      then [⟨s, false, false⟩] else [])) t 1 = 0 ↔
    bindableIndex keys t 1 = 0 ∧ ¬ (t = s.canon ∧ a = true) := by
  rw [bindableIndex_append _ _ _ _ Nat.one_pos]
  by_cases ht : bindableIndex keys t 1 = 0
  · by_cases hts : t = s.canon
    · subst hts
      cases a <;> simp [ht, bindableIndex, VAL_KEY_CANON, Is_Param_Unbindable]
    · have hts2 : ¬ s.canon = t := fun h => hts h.symm
      by_cases hc : bindableIndex keys s.canon 1 = 0 ∧ a = true
      · simp [ht, hts, hts2, hc, bindableIndex, VAL_KEY_CANON, Is_Param_Unbindable]
      · simp [ht, hts, hc, bindableIndex]
  · simp [ht]

theorem bindableIndex_stable (keys more : List REBKEY) (t : Nat)
    (h : bindableIndex keys t 1 ≠ 0) :
    bindableIndex (keys ++ more) t 1 = bindableIndex keys t 1 := by
  rw [bindableIndex_append _ _ _ _ Nat.one_pos]
  simp [h]

theorem word_of_TS_WORD (w : Cell) (h : TS_WORD (CELL_KIND w) = true) :
    ∃ k q s bd ix, w = .word k q s bd ix := by
  cases w <;> simp [TS_WORD, CELL_KIND] at h
  exact ⟨_, _, _, _, _, rfl⟩

theorem Bind_flat_cons (b : Reb_Binder) (w : Cell) (rest : List Cell) (ctx : REBCTX)
    (amt : REBU64) (b2 : Reb_Binder) (ctx2 : REBCTX) (w2 : Cell)
    (h : Bind_Values_Inner_Loop_word b w ctx amt = ⟨b2, ctx2, [w2], none⟩) :
    Bind_flat b (w :: rest) ctx amt =
      ⟨(Bind_flat b2 rest ctx2 amt).binder, (Bind_flat b2 rest ctx2 amt).context,
        w2 :: (Bind_flat b2 rest ctx2 amt).cells, (Bind_flat b2 rest ctx2 amt).error⟩ := by
  rw [Bind_flat, h]
  simp

theorem Bind_flat_context (amt : REBU64) : ∀ (ws : List Cell) (b : Reb_Binder) (ctx : REBCTX),
    Seeded b ctx.keys → (∀ w ∈ ws, TS_WORD (CELL_KIND w) = true) →
    (Bind_flat b ws ctx amt).error = none ∧
    Seeded (Bind_flat b ws ctx amt).binder (Bind_flat b ws ctx amt).context.keys ∧
    NOD (Bind_flat b ws ctx amt).context = NOD ctx ∧
    (Bind_flat b ws ctx amt).cells.length = ws.length ∧
    ∃ more, (Bind_flat b ws ctx amt).context.keys = ctx.keys ++ more ∧
      (∀ key ∈ more, Is_Param_Unbindable key = false) ∧
      (more.map VAL_KEY_CANON).Nodup ∧
      ∀ t, t ∈ more.map VAL_KEY_CANON ↔
        (bindableIndex ctx.keys t 1 = 0 ∧
          ∃ w ∈ ws, VAL_WORD_CANON w = some t ∧ amt (CELL_KIND w) = true)
  | [], b, ctx, hs, _ => by
    refine ⟨rfl, hs, rfl, rfl, [], ?_, ?_, ?_, ?_⟩ <;> simp [Bind_flat]
  | w :: rest, b, ctx, hs, hw => by
    obtain ⟨k, q, s, bd, ix, rfl⟩ := word_of_TS_WORD w (hw w (List.mem_cons_self _ _))
    obtain ⟨b2, ctx2, w2, heq, hs2, hnod, hkeys, -, -⟩ := Bind_word_step b ctx amt k q s bd ix hs
    obtain ⟨e1, e2, e3, e4, more2, m1, m2, m3, m4⟩ := Bind_flat_context amt rest b2 ctx2 hs2
      (fun w hmem => hw w (List.mem_cons_of_mem _ hmem))
    rw [Bind_flat_cons b _ rest ctx amt b2 ctx2 w2 heq]
    refine ⟨e1, e2, e3.trans hnod, by simp [e4], ?_⟩
    have hstep := bindableIndex_step ctx.keys s (amt (.word k))
    rw [← hkeys] at hstep
    by_cases hc : bindableIndex ctx.keys s.canon 1 = 0 ∧ amt (.word k) = true
    · rw [if_pos hc] at hkeys
      refine ⟨⟨s, false, false⟩ :: more2, ?_, ?_, ?_, ?_⟩
      · simp [m1, hkeys]
      · intro key hk
        rcases List.mem_cons.mp hk with h | h
        · subst h; rfl
        · exact m2 key h
      · simp only [List.map_cons, List.nodup_cons]
        refine ⟨?_, m3⟩
        intro hmem
        have := ((m4 _).mp hmem).1
        rw [hstep] at this
        exact this.2 ⟨rfl, hc.2⟩
      · intro t
        simp only [List.map_cons, List.mem_cons, m4 t, hstep t, VAL_KEY_CANON]
        constructor
        · rintro (h | ⟨⟨h1, -⟩, w, hwm, hw1, hw2⟩)
          · subst h
            exact ⟨hc.1, _, Or.inl rfl, rfl, hc.2⟩
          · exact ⟨h1, w, Or.inr hwm, hw1, hw2⟩
        · rintro ⟨h1, w, hwm | hwm, hw1, hw2⟩
          · subst hwm
            simp only [VAL_WORD_CANON, Option.some.injEq] at hw1
            exact Or.inl hw1.symm
          · by_cases hts : t = s.canon
            · exact Or.inl hts
            · exact Or.inr ⟨⟨h1, fun h => hts h.1⟩, w, hwm, hw1, hw2⟩
    · rw [if_neg hc, List.append_nil] at hkeys
      refine ⟨more2, by rw [m1, hkeys], m2, m3, ?_⟩
      intro t
      rw [m4 t, hstep t]
      constructor
      · rintro ⟨⟨h1, -⟩, w, hwm, hw1, hw2⟩
        exact ⟨h1, w, List.mem_cons_of_mem _ hwm, hw1, hw2⟩
      · rintro ⟨h1, w, hwm, hw1, hw2⟩
        rcases List.mem_cons.mp hwm with h | h
        · subst h
          simp only [VAL_WORD_CANON, Option.some.injEq, CELL_KIND] at hw1 hw2
          exact absurd ⟨hw1 ▸ h1, hw2⟩ hc
        · refine ⟨⟨h1, fun hh => hc ⟨hh.1 ▸ h1, hh.2⟩⟩, w, h, hw1, hw2⟩

theorem Bind_flat_cells (amt : REBU64) : ∀ (ws : List Cell) (b : Reb_Binder) (ctx : REBCTX),
    Seeded b ctx.keys → (∀ w ∈ ws, TS_WORD (CELL_KIND w) = true) →
    ∀ (i : Nat) (k : WordKind) (q : Nat) (s : REBSTR) (bd : Option REBNOD) (ix : Int),
      ws[i]? = some (.word k q s bd ix) →
      ((bindableIndex ctx.keys s.canon 1 ≠ 0 ∨
          ∃ w ∈ ws.take (i + 1), VAL_WORD_CANON w = some s.canon ∧ amt (CELL_KIND w) = true) →
        (Bind_flat b ws ctx amt).cells[i]? = some (.word k q s (some (NOD ctx))
          (bindableIndex (Bind_flat b ws ctx amt).context.keys s.canon 1)) ∧
        bindableIndex (Bind_flat b ws ctx amt).context.keys s.canon 1 ≠ 0) ∧
      (¬ (bindableIndex ctx.keys s.canon 1 ≠ 0 ∨
          ∃ w ∈ ws.take (i + 1), VAL_WORD_CANON w = some s.canon ∧ amt (CELL_KIND w) = true) →
        (Bind_flat b ws ctx amt).cells[i]? = some (.word k q s bd ix))
  | [], b, ctx, _, _, i, k, q, s, bd, ix, hi => by simp at hi
  | w :: rest, b, ctx, hs, hw, i, k, q, s, bd, ix, hi => by
    obtain ⟨k0, q0, s0, bd0, ix0, rfl⟩ := word_of_TS_WORD w (hw w (List.mem_cons_self _ _))
    obtain ⟨b2, ctx2, w2, heq, hs2, hnod, hkeys, hyes, hno⟩ :=
      Bind_word_step b ctx amt k0 q0 s0 bd0 ix0 hs
    have hw2 : ∀ w ∈ rest, TS_WORD (CELL_KIND w) = true :=
      fun w hmem => hw w (List.mem_cons_of_mem _ hmem)
    obtain ⟨-, -, -, -, more2, m1, -, -, -⟩ := Bind_flat_context amt rest b2 ctx2 hs2 hw2
    rw [Bind_flat_cons b _ rest ctx amt b2 ctx2 w2 heq]
    have hstep := bindableIndex_step ctx.keys s0 (amt (.word k0))
    rw [← hkeys] at hstep
    cases i with
    | zero =>
      simp only [List.getElem?_cons_zero, Option.some.injEq, Cell.word.injEq] at hi
      obtain ⟨rfl, rfl, rfl, rfl, rfl⟩ := hi
      have hiff : (bindableIndex ctx.keys s0.canon 1 ≠ 0 ∨
          ∃ w ∈ List.take (0 + 1) (Cell.word k0 q0 s0 bd0 ix0 :: rest),
            VAL_WORD_CANON w = some s0.canon ∧ amt (CELL_KIND w) = true) ↔
          (bindableIndex ctx.keys s0.canon 1 ≠ 0 ∨ amt (.word k0) = true) := by
        simp [VAL_WORD_CANON, CELL_KIND]
      rw [hiff]
      simp only [List.getElem?_cons_zero, Option.some.injEq]
      constructor
      · intro hk
        obtain ⟨h1, h2⟩ := hyes hk
        rw [m1, bindableIndex_stable _ _ _ h2]
        exact ⟨h1, h2⟩
      · intro hk
        exact hno hk
    | succ i =>
      simp only [List.getElem?_cons_succ] at hi
      have ih := Bind_flat_cells amt rest b2 ctx2 hs2 hw2 i k q s bd ix hi
      have hiff : (bindableIndex ctx.keys s.canon 1 ≠ 0 ∨
          ∃ w ∈ List.take (i + 1 + 1) (Cell.word k0 q0 s0 bd0 ix0 :: rest),
            VAL_WORD_CANON w = some s.canon ∧ amt (CELL_KIND w) = true) ↔
          (bindableIndex ctx2.keys s.canon 1 ≠ 0 ∨
            ∃ w ∈ rest.take (i + 1), VAL_WORD_CANON w = some s.canon ∧
              amt (CELL_KIND w) = true) := by
        have hs1 := hstep s.canon
        simp only [List.take_succ_cons, List.exists_mem_cons_iff, VAL_WORD_CANON,
          Option.some.injEq, CELL_KIND, ne_eq, hs1]
        constructor
        · rintro (h | ⟨h1, h2⟩ | h)
          · exact Or.inl (fun hh => h hh.1)
          · exact Or.inl (fun hh => hh.2 ⟨h1.symm, h2⟩)
          · exact Or.inr h
        · rintro (h | h)
          · by_cases hz : bindableIndex ctx.keys s.canon 1 = 0
            · by_cases hc : s.canon = s0.canon ∧ amt (.word k0) = true
              · exact Or.inr (Or.inl ⟨hc.1.symm, hc.2⟩)
              · exact absurd ⟨hz, hc⟩ h
            · exact Or.inl hz
          · exact Or.inr (Or.inr h)
      rw [hiff, ← hnod]
      simpa only [List.getElem?_cons_succ] using ih

/-! ## `Bind_Values_Core` on a context with distinct bindable keys -/

mutual
theorem Bind_targets_kind (bt : REBU64) (deep : Bool) :
    ∀ (head : List Cell) (w : Cell), w ∈ Bind_targets bt deep head → bt (CELL_KIND w) = true
  | [], w, h => by simp [Bind_targets] at h
  | v :: rest, w, h => by
    rw [Bind_targets, List.mem_append] at h
    rcases h with h | h
    · exact Bind_targets_cell_kind bt deep v w h
    · exact Bind_targets_kind bt deep rest w h
theorem Bind_targets_cell_kind (bt : REBU64) (deep : Bool) :
    ∀ (v : Cell) (w : Cell), w ∈ Bind_targets_cell bt deep v → bt (CELL_KIND w) = true
  | .array k q past rest bd, w, h => by
    rw [Bind_targets_cell] at h
    split_ifs at h with h1 h2
    · simp only [List.mem_singleton] at h
      subst h
      exact h1
    · exact Bind_targets_kind bt deep rest w h
    · simp at h
  | .word k q s bd i, w, h => by
    rw [Bind_targets_cell] at h
    split_ifs at h with h1
    · simp only [List.mem_singleton] at h
      subst h
      exact h1
    · simp at h
  | .action q bd, w, h => by
    rw [Bind_targets_cell] at h
    split_ifs at h with h1
    · simp only [List.mem_singleton] at h
      subst h
      exact h1
    · simp at h
  | .other y q, w, h => by
    rw [Bind_targets_cell] at h
    split_ifs at h with h1
    · simp only [List.mem_singleton] at h
      subst h
      exact h1
    · simp at h
end

theorem Seeded_nil (binder : Reb_Binder)
    (hempty : ∀ canon, Get_Binder_Index_Else_0 binder canon = 0) : Seeded binder [] := by
  intro s
  simpa [bindableIndex] using hempty s

/-- Under the preconditions of a Bind (empty Binder on entry, distinct
bindable keys, only word kinds in `bind_types`) `Bind_Values_Core` is the
flat walk over the targets, started from the seeded Binder, followed by the
reset loop. -/
theorem Bind_Values_Core_flat (binder : Reb_Binder) (head : List Cell) (context : REBCTX)
    (bt amt : REBU64) (deep : Bool)
    (hempty : ∀ canon, Get_Binder_Index_Else_0 binder canon = 0)
    (hdistinct : (bindableCanons context.keys).Nodup)
    (hkinds : ∀ kind, bt kind = true → TS_WORD kind = true) :
    ∃ seeded, seeded = (Bind_Values_Core_seed binder context.keys 1).1 ∧
      Seeded seeded context.keys ∧
      (∀ w ∈ Bind_targets bt deep head, TS_WORD (CELL_KIND w) = true) ∧
      (Bind_Values_Core binder head context bt amt deep).error = none ∧
      (Bind_Values_Core binder head context bt amt deep).context =
        (Bind_flat seeded (Bind_targets bt deep head) context amt).context ∧
      (Bind_Values_Core binder head context bt amt deep).binder =
        Bind_Values_Core_reset (Bind_flat seeded (Bind_targets bt deep head) context amt).binder
          (Bind_flat seeded (Bind_targets bt deep head) context amt).context.keys ∧
      Bind_targets bt deep (Bind_Values_Core binder head context bt amt deep).cells =
        (Bind_flat seeded (Bind_targets bt deep head) context amt).cells := by
  obtain ⟨hs1, hs2⟩ := Bind_Values_Core_seed_ok context.keys [] binder (Seeded_nil binder hempty)
    (by simpa using hdistinct)
  simp only [List.length_nil, Nat.zero_add, List.nil_append] at hs1 hs2
  have hw : ∀ w ∈ Bind_targets bt deep head, TS_WORD (CELL_KIND w) = true :=
    fun w hmem => hkinds _ (Bind_targets_kind bt deep head w hmem)
  obtain ⟨a1, a2, a3, a4⟩ := Bind_loop_agrees bt amt deep head
    (Bind_Values_Core_seed binder context.keys 1).1 context
  obtain ⟨e1, -⟩ := Bind_flat_context amt (Bind_targets bt deep head) _ context hs2 hw
  rw [← a3] at e1
  refine ⟨(Bind_Values_Core_seed binder context.keys 1).1, rfl, hs2, hw, ?_, ?_, ?_, ?_⟩
  all_goals
    rw [Bind_Values_Core]
    rcases hseed : Bind_Values_Core_seed binder context.keys 1 with ⟨sb, se⟩
    rw [hseed] at hs1 a1 a2 a3 a4 e1
    simp only at hs1 a1 a2 a3 a4 e1
    subst hs1
    simp only [e1]
  · exact a2
  · rw [a1, a2]
  · exact a4

theorem bindableCanons_all_bindable (more : List REBKEY)
    (h : ∀ key ∈ more, Is_Param_Unbindable key = false) :
    bindableCanons more = more.map VAL_KEY_CANON := by
  unfold bindableCanons
  rw [List.filter_eq_self.mpr]
  intro key hk
  simp [h key hk]

theorem bindableCanons_grow_nodup (keys more : List REBKEY)
    (hnd : (bindableCanons keys).Nodup)
    (hb : ∀ key ∈ more, Is_Param_Unbindable key = false)
    (hmore : (more.map VAL_KEY_CANON).Nodup)
    (hnew : ∀ t, t ∈ more.map VAL_KEY_CANON → bindableIndex keys t 1 = 0) :
    (bindableCanons (keys ++ more)).Nodup := by
  rw [bindableCanons_append, bindableCanons_all_bindable more hb]
  refine List.nodup_append.mpr ⟨hnd, hmore, ?_⟩
  intro t h1 h2
  exact (bindableIndex_eq_zero_iff t keys 1 Nat.one_pos).mp (hnew t h2) h1

theorem mem_take_of_getElem? {α : Type} (l : List α) (j i : Nat) (a : α)
    (h : l[j]? = some a) (hji : j ≤ i) : a ∈ l.take (i + 1) := by
  have hj : (l.take (i + 1))[j]? = some a := by
    rw [List.getElem?_take]
    simp [Nat.lt_succ_of_le hji, h]
  exact List.getElem?_mem hj

theorem Bind_Values_Core_seed_none : ∀ (keys pre : List REBKEY) (b : Reb_Binder),
    Seeded b pre → (Bind_Values_Core_seed b keys (pre.length + 1)).2 = none →
    Seeded (Bind_Values_Core_seed b keys (pre.length + 1)).1 (pre ++ keys)
  | [], pre, b, hs, _ => by simpa [Bind_Values_Core_seed] using hs
  | key :: rest, pre, b, hs, he => by
    have hlen : (pre ++ [key]).length + 1 = pre.length + 1 + 1 := by simp
    have happ : (pre ++ [key]) ++ rest = pre ++ key :: rest := by simp
    rw [Bind_Values_Core_seed] at he ⊢
    by_cases hu : Is_Param_Unbindable key = true
    · simp only [hu, Bool.not_true, Bool.false_eq_true, if_false] at he ⊢
      have ih := Bind_Values_Core_seed_none rest (pre ++ [key]) b
        ((Seeded_snoc b pre key hs).1 hu) (by rw [hlen]; exact he)
      rw [hlen, happ] at ih
      exact ih
    · simp only [Bool.not_eq_true] at hu
      by_cases h0 : b.index (VAL_KEY_CANON key) = 0
      · simp only [hu, Bool.not_false, if_true, Add_Binder_Index, Try_Add_Binder_Index, h0,
          ne_eq, not_true_eq_false, if_false] at he ⊢
        have ih := Bind_Values_Core_seed_none rest (pre ++ [key]) _
          ((Seeded_snoc b pre key hs).2 hu h0) (by rw [hlen]; exact he)
        rw [hlen, happ] at ih
        exact ih
      · simp [hu, Add_Binder_Index, Try_Add_Binder_Index, h0] at he

/-- When the seeding loop succeeds from an empty Binder and `bind_types` holds
only word kinds, the walk that follows raises no error. -/
theorem Bind_Values_Inner_Loop_after_seed (binder : Reb_Binder) (head : List Cell)
    (context : REBCTX) (bt amt : REBU64) (deep : Bool)
    (hempty : ∀ canon, Get_Binder_Index_Else_0 binder canon = 0)
    (hkinds : ∀ kind, bt kind = true → TS_WORD kind = true)
    (hseed : (Bind_Values_Core_seed binder context.keys 1).2 = none) :
    (Bind_Values_Inner_Loop (Bind_Values_Core_seed binder context.keys 1).1 head context
      bt amt deep).error = none := by
  have hs := Bind_Values_Core_seed_none context.keys [] binder (Seeded_nil binder hempty) hseed
  simp only [List.length_nil, Nat.zero_add, List.nil_append] at hs
  have hw : ∀ w ∈ Bind_targets bt deep head, TS_WORD (CELL_KIND w) = true :=
    fun w hmem => hkinds _ (Bind_targets_kind bt deep head w hmem)
  obtain ⟨-, -, a3, -⟩ := Bind_loop_agrees bt amt deep head
    (Bind_Values_Core_seed binder context.keys 1).1 context
  rw [a3]
  exact (Bind_flat_context amt (Bind_targets bt deep head) _ context hs hw).1

/-- The cells bound to a slot added midstream: under the preconditions of a
Bind, a tested cell whose canon was not a bindable key and that comes at or
after a tested cell of the same canon whose kind is in
`add_midstream_types` ends bound at the position of the one bindable key of
its canon, past the old length. -/
theorem Bind_Values_Core_new_slot (binder : Reb_Binder) (head : List Cell)
    (context : REBCTX) (bt amt : REBU64) (deep : Bool)
    (hempty : ∀ canon, Get_Binder_Index_Else_0 binder canon = 0)
    (hdistinct : (bindableCanons context.keys).Nodup)
    (hkinds : ∀ kind, bt kind = true → TS_WORD kind = true)
    (i j : Nat) (k kj : WordKind) (q qj : Nat) (s sj : REBSTR) (old oldj : Option REBNOD)
    (ix ixj : Int)
    (hj : (Bind_targets bt deep head)[j]? = some (.word kj qj sj oldj ixj))
    (hamt : amt (.word kj) = true) (hsj : sj.canon = s.canon) (hji : j ≤ i)
    (hi : (Bind_targets bt deep head)[i]? = some (.word k q s old ix))
    (hnew : s.canon ∉ bindableCanons context.keys) :
    ∃ (pos : Nat) (key : REBKEY), CTX_LEN context < pos ∧
      pos = bindableIndex (Bind_Values_Core binder head context bt amt deep).context.keys
        s.canon 1 ∧
      (Bind_Values_Core binder head context bt amt deep).context.keys[pos - 1]? = some key ∧
      Is_Param_Unbindable key = false ∧ VAL_KEY_CANON key = s.canon ∧
      (∀ (pos2 : Nat) (key2 : REBKEY), 1 ≤ pos2 →
        (Bind_Values_Core binder head context bt amt deep).context.keys[pos2 - 1]? = some key2 →
        Is_Param_Unbindable key2 = false → VAL_KEY_CANON key2 = s.canon → pos2 = pos) ∧
      (Bind_targets bt deep (Bind_Values_Core binder head context bt amt deep).cells)[i]?
        = some (.word k q s (some (NOD context)) pos) := by
  obtain ⟨seeded, -, hs, hw, he, hc, -, ht⟩ := Bind_Values_Core_flat binder head context bt
    amt deep hempty hdistinct hkinds
  obtain ⟨-, -, -, -, more, m1, m2, m3, m4⟩ := Bind_flat_context amt
    (Bind_targets bt deep head) seeded context hs hw
  have hz : ∀ t, bindableIndex context.keys t 1 = 0 ↔ t ∉ bindableCanons context.keys :=
    fun t => bindableIndex_eq_zero_iff t context.keys 1 Nat.one_pos
  obtain ⟨hyes, -⟩ := Bind_flat_cells amt _ seeded context hs hw i k q s old ix hi
  obtain ⟨h1, h2⟩ := hyes (Or.inr ⟨_, mem_take_of_getElem? _ j i _ hj hji, by
    simp [VAL_WORD_CANON, hsj], by simpa [CELL_KIND] using hamt⟩)
  have hnd := bindableCanons_grow_nodup context.keys more hdistinct m2 m3
    (fun t ht => ((m4 t).mp ht).1)
  rw [← m1] at hnd
  obtain ⟨key, g1, g2, g3⟩ := bindableIndex_get s.canon _ 1 Nat.one_pos h2
  refine ⟨_, key, ?_, by rw [hc], by rw [hc]; exact g1, g2, g3, ?_, by rw [ht]; exact h1⟩
  · rw [m1, bindableIndex_append _ _ _ _ Nat.one_pos, (hz _).mpr hnew] at h2 ⊢
    simp only [ne_eq, not_true_eq_false, if_false] at h2 ⊢
    rcases bindableIndex_range s.canon more (1 + context.keys.length) with h0 | ⟨h3, -⟩
    · exact absurd h0 h2
    · unfold CTX_LEN
      omega
  · intro pos2 key2 hp hk2 hu2 hc2
    rw [hc] at hk2
    have := bindableIndex_of_get s.canon _ 1 (pos2 - 1) key2 hnd hk2 hu2 hc2
    omega

/-! ## Unbind and Rebind, cell by cell -/

theorem cellUnder_none (path : List Nat) : cellUnder none path = none := by
  cases path <;> rfl

theorem Unbind_Values_Core_eq_map (context : Option REBCTX) (deep : Bool) (head : List Cell) :
    Unbind_Values_Core head context deep
      = head.map (fun v => Unbind_Values_Core_cell v context deep) := by
  induction head with
  | nil => simp [Unbind_Values_Core]
  | cons v rest ih => simp [Unbind_Values_Core, ih]

theorem Unbind_under (context : Option REBCTX) :
    ∀ (path : List Nat) (deep : Bool) (o : Option Cell),
    cellUnder (o.map (fun v => Unbind_Values_Core_cell v context deep)) path
      = (cellUnder o path).map (fun v =>
          if reachedUnder deep o path then Unbind_Values_Core_cell v context deep else v)
  | [], deep, o => by simp [cellUnder, reachedUnder]
  | j :: path, deep, none => by simp [cellUnder]
  | j :: path, deep, some c => by
    cases c with
    | word k q s b i =>
      simp only [Option.map_some', Unbind_Values_Core_cell]
      split_ifs <;> simp [Unbind_Any_Word, INIT_BINDING, cellUnder, VAL_ARRAY, cellUnder_none]
    | action q b => simp [Unbind_Values_Core_cell, cellUnder, VAL_ARRAY, cellUnder_none]
    | other y q => simp [Unbind_Values_Core_cell, cellUnder, VAL_ARRAY, cellUnder_none]
    | array k q past rest b =>
      simp only [Option.map_some', Unbind_Values_Core_cell]
      by_cases hrec : (ANY_ARRAY_OR_PATH (.array k q past rest b) && deep) = true
      · simp only [hrec, if_true, cellUnder, VAL_ARRAY, reachedUnder]
        simp only [ANY_ARRAY_OR_PATH, Bool.and_eq_true, beq_iff_eq] at hrec
        obtain ⟨hq, hd⟩ := hrec
        subst hq hd
        by_cases hj : j < past.length
        · rw [List.getElem?_append_left hj, List.getElem?_append_left hj]
          have : ¬ past.length ≤ j := by omega
          simp [this]
        · have hle : past.length ≤ j := by omega
          rw [List.getElem?_append_right hle, List.getElem?_append_right hle,
            Unbind_Values_Core_eq_map, List.getElem?_map,
            Unbind_under context path true (rest[j - past.length]?)]
          simp [hle]
      · simp only [hrec, Bool.false_eq_true, if_false]
        have : reachedUnder deep (some (Cell.array k q past rest b)) (j :: path) = false := by
          simp only [ANY_ARRAY_OR_PATH, Bool.and_eq_true, beq_iff_eq, not_and,
            Bool.not_eq_true] at hrec
          simp only [reachedUnder]
          cases deep with
          | false => simp
          | true =>
            have : ¬ q = 0 := fun h => Bool.noConfusion (hrec h)
            simp [this]
        simp [this]

theorem Unbind_at (context : Option REBCTX) (deep : Bool) (head : List Cell) (i : Nat)
    (path : List Nat) :
    cellAt (Unbind_Values_Core head context deep) i path
      = (cellAt head i path).map (fun v =>
          if Walk_reaches deep head i path then Unbind_Values_Core_cell v context deep else v) := by
  unfold cellAt Walk_reaches
  rw [Unbind_Values_Core_eq_map, List.getElem?_map]
  exact Unbind_under context path deep _

theorem Rebind_Values_Deep_eq_map (ovr : REBNOD → REBNOD → Bool) (src dst : REBCTX)
    (opt_binder : Option Reb_Binder) (head : List Cell) :
    Rebind_Values_Deep ovr src dst head opt_binder
      = head.map (fun v => Rebind_Values_Deep_cell ovr src dst v opt_binder) := by
  induction head with
  | nil => simp [Rebind_Values_Deep]
  | cons v rest ih => simp [Rebind_Values_Deep, ih]

theorem cellUnder_leaf (c : Cell) (j : Nat) (path : List Nat) (h : VAL_ARRAY c = []) :
    cellUnder (some c) (j :: path) = none := by
  simp [cellUnder, h, cellUnder_none]

theorem Rebind_cell_leaf (ovr : REBNOD → REBNOD → Bool) (src dst : REBCTX)
    (opt_binder : Option Reb_Binder) (c : Cell) (h : ANY_ARRAY_OR_PATH c = false)
    (hc : VAL_ARRAY c = []) :
    VAL_ARRAY (Rebind_Values_Deep_cell ovr src dst c opt_binder) = [] := by
  cases c with
  | word k q s b i =>
    simp only [Rebind_Values_Deep_cell]
    split_ifs
    · cases opt_binder <;> simp [INIT_BINDING, INIT_WORD_INDEX, VAL_ARRAY]
    · rfl
  | action q b =>
    simp only [Rebind_Values_Deep_cell]
    split_ifs
    · cases b with
      | none => simp [VAL_BINDING, VAL_ARRAY]
      | some nd =>
        simp only [VAL_BINDING]
        split_ifs <;> simp [INIT_BINDING, VAL_ARRAY]
    · rfl
  | other y q => simp [Rebind_Values_Deep_cell, VAL_ARRAY]
  | array k q past rest b =>
    simp only [Rebind_Values_Deep_cell, h, Bool.false_eq_true, if_false]
    exact hc

theorem Rebind_under (ovr : REBNOD → REBNOD → Bool) (src dst : REBCTX)
    (opt_binder : Option Reb_Binder) :
    ∀ (path : List Nat) (o : Option Cell),
    cellUnder (o.map (fun v => Rebind_Values_Deep_cell ovr src dst v opt_binder)) path
      = (cellUnder o path).map (fun v =>
          if reachedUnder true o path then Rebind_Values_Deep_cell ovr src dst v opt_binder
          else v)
  | [], o => by simp [cellUnder, reachedUnder]
  | j :: path, none => by simp [cellUnder]
  | j :: path, some c => by
    cases c with
    | word k q s b i =>
      simp only [Option.map_some']
      rw [cellUnder_leaf _ j path (Rebind_cell_leaf ovr src dst opt_binder (.word k q s b i) rfl rfl),
        cellUnder_leaf (.word k q s b i) j path rfl]
      rfl
    | action q b =>
      simp only [Option.map_some']
      rw [cellUnder_leaf _ j path (Rebind_cell_leaf ovr src dst opt_binder (.action q b) rfl rfl),
        cellUnder_leaf (.action q b) j path rfl]
      rfl
    | other y q =>
      simp only [Option.map_some']
      rw [cellUnder_leaf _ j path (Rebind_cell_leaf ovr src dst opt_binder (.other y q) rfl rfl),
        cellUnder_leaf (.other y q) j path rfl]
      rfl
    | array k q past rest b =>
      simp only [Option.map_some', Rebind_Values_Deep_cell]
      by_cases hrec : ANY_ARRAY_OR_PATH (.array k q past rest b) = true
      · simp only [hrec, if_true, cellUnder, VAL_ARRAY, reachedUnder]
        simp only [ANY_ARRAY_OR_PATH, beq_iff_eq] at hrec
        subst hrec
        by_cases hj : j < past.length
        · rw [List.getElem?_append_left hj, List.getElem?_append_left hj]
          have : ¬ past.length ≤ j := by omega
          simp [this]
        · have hle : past.length ≤ j := by omega
          rw [List.getElem?_append_right hle, List.getElem?_append_right hle,
            Rebind_Values_Deep_eq_map, List.getElem?_map,
            Rebind_under ovr src dst opt_binder path (rest[j - past.length]?)]
          simp [hle]
      · simp only [hrec, Bool.false_eq_true, if_false]
        have : reachedUnder true (some (Cell.array k q past rest b)) (j :: path) = false := by
          simp only [ANY_ARRAY_OR_PATH, beq_iff_eq] at hrec
          simp [reachedUnder, hrec]
        simp [this]

theorem Rebind_at (ovr : REBNOD → REBNOD → Bool) (src dst : REBCTX)
    (opt_binder : Option Reb_Binder) (head : List Cell) (i : Nat) (path : List Nat) :
    cellAt (Rebind_Values_Deep ovr src dst head opt_binder) i path
      = (cellAt head i path).map (fun v =>
          if Walk_reaches true head i path then Rebind_Values_Deep_cell ovr src dst v opt_binder
          else v) := by
  unfold cellAt Walk_reaches
  rw [Rebind_Values_Deep_eq_map, List.getElem?_map]
  exact Rebind_under ovr src dst opt_binder path _

theorem cellUnder_snoc : ∀ (path : List Nat) (o : Option Cell) (j : Nat),
    cellUnder o (path ++ [j]) = cellUnder (cellUnder o path) [j]
  | [], o, j => by simp [cellUnder]
  | p :: path, none, j => by simp [cellUnder]
  | p :: path, some c, j => by
    simp only [List.cons_append, cellUnder]
    exact cellUnder_snoc path _ j

theorem reachedUnder_snoc (deep : Bool) : ∀ (path : List Nat) (o : Option Cell) (j : Nat),
    reachedUnder deep o (path ++ [j])
      = (reachedUnder deep o path && reachedUnder deep (cellUnder o path) [j])
  | [], o, j => by simp [reachedUnder, cellUnder]
  | p :: path, none, j => by simp [reachedUnder]
  | p :: path, some (.word k q s b i), j => by simp [reachedUnder]
  | p :: path, some (.action q b), j => by simp [reachedUnder]
  | p :: path, some (.other y q), j => by simp [reachedUnder]
  | p :: path, some (.array k q past rest b), j => by
    simp only [List.cons_append, reachedUnder, cellUnder, VAL_ARRAY]
    by_cases hp : past.length ≤ p
    · have ih := reachedUnder_snoc deep path (rest[p - past.length]?) j
      simp only [List.append_eq] at ih ⊢
      rw [ih, List.getElem?_append_right hp]
      simp [hp, Bool.and_assoc]
    · simp [hp]

mutual
/-- A second `Unbind_Values_Core` with the same context changes nothing. -/
theorem Unbind_Values_Core_idempotent (context : Option REBCTX) :
    ∀ (head : List Cell) (deep : Bool),
      Unbind_Values_Core (Unbind_Values_Core head context deep) context deep
        = Unbind_Values_Core head context deep
  | [], deep => by simp [Unbind_Values_Core]
  | v :: rest, deep => by
    simp only [Unbind_Values_Core]
    rw [Unbind_Values_Core_cell_idempotent context v deep,
      Unbind_Values_Core_idempotent context rest deep]
/-- The same for one cell. -/
theorem Unbind_Values_Core_cell_idempotent (context : Option REBCTX) :
    ∀ (v : Cell) (deep : Bool),
      Unbind_Values_Core_cell (Unbind_Values_Core_cell v context deep) context deep
        = Unbind_Values_Core_cell v context deep
  | .word k q s b i, deep => by
    by_cases h : (ANY_WORD (.word k q s b i)
        && (context.isNone || VAL_BINDING (.word k q s b i) == context.map NOD)) = true
    · simp only [Unbind_Values_Core_cell, h, if_true, Unbind_Any_Word, INIT_BINDING]
      split_ifs <;> rfl
    · simp [Unbind_Values_Core_cell, h]
  | .array k q past rest b, deep => by
    by_cases h : (ANY_ARRAY_OR_PATH (.array k q past rest b) && deep) = true
    · have h2 : (ANY_ARRAY_OR_PATH
          (.array k q past (Unbind_Values_Core rest context true) b) && deep) = true := by
        simpa [ANY_ARRAY_OR_PATH] using h
      simp only [Unbind_Values_Core_cell, h, h2, if_true]
      rw [Unbind_Values_Core_idempotent context rest true]
    · simp [Unbind_Values_Core_cell, h]
  | .action q b, deep => by simp [Unbind_Values_Core_cell]
  | .other y q, deep => by simp [Unbind_Values_Core_cell]
end

/-! ## A Bind walk changes bindings and indices only -/

theorem skeleton_append (xs ys : List Cell) :
    skeleton (xs ++ ys) = skeleton xs ++ skeleton ys := by
  induction xs with
  | nil => simp [skeleton]
  | cons x xs ih => simp [skeleton, ih]

theorem Bind_word_skeleton (b : Reb_Binder) (w : Cell) (ctx : REBCTX) (amt : REBU64)
    (h : (Bind_Values_Inner_Loop_word b w ctx amt).error = none) :
    skeleton (Bind_Values_Inner_Loop_word b w ctx amt).cells = skeleton [w] := by
  unfold Bind_Values_Inner_Loop_word at h ⊢
  cases w with
  | word k q s bd i =>
    simp only [VAL_WORD_CANON] at h ⊢
    split_ifs at h ⊢
    · simp [Dequotify, INIT_BINDING, INIT_WORD_INDEX, Quotify, skeleton, skeleton_cell]
    · simp only [Append_Context, Dequotify] at h ⊢
      split at h
      · simp at h
      · rename_i b2 heq
        simp only [heq]
        simp [Quotify, skeleton, skeleton_cell]
    · rfl
  | array k q past rest bd => simp [VAL_WORD_CANON] at h
  | action q bd => simp [VAL_WORD_CANON] at h
  | other y q => simp [VAL_WORD_CANON] at h

mutual
theorem Bind_Values_Inner_Loop_skeleton (bt amt : REBU64) (deep : Bool) :
    ∀ (head : List Cell) (b : Reb_Binder) (ctx : REBCTX),
      (Bind_Values_Inner_Loop b head ctx bt amt deep).error = none →
      skeleton (Bind_Values_Inner_Loop b head ctx bt amt deep).cells = skeleton head
  | [], b, ctx, _ => by simp [Bind_Values_Inner_Loop]
  | v :: rest, b, ctx, h => by
    rw [Bind_Values_Inner_Loop] at h ⊢
    cases he : (Bind_Values_Inner_Loop_cell b v ctx bt amt deep).error with
    | some e => simp [he] at h
    | none =>
      simp only [he] at h ⊢
      rw [skeleton_append, Bind_Values_Inner_Loop_cell_skeleton bt amt deep v b ctx he,
        Bind_Values_Inner_Loop_skeleton bt amt deep rest _ _ h]
      simp [skeleton]
theorem Bind_Values_Inner_Loop_cell_skeleton (bt amt : REBU64) (deep : Bool) :
    ∀ (v : Cell) (b : Reb_Binder) (ctx : REBCTX),
      (Bind_Values_Inner_Loop_cell b v ctx bt amt deep).error = none →
      skeleton (Bind_Values_Inner_Loop_cell b v ctx bt amt deep).cells = skeleton [v]
  | .array k q past rest bd, b, ctx, h => by
    rw [Bind_Values_Inner_Loop_cell] at h ⊢
    split_ifs at h ⊢ with h1 h2
    · exact Bind_word_skeleton b _ ctx amt h
    · simp only [skeleton, skeleton_cell]
      rw [Bind_Values_Inner_Loop_skeleton bt amt deep rest b ctx h]
    · rfl
  | .word k q s bd i, b, ctx, h => by
    rw [Bind_Values_Inner_Loop_cell] at h ⊢
    split_ifs at h ⊢
    · exact Bind_word_skeleton b _ ctx amt h
    · rfl
  | .action q bd, b, ctx, h => by
    rw [Bind_Values_Inner_Loop_cell] at h ⊢
    split_ifs at h ⊢
    · exact Bind_word_skeleton b _ ctx amt h
    · rfl
  | .other y q, b, ctx, h => by
    rw [Bind_Values_Inner_Loop_cell] at h ⊢
    split_ifs at h ⊢
    · exact Bind_word_skeleton b _ ctx amt h
    · rfl
end

/-- A `Bind_Values_Core` that returns without error hands back the array it
was given with only bindings and indices of words changed: every cell
keeps its place, kind, quote level and spelling. -/
theorem Bind_Values_Core_skeleton (binder : Reb_Binder) (head : List Cell) (context : REBCTX)
    (bt amt : REBU64) (deep : Bool)
    (h : (Bind_Values_Core binder head context bt amt deep).error = none) :
    skeleton (Bind_Values_Core binder head context bt amt deep).cells = skeleton head := by
  rw [Bind_Values_Core] at h ⊢
  rcases hs : Bind_Values_Core_seed binder context.keys 1 with ⟨sb, se⟩
  rw [hs] at h
  cases se with
  | some e => simp at h
  | none =>
    simp only at h ⊢
    cases he : (Bind_Values_Inner_Loop sb head context bt amt deep).error with
    | some e => simp [he] at h
    | none =>
      simp only [he]
      exact Bind_Values_Inner_Loop_skeleton bt amt deep head sb context he

/-! ## Reaching the cells of a sub-array -/

/-- The cells of a sub-array are reached exactly when the sub-array cell is
reached, is an unquoted array or path, `deep` is set, and they lie at or
after its index. -/
theorem Walk_reaches_snoc (deep : Bool) (head : List Cell) (i : Nat) (path : List Nat)
    (v : Cell) (hv : cellAt head i path = some v) (j : Nat) :
    Walk_reaches deep head i (path ++ [j]) = true ↔
      (Walk_reaches deep head i path = true ∧ deep = true ∧ ANY_ARRAY_OR_PATH v = true ∧
        ∃ k q past rest b, v = .array k q past rest b ∧ past.length ≤ j) := by
  unfold Walk_reaches
  unfold cellAt at hv
  rw [reachedUnder_snoc, hv]
  cases v with
  | word k q s b ix => simp [reachedUnder, ANY_ARRAY_OR_PATH]
  | action q b => simp [reachedUnder, ANY_ARRAY_OR_PATH]
  | other y q => simp [reachedUnder, ANY_ARRAY_OR_PATH]
  | array k q past rest b =>
    simp only [reachedUnder, ANY_ARRAY_OR_PATH, Bool.and_eq_true, beq_iff_eq,
      decide_eq_true_eq, Cell.array.injEq]
    constructor
    · rintro ⟨h1, ⟨⟨h2, h3⟩, h4⟩, -⟩
      exact ⟨h1, h2, h3, k, q, past, rest, b, ⟨rfl, rfl, rfl, rfl, rfl⟩, h4⟩
    · rintro ⟨h1, h2, h3, k2, q2, past2, rest2, b2, ⟨-, -, rfl, -, -⟩, h4⟩
      exact ⟨h1, ⟨⟨h2, h3⟩, h4⟩, trivial⟩

/-! ## The rerelativized copy -/

theorem Copy_Rerelativized_eq_map (before after : Nat) (original : List Cell) :
    Copy_Rerelativized_Array_Deep_Managed original before after
      = original.map (fun v => Copy_Rerelativized_Array_Deep_Managed_cell v before after) := by
  induction original with
  | nil => simp [Copy_Rerelativized_Array_Deep_Managed]
  | cons v rest ih => simp [Copy_Rerelativized_Array_Deep_Managed, ih]

theorem Copy_Rerelativized_cell_binding (before after : Nat) (hne : after ≠ before) (v : Cell) :
    VAL_BINDING (Copy_Rerelativized_Array_Deep_Managed_cell v before after)
      ≠ some (.paramlist before) := by
  cases v with
  | word k q s b i =>
    simp only [Copy_Rerelativized_Array_Deep_Managed_cell]
    split_ifs with h
    · intro hb
      simp [IS_RELATIVE, hb] at h
    · simp [INIT_BINDING, VAL_BINDING, hne]
  | action q b =>
    simp only [Copy_Rerelativized_Array_Deep_Managed_cell]
    split_ifs with h
    · intro hb
      simp [IS_RELATIVE, hb] at h
    · simp [INIT_BINDING, VAL_BINDING, hne]
  | other y q => simp [Copy_Rerelativized_Array_Deep_Managed_cell, VAL_BINDING]
  | array k q past rest b =>
    simp only [Copy_Rerelativized_Array_Deep_Managed_cell]
    split_ifs with h h2
    · intro hb
      simp [IS_RELATIVE, hb] at h
    · simp [VAL_BINDING, hne]
    · simp [INIT_BINDING, VAL_BINDING, hne]

theorem Copy_Rerelativized_under (before after : Nat) (hne : after ≠ before) :
    ∀ (path : List Nat) (o : Option Cell) (w : Cell),
      cellUnder (o.map (fun v => Copy_Rerelativized_Array_Deep_Managed_cell v before after)) path
        = some w →
      relativeUnder
        (o.map (fun v => Copy_Rerelativized_Array_Deep_Managed_cell v before after)) path = true →
      VAL_BINDING w ≠ some (.paramlist before)
  | [], o, w, hw, _ => by
    cases o with
    | none => simp [cellUnder] at hw
    | some v =>
      simp only [Option.map_some', cellUnder, Option.some.injEq] at hw
      subst hw
      exact Copy_Rerelativized_cell_binding before after hne v
  | j :: path, none, w, hw, _ => by simp [cellUnder] at hw
  | j :: path, some v, w, hw, hr => by
    cases v with
    | word k q s b i =>
      simp only [Option.map_some', Copy_Rerelativized_Array_Deep_Managed_cell] at hr
      split_ifs at hr <;> simp [INIT_BINDING, relativeUnder] at hr
    | action q b =>
      simp only [Option.map_some', Copy_Rerelativized_Array_Deep_Managed_cell] at hr
      split_ifs at hr <;> simp [INIT_BINDING, relativeUnder] at hr
    | other y q =>
      simp [Copy_Rerelativized_Array_Deep_Managed_cell, relativeUnder] at hr
    | array k q past rest b =>
      simp only [Option.map_some', Copy_Rerelativized_Array_Deep_Managed_cell] at hr hw
      split_ifs at hr hw with h h2
      · simp only [relativeUnder, Bool.and_eq_true] at hr
        simp only [Bool.not_eq_true', ] at h
        rw [h] at hr
        simp at hr
      · simp only [relativeUnder, Bool.and_eq_true] at hr
        simp only [cellUnder, VAL_ARRAY] at hw
        rw [Copy_Rerelativized_eq_map, Copy_Rerelativized_eq_map, ← List.map_append,
          List.getElem?_map] at hw hr
        exact Copy_Rerelativized_under before after hne path _ w hw hr.2
      · simp only [INIT_BINDING, relativeUnder, Bool.and_eq_true] at hr
        exact absurd hr.1.1 h2

theorem Copy_Rerelativized_length (before after : Nat) (original : List Cell) :
    (Copy_Rerelativized_Array_Deep_Managed original before after).length = original.length := by
  rw [Copy_Rerelativized_eq_map, List.length_map]

/-! ## The copy routines return -/

mutual
theorem Clonify_Derelativized_total (ts : Typesets) (types : REBU64) :
    ∀ (src : Cell), ∃ n, ∀ stack, n ≤ stack → ∀ specifier,
      ∃ r, Clonify_Derelativized ts types stack specifier src = .ok r
  | .word k q s b i => ⟨1, fun stack h specifier => by
      obtain ⟨m, rfl⟩ : ∃ m, stack = m + 1 := ⟨stack - 1, by omega⟩
      exact ⟨_, rfl⟩⟩
  | .action q b => ⟨1, fun stack h specifier => by
      obtain ⟨m, rfl⟩ : ∃ m, stack = m + 1 := ⟨stack - 1, by omega⟩
      exact ⟨_, rfl⟩⟩
  | .other y q => ⟨1, fun stack h specifier => by
      obtain ⟨m, rfl⟩ : ∃ m, stack = m + 1 := ⟨stack - 1, by omega⟩
      exact ⟨_, rfl⟩⟩
  | .array k q past rest b => by
    obtain ⟨n1, h1⟩ := Clonify_Derelativized_each_total ts types past
    obtain ⟨n2, h2⟩ := Clonify_Derelativized_each_total ts types rest
    refine ⟨max n1 n2 + 1, fun stack h specifier => ?_⟩
    obtain ⟨m, rfl⟩ : ∃ m, stack = m + 1 := ⟨stack - 1, by omega⟩
    have hm1 : n1 ≤ m := by have := le_max_left n1 n2; omega
    have hm2 : n2 ≤ m := by have := le_max_right n1 n2; omega
    simp only [Clonify_Derelativized]
    split_ifs
    · obtain ⟨r1, hr1, -⟩ := h1 m hm1
        (VAL_SPECIFIER (Derelativize (.array k q past rest b) specifier))
      obtain ⟨r2, hr2, -⟩ := h2 m hm2
        (VAL_SPECIFIER (Derelativize (.array k q past rest b) specifier))
      rw [hr1, hr2]
      exact ⟨_, rfl⟩
    · exact ⟨_, rfl⟩
    · exact ⟨_, rfl⟩
theorem Clonify_Derelativized_each_total (ts : Typesets) (types : REBU64) :
    ∀ (srcs : List Cell), ∃ n, ∀ stack, n ≤ stack → ∀ specifier,
      ∃ rs, Clonify_Derelativized_each ts types stack specifier srcs = .ok rs ∧
        rs.length = srcs.length
  | [] => ⟨0, fun stack _ specifier => ⟨[], rfl, rfl⟩⟩
  | src :: rest => by
    obtain ⟨n1, h1⟩ := Clonify_Derelativized_total ts types src
    obtain ⟨n2, h2⟩ := Clonify_Derelativized_each_total ts types rest
    refine ⟨max n1 n2, fun stack h specifier => ?_⟩
    obtain ⟨r1, hr1⟩ := h1 stack (le_trans (le_max_left n1 n2) h) specifier
    obtain ⟨r2, hr2, hl⟩ := h2 stack (le_trans (le_max_right n1 n2) h) specifier
    refine ⟨r1 :: r2, ?_, by simp [hl]⟩
    simp only [Clonify_Derelativized_each, hr1, hr2]
end

theorem Copy_Array_Core_Managed_total (ts : Typesets) (types : REBU64) (original : List Cell)
    (index tail : Nat) (htail : tail ≤ original.length) :
    ∃ n, ∀ stack, n ≤ stack → ∀ specifier,
      ∃ copy, Copy_Array_Core_Managed ts stack original index specifier tail types
        = .ok copy := by
  obtain ⟨n, hn⟩ := Clonify_Derelativized_each_total ts types
    ((original.drop (if index > tail then tail else index)).take
      (tail - (if index > tail then tail else index)))
  refine ⟨n, fun stack h specifier => ?_⟩
  obtain ⟨rs, hrs, -⟩ := hn stack h specifier
  simp only [Copy_Array_Core_Managed]
  split_ifs with h1 h2 h3
  · exact ⟨_, rfl⟩
  · simp only [Copy_Array_Core_Managed_Inner_Loop]
    rw [if_pos ⟨le_refl _, htail⟩]
    simp only [h1, if_true] at hrs
    exact ⟨rs, hrs⟩
  · exact ⟨_, rfl⟩
  · simp only [Copy_Array_Core_Managed_Inner_Loop]
    rw [if_pos ⟨by omega, htail⟩]
    simp only [h1, if_false] at hrs
    exact ⟨rs, hrs⟩

/-! ## The relative walk, cell by cell -/

mutual
theorem Bind_Relative_Inner_Loop_eq_map (binder : Reb_Binder) (paramlist : Nat) (bt : REBU64)
    (hkinds : ∀ kind, bt kind = true → TS_WORD kind = true) :
    ∀ (head : List Cell), Bind_Relative_Inner_Loop binder head paramlist bt
      = (head.map (fun v => (Bind_Relative_Inner_Loop_cell binder v paramlist bt).1), none)
  | [] => by simp [Bind_Relative_Inner_Loop]
  | v :: rest => by
    have h1 := Bind_Relative_Inner_Loop_cell_ok binder paramlist bt hkinds v
    have h2 := Bind_Relative_Inner_Loop_eq_map binder paramlist bt hkinds rest
    rw [Bind_Relative_Inner_Loop]
    generalize hc : Bind_Relative_Inner_Loop_cell binder v paramlist bt = c at h1 ⊢
    obtain ⟨v2, e⟩ := c
    simp only at h1
    subst h1
    simp only [h2, List.map_cons, hc]
theorem Bind_Relative_Inner_Loop_cell_ok (binder : Reb_Binder) (paramlist : Nat) (bt : REBU64)
    (hkinds : ∀ kind, bt kind = true → TS_WORD kind = true) :
    ∀ (v : Cell), (Bind_Relative_Inner_Loop_cell binder v paramlist bt).2 = none
  | .word k q s b i => by
    simp only [Bind_Relative_Inner_Loop_cell]
    split_ifs <;> rfl
  | .action q b => by
    have : bt .REB_ACTION = false := by
      cases h : bt .REB_ACTION
      · rfl
      · have := hkinds _ h
        simp [TS_WORD] at this
    simp [Bind_Relative_Inner_Loop_cell, this]
  | .other y q => by
    have : bt (.other y) = false := by
      cases h : bt (.other y)
      · rfl
      · have := hkinds _ h
        simp [TS_WORD] at this
    simp [Bind_Relative_Inner_Loop_cell, this]
  | .array k q past rest b => by
    have : bt (.array k) = false := by
      cases h : bt (.array k)
      · rfl
      · have := hkinds _ h
        simp [TS_WORD] at this
    have h2 := Bind_Relative_Inner_Loop_eq_map binder paramlist bt hkinds rest
    simp [Bind_Relative_Inner_Loop_cell, this, h2]
end

theorem Bind_Relative_Inner_Loop_cell_array (binder : Reb_Binder) (paramlist : Nat)
    (bt : REBU64) (hkinds : ∀ kind, bt kind = true → TS_WORD kind = true)
    (k : ArrayKind) (q : Nat) (past rest : List Cell) (b : Option REBNOD) :
    (Bind_Relative_Inner_Loop_cell binder (.array k q past rest b) paramlist bt).1
      = .array k q past
          (rest.map (fun v => (Bind_Relative_Inner_Loop_cell binder v paramlist bt).1))
          (some (.paramlist paramlist)) := by
  have : bt (.array k) = false := by
    cases h : bt (.array k)
    · rfl
    · have := hkinds _ h
      simp [TS_WORD] at this
  simp [Bind_Relative_Inner_Loop_cell, this,
    Bind_Relative_Inner_Loop_eq_map binder paramlist bt hkinds rest, Dequotify, INIT_BINDING,
    Quotify]

theorem Bind_Relative_under (binder : Reb_Binder) (paramlist : Nat) (bt : REBU64)
    (hkinds : ∀ kind, bt kind = true → TS_WORD kind = true) :
    ∀ (path : List Nat) (o : Option Cell),
    cellUnder (o.map (fun v => (Bind_Relative_Inner_Loop_cell binder v paramlist bt).1)) path
      = (cellUnder o path).map (fun v =>
          if relativeWalkUnder o path then
            (Bind_Relative_Inner_Loop_cell binder v paramlist bt).1 else v)
  | [], o => by simp [cellUnder, relativeWalkUnder]
  | j :: path, none => by simp [cellUnder]
  | j :: path, some c => by
    cases c with
    | word k q s b i =>
      simp only [Option.map_some', Bind_Relative_Inner_Loop_cell]
      split_ifs <;>
        simp [Unbind_Any_Word, INIT_BINDING, INIT_WORD_INDEX, Dequotify, Quotify, cellUnder,
          VAL_ARRAY, cellUnder_none]
    | action q b =>
      simp only [Option.map_some', Bind_Relative_Inner_Loop_cell]
      split_ifs <;> simp [cellUnder, VAL_ARRAY, cellUnder_none]
    | other y q =>
      simp only [Option.map_some', Bind_Relative_Inner_Loop_cell]
      split_ifs <;> simp [cellUnder, VAL_ARRAY, cellUnder_none]
    | array k q past rest b =>
      rw [Option.map_some', Bind_Relative_Inner_Loop_cell_array binder paramlist bt hkinds]
      simp only [cellUnder, VAL_ARRAY, relativeWalkUnder]
      by_cases hj : j < past.length
      · rw [List.getElem?_append_left hj, List.getElem?_append_left hj]
        have : ¬ past.length ≤ j := by omega
        simp [this]
      · have hle : past.length ≤ j := by omega
        rw [List.getElem?_append_right hle, List.getElem?_append_right hle,
          List.getElem?_map, Bind_Relative_under binder paramlist bt hkinds path
            (rest[j - past.length]?)]
        simp [hle]

theorem Bind_Relative_at (binder : Reb_Binder) (paramlist : Nat) (bt : REBU64)
    (hkinds : ∀ kind, bt kind = true → TS_WORD kind = true) (head : List Cell) (i : Nat)
    (path : List Nat) :
    cellAt (Bind_Relative_Inner_Loop binder head paramlist bt).1 i path
      = (cellAt head i path).map (fun v =>
          if relativeWalkUnder (head[i]?) path then
            (Bind_Relative_Inner_Loop_cell binder v paramlist bt).1 else v) := by
  unfold cellAt
  rw [Bind_Relative_Inner_Loop_eq_map binder paramlist bt hkinds, List.getElem?_map]
  exact Bind_Relative_under binder paramlist bt hkinds path _

/-! ## The Binder of a paramlist -/

theorem Copy_And_Bind_Relative_seed_spec : ∀ (params : List REBKEY) (idx : Nat)
    (b : Reb_Binder), (params.map VAL_KEY_CANON).Nodup →
    (∀ s ∈ params.map VAL_KEY_CANON, b.index s = 0) →
    (Copy_And_Bind_Relative_seed b params idx).2 = none ∧
      ∀ s, (Copy_And_Bind_Relative_seed b params idx).1.index s
        = if s ∈ params.map VAL_KEY_CANON
          then (((idx + (params.map VAL_KEY_CANON).indexOf s : Nat)) : Int)
          else b.index s
  | [], idx, b, _, _ => by simp [Copy_And_Bind_Relative_seed]
  | param :: rest, idx, b, hnd, h0 => by
    have hk : b.index (VAL_KEY_CANON param) = 0 := h0 _ (by simp)
    simp only [List.map_cons, List.nodup_cons] at hnd
    have ih := Copy_And_Bind_Relative_seed_spec rest (idx + 1)
      ⟨Function.update b.index (VAL_KEY_CANON param) idx⟩ hnd.2 (by
        intro s hs
        have hne : s ≠ VAL_KEY_CANON param := fun h => hnd.1 (h ▸ hs)
        simp only [Function.update_noteq hne]
        exact h0 s (by simp [List.mem_map] at hs ⊢; exact Or.inr hs))
    simp only [Copy_And_Bind_Relative_seed, Add_Binder_Index, Try_Add_Binder_Index, hk,
      ne_eq, not_true_eq_false, if_false]
    refine ⟨ih.1, fun s => ?_⟩
    rw [ih.2 s]
    by_cases hs : s = VAL_KEY_CANON param
    · subst hs
      simp [hnd.1]
    · have hs2 : ¬ VAL_KEY_CANON param = s := fun h => hs h.symm
      by_cases hm : s ∈ rest.map VAL_KEY_CANON
      · simp only [hm, if_true, List.map_cons, List.mem_cons, or_true]
        rw [List.indexOf_cons_ne _ hs2]
        push_cast
        omega
      · simp [hm, hs, Function.update_noteq hs]

theorem Copy_And_Bind_Relative_reset_spec : ∀ (params : List REBKEY) (b : Reb_Binder) (s : Nat),
    (Copy_And_Bind_Relative_reset b params).index s
      = if s ∈ params.map VAL_KEY_CANON then 0 else b.index s
  | [], b, s => by simp [Copy_And_Bind_Relative_reset]
  | param :: rest, b, s => by
    rw [Copy_And_Bind_Relative_reset, Copy_And_Bind_Relative_reset_spec rest]
    by_cases hm : s ∈ rest.map VAL_KEY_CANON
    · simp [hm]
    · by_cases hs : s = VAL_KEY_CANON param
      · subst hs
        simp [hm, Remove_Binder_Index, Remove_Binder_Index_Else_0]
      · simp only [hm, if_false, List.map_cons, List.mem_cons, hs, or_self,
          Remove_Binder_Index, Remove_Binder_Index_Else_0, Function.update_noteq hs]

theorem indexOf_canon_of_get (params : List REBKEY) (n : Nat) (key : REBKEY)
    (hnd : (params.map VAL_KEY_CANON).Nodup) (hget : params[n]? = some key) :
    VAL_KEY_CANON key ∈ params.map VAL_KEY_CANON ∧
      (params.map VAL_KEY_CANON).indexOf (VAL_KEY_CANON key) = n := by
  have hg : (params.map VAL_KEY_CANON)[n]? = some (VAL_KEY_CANON key) := by
    rw [List.getElem?_map, hget, Option.map_some']
  obtain ⟨hlt, heq⟩ := List.getElem?_eq_some.mp hg
  refine ⟨List.getElem?_mem hg, ?_⟩
  rw [← heq]
  exact List.indexOf_getElem hnd n hlt

theorem Copy_And_Bind_Relative_Deep_Managed_unfold (ts : Typesets) (stack : Nat)
    (binder : Reb_Binder) (k : ArrayKind) (q : Nat) (past rest : List Cell)
    (b : Option REBNOD) (paramlist : Paramlist) (bt : REBU64) (copy : List Cell)
    (hempty : ∀ canon, Get_Binder_Index_Else_0 binder canon = 0)
    (hdistinct : (paramlist.params.map VAL_KEY_CANON).Nodup)
    (hkinds : ∀ kind, bt kind = true → TS_WORD kind = true)
    (hcopy : Copy_Array_Core_Managed ts stack (past ++ rest) past.length b rest.length
      (fun kind => (ts.TS_SERIES kind || TS_PATH kind) && !ts.TS_NOT_COPIED kind) = .ok copy) :
    ∃ seeded : Reb_Binder,
      (∀ s, seeded.index s = if s ∈ paramlist.params.map VAL_KEY_CANON
        then (((1 + (paramlist.params.map VAL_KEY_CANON).indexOf s : Nat)) : Int) else 0) ∧
      (Copy_And_Bind_Relative_Deep_Managed ts stack binder (.array k q past rest b) paramlist
        bt).error = none ∧
      (Copy_And_Bind_Relative_Deep_Managed ts stack binder (.array k q past rest b) paramlist
        bt).copy = (Bind_Relative_Inner_Loop seeded copy paramlist.id bt).1 ∧
      (∀ s, (Copy_And_Bind_Relative_Deep_Managed ts stack binder (.array k q past rest b)
        paramlist bt).binder.index s = 0) := by
  have hseed := Copy_And_Bind_Relative_seed_spec paramlist.params 1 binder hdistinct
    (fun s _ => hempty s)
  refine ⟨(Copy_And_Bind_Relative_seed binder paramlist.params 1).1, ?_, ?_⟩
  · intro s
    rw [hseed.2 s]
    split_ifs
    · rfl
    · exact hempty s
  · generalize hsd : Copy_And_Bind_Relative_seed binder paramlist.params 1 = sd at hseed
    obtain ⟨b1, e1⟩ := sd
    simp only at hseed
    obtain ⟨he, hidx⟩ := hseed
    subst he
    have hmap := Bind_Relative_Inner_Loop_eq_map b1 paramlist.id bt hkinds copy
    simp only [Copy_And_Bind_Relative_Deep_Managed, VAL_SPECIFIER, VAL_BINDING, hcopy, hsd,
      hmap, true_and]
    intro s
    rw [Copy_And_Bind_Relative_reset_spec, hidx s]
    split_ifs
    · rfl
    · exact hempty s

/-! ## The spec of a loop -/

theorem Virtual_Bind_check_invalid : ∀ (items : List Cell) (rebinding : Bool),
    (∃ item ∈ items, IS_WORD item = false ∧ IS_QUOTED_WORD item = false) →
    (Virtual_Bind_Deep_To_New_Context_check items rebinding).2 = some .InvalidLoopSpec
  | [], _, h => by simp at h
  | item :: rest, rebinding, h => by
    rw [Virtual_Bind_Deep_To_New_Context_check]
    by_cases hw : IS_WORD item = true
    · rw [if_pos hw]
      apply Virtual_Bind_check_invalid rest true
      obtain ⟨e, he, h1, h2⟩ := h
      rcases List.mem_cons.mp he with rfl | hm
      · rw [hw] at h1; exact absurd h1 (by simp)
      · exact ⟨e, hm, h1, h2⟩
    · rw [if_neg hw]
      by_cases hq : IS_QUOTED_WORD item = true
      · simp only [hq, Bool.not_true, Bool.false_eq_true, if_false]
        apply Virtual_Bind_check_invalid rest rebinding
        obtain ⟨e, he, h1, h2⟩ := h
        rcases List.mem_cons.mp he with rfl | hm
        · rw [hq] at h2; exact absurd h2 (by simp)
        · exact ⟨e, hm, h1, h2⟩
      · simp [hq]

theorem Virtual_Bind_check_valid : ∀ (items : List Cell) (rebinding : Bool),
    (∀ item ∈ items, IS_WORD item = true ∨ IS_QUOTED_WORD item = true) →
    Virtual_Bind_Deep_To_New_Context_check items rebinding
      = (rebinding || items.any IS_WORD, none)
  | [], _, _ => by simp [Virtual_Bind_Deep_To_New_Context_check]
  | item :: rest, rebinding, h => by
    have ih := fun rb => Virtual_Bind_check_valid rest rb
      (fun e he => h e (List.mem_cons_of_mem _ he))
    rw [Virtual_Bind_Deep_To_New_Context_check]
    by_cases hw : IS_WORD item = true
    · rw [if_pos hw, ih]
      simp [hw]
    · rw [if_neg hw]
      have hq : IS_QUOTED_WORD item = true := by
        rcases h item (List.mem_cons_self _ _) with h1 | h1
        · exact absurd h1 hw
        · exact h1
      simp only [Bool.not_eq_true] at hw
      simp [hq, ih, hw]

theorem spec_item_shape (item : Cell)
    (h : IS_WORD item = true ∨ IS_QUOTED_WORD item = true) :
    ∃ s b i, item = .word .REB_WORD 0 s b i ∨ item = .word .REB_WORD 1 s b i := by
  cases item with
  | word k q s b i =>
    cases k <;> simp [IS_WORD, IS_QUOTED_WORD] at h
    rcases h with rfl | rfl
    · exact ⟨s, b, i, Or.inl rfl⟩
    · exact ⟨s, b, i, Or.inr rfl⟩
  | array k q past rest b => simp [IS_WORD, IS_QUOTED_WORD] at h
  | action q b => simp [IS_WORD, IS_QUOTED_WORD] at h
  | other y q => simp [IS_WORD, IS_QUOTED_WORD] at h

theorem Virtual_Bind_slot_plain (rebinding : Bool) (specifier : Option REBNOD)
    (binder : Reb_Binder) (duplicate : Option REBSTR) (s : REBSTR) (b : Option REBNOD)
    (i : Int) (index : Nat) :
    Virtual_Bind_Deep_To_New_Context_slot rebinding specifier binder duplicate
        (.word .REB_WORD 0 s b i) index
      = .ok ⟨⟨s, false, false⟩, ⟨.other REB_NULLED 0, false, false⟩,
          if binder.index s.canon ≠ 0 then binder
          else ⟨Function.update binder.index s.canon index⟩,
          if binder.index s.canon ≠ 0 then
            (match duplicate with
              | none => some s
              | some d => some d)
          else duplicate⟩ := by
  by_cases h : binder.index s.canon = 0
  · simp [Virtual_Bind_Deep_To_New_Context_slot, IS_WORD, Try_Add_Binder_Index, h]
  · simp [Virtual_Bind_Deep_To_New_Context_slot, IS_WORD, Try_Add_Binder_Index, h]

theorem Virtual_Bind_slot_quoted (rebinding : Bool) (specifier : Option REBNOD)
    (binder : Reb_Binder) (duplicate : Option REBSTR) (s : REBSTR) (b : Option REBNOD)
    (i : Int) (index : Nat) :
    Virtual_Bind_Deep_To_New_Context_slot rebinding specifier binder duplicate
        (.word .REB_WORD 1 s b i) index
      = .ok ⟨⟨s, true, true⟩, ⟨Derelativize (.word .REB_WORD 1 s b i) specifier, true, true⟩,
          if rebinding = true ∧ binder.index s.canon = 0
          then ⟨Function.update binder.index s.canon (-1)⟩ else binder,
          if rebinding = true ∧ binder.index s.canon > 0 then
            (match duplicate with
              | none => some s
              | some d => some d)
          else duplicate⟩ := by
  simp only [Virtual_Bind_Deep_To_New_Context_slot, IS_WORD, IS_QUOTED_WORD,
    Get_Binder_Index_Else_0, Add_Binder_Index, Try_Add_Binder_Index]
  cases rebinding with
  | false => simp
  | true =>
    rcases lt_trichotomy (binder.index s.canon) 0 with h | h | h
    · have h1 : ¬ binder.index s.canon > 0 := by omega
      have h2 : ¬ binder.index s.canon = 0 := by omega
      simp [h1, h2]
    · simp [h]
    · have h2 : ¬ binder.index s.canon = 0 := by omega
      simp [h, h2]

theorem Virtual_Bind_slots_keys (specifier : Option REBNOD) (rebinding : Bool) :
    ∀ (items : List Cell) (binder : Reb_Binder) (duplicate : Option REBSTR) (index : Nat),
    (∀ item ∈ items, IS_WORD item = true ∨ IS_QUOTED_WORD item = true) →
    (Virtual_Bind_Deep_To_New_Context_slots rebinding specifier binder duplicate items
        index).error = none ∧
      (Virtual_Bind_Deep_To_New_Context_slots rebinding specifier binder duplicate items
        index).keys.map some = items.map specKey ∧
      (Virtual_Bind_Deep_To_New_Context_slots rebinding specifier binder duplicate items
        index).vars = items.map (specVar specifier)
  | [], _, _, _, _ => by simp [Virtual_Bind_Deep_To_New_Context_slots]
  | item :: rest, binder, duplicate, index, h => by
    have hrest : ∀ e ∈ rest, IS_WORD e = true ∨ IS_QUOTED_WORD e = true :=
      fun e he => h e (List.mem_cons_of_mem _ he)
    obtain ⟨s, b, i, rfl | rfl⟩ := spec_item_shape item (h item (List.mem_cons_self _ _))
    · rw [Virtual_Bind_Deep_To_New_Context_slots, Virtual_Bind_slot_plain]
      have ih := Virtual_Bind_slots_keys specifier rebinding rest
        (if binder.index s.canon ≠ 0 then binder
          else ⟨Function.update binder.index s.canon index⟩)
        (if binder.index s.canon ≠ 0 then
            (match duplicate with
              | none => some s
              | some d => some d)
          else duplicate) (index + 1) hrest
      simp only [List.map_cons]
      exact ⟨ih.1, by rw [ih.2.1]; rfl, by rw [ih.2.2]; rfl⟩
    · rw [Virtual_Bind_Deep_To_New_Context_slots, Virtual_Bind_slot_quoted]
      have ih := Virtual_Bind_slots_keys specifier rebinding rest
        (if rebinding = true ∧ binder.index s.canon = 0
          then ⟨Function.update binder.index s.canon (-1)⟩ else binder)
        (if rebinding = true ∧ binder.index s.canon > 0 then
            (match duplicate with
              | none => some s
              | some d => some d)
          else duplicate) (index + 1) hrest
      simp only [List.map_cons]
      exact ⟨ih.1, by rw [ih.2.1]; rfl, by rw [ih.2.2]; rfl⟩

theorem Virtual_Bind_slots_dup_kept (specifier : Option REBNOD) (rebinding : Bool)
    (d : REBSTR) :
    ∀ (items : List Cell) (binder : Reb_Binder) (index : Nat),
    (∀ item ∈ items, IS_WORD item = true ∨ IS_QUOTED_WORD item = true) →
    (Virtual_Bind_Deep_To_New_Context_slots rebinding specifier binder (some d) items
        index).duplicate = some d
  | [], _, _, _ => by simp [Virtual_Bind_Deep_To_New_Context_slots]
  | item :: rest, binder, index, h => by
    have hrest : ∀ e ∈ rest, IS_WORD e = true ∨ IS_QUOTED_WORD e = true :=
      fun e he => h e (List.mem_cons_of_mem _ he)
    obtain ⟨s, b, i, rfl | rfl⟩ := spec_item_shape item (h item (List.mem_cons_self _ _))
    · rw [Virtual_Bind_Deep_To_New_Context_slots, Virtual_Bind_slot_plain]
      simp only [ite_self]
      exact Virtual_Bind_slots_dup_kept specifier rebinding d rest _ (index + 1) hrest
    · rw [Virtual_Bind_Deep_To_New_Context_slots, Virtual_Bind_slot_quoted]
      simp only [ite_self]
      exact Virtual_Bind_slots_dup_kept specifier rebinding d rest _ (index + 1) hrest

theorem Virtual_Bind_slots_quoted (specifier : Option REBNOD) :
    ∀ (items : List Cell) (binder : Reb_Binder) (duplicate : Option REBSTR) (index : Nat),
    (∀ item ∈ items, IS_QUOTED_WORD item = true) →
    (Virtual_Bind_Deep_To_New_Context_slots false specifier binder duplicate items
        index).binder = binder ∧
      (Virtual_Bind_Deep_To_New_Context_slots false specifier binder duplicate items
        index).duplicate = duplicate
  | [], _, _, _, _ => by simp [Virtual_Bind_Deep_To_New_Context_slots]
  | item :: rest, binder, duplicate, index, h => by
    have hrest : ∀ e ∈ rest, IS_QUOTED_WORD e = true :=
      fun e he => h e (List.mem_cons_of_mem _ he)
    have hq := h item (List.mem_cons_self _ _)
    obtain ⟨s, b, i, rfl | rfl⟩ := spec_item_shape item (Or.inr hq)
    · simp [IS_QUOTED_WORD] at hq
    · rw [Virtual_Bind_Deep_To_New_Context_slots, Virtual_Bind_slot_quoted]
      simpa using Virtual_Bind_slots_quoted specifier rest binder duplicate (index + 1) hrest

theorem SpecSeeded_snoc_plain (b : Reb_Binder) (seen : List Cell) (s : REBSTR)
    (bd : Option REBNOD) (ix : Int) (hs : SpecSeeded b seen) (h0 : b.index s.canon = 0) :
    SpecSeeded ⟨Function.update b.index s.canon ((seen.length + 1 : Nat) : Int)⟩
      (seen ++ [.word .REB_WORD 0 s bd ix]) := by
  obtain ⟨hA, hB, hC⟩ := hs
  have hnone : ∀ e ∈ seen, VAL_WORD_CANON e ≠ some s.canon := by
    intro e he hc
    exact ((hA s.canon).mpr ⟨e, he, hc⟩) h0
  refine ⟨?_, ?_, ?_⟩
  · intro c
    by_cases hc : c = s.canon
    · subst hc
      simp only [Function.update_same]
      constructor
      · intro _
        exact ⟨_, List.mem_append_right _ (List.mem_singleton_self _), rfl⟩
      · intro _
        omega
    · simp only [Function.update_noteq hc]
      rw [hA c]
      constructor
      · rintro ⟨e, he, hce⟩
        exact ⟨e, List.mem_append_left _ he, hce⟩
      · rintro ⟨e, he, hce⟩
        rcases List.mem_append.mp he with h1 | h1
        · exact ⟨e, h1, hce⟩
        · rw [List.mem_singleton] at h1
          subst h1
          simp only [VAL_WORD_CANON, Option.some.injEq] at hce
          exact absurd hce.symm hc
  · intro c i e hget hce hw
    by_cases hi : i < seen.length
    · rw [List.getElem?_append_left hi] at hget
      have hne : c ≠ s.canon := by
        intro h
        subst h
        exact hnone e (List.getElem?_mem hget) hce
      simp only [Function.update_noteq hne]
      exact hB c i e hget hce hw
    · rw [List.getElem?_append_right (by omega)] at hget
      have hi0 : i - seen.length = 0 := by
        by_contra hne
        obtain ⟨m, hm⟩ : ∃ m, i - seen.length = m + 1 := ⟨i - seen.length - 1, by omega⟩
        rw [hm] at hget
        simp at hget
      rw [hi0] at hget
      simp only [List.getElem?_cons_zero, Option.some.injEq] at hget
      subst hget
      simp only [VAL_WORD_CANON, Option.some.injEq] at hce
      subst hce
      simp only [Function.update_same]
      have : i = seen.length := by omega
      rw [this]
  · intro c hpos
    by_cases hc : c = s.canon
    · subst hc
      exact ⟨_, List.mem_append_right _ (List.mem_singleton_self _), rfl, rfl⟩
    · simp only [Function.update_noteq hc] at hpos
      obtain ⟨e, he, h1, h2⟩ := hC c hpos
      exact ⟨e, List.mem_append_left _ he, h1, h2⟩

theorem SpecSeeded_snoc_quoted (b : Reb_Binder) (seen : List Cell) (s : REBSTR)
    (bd : Option REBNOD) (ix : Int) (hs : SpecSeeded b seen)
    (hnp : ¬ b.index s.canon > 0) :
    SpecSeeded (if True ∧ b.index s.canon = 0
        then ⟨Function.update b.index s.canon (-1)⟩ else b)
      (seen ++ [.word .REB_WORD 1 s bd ix]) := by
  obtain ⟨hA, hB, hC⟩ := hs
  have hidx : ∀ c, (if True ∧ b.index s.canon = 0
        then (⟨Function.update b.index s.canon (-1)⟩ : Reb_Binder) else b).index c
      = if c = s.canon then (if b.index s.canon = 0 then -1 else b.index s.canon)
        else b.index c := by
    intro c
    by_cases h0 : b.index s.canon = 0
    · by_cases hc : c = s.canon
      · subst hc
        simp [h0]
      · simp [h0, hc, Function.update_noteq hc]
    · by_cases hc : c = s.canon
      · subst hc
        simp [h0]
      · simp [h0, hc]
  refine ⟨?_, ?_, ?_⟩
  · intro c
    rw [hidx c]
    by_cases hc : c = s.canon
    · subst hc
      simp only [if_true]
      constructor
      · intro _
        exact ⟨_, List.mem_append_right _ (List.mem_singleton_self _), rfl⟩
      · intro _
        split_ifs with h0
        · omega
        · exact h0
    · simp only [hc, if_false]
      rw [hA c]
      constructor
      · rintro ⟨e, he, hce⟩
        exact ⟨e, List.mem_append_left _ he, hce⟩
      · rintro ⟨e, he, hce⟩
        rcases List.mem_append.mp he with h1 | h1
        · exact ⟨e, h1, hce⟩
        · rw [List.mem_singleton] at h1
          subst h1
          simp only [VAL_WORD_CANON, Option.some.injEq] at hce
          exact absurd hce.symm hc
  · intro c i e hget hce hw
    by_cases hi : i < seen.length
    · rw [List.getElem?_append_left hi] at hget
      have hold := hB c i e hget hce hw
      have hne : c ≠ s.canon := by
        intro h
        subst h
        apply hnp
        rw [hold]
        omega
      rw [hidx c, if_neg hne]
      exact hold
    · rw [List.getElem?_append_right (by omega)] at hget
      have hi0 : i - seen.length = 0 := by
        by_contra hne
        obtain ⟨m, hm⟩ : ∃ m, i - seen.length = m + 1 := ⟨i - seen.length - 1, by omega⟩
        rw [hm] at hget
        simp at hget
      rw [hi0] at hget
      simp only [List.getElem?_cons_zero, Option.some.injEq] at hget
      subst hget
      simp [IS_WORD] at hw
  · intro c hpos
    rw [hidx c] at hpos
    by_cases hc : c = s.canon
    · subst hc
      simp only [if_true] at hpos
      split_ifs at hpos with h0
      · omega
      · exact absurd hpos hnp
    · simp only [hc, if_false] at hpos
      obtain ⟨e, he, h1, h2⟩ := hC c hpos
      exact ⟨e, List.mem_append_left _ he, h1, h2⟩

theorem SpecSeeded_nil (binder : Reb_Binder)
    (hempty : ∀ canon, Get_Binder_Index_Else_0 binder canon = 0) : SpecSeeded binder [] := by
  refine ⟨fun c => ?_, fun c i e h => ?_, fun c h => ?_⟩
  · have := hempty c
    simp [Get_Binder_Index_Else_0] at this
    simp [this]
  · simp at h
  · have := hempty c
    simp [Get_Binder_Index_Else_0] at this
    omega

theorem Virtual_Bind_slots_spec (specifier : Option REBNOD) :
    ∀ (items seen : List Cell) (binder : Reb_Binder),
    (∀ item ∈ items, IS_WORD item = true ∨ IS_QUOTED_WORD item = true) →
    SpecSeeded binder seen →
    (Virtual_Bind_Deep_To_New_Context_slots true specifier binder none items
        (seen.length + 1)).duplicate = firstConflict seen items ∧
      ((Virtual_Bind_Deep_To_New_Context_slots true specifier binder none items
          (seen.length + 1)).duplicate = none →
        SpecSeeded (Virtual_Bind_Deep_To_New_Context_slots true specifier binder none items
          (seen.length + 1)).binder (seen ++ items))
  | [], seen, binder, _, hs => by
    simpa [Virtual_Bind_Deep_To_New_Context_slots, firstConflict] using hs
  | item :: rest, seen, binder, h, hs => by
    have hrest : ∀ e ∈ rest, IS_WORD e = true ∨ IS_QUOTED_WORD e = true :=
      fun e he => h e (List.mem_cons_of_mem _ he)
    have hlen : ∀ it : Cell, (seen ++ [it]).length + 1 = seen.length + 1 + 1 := by simp
    have happ : ∀ it : Cell, (seen ++ [it]) ++ rest = seen ++ it :: rest := by simp
    obtain ⟨s, b, i, rfl | rfl⟩ := spec_item_shape item (h item (List.mem_cons_self _ _))
    · rw [Virtual_Bind_Deep_To_New_Context_slots, Virtual_Bind_slot_plain, firstConflict]
      by_cases h0 : binder.index s.canon = 0
      · have hany : seen.any (fun e => specConflict e (.word .REB_WORD 0 s b i)) = false := by
          rw [List.any_eq_false]
          intro e he hc
          simp only [specConflict, Bool.and_eq_true, beq_iff_eq] at hc
          exact ((hs.1 s.canon).mpr ⟨e, he, hc.1⟩) h0
        have ih := Virtual_Bind_slots_spec specifier rest (seen ++ [.word .REB_WORD 0 s b i])
          ⟨Function.update binder.index s.canon ((seen.length + 1 : Nat) : Int)⟩ hrest
          (SpecSeeded_snoc_plain binder seen s b i hs h0)
        rw [hlen, happ] at ih
        simpa [h0, hany] using ih
      · obtain ⟨e, he, hce⟩ := (hs.1 s.canon).mp h0
        have hany : seen.any (fun e => specConflict e (.word .REB_WORD 0 s b i)) = true := by
          rw [List.any_eq_true]
          exact ⟨e, he, by unfold specConflict; rw [hce]; simp [VAL_WORD_CANON, IS_WORD]⟩
        have hk := Virtual_Bind_slots_dup_kept specifier true s rest binder
          (seen.length + 1 + 1) hrest
        simp only [ne_eq, h0, not_false_eq_true, if_true, hany, VAL_WORD_SPELLING, hk]
        simp
    · rw [Virtual_Bind_Deep_To_New_Context_slots, Virtual_Bind_slot_quoted, firstConflict]
      by_cases hpos : binder.index s.canon > 0
      · obtain ⟨e, he, hce, hw⟩ := hs.2.2 s.canon hpos
        have hany : seen.any (fun e => specConflict e (.word .REB_WORD 1 s b i)) = true := by
          rw [List.any_eq_true]
          exact ⟨e, he, by unfold specConflict; rw [hce, hw]; simp [VAL_WORD_CANON]⟩
        have hne : ¬ binder.index s.canon = 0 := by omega
        have hk := Virtual_Bind_slots_dup_kept specifier true s rest binder
          (seen.length + 1 + 1) hrest
        simp only [true_and, hne, if_false, hpos, if_true, hany, VAL_WORD_SPELLING, hk]
        simp
      · have hany : seen.any (fun e => specConflict e (.word .REB_WORD 1 s b i)) = false := by
          rw [List.any_eq_false]
          intro e he hc
          simp only [specConflict, Bool.and_eq_true, beq_iff_eq, Bool.or_eq_true, IS_WORD,
            Nat.succ_ne_zero, Bool.false_eq_true, or_false] at hc
          obtain ⟨j, hj⟩ := List.mem_iff_getElem?.mp he
          have := hs.2.1 s.canon j e hj hc.1 (by simpa [IS_WORD] using hc.2)
          apply hpos
          rw [this]
          omega
        have ih := Virtual_Bind_slots_spec specifier rest (seen ++ [.word .REB_WORD 1 s b i])
          _ hrest (SpecSeeded_snoc_quoted binder seen s b i hs hpos)
        rw [hlen, happ] at ih
        simpa [hpos, hany] using ih

theorem any_take_iff (items : List Cell) (j : Nat) (p : Cell → Bool) :
    (items.take j).any p = true ↔ ∃ i a, i < j ∧ items[i]? = some a ∧ p a = true := by
  rw [List.any_eq_true]
  constructor
  · rintro ⟨a, ha, hp⟩
    obtain ⟨i, hi⟩ := List.mem_iff_getElem?.mp ha
    rw [List.getElem?_take] at hi
    split_ifs at hi with hlt
    · exact ⟨i, a, hlt, hi, hp⟩
  · rintro ⟨i, a, hlt, hi, hp⟩
    refine ⟨a, ?_, hp⟩
    apply List.mem_iff_getElem?.mpr
    exact ⟨i, by rw [List.getElem?_take, if_pos hlt]; exact hi⟩

theorem firstConflict_none : ∀ (items seen : List Cell),
    (∀ item ∈ items, IS_WORD item = true ∨ IS_QUOTED_WORD item = true) →
    firstConflict seen items = none →
    ∀ (j : Nat) (f : Cell), items[j]? = some f →
      (seen ++ items.take j).any (fun e => specConflict e f) = false
  | [], _, _, _, j, f, hf => by simp at hf
  | item :: rest, seen, h, hnone, j, f, hf => by
    have hrest : ∀ e ∈ rest, IS_WORD e = true ∨ IS_QUOTED_WORD e = true :=
      fun e he => h e (List.mem_cons_of_mem _ he)
    rw [firstConflict] at hnone
    by_cases hany : seen.any (fun e => specConflict e item) = true
    · rw [if_pos hany] at hnone
      obtain ⟨s, b, i, rfl | rfl⟩ := spec_item_shape item (h item (List.mem_cons_self _ _)) <;>
        simp [VAL_WORD_SPELLING] at hnone
    · rw [if_neg hany] at hnone
      cases j with
      | zero =>
        simp only [List.getElem?_cons_zero, Option.some.injEq] at hf
        subst hf
        simpa using hany
      | succ j =>
        simp only [List.getElem?_cons_succ] at hf
        have ih := firstConflict_none rest (seen ++ [item]) hrest hnone j f hf
        simpa using ih

theorem firstConflict_some : ∀ (items seen : List Cell) (sym : REBSTR),
    firstConflict seen items = some sym →
    ∃ (j : Nat) (f : Cell), items[j]? = some f ∧ VAL_WORD_SPELLING f = some sym ∧
      (seen ++ items.take j).any (fun e => specConflict e f) = true ∧
      ∀ (j2 : Nat) (f2 : Cell), j2 < j → items[j2]? = some f2 →
        (seen ++ items.take j2).any (fun e => specConflict e f2) = false
  | [], _, _, h => by simp [firstConflict] at h
  | item :: rest, seen, sym, h => by
    rw [firstConflict] at h
    by_cases hany : seen.any (fun e => specConflict e item) = true
    · rw [if_pos hany] at h
      exact ⟨0, item, by simp, h, by simpa using hany, fun j2 f2 hlt _ => absurd hlt (by omega)⟩
    · rw [if_neg hany] at h
      obtain ⟨j, f, hf, hsp, hc, hmin⟩ := firstConflict_some rest (seen ++ [item]) sym h
      refine ⟨j + 1, f, by simpa using hf, hsp, by simpa using hc, ?_⟩
      intro j2 f2 hlt hf2
      cases j2 with
      | zero =>
        simp only [List.getElem?_cons_zero, Option.some.injEq] at hf2
        subst hf2
        simpa using hany
      | succ j2 =>
        simp only [List.getElem?_cons_succ] at hf2
        have := hmin j2 f2 (by omega) hf2
        simpa using this

/-! ## A Bind walk that adds no key, cell by cell -/

theorem Bind_word_no_midstream (binder : Reb_Binder) (context : REBCTX) (amt : REBU64)
    (hamt : ∀ kind, amt kind = false) (k : WordKind) (q : Nat) (s : REBSTR)
    (b : Option REBNOD) (i : Int) :
    Bind_Values_Inner_Loop_word binder (.word k q s b i) context amt
      = ⟨binder, context,
          [if Get_Binder_Index_Else_0 binder s.canon > 0
            then .word k q s (some (NOD context)) (Get_Binder_Index_Else_0 binder s.canon)
            else .word k q s b i], none⟩ := by
  simp only [Bind_Values_Inner_Loop_word, VAL_WORD_CANON, hamt, Bool.false_eq_true, if_false]
  split_ifs
  · simp [Dequotify, INIT_BINDING, INIT_WORD_INDEX, Quotify]
  · rfl

mutual
theorem Bind_Values_Inner_Loop_no_midstream (binder : Reb_Binder) (context : REBCTX)
    (bt amt : REBU64) (deep : Bool) (hkinds : ∀ kind, bt kind = true → TS_WORD kind = true)
    (hamt : ∀ kind, amt kind = false) :
    ∀ (head : List Cell), Bind_Values_Inner_Loop binder head context bt amt deep
      = ⟨binder, context,
          head.map (fun v =>
            (Bind_Values_Inner_Loop_cell binder v context bt amt deep).cells.headD v), none⟩
  | [] => by simp [Bind_Values_Inner_Loop]
  | v :: rest => by
    have h1 := Bind_Values_Inner_Loop_cell_no_midstream binder context bt amt deep hkinds hamt v
    have h2 := Bind_Values_Inner_Loop_no_midstream binder context bt amt deep hkinds hamt rest
    obtain ⟨v2, hv2⟩ := h1
    rw [Bind_Values_Inner_Loop]
    simp only [hv2, h2, List.map_cons, List.headD_cons, List.singleton_append]
theorem Bind_Values_Inner_Loop_cell_no_midstream (binder : Reb_Binder) (context : REBCTX)
    (bt amt : REBU64) (deep : Bool) (hkinds : ∀ kind, bt kind = true → TS_WORD kind = true)
    (hamt : ∀ kind, amt kind = false) :
    ∀ (v : Cell), ∃ v2, Bind_Values_Inner_Loop_cell binder v context bt amt deep
      = ⟨binder, context, [v2], none⟩
  | .word k q s b i => by
    simp only [Bind_Values_Inner_Loop_cell, Bind_word_no_midstream binder context amt hamt]
    split_ifs <;> exact ⟨_, rfl⟩
  | .action q b => by
    have : bt .REB_ACTION = false := by
      cases h : bt .REB_ACTION
      · rfl
      · have := hkinds _ h
        simp [TS_WORD] at this
    simp [Bind_Values_Inner_Loop_cell, this]
  | .other y q => by
    have : bt (.other y) = false := by
      cases h : bt (.other y)
      · rfl
      · have := hkinds _ h
        simp [TS_WORD] at this
    simp [Bind_Values_Inner_Loop_cell, this]
  | .array k q past rest b => by
    have : bt (.array k) = false := by
      cases h : bt (.array k)
      · rfl
      · have := hkinds _ h
        simp [TS_WORD] at this
    have h2 := Bind_Values_Inner_Loop_no_midstream binder context bt amt deep hkinds hamt rest
    cases deep <;> simp [Bind_Values_Inner_Loop_cell, this, h2]
end

theorem Bind_cell_array_no_midstream (binder : Reb_Binder) (context : REBCTX)
    (bt amt : REBU64) (hkinds : ∀ kind, bt kind = true → TS_WORD kind = true)
    (hamt : ∀ kind, amt kind = false)
    (k : ArrayKind) (q : Nat) (past rest : List Cell) (b : Option REBNOD) :
    (Bind_Values_Inner_Loop_cell binder (.array k q past rest b) context bt amt true).cells.headD
        (.array k q past rest b)
      = .array k q past
          (rest.map (fun v =>
            (Bind_Values_Inner_Loop_cell binder v context bt amt true).cells.headD v)) b := by
  have : bt (.array k) = false := by
    cases h : bt (.array k)
    · rfl
    · have := hkinds _ h
      simp [TS_WORD] at this
  simp [Bind_Values_Inner_Loop_cell, this,
    Bind_Values_Inner_Loop_no_midstream binder context bt amt true hkinds hamt rest]

theorem Bind_under_no_midstream (binder : Reb_Binder) (context : REBCTX)
    (bt amt : REBU64) (hkinds : ∀ kind, bt kind = true → TS_WORD kind = true)
    (hamt : ∀ kind, amt kind = false) :
    ∀ (path : List Nat) (o : Option Cell),
    cellUnder (o.map (fun v =>
        (Bind_Values_Inner_Loop_cell binder v context bt amt true).cells.headD v)) path
      = (cellUnder o path).map (fun v =>
          if relativeWalkUnder o path then
            (Bind_Values_Inner_Loop_cell binder v context bt amt true).cells.headD v else v)
  | [], o => by simp [cellUnder, relativeWalkUnder]
  | j :: path, none => by simp [cellUnder]
  | j :: path, some c => by
    cases c with
    | word k q s b i =>
      simp only [Option.map_some', Bind_Values_Inner_Loop_cell,
        Bind_word_no_midstream binder context amt hamt]
      split_ifs <;> simp [cellUnder, VAL_ARRAY, cellUnder_none]
    | action q b =>
      have : bt .REB_ACTION = false := by
        cases h : bt .REB_ACTION
        · rfl
        · have := hkinds _ h
          simp [TS_WORD] at this
      simp [Bind_Values_Inner_Loop_cell, this, cellUnder, VAL_ARRAY, cellUnder_none]
    | other y q =>
      have : bt (.other y) = false := by
        cases h : bt (.other y)
        · rfl
        · have := hkinds _ h
          simp [TS_WORD] at this
      simp [Bind_Values_Inner_Loop_cell, this, cellUnder, VAL_ARRAY, cellUnder_none]
    | array k q past rest b =>
      rw [Option.map_some', Bind_cell_array_no_midstream binder context bt amt hkinds hamt]
      simp only [cellUnder, VAL_ARRAY, relativeWalkUnder]
      by_cases hj : j < past.length
      · rw [List.getElem?_append_left hj, List.getElem?_append_left hj]
        have : ¬ past.length ≤ j := by omega
        simp [this]
      · have hle : past.length ≤ j := by omega
        rw [List.getElem?_append_right hle, List.getElem?_append_right hle,
          List.getElem?_map, Bind_under_no_midstream binder context bt amt hkinds hamt path
            (rest[j - past.length]?)]
        simp [hle]

theorem Bind_at_no_midstream (binder : Reb_Binder) (context : REBCTX)
    (bt amt : REBU64) (hkinds : ∀ kind, bt kind = true → TS_WORD kind = true)
    (hamt : ∀ kind, amt kind = false) (head : List Cell) (i : Nat) (path : List Nat) :
    cellAt (Bind_Values_Inner_Loop binder head context bt amt true).cells i path
      = (cellAt head i path).map (fun v =>
          if relativeWalkUnder (head[i]?) path then
            (Bind_Values_Inner_Loop_cell binder v context bt amt true).cells.headD v else v) := by
  unfold cellAt
  rw [Bind_Values_Inner_Loop_no_midstream binder context bt amt true hkinds hamt]
  simp only [List.getElem?_map]
  exact Bind_under_no_midstream binder context bt amt hkinds hamt path _

/-! ## The virtual bind, unfolded -/

theorem Virtual_Bind_checked (spec : Cell)
    (hvalid : ∀ item ∈ Virtual_Bind_Deep_To_New_Context_items spec,
      IS_WORD item = true ∨ IS_QUOTED_WORD item = true) :
    (if IS_BLOCK spec = true then
        Virtual_Bind_Deep_To_New_Context_check (Virtual_Bind_Deep_To_New_Context_items spec) false
      else (IS_WORD spec, none))
      = ((Virtual_Bind_Deep_To_New_Context_items spec).any IS_WORD, none) := by
  by_cases hb : IS_BLOCK spec = true
  · rw [if_pos hb, Virtual_Bind_check_valid _ _ hvalid]
    simp
  · rw [if_neg hb]
    simp [Virtual_Bind_Deep_To_New_Context_items, hb]

theorem Virtual_Bind_unfold_rebinding (ts : Typesets) (stack id : Nat) (binder : Reb_Binder)
    (past rest : List Cell) (b : Option REBNOD) (spec : Cell) (copy : List Cell)
    (hne : Virtual_Bind_Deep_To_New_Context_items spec ≠ [])
    (hvalid : ∀ item ∈ Virtual_Bind_Deep_To_New_Context_items spec,
      IS_WORD item = true ∨ IS_QUOTED_WORD item = true)
    (hplain : (Virtual_Bind_Deep_To_New_Context_items spec).any IS_WORD = true)
    (hcopy : Copy_Array_Core_Managed ts stack (past ++ rest) past.length b
      (past ++ rest).length TS_ARRAY = .ok copy) :
    Virtual_Bind_Deep_To_New_Context ts stack id binder (.array .REB_BLOCK 0 past rest b) spec
      = ⟨.array .REB_BLOCK 0 []
          (match (Virtual_Bind_Deep_To_New_Context_slots true
              (if IS_BLOCK spec then VAL_SPECIFIER spec else none) binder none
              (Virtual_Bind_Deep_To_New_Context_items spec) 1).duplicate with
            | none => copy.map (fun v =>
                (Bind_Values_Inner_Loop_cell
                  (Virtual_Bind_Deep_To_New_Context_slots true
                    (if IS_BLOCK spec then VAL_SPECIFIER spec else none) binder none
                    (Virtual_Bind_Deep_To_New_Context_items spec) 1).binder v
                  ⟨id, false,
                    (Virtual_Bind_Deep_To_New_Context_slots true
                      (if IS_BLOCK spec then VAL_SPECIFIER spec else none) binder none
                      (Virtual_Bind_Deep_To_New_Context_items spec) 1).keys,
                    (Virtual_Bind_Deep_To_New_Context_slots true
                      (if IS_BLOCK spec then VAL_SPECIFIER spec else none) binder none
                      (Virtual_Bind_Deep_To_New_Context_items spec) 1).vars, true⟩
                  TS_WORD (fun _ => false) true).cells.headD v)
            | some _ => copy) UNBOUND,
        some ⟨id, false,
          (Virtual_Bind_Deep_To_New_Context_slots true
            (if IS_BLOCK spec then VAL_SPECIFIER spec else none) binder none
            (Virtual_Bind_Deep_To_New_Context_items spec) 1).keys,
          (Virtual_Bind_Deep_To_New_Context_slots true
            (if IS_BLOCK spec then VAL_SPECIFIER spec else none) binder none
            (Virtual_Bind_Deep_To_New_Context_items spec) 1).vars, true⟩,
        Virtual_Bind_Deep_To_New_Context_reset
          (Virtual_Bind_Deep_To_New_Context_slots true
            (if IS_BLOCK spec then VAL_SPECIFIER spec else none) binder none
            (Virtual_Bind_Deep_To_New_Context_items spec) 1).binder
          (Virtual_Bind_Deep_To_New_Context_slots true
            (if IS_BLOCK spec then VAL_SPECIFIER spec else none) binder none
            (Virtual_Bind_Deep_To_New_Context_items spec) 1).keys,
        match (Virtual_Bind_Deep_To_New_Context_slots true
            (if IS_BLOCK spec then VAL_SPECIFIER spec else none) binder none
            (Virtual_Bind_Deep_To_New_Context_items spec) 1).duplicate with
          | none => none
          | some d => some (.DuplicateLoopVariable d)⟩ := by
  have hlen : (Virtual_Bind_Deep_To_New_Context_items spec).length ≠ 0 := by
    intro h
    exact hne (List.length_eq_zero.mp h)
  have hk := Virtual_Bind_slots_keys (if IS_BLOCK spec then VAL_SPECIFIER spec else none) true
    (Virtual_Bind_Deep_To_New_Context_items spec) binder none 1 hvalid
  generalize hsl : Virtual_Bind_Deep_To_New_Context_slots true
    (if IS_BLOCK spec then VAL_SPECIFIER spec else none) binder none
    (Virtual_Bind_Deep_To_New_Context_items spec) 1 = slots at hk ⊢
  obtain ⟨sb, sk, sv, sd, se⟩ := slots
  simp only at hk
  obtain ⟨he, -, -⟩ := hk
  subst he
  have hkinds : ∀ kind, TS_WORD kind = true → TS_WORD kind = true := fun _ h => h
  have hbind := Bind_Values_Inner_Loop_no_midstream sb ⟨id, false, sk, sv, true⟩ TS_WORD
    (fun _ => false) true hkinds (fun _ => rfl) copy
  have hb1 : IS_BLOCK (Cell.array .REB_BLOCK 0 past rest b) = true := rfl
  have hb2 : VAL_ARRAY (Cell.array .REB_BLOCK 0 past rest b) = past ++ rest := rfl
  have hb3 : VAL_INDEX (Cell.array .REB_BLOCK 0 past rest b) = past.length := rfl
  have hb4 : VAL_SPECIFIER (Cell.array .REB_BLOCK 0 past rest b) = b := rfl
  have hb5 : VAL_ARRAY_AT (Init_Block copy) = copy := rfl
  unfold Virtual_Bind_Deep_To_New_Context
  simp only [hb1, hb2, hb3, hb4, Bool.not_true, Bool.false_eq_true, if_false, hlen,
    Virtual_Bind_checked spec hvalid, hplain, if_true, hcopy, hsl, hb5]
  cases sd with
  | none => simp only [hbind]
  | some d => simp only []

theorem Virtual_Bind_unfold_quoted (ts : Typesets) (stack id : Nat) (binder : Reb_Binder)
    (past rest : List Cell) (b : Option REBNOD) (spec : Cell)
    (hne : Virtual_Bind_Deep_To_New_Context_items spec ≠ [])
    (hquoted : ∀ item ∈ Virtual_Bind_Deep_To_New_Context_items spec,
      IS_QUOTED_WORD item = true) :
    Virtual_Bind_Deep_To_New_Context ts stack id binder (.array .REB_BLOCK 0 past rest b) spec
      = ⟨.array .REB_BLOCK 0 past rest b,
        some ⟨id, false,
          (Virtual_Bind_Deep_To_New_Context_slots false
            (if IS_BLOCK spec then VAL_SPECIFIER spec else none) binder none
            (Virtual_Bind_Deep_To_New_Context_items spec) 1).keys,
          (Virtual_Bind_Deep_To_New_Context_slots false
            (if IS_BLOCK spec then VAL_SPECIFIER spec else none) binder none
            (Virtual_Bind_Deep_To_New_Context_items spec) 1).vars, true⟩,
        binder, none⟩ := by
  have hlen : (Virtual_Bind_Deep_To_New_Context_items spec).length ≠ 0 := by
    intro h
    exact hne (List.length_eq_zero.mp h)
  have hvalid : ∀ item ∈ Virtual_Bind_Deep_To_New_Context_items spec,
      IS_WORD item = true ∨ IS_QUOTED_WORD item = true := fun e he => Or.inr (hquoted e he)
  have hplain : (Virtual_Bind_Deep_To_New_Context_items spec).any IS_WORD = false := by
    rw [List.any_eq_false]
    intro e he hw
    have hq := hquoted e he
    obtain ⟨s, bd, i, rfl | rfl⟩ := spec_item_shape e (Or.inl hw)
    · simp [IS_QUOTED_WORD] at hq
    · simp [IS_WORD] at hw
  have hk := Virtual_Bind_slots_keys (if IS_BLOCK spec then VAL_SPECIFIER spec else none) false
    (Virtual_Bind_Deep_To_New_Context_items spec) binder none 1 hvalid
  have hq := Virtual_Bind_slots_quoted (if IS_BLOCK spec then VAL_SPECIFIER spec else none)
    (Virtual_Bind_Deep_To_New_Context_items spec) binder none 1 hquoted
  generalize hsl : Virtual_Bind_Deep_To_New_Context_slots false
    (if IS_BLOCK spec then VAL_SPECIFIER spec else none) binder none
    (Virtual_Bind_Deep_To_New_Context_items spec) 1 = slots at hk hq ⊢
  obtain ⟨sb, sk, sv, sd, se⟩ := slots
  simp only at hk hq
  obtain ⟨he, -, -⟩ := hk
  obtain ⟨hb, -⟩ := hq
  subst he hb
  have hb1 : IS_BLOCK (Cell.array .REB_BLOCK 0 past rest b) = true := rfl
  unfold Virtual_Bind_Deep_To_New_Context
  simp only [hb1, Bool.not_true, Bool.false_eq_true, if_false, hlen,
    Virtual_Bind_checked spec hvalid, hplain, hsl, Bool.not_false, if_true]

theorem Virtual_Bind_unfold_copy_error (ts : Typesets) (stack id : Nat) (binder : Reb_Binder)
    (past rest : List Cell) (b : Option REBNOD) (spec : Cell) (e : Error)
    (hne : Virtual_Bind_Deep_To_New_Context_items spec ≠ [])
    (hvalid : ∀ item ∈ Virtual_Bind_Deep_To_New_Context_items spec,
      IS_WORD item = true ∨ IS_QUOTED_WORD item = true)
    (hplain : (Virtual_Bind_Deep_To_New_Context_items spec).any IS_WORD = true)
    (hcopy : Copy_Array_Core_Managed ts stack (past ++ rest) past.length b
      (past ++ rest).length TS_ARRAY = .error e) :
    Virtual_Bind_Deep_To_New_Context ts stack id binder (.array .REB_BLOCK 0 past rest b) spec
      = ⟨.array .REB_BLOCK 0 past rest b, none, binder, some e⟩ := by
  have hlen : (Virtual_Bind_Deep_To_New_Context_items spec).length ≠ 0 := by
    intro h
    exact hne (List.length_eq_zero.mp h)
  have hb1 : IS_BLOCK (Cell.array .REB_BLOCK 0 past rest b) = true := rfl
  have hb2 : VAL_ARRAY (Cell.array .REB_BLOCK 0 past rest b) = past ++ rest := rfl
  have hb3 : VAL_INDEX (Cell.array .REB_BLOCK 0 past rest b) = past.length := rfl
  have hb4 : VAL_SPECIFIER (Cell.array .REB_BLOCK 0 past rest b) = b := rfl
  unfold Virtual_Bind_Deep_To_New_Context
  simp only [hb1, hb2, hb3, hb4, Bool.not_true, Bool.false_eq_true, if_false, hlen,
    Virtual_Bind_checked spec hvalid, hplain, if_true, hcopy]

mutual
theorem Clonify_Derelativized_error (ts : Typesets) (types : REBU64) :
    ∀ (src : Cell) (stack : Nat) (specifier : Option REBNOD) (e : Error),
      Clonify_Derelativized ts types stack specifier src = .error e → e = .StackOverflow
  | src, 0, specifier, e, h => by
    simp only [Clonify_Derelativized] at h
    cases h
    rfl
  | .word k q s b i, stack + 1, specifier, e, h => by simp [Clonify_Derelativized] at h
  | .action q b, stack + 1, specifier, e, h => by simp [Clonify_Derelativized] at h
  | .other y q, stack + 1, specifier, e, h => by simp [Clonify_Derelativized] at h
  | .array k q past rest b, stack + 1, specifier, e, h => by
    simp only [Clonify_Derelativized] at h
    split_ifs at h
    · cases h1 : Clonify_Derelativized_each ts types stack
          (VAL_SPECIFIER (Derelativize (.array k q past rest b) specifier)) past with
      | error e1 =>
        rw [h1] at h
        simp only [Except.error.injEq] at h
        subst h
        exact Clonify_Derelativized_each_error ts types past stack _ _ h1
      | ok past2 =>
        rw [h1] at h
        cases h2 : Clonify_Derelativized_each ts types stack
            (VAL_SPECIFIER (Derelativize (.array k q past rest b) specifier)) rest with
        | error e2 =>
          rw [h2] at h
          simp only [Except.error.injEq] at h
          subst h
          exact Clonify_Derelativized_each_error ts types rest stack _ _ h2
        | ok rest2 =>
          rw [h2] at h
          simp at h
theorem Clonify_Derelativized_each_error (ts : Typesets) (types : REBU64) :
    ∀ (srcs : List Cell) (stack : Nat) (specifier : Option REBNOD) (e : Error),
      Clonify_Derelativized_each ts types stack specifier srcs = .error e → e = .StackOverflow
  | [], stack, specifier, e, h => by simp [Clonify_Derelativized_each] at h
  | src :: rest, stack, specifier, e, h => by
    simp only [Clonify_Derelativized_each] at h
    cases h1 : Clonify_Derelativized ts types stack specifier src with
    | error e1 =>
      rw [h1] at h
      simp only [Except.error.injEq] at h
      subst h
      exact Clonify_Derelativized_error ts types src stack specifier _ h1
    | ok dest =>
      rw [h1] at h
      cases h2 : Clonify_Derelativized_each ts types stack specifier rest with
      | error e2 =>
        rw [h2] at h
        simp only [Except.error.injEq] at h
        subst h
        exact Clonify_Derelativized_each_error ts types rest stack specifier _ h2
      | ok dests =>
        rw [h2] at h
        simp at h
end

theorem Copy_Array_Core_Managed_error (ts : Typesets) (types : REBU64) (stack : Nat)
    (original : List Cell) (index tail : Nat) (specifier : Option REBNOD) (e : Error)
    (htail : tail ≤ original.length)
    (h : Copy_Array_Core_Managed ts stack original index specifier tail types = .error e) :
    e = .StackOverflow := by
  simp only [Copy_Array_Core_Managed, Copy_Array_Core_Managed_Inner_Loop] at h
  split_ifs at h
  all_goals first
    | exact Clonify_Derelativized_each_error ts types _ stack specifier e h
    | (exfalso; omega)

theorem Virtual_Bind_slot_invalid (rebinding : Bool) (specifier : Option REBNOD)
    (binder : Reb_Binder) (duplicate : Option REBSTR) (item : Cell) (index : Nat)
    (hw : IS_WORD item = false) (hq : IS_QUOTED_WORD item = false) :
    Virtual_Bind_Deep_To_New_Context_slot rebinding specifier binder duplicate item index
      = .error .AssertFailed := by
  cases item with
  | word k q s b i => simp [Virtual_Bind_Deep_To_New_Context_slot, hw, hq]
  | array k q past rest b => rfl
  | action q b => rfl
  | other y q => rfl

theorem specConflict_iff (a c : Cell) :
    specConflict a c = true ↔
      VAL_WORD_CANON a = VAL_WORD_CANON c ∧ (IS_WORD a = true ∨ IS_WORD c = true) := by
  simp [specConflict]

theorem firstConflict_iff (items : List Cell)
    (hvalid : ∀ item ∈ items, IS_WORD item = true ∨ IS_QUOTED_WORD item = true) :
    (∃ sym, firstConflict [] items = some sym) ↔
      ∃ (i j : Nat) (a c : Cell), i < j ∧ items[i]? = some a ∧ items[j]? = some c ∧
        VAL_WORD_CANON a = VAL_WORD_CANON c ∧ (IS_WORD a = true ∨ IS_WORD c = true) := by
  constructor
  · rintro ⟨sym, h⟩
    obtain ⟨j, f, hf, -, hany, -⟩ := firstConflict_some items [] sym h
    rw [List.nil_append, any_take_iff] at hany
    obtain ⟨i, a, hlt, ha, hc⟩ := hany
    exact ⟨i, j, a, f, hlt, ha, hf, (specConflict_iff a f).mp hc⟩
  · rintro ⟨i, j, a, c, hlt, ha, hc, hcon⟩
    cases hfc : firstConflict [] items with
    | some sym => exact ⟨sym, rfl⟩
    | none =>
      exfalso
      have := firstConflict_none items [] hvalid hfc j c hc
      rw [List.nil_append] at this
      have h2 : (items.take j).any (fun e => specConflict e c) = true :=
        (any_take_iff items j _).mpr ⟨i, a, hlt, ha, (specConflict_iff a c).mpr hcon⟩
      rw [this] at h2
      exact Bool.noConfusion h2

theorem Virtual_Bind_slots_duplicate (specifier : Option REBNOD) (binder : Reb_Binder)
    (items : List Cell)
    (hempty : ∀ canon, Get_Binder_Index_Else_0 binder canon = 0)
    (hvalid : ∀ item ∈ items, IS_WORD item = true ∨ IS_QUOTED_WORD item = true) :
    (Virtual_Bind_Deep_To_New_Context_slots true specifier binder none items 1).duplicate
        = firstConflict [] items ∧
      ((Virtual_Bind_Deep_To_New_Context_slots true specifier binder none items 1).duplicate
          = none →
        SpecSeeded (Virtual_Bind_Deep_To_New_Context_slots true specifier binder none items
          1).binder items) := by
  have := Virtual_Bind_slots_spec specifier items [] binder hvalid (SpecSeeded_nil binder hempty)
  simpa using this

theorem spec_slots_at (specifier : Option REBNOD) (items : List Cell) (ks : List REBKEY)
    (vs : List REBVAR) (hk : ks.map some = items.map specKey)
    (hv : vs = items.map (specVar specifier)) :
    ks.length = items.length ∧ vs.length = items.length ∧
    ∀ (i : Nat) (item : Cell), items[i]? = some item →
      ∃ key var, ks[i]? = some key ∧ vs[i]? = some var ∧
        VAL_WORD_SPELLING item = some key.spelling ∧
        key.unbindable = !IS_WORD item ∧ key.hidden = !IS_WORD item ∧
        var = specVar specifier item := by
  refine ⟨?_, ?_, ?_⟩
  · have := congrArg List.length hk
    simpa using this
  · rw [hv, List.length_map]
  · intro i item hi
    have h1 : (ks.map some)[i]? = (items.map specKey)[i]? := by rw [hk]
    rw [List.getElem?_map, List.getElem?_map, hi, Option.map_some'] at h1
    cases hki : ks[i]? with
    | none => rw [hki] at h1; simp at h1
    | some key =>
      rw [hki] at h1
      simp only [Option.map_some', Option.some.injEq] at h1
      refine ⟨key, specVar specifier item, rfl, ?_, ?_⟩
      · rw [hv, List.getElem?_map, hi, Option.map_some']
      · unfold specKey at h1
        cases hs : VAL_WORD_SPELLING item with
        | none => rw [hs] at h1; simp at h1
        | some s =>
          rw [hs] at h1
          simp only [Option.some.injEq] at h1
          subst h1
          exact ⟨rfl, rfl, rfl, rfl⟩

theorem Virtual_Bind_empty_spec (ts : Typesets) (stack id : Nat) (binder : Reb_Binder)
    (past rest : List Cell) (b : Option REBNOD) (spec : Cell)
    (hnil : Virtual_Bind_Deep_To_New_Context_items spec = []) :
    Virtual_Bind_Deep_To_New_Context ts stack id binder (.array .REB_BLOCK 0 past rest b) spec
      = ⟨.array .REB_BLOCK 0 past rest b, none, binder, some .InvalidLoopSpec⟩ := by
  have hb1 : IS_BLOCK (Cell.array .REB_BLOCK 0 past rest b) = true := rfl
  unfold Virtual_Bind_Deep_To_New_Context
  simp [hb1, hnil]

theorem spec_all_quoted_of_not_plain (items : List Cell)
    (hvalid : ∀ item ∈ items, IS_WORD item = true ∨ IS_QUOTED_WORD item = true)
    (hplain : ¬ items.any IS_WORD = true) :
    ∀ item ∈ items, IS_QUOTED_WORD item = true := by
  intro e he
  rcases hvalid e he with h | h
  · exact absurd (List.any_eq_true.mpr ⟨e, he, h⟩) hplain
  · exact h

theorem Virtual_Bind_error_of_copy (ts : Typesets) (stack id : Nat) (binder : Reb_Binder)
    (past rest : List Cell) (b : Option REBNOD) (spec : Cell) (copy : List Cell)
    (hempty : ∀ canon, Get_Binder_Index_Else_0 binder canon = 0)
    (hne : Virtual_Bind_Deep_To_New_Context_items spec ≠ [])
    (hvalid : ∀ item ∈ Virtual_Bind_Deep_To_New_Context_items spec,
      IS_WORD item = true ∨ IS_QUOTED_WORD item = true)
    (hplain : (Virtual_Bind_Deep_To_New_Context_items spec).any IS_WORD = true)
    (hcopy : Copy_Array_Core_Managed ts stack (past ++ rest) past.length b
      (past ++ rest).length TS_ARRAY = .ok copy) :
    (Virtual_Bind_Deep_To_New_Context ts stack id binder (.array .REB_BLOCK 0 past rest b)
        spec).error
      = match firstConflict [] (Virtual_Bind_Deep_To_New_Context_items spec) with
        | none => none
        | some d => some (.DuplicateLoopVariable d) := by
  rw [Virtual_Bind_unfold_rebinding ts stack id binder past rest b spec copy hne hvalid hplain
    hcopy]
  simp only []
  rw [(Virtual_Bind_slots_duplicate _ binder _ hempty hvalid).1]

theorem Virtual_Bind_error_dup (ts : Typesets) (stack id : Nat) (binder : Reb_Binder)
    (past rest : List Cell) (b : Option REBNOD) (spec : Cell) (sym : REBSTR)
    (hempty : ∀ canon, Get_Binder_Index_Else_0 binder canon = 0)
    (hvalid : ∀ item ∈ Virtual_Bind_Deep_To_New_Context_items spec,
      IS_WORD item = true ∨ IS_QUOTED_WORD item = true)
    (herr : (Virtual_Bind_Deep_To_New_Context ts stack id binder
      (.array .REB_BLOCK 0 past rest b) spec).error = some (.DuplicateLoopVariable sym)) :
    firstConflict [] (Virtual_Bind_Deep_To_New_Context_items spec) = some sym := by
  by_cases hne : Virtual_Bind_Deep_To_New_Context_items spec = []
  · rw [Virtual_Bind_empty_spec ts stack id binder past rest b spec hne] at herr
    simp at herr
  by_cases hplain : (Virtual_Bind_Deep_To_New_Context_items spec).any IS_WORD = true
  · cases hcopy : Copy_Array_Core_Managed ts stack (past ++ rest) past.length b
        (past ++ rest).length TS_ARRAY with
    | error e =>
      rw [Virtual_Bind_unfold_copy_error ts stack id binder past rest b spec e hne hvalid
        hplain hcopy] at herr
      have := Copy_Array_Core_Managed_error ts TS_ARRAY stack (past ++ rest) past.length
        (past ++ rest).length b e (le_refl _) hcopy
      subst this
      simp at herr
    | ok copy =>
      rw [Virtual_Bind_error_of_copy ts stack id binder past rest b spec copy hempty hne
        hvalid hplain hcopy] at herr
      cases hfc : firstConflict [] (Virtual_Bind_Deep_To_New_Context_items spec) with
      | none => rw [hfc] at herr; simp at herr
      | some d =>
        rw [hfc] at herr
        simp only [Option.some.injEq, Error.DuplicateLoopVariable.injEq] at herr
        rw [herr]
  · have hquoted := spec_all_quoted_of_not_plain _ hvalid hplain
    rw [Virtual_Bind_unfold_quoted ts stack id binder past rest b spec hne hquoted] at herr
    simp at herr

theorem spec_plain_of_conflict (items : List Cell)
    (h : ∃ (i j : Nat) (a c : Cell), i < j ∧ items[i]? = some a ∧ items[j]? = some c ∧
      VAL_WORD_CANON a = VAL_WORD_CANON c ∧ (IS_WORD a = true ∨ IS_WORD c = true)) :
    items.any IS_WORD = true := by
  obtain ⟨i, j, a, c, -, ha, hc, -, hw | hw⟩ := h
  · exact List.any_eq_true.mpr ⟨a, List.getElem?_mem ha, hw⟩
  · exact List.any_eq_true.mpr ⟨c, List.getElem?_mem hc, hw⟩

/-! ## Binding one word -/

theorem Find_Canon_In_Context_scan_eq (canon : Nat) : ∀ (keys : List REBKEY) (n : Nat),
    Find_Canon_In_Context_scan keys canon false n = bindableIndex keys canon n
  | [], _ => rfl
  | key :: rest, n => by
    rw [Find_Canon_In_Context_scan, bindableIndex, Find_Canon_In_Context_scan_eq canon rest]
    simp only [Bool.false_or]
    rw [Bool.and_comm]

/-! ## The shallow copy of at most `max` cells -/

theorem Copy_Array_At_Max_Shallow_loop_ok (specifier : Option REBNOD) :
    ∀ (src : List Cell) (count : Nat), count ≤ src.length →
    Copy_Array_At_Max_Shallow_loop src count specifier
      = some ((src.take count).map (fun v => Derelativize v specifier))
  | [], count, h => by
    have : count = 0 := by simpa using h
    subst this
    rfl
  | v :: rest, count, h => by
    rw [Copy_Array_At_Max_Shallow_loop]
    cases count with
    | zero => simp
    | succ m =>
      have hm : m ≤ rest.length := by simpa using h
      simp [Copy_Array_At_Max_Shallow_loop_ok specifier rest m hm]

theorem Copy_Array_At_Max_Shallow_loop_past (specifier : Option REBNOD) :
    ∀ (src : List Cell) (count : Nat), src.length < count →
    Copy_Array_At_Max_Shallow_loop src count specifier = none
  | [], count, h => by
    have : count ≠ 0 := by
      intro h0
      subst h0
      simp at h
    simp [Copy_Array_At_Max_Shallow_loop, this]
  | v :: rest, count, h => by
    rw [Copy_Array_At_Max_Shallow_loop]
    have h0 : count ≠ 0 := by
      intro h0
      subst h0
      simp at h
    have hm : rest.length < count - 1 := by
      simp only [List.length_cons] at h
      omega
    simp [h0, Copy_Array_At_Max_Shallow_loop_past specifier rest (count - 1) hm]

/-! ## The interning Binder -/

theorem Init_Interning_Binder_positives_eq : ∀ (keys : List REBKEY) (b : Reb_Binder)
    (idx : Nat),
    Init_Interning_Binder_positives b keys idx = Copy_And_Bind_Relative_seed b keys idx
  | [], _, _ => rfl
  | key :: rest, b, idx => by
    rw [Init_Interning_Binder_positives, Copy_And_Bind_Relative_seed]
    cases Add_Binder_Index b (VAL_KEY_CANON key) idx with
    | error e => rfl
    | ok b2 => exact Init_Interning_Binder_positives_eq rest b2 (idx + 1)

theorem Init_Interning_Binder_negatives_spec : ∀ (keys : List REBKEY) (idx : Nat)
    (b : Reb_Binder), 0 < idx →
    (Init_Interning_Binder_negatives b keys idx).2 = none ∧
      ∀ s, (Init_Interning_Binder_negatives b keys idx).1.index s
        = if b.index s ≠ 0 then b.index s
          else if s ∈ keys.map VAL_KEY_CANON
            then -(((idx + (keys.map VAL_KEY_CANON).indexOf s : Nat)) : Int)
            else 0
  | [], idx, b, _ => by
    refine ⟨rfl, fun s => ?_⟩
    simp only [Init_Interning_Binder_negatives, List.map_nil, List.not_mem_nil, if_false]
    split_ifs with h
    · rfl
    · simpa using h
  | key :: rest, idx, b, hidx => by
    rw [Init_Interning_Binder_negatives]
    by_cases h0 : b.index (VAL_KEY_CANON key) = 0
    · have ih := Init_Interning_Binder_negatives_spec rest (idx + 1)
        ⟨Function.update b.index (VAL_KEY_CANON key) (-(idx : Int))⟩ (Nat.succ_pos idx)
      simp only [Get_Binder_Index_Else_0, h0, if_true, Add_Binder_Index, Try_Add_Binder_Index,
        ne_eq, not_true_eq_false, if_false]
      refine ⟨ih.1, fun s => ?_⟩
      rw [ih.2 s]
      by_cases hs : s = VAL_KEY_CANON key
      · subst hs
        have hne : ¬ (-(idx : Int)) = 0 := by omega
        simp [h0, hne]
      · have hs2 : ¬ VAL_KEY_CANON key = s := fun h => hs h.symm
        simp only [Function.update_noteq hs, List.map_cons, List.mem_cons, hs, false_or]
        by_cases hb : b.index s = 0
        · simp only [hb, ne_eq, not_true_eq_false, if_false]
          by_cases hm : s ∈ rest.map VAL_KEY_CANON
          · simp only [hm, if_true]
            rw [List.indexOf_cons_ne _ hs2]
            push_cast
            omega
          · simp only [hm, if_false]
        · simp only [ne_eq, hb, not_false_eq_true, if_true]
    · have ih := Init_Interning_Binder_negatives_spec rest (idx + 1) b (Nat.succ_pos idx)
      simp only [Get_Binder_Index_Else_0, h0, if_false]
      refine ⟨ih.1, fun s => ?_⟩
      rw [ih.2 s]
      by_cases hs : s = VAL_KEY_CANON key
      · subst hs
        simp [h0]
      · have hs2 : ¬ VAL_KEY_CANON key = s := fun h => hs h.symm
        simp only [List.map_cons, List.mem_cons, hs, false_or]
        by_cases hb : b.index s = 0
        · simp only [hb, ne_eq, not_true_eq_false, if_false]
          by_cases hm : s ∈ rest.map VAL_KEY_CANON
          · simp only [hm, if_true]
            rw [List.indexOf_cons_ne _ hs2]
            push_cast
            omega
          · simp only [hm, if_false]
        · simp only [ne_eq, hb, not_false_eq_true, if_true]

theorem Init_Interning_Binder_spec (Lib_Context : REBCTX) (binder : Reb_Binder) (ctx : REBCTX)
    (hempty : ∀ canon, Get_Binder_Index_Else_0 binder canon = 0)
    (hctx : (ctx.keys.map VAL_KEY_CANON).Nodup) :
    (Init_Interning_Binder Lib_Context binder ctx).2 = none ∧
    ∀ s, (Init_Interning_Binder Lib_Context binder ctx).1.index s
      = if s ∈ ctx.keys.map VAL_KEY_CANON
        then (((1 + (ctx.keys.map VAL_KEY_CANON).indexOf s : Nat)) : Int)
        else if NOD ctx ≠ NOD Lib_Context ∧ s ∈ Lib_Context.keys.map VAL_KEY_CANON
          then -(((1 + (Lib_Context.keys.map VAL_KEY_CANON).indexOf s : Nat)) : Int)
          else 0 := by
  have hseed := Copy_And_Bind_Relative_seed_spec ctx.keys 1 binder hctx (fun s _ => hempty s)
  rw [← Init_Interning_Binder_positives_eq] at hseed
  unfold Init_Interning_Binder
  generalize hp : Init_Interning_Binder_positives binder ctx.keys 1 = pos at hseed
  obtain ⟨b1, e1⟩ := pos
  simp only at hseed
  obtain ⟨he, hidx⟩ := hseed
  subst he
  have hbinder : ∀ s, binder.index s = 0 := hempty
  simp only []
  by_cases hne : NOD ctx ≠ NOD Lib_Context
  · rw [if_pos hne]
    have hneg := Init_Interning_Binder_negatives_spec Lib_Context.keys 1 b1 (by omega)
    refine ⟨hneg.1, fun s => ?_⟩
    rw [hneg.2 s, hidx s]
    by_cases hm : s ∈ ctx.keys.map VAL_KEY_CANON
    · have : (((1 + (ctx.keys.map VAL_KEY_CANON).indexOf s : Nat)) : Int) ≠ 0 := by omega
      simp only [hm, if_true]
      rw [if_pos this]
    · simp only [hm, if_false, hbinder s, ne_eq, not_true_eq_false, hne, not_false_eq_true,
        true_and]
  · rw [if_neg hne]
    refine ⟨rfl, fun s => ?_⟩
    rw [hidx s]
    by_cases hm : s ∈ ctx.keys.map VAL_KEY_CANON
    · simp [hm]
    · simp [hm, hbinder s, hne]

theorem Shutdown_Interning_Binder_positives_spec : ∀ (keys : List REBKEY) (idx : Nat)
    (b : Reb_Binder), (keys.map VAL_KEY_CANON).Nodup →
    (∀ s ∈ keys.map VAL_KEY_CANON,
      b.index s = (((idx + (keys.map VAL_KEY_CANON).indexOf s : Nat)) : Int)) →
    (Shutdown_Interning_Binder_positives b keys idx).2 = true ∧
      ∀ s, (Shutdown_Interning_Binder_positives b keys idx).1.index s
        = if s ∈ keys.map VAL_KEY_CANON then 0 else b.index s
  | [], _, _, _, _ => by simp [Shutdown_Interning_Binder_positives]
  | key :: rest, idx, b, hnd, hb => by
    simp only [List.map_cons, List.nodup_cons] at hnd
    have hk : b.index (VAL_KEY_CANON key) = (idx : Int) := by
      have := hb (VAL_KEY_CANON key) (by simp)
      simpa using this
    have ih := Shutdown_Interning_Binder_positives_spec rest (idx + 1)
      ⟨Function.update b.index (VAL_KEY_CANON key) 0⟩ hnd.2 (by
        intro s hs
        have hne : s ≠ VAL_KEY_CANON key := fun h => hnd.1 (h ▸ hs)
        have hne2 : ¬ VAL_KEY_CANON key = s := fun h => hne h.symm
        simp only [Function.update_noteq hne]
        have := hb s (by simp only [List.map_cons, List.mem_cons]; exact Or.inr hs)
        rw [this, List.map_cons, List.indexOf_cons_ne _ hne2]
        push_cast
        omega)
    simp only [Shutdown_Interning_Binder_positives, Remove_Binder_Index_Else_0, hk,
      decide_True, Bool.true_and]
    refine ⟨ih.1, fun s => ?_⟩
    rw [ih.2 s]
    by_cases hs : s = VAL_KEY_CANON key
    · subst hs
      simp [hnd.1]
    · simp [hs, Function.update_noteq hs]

theorem Shutdown_Interning_Binder_negatives_spec : ∀ (keys : List REBKEY) (idx : Nat)
    (b : Reb_Binder),
    (∀ s ∈ keys.map VAL_KEY_CANON, b.index s = 0 ∨
      b.index s = -(((idx + (keys.map VAL_KEY_CANON).indexOf s : Nat)) : Int)) →
    (Shutdown_Interning_Binder_negatives b keys idx).2 = true ∧
      ∀ s, (Shutdown_Interning_Binder_negatives b keys idx).1.index s
        = if s ∈ keys.map VAL_KEY_CANON then 0 else b.index s
  | [], _, _, _ => by simp [Shutdown_Interning_Binder_negatives]
  | key :: rest, idx, b, hb => by
    have hk : b.index (VAL_KEY_CANON key) = 0 ∨ b.index (VAL_KEY_CANON key) = -(idx : Int) := by
      have := hb (VAL_KEY_CANON key) (by simp)
      simpa using this
    have ih := Shutdown_Interning_Binder_negatives_spec rest (idx + 1)
      ⟨Function.update b.index (VAL_KEY_CANON key) 0⟩ (by
        intro s hs
        by_cases hne : s = VAL_KEY_CANON key
        · subst hne
          left
          simp
        · have hne2 : ¬ VAL_KEY_CANON key = s := fun h => hne h.symm
          simp only [Function.update_noteq hne]
          have := hb s (by simp only [List.map_cons, List.mem_cons]; exact Or.inr hs)
          rw [List.map_cons, List.indexOf_cons_ne _ hne2] at this
          rcases this with h | h
          · exact Or.inl h
          · right
            rw [h]
            push_cast
            omega)
    have hassert : (decide (b.index (VAL_KEY_CANON key) = 0) ||
        decide (b.index (VAL_KEY_CANON key) = -(idx : Int))) = true := by
      rcases hk with h | h <;> simp [h]
    simp only [Shutdown_Interning_Binder_negatives, Remove_Binder_Index_Else_0, hassert,
      Bool.true_and]
    refine ⟨ih.1, fun s => ?_⟩
    rw [ih.2 s]
    by_cases hs : s = VAL_KEY_CANON key
    · subst hs
      simp
    · simp [hs, Function.update_noteq hs]

theorem Shutdown_after_Init (Lib_Context : REBCTX) (binder : Reb_Binder) (ctx : REBCTX)
    (hempty : ∀ canon, Get_Binder_Index_Else_0 binder canon = 0)
    (hctx : (ctx.keys.map VAL_KEY_CANON).Nodup) :
    (Shutdown_Interning_Binder Lib_Context (Init_Interning_Binder Lib_Context binder ctx).1
        ctx).2 = true ∧
      ∀ s, (Shutdown_Interning_Binder Lib_Context
        (Init_Interning_Binder Lib_Context binder ctx).1 ctx).1.index s = 0 := by
  obtain ⟨-, hidx⟩ := Init_Interning_Binder_spec Lib_Context binder ctx hempty hctx
  generalize (Init_Interning_Binder Lib_Context binder ctx).1 = b1 at hidx
  have hpos := Shutdown_Interning_Binder_positives_spec ctx.keys 1 b1 hctx (by
    intro s hs
    rw [hidx s, if_pos hs])
  unfold Shutdown_Interning_Binder
  by_cases hne : NOD ctx ≠ NOD Lib_Context
  · simp only [hne, ne_eq, not_false_eq_true, if_true]
    have hneg := Shutdown_Interning_Binder_negatives_spec Lib_Context.keys 1
      (Shutdown_Interning_Binder_positives b1 ctx.keys 1).1 (by
        intro s hs
        rw [hpos.2 s, hidx s]
        by_cases hm : s ∈ ctx.keys.map VAL_KEY_CANON
        · left
          simp [hm]
        · right
          simp [hm, hne, hs])
    refine ⟨by rw [hpos.1, hneg.1]; rfl, fun s => ?_⟩
    rw [hneg.2 s, hpos.2 s, hidx s]
    by_cases hm : s ∈ ctx.keys.map VAL_KEY_CANON
    · simp [hm]
    · by_cases hl : s ∈ Lib_Context.keys.map VAL_KEY_CANON
      · simp only [hl, if_true]
      · simp only [hl, hm, if_false, and_false]
  · simp only [hne, if_false]
    refine ⟨hpos.1, fun s => ?_⟩
    rw [hpos.2 s, hidx s]
    by_cases hm : s ∈ ctx.keys.map VAL_KEY_CANON
    · simp [hm]
    · simp [hm, hne]

theorem canon_position_iff (keys : List REBKEY) (s p : Nat) (hp : 0 < p)
    (hnd : (keys.map VAL_KEY_CANON).Nodup) :
    (s ∈ keys.map VAL_KEY_CANON ∧ 1 + (keys.map VAL_KEY_CANON).indexOf s = p) ↔
      ∃ key, keys[p - 1]? = some key ∧ VAL_KEY_CANON key = s := by
  constructor
  · rintro ⟨hm, hpos⟩
    have hget := List.getElem?_indexOf hm
    have hp1 : (keys.map VAL_KEY_CANON).indexOf s = p - 1 := by omega
    rw [hp1, List.getElem?_map] at hget
    cases hk : keys[p - 1]? with
    | none => rw [hk] at hget; simp at hget
    | some key =>
      rw [hk] at hget
      simp only [Option.map_some', Option.some.injEq] at hget
      exact ⟨key, rfl, hget⟩
  · rintro ⟨key, hk, hc⟩
    obtain ⟨hm, hio⟩ := indexOf_canon_of_get keys (p - 1) key hnd hk
    rw [hc] at hm hio
    exact ⟨hm, by omega⟩

/-! ## The context and the Binder that the virtual bind leaves -/

theorem Virtual_Bind_context_spec (ts : Typesets) (stack id : Nat) (binder : Reb_Binder)
    (past rest : List Cell) (b : Option REBNOD) (spec : Cell) (c : REBCTX)
    (hvalid : ∀ item ∈ Virtual_Bind_Deep_To_New_Context_items spec,
      IS_WORD item = true ∨ IS_QUOTED_WORD item = true)
    (hctx : (Virtual_Bind_Deep_To_New_Context ts stack id binder
      (.array .REB_BLOCK 0 past rest b) spec).context = some c) :
    c.keys.map some = (Virtual_Bind_Deep_To_New_Context_items spec).map specKey ∧
    c.vars = (Virtual_Bind_Deep_To_New_Context_items spec).map
      (specVar (if IS_BLOCK spec then VAL_SPECIFIER spec else none)) ∧
    c.id = id ∧ c.stack = false ∧ c.dontRelocate = true := by
  by_cases hne : Virtual_Bind_Deep_To_New_Context_items spec = []
  · rw [Virtual_Bind_empty_spec ts stack id binder past rest b spec hne] at hctx
    simp at hctx
  by_cases hplain : (Virtual_Bind_Deep_To_New_Context_items spec).any IS_WORD = true
  · cases hcopy : Copy_Array_Core_Managed ts stack (past ++ rest) past.length b
        (past ++ rest).length TS_ARRAY with
    | error e =>
      rw [Virtual_Bind_unfold_copy_error ts stack id binder past rest b spec e hne hvalid
        hplain hcopy] at hctx
      simp at hctx
    | ok copy =>
      have hk := Virtual_Bind_slots_keys (if IS_BLOCK spec then VAL_SPECIFIER spec else none)
        true (Virtual_Bind_Deep_To_New_Context_items spec) binder none 1 hvalid
      rw [Virtual_Bind_unfold_rebinding ts stack id binder past rest b spec copy hne hvalid
        hplain hcopy] at hctx
      simp only [Option.some.injEq] at hctx
      subst hctx
      exact ⟨hk.2.1, hk.2.2, rfl, rfl, rfl⟩
  · have hquoted := spec_all_quoted_of_not_plain _ hvalid hplain
    have hk := Virtual_Bind_slots_keys (if IS_BLOCK spec then VAL_SPECIFIER spec else none)
      false (Virtual_Bind_Deep_To_New_Context_items spec) binder none 1 hvalid
    rw [Virtual_Bind_unfold_quoted ts stack id binder past rest b spec hne hquoted] at hctx
    simp only [Option.some.injEq] at hctx
    subst hctx
    exact ⟨hk.2.1, hk.2.2, rfl, rfl, rfl⟩

theorem Virtual_Bind_context_some (ts : Typesets) (id : Nat) (binder : Reb_Binder)
    (past rest : List Cell) (b : Option REBNOD) (spec : Cell)
    (hne : Virtual_Bind_Deep_To_New_Context_items spec ≠ [])
    (hvalid : ∀ item ∈ Virtual_Bind_Deep_To_New_Context_items spec,
      IS_WORD item = true ∨ IS_QUOTED_WORD item = true) :
    ∃ n, ∀ stack, n ≤ stack →
      (Virtual_Bind_Deep_To_New_Context ts stack id binder (.array .REB_BLOCK 0 past rest b)
        spec).context.isSome = true := by
  obtain ⟨n, hn⟩ := Copy_Array_Core_Managed_total ts TS_ARRAY (past ++ rest) past.length
    (past ++ rest).length (le_refl _)
  refine ⟨n, fun stack hstack => ?_⟩
  obtain ⟨copy, hcopy⟩ := hn stack hstack b
  by_cases hplain : (Virtual_Bind_Deep_To_New_Context_items spec).any IS_WORD = true
  · rw [Virtual_Bind_unfold_rebinding ts stack id binder past rest b spec copy hne hvalid
      hplain hcopy]
    rfl
  · have hquoted := spec_all_quoted_of_not_plain _ hvalid hplain
    rw [Virtual_Bind_unfold_quoted ts stack id binder past rest b spec hne hquoted]
    rfl

theorem Virtual_Bind_reset_spec : ∀ (keys : List REBKEY) (b : Reb_Binder) (s : Nat),
    (Virtual_Bind_Deep_To_New_Context_reset b keys).index s
      = if s ∈ keys.map VAL_KEY_CANON then 0 else b.index s
  | [], b, s => by simp [Virtual_Bind_Deep_To_New_Context_reset]
  | key :: rest, b, s => by
    rw [Virtual_Bind_Deep_To_New_Context_reset, Virtual_Bind_reset_spec rest]
    by_cases hm : s ∈ rest.map VAL_KEY_CANON
    · simp [hm]
    · by_cases hs : s = VAL_KEY_CANON key
      · subst hs
        simp [hm, Remove_Binder_Index_Else_0]
      · simp only [hm, if_false, List.map_cons, List.mem_cons, hs, or_self,
          Remove_Binder_Index_Else_0, Function.update_noteq hs]

theorem Virtual_Bind_slots_entries (specifier : Option REBNOD) :
    ∀ (items : List Cell) (binder : Reb_Binder) (duplicate : Option REBSTR) (index : Nat),
    0 < index →
    (∀ item ∈ items, IS_WORD item = true ∨ IS_QUOTED_WORD item = true) →
    ∀ c, (Virtual_Bind_Deep_To_New_Context_slots true specifier binder duplicate items
        index).binder.index c ≠ 0 ↔
      (binder.index c ≠ 0 ∨ ∃ e ∈ items, VAL_WORD_CANON e = some c)
  | [], _, _, _, _, _, c => by simp [Virtual_Bind_Deep_To_New_Context_slots]
  | item :: rest, binder, duplicate, index, hidx, h, c => by
    have hrest : ∀ e ∈ rest, IS_WORD e = true ∨ IS_QUOTED_WORD e = true :=
      fun e he => h e (List.mem_cons_of_mem _ he)
    obtain ⟨s, b, i, rfl | rfl⟩ := spec_item_shape item (h item (List.mem_cons_self _ _))
    · rw [Virtual_Bind_Deep_To_New_Context_slots, Virtual_Bind_slot_plain]
      simp only []
      rw [Virtual_Bind_slots_entries specifier rest _ _ (index + 1) (Nat.succ_pos _) hrest c]
      simp only [List.mem_cons, exists_eq_or_imp, VAL_WORD_CANON, Option.some.injEq]
      by_cases h0 : binder.index s.canon = 0
      · simp only [h0, ne_eq, not_true_eq_false, if_false]
        by_cases hc : c = s.canon
        · subst hc
          have : ¬ ((index : Nat) : Int) = 0 := by omega
          simp [this]
        · have hc2 : ¬ s.canon = c := fun h => hc h.symm
          simp [Function.update_noteq hc, hc2]
      · simp only [ne_eq, h0, not_false_eq_true, if_true]
        by_cases hc : c = s.canon
        · subst hc
          simp [h0]
        · have hc2 : ¬ s.canon = c := fun h => hc h.symm
          simp [hc2]
    · rw [Virtual_Bind_Deep_To_New_Context_slots, Virtual_Bind_slot_quoted]
      simp only []
      rw [Virtual_Bind_slots_entries specifier rest _ _ (index + 1) (Nat.succ_pos _) hrest c]
      simp only [List.mem_cons, exists_eq_or_imp, VAL_WORD_CANON, Option.some.injEq, true_and]
      by_cases h0 : binder.index s.canon = 0
      · simp only [h0, if_true]
        by_cases hc : c = s.canon
        · subst hc
          simp
        · have hc2 : ¬ s.canon = c := fun h => hc h.symm
          simp [Function.update_noteq hc, hc2]
      · simp only [h0, if_false]
        by_cases hc : c = s.canon
        · subst hc
          simp [h0]
        · have hc2 : ¬ s.canon = c := fun h => hc h.symm
          simp [hc2]

theorem spec_keys_canons (items : List Cell) (ks : List REBKEY)
    (hvalid : ∀ item ∈ items, IS_WORD item = true ∨ IS_QUOTED_WORD item = true)
    (hk : ks.map some = items.map specKey) (c : Nat) :
    c ∈ ks.map VAL_KEY_CANON ↔ ∃ e ∈ items, VAL_WORD_CANON e = some c := by
  induction items generalizing ks with
  | nil =>
    cases ks with
    | nil => simp
    | cons k ks => simp at hk
  | cons item rest ih =>
    cases ks with
    | nil => simp at hk
    | cons k ks =>
      simp only [List.map_cons, List.cons.injEq] at hk
      have hrest := ih ks (fun e he => hvalid e (List.mem_cons_of_mem _ he)) hk.2
      obtain ⟨s, b, i, rfl | rfl⟩ := spec_item_shape item (hvalid item (List.mem_cons_self _ _))
      · simp only [specKey, VAL_WORD_SPELLING, Option.some.injEq] at hk
        rw [List.map_cons, List.mem_cons, hrest, hk.1]
        simp [VAL_KEY_CANON, VAL_WORD_CANON, eq_comm]
      · simp only [specKey, VAL_WORD_SPELLING, Option.some.injEq] at hk
        rw [List.map_cons, List.mem_cons, hrest, hk.1]
        simp [VAL_KEY_CANON, VAL_WORD_CANON, eq_comm]

theorem Virtual_Bind_reset_empties (specifier : Option REBNOD) (binder : Reb_Binder)
    (items : List Cell)
    (hempty : ∀ canon, Get_Binder_Index_Else_0 binder canon = 0)
    (hvalid : ∀ item ∈ items, IS_WORD item = true ∨ IS_QUOTED_WORD item = true) (c : Nat) :
    (Virtual_Bind_Deep_To_New_Context_reset
      (Virtual_Bind_Deep_To_New_Context_slots true specifier binder none items 1).binder
      (Virtual_Bind_Deep_To_New_Context_slots true specifier binder none items 1).keys).index c
      = 0 := by
  have hk := (Virtual_Bind_slots_keys specifier true items binder none 1 hvalid).2.1
  have hent := Virtual_Bind_slots_entries specifier items binder none 1 (by omega) hvalid c
  rw [Virtual_Bind_reset_spec]
  split_ifs with hm
  · rfl
  · by_contra hne
    rcases hent.mp hne with h | h
    · exact h (hempty c)
    · exact hm ((spec_keys_canons items _ hvalid hk c).mpr h)

theorem Virtual_Bind_dup_unfold (ts : Typesets) (stack id : Nat) (binder : Reb_Binder)
    (past rest : List Cell) (b : Option REBNOD) (spec : Cell) (sym : REBSTR)
    (hvalid : ∀ item ∈ Virtual_Bind_Deep_To_New_Context_items spec,
      IS_WORD item = true ∨ IS_QUOTED_WORD item = true)
    (herr : (Virtual_Bind_Deep_To_New_Context ts stack id binder
      (.array .REB_BLOCK 0 past rest b) spec).error = some (.DuplicateLoopVariable sym)) :
    ∃ copy, Copy_Array_Core_Managed ts stack (past ++ rest) past.length b
        (past ++ rest).length TS_ARRAY = .ok copy ∧
      (Virtual_Bind_Deep_To_New_Context ts stack id binder
        (.array .REB_BLOCK 0 past rest b) spec).body = .array .REB_BLOCK 0 [] copy UNBOUND ∧
      (Virtual_Bind_Deep_To_New_Context ts stack id binder
        (.array .REB_BLOCK 0 past rest b) spec).context.isSome = true := by
  by_cases hne : Virtual_Bind_Deep_To_New_Context_items spec = []
  · rw [Virtual_Bind_empty_spec ts stack id binder past rest b spec hne] at herr
    simp at herr
  by_cases hplain : (Virtual_Bind_Deep_To_New_Context_items spec).any IS_WORD = true
  · cases hcopy : Copy_Array_Core_Managed ts stack (past ++ rest) past.length b
        (past ++ rest).length TS_ARRAY with
    | error e =>
      rw [Virtual_Bind_unfold_copy_error ts stack id binder past rest b spec e hne hvalid
        hplain hcopy] at herr
      have := Copy_Array_Core_Managed_error ts TS_ARRAY stack (past ++ rest) past.length
        (past ++ rest).length b e (le_refl _) hcopy
      subst this
      simp at herr
    | ok copy =>
      refine ⟨copy, rfl, ?_⟩
      rw [Virtual_Bind_unfold_rebinding ts stack id binder past rest b spec copy hne hvalid
        hplain hcopy] at herr ⊢
      simp only [] at herr ⊢
      generalize (Virtual_Bind_Deep_To_New_Context_slots true
        (if IS_BLOCK spec = true then VAL_SPECIFIER spec else none) binder none
        (Virtual_Bind_Deep_To_New_Context_items spec) 1) = slots at herr ⊢
      cases hd : slots.duplicate with
      | none => rw [hd] at herr; simp at herr
      | some d => exact ⟨rfl, rfl⟩
  · have hquoted := spec_all_quoted_of_not_plain _ hvalid hplain
    rw [Virtual_Bind_unfold_quoted ts stack id binder past rest b spec hne hquoted] at herr
    simp at herr

theorem Virtual_Bind_binder_at_exit (ts : Typesets) (stack id : Nat) (binder : Reb_Binder)
    (past rest : List Cell) (b : Option REBNOD) (spec : Cell)
    (hempty : ∀ canon, Get_Binder_Index_Else_0 binder canon = 0)
    (hvalid : ∀ item ∈ Virtual_Bind_Deep_To_New_Context_items spec,
      IS_WORD item = true ∨ IS_QUOTED_WORD item = true) (c : Nat) :
    (Virtual_Bind_Deep_To_New_Context ts stack id binder (.array .REB_BLOCK 0 past rest b)
      spec).binder.index c = 0 := by
  by_cases hne : Virtual_Bind_Deep_To_New_Context_items spec = []
  · rw [Virtual_Bind_empty_spec ts stack id binder past rest b spec hne]
    exact hempty c
  by_cases hplain : (Virtual_Bind_Deep_To_New_Context_items spec).any IS_WORD = true
  · cases hcopy : Copy_Array_Core_Managed ts stack (past ++ rest) past.length b
        (past ++ rest).length TS_ARRAY with
    | error e =>
      rw [Virtual_Bind_unfold_copy_error ts stack id binder past rest b spec e hne hvalid
        hplain hcopy]
      exact hempty c
    | ok copy =>
      rw [Virtual_Bind_unfold_rebinding ts stack id binder past rest b spec copy hne hvalid
        hplain hcopy]
      exact Virtual_Bind_reset_empties _ binder _ hempty hvalid c
  · have hquoted := spec_all_quoted_of_not_plain _ hvalid hplain
    rw [Virtual_Bind_unfold_quoted ts stack id binder past rest b spec hne hquoted]
    exact hempty c

/-! ## What a deep copy returns -/

theorem VAL_SPECIFIER_Derelativize_array (k : ArrayKind) (q : Nat) (past rest : List Cell)
    (b specifier : Option REBNOD) :
    VAL_SPECIFIER (Derelativize (.array k q past rest b) specifier)
      = VAL_SPECIFIER (Derelativize (.array k q [] [] b) specifier) := by
  simp only [Derelativize, IS_RELATIVE, VAL_BINDING]
  split <;> simp [VAL_SPECIFIER, VAL_BINDING, INIT_BINDING]

theorem Clonify_value_each_eq_map (ts : Typesets) (types : REBU64)
    (specifier : Option REBNOD) (srcs : List Cell) :
    Clonify_value_each ts types specifier srcs
      = srcs.map (Clonify_value ts types specifier) := by
  induction srcs with
  | nil => simp [Clonify_value_each]
  | cons v rest ih => simp [Clonify_value_each, ih]

mutual
theorem Clonify_Derelativized_value (ts : Typesets) (types : REBU64) :
    ∀ (src : Cell) (stack : Nat) (specifier : Option REBNOD) (r : Cell),
      Clonify_Derelativized ts types stack specifier src = .ok r →
      r = Clonify_value ts types specifier src
  | src, 0, specifier, r, h => by simp [Clonify_Derelativized] at h
  | .word k q s b i, stack + 1, specifier, r, h => by
    simp only [Clonify_Derelativized, Except.ok.injEq] at h
    rw [← h, Clonify_value]
  | .action q b, stack + 1, specifier, r, h => by
    simp only [Clonify_Derelativized, Except.ok.injEq] at h
    rw [← h, Clonify_value]
  | .other y q, stack + 1, specifier, r, h => by
    simp only [Clonify_Derelativized, Except.ok.injEq] at h
    rw [← h, Clonify_value]
  | .array k q past rest b, stack + 1, specifier, r, h => by
    simp only [Clonify_Derelativized] at h
    rw [Clonify_value]
    rw [VAL_SPECIFIER_Derelativize_array] at h
    split_ifs at h ⊢ with h1 h2
    · cases hp : Clonify_Derelativized_each ts types stack
          (VAL_SPECIFIER (Derelativize (.array k q [] [] b) specifier)) past with
      | error e => rw [hp] at h; simp at h
      | ok past2 =>
        rw [hp] at h
        cases hr : Clonify_Derelativized_each ts types stack
            (VAL_SPECIFIER (Derelativize (.array k q [] [] b) specifier)) rest with
        | error e => rw [hr] at h; simp at h
        | ok rest2 =>
          rw [hr] at h
          simp only [Except.ok.injEq] at h
          rw [← h, Clonify_Derelativized_each_value ts types past stack _ past2 hp,
            Clonify_Derelativized_each_value ts types rest stack _ rest2 hr]
    · simp only [Except.ok.injEq] at h
      exact h.symm
    · simp only [Except.ok.injEq] at h
      exact h.symm
theorem Clonify_Derelativized_each_value (ts : Typesets) (types : REBU64) :
    ∀ (srcs : List Cell) (stack : Nat) (specifier : Option REBNOD) (rs : List Cell),
      Clonify_Derelativized_each ts types stack specifier srcs = .ok rs →
      rs = Clonify_value_each ts types specifier srcs
  | [], stack, specifier, rs, h => by
    simp only [Clonify_Derelativized_each, Except.ok.injEq] at h
    rw [← h, Clonify_value_each]
  | src :: rest, stack, specifier, rs, h => by
    simp only [Clonify_Derelativized_each] at h
    cases h1 : Clonify_Derelativized ts types stack specifier src with
    | error e => rw [h1] at h; simp at h
    | ok dest =>
      rw [h1] at h
      cases h2 : Clonify_Derelativized_each ts types stack specifier rest with
      | error e => rw [h2] at h; simp at h
      | ok dests =>
        rw [h2] at h
        simp only [Except.ok.injEq] at h
        rw [← h, Clonify_value_each, Clonify_Derelativized_value ts types src stack _ dest h1,
          Clonify_Derelativized_each_value ts types rest stack _ dests h2]
end

theorem Copy_Array_Core_Managed_value (ts : Typesets) (types : REBU64) (stack : Nat)
    (original : List Cell) (index tail : Nat) (specifier : Option REBNOD) (copy : List Cell)
    (hidx : index ≤ tail) (htail : tail ≤ original.length)
    (h : Copy_Array_Core_Managed ts stack original index specifier tail types = .ok copy) :
    copy = ((original.drop index).take (tail - index)).map
      (Clonify_value ts types specifier) := by
  simp only [Copy_Array_Core_Managed, Copy_Array_Core_Managed_Inner_Loop] at h
  have h1 : ¬ index > tail := by omega
  have h2 : ¬ index > original.length := by omega
  simp only [h1, if_false, h2, hidx, htail, and_self, if_true] at h
  rw [Clonify_Derelativized_each_value ts types _ stack specifier copy h,
    Clonify_value_each_eq_map]

theorem not_relative_of_binding (v : Cell)
    (h : ∀ p, VAL_BINDING v ≠ some (.paramlist p)) : IS_RELATIVE v = false := by
  unfold IS_RELATIVE
  cases hb : VAL_BINDING v with
  | none => rfl
  | some n =>
    cases n with
    | varlist id st => rfl
    | paramlist p => exact absurd hb (h p)

theorem Derelativize_not_relative (v : Cell) (specifier : Option REBNOD)
    (hsp : ∀ p, specifier ≠ some (.paramlist p)) :
    IS_RELATIVE (Derelativize v specifier) = false := by
  unfold Derelativize
  split_ifs with h
  · cases v with
    | word k q s b i =>
      exact not_relative_of_binding _ (fun p => by simpa [INIT_BINDING, VAL_BINDING] using hsp p)
    | array k q past rest b =>
      exact not_relative_of_binding _ (fun p => by simpa [INIT_BINDING, VAL_BINDING] using hsp p)
    | action q b =>
      exact not_relative_of_binding _ (fun p => by simpa [INIT_BINDING, VAL_BINDING] using hsp p)
    | other y q => rfl
  · simpa using h

theorem VAL_SPECIFIER_Derelativize_not_paramlist (v : Cell) (specifier : Option REBNOD)
    (hsp : ∀ p, specifier ≠ some (.paramlist p)) :
    ∀ p, VAL_SPECIFIER (Derelativize v specifier) ≠ some (.paramlist p) := by
  intro p hp
  have := Derelativize_not_relative v specifier hsp
  simp only [IS_RELATIVE] at this
  rw [VAL_SPECIFIER] at hp
  rw [hp] at this
  simp at this

theorem Derelativize_of_not_relative (v : Cell) (specifier : Option REBNOD)
    (h : IS_RELATIVE v = false) : Derelativize v specifier = v := by
  simp [Derelativize, h]

theorem Clonify_value_not_relative (ts : Typesets) (types : REBU64) (v : Cell)
    (specifier : Option REBNOD) (hsp : ∀ p, specifier ≠ some (.paramlist p)) :
    IS_RELATIVE (Clonify_value ts types specifier v) = false := by
  cases v with
  | word k q s b i =>
    rw [Clonify_value]
    exact Derelativize_not_relative _ _ hsp
  | action q b =>
    rw [Clonify_value]
    exact Derelativize_not_relative _ _ hsp
  | other y q => rfl
  | array k q past rest b =>
    rw [Clonify_value]
    split_ifs
    · rfl
    · rfl
    · have := VAL_SPECIFIER_Derelativize_not_paramlist (.array k q [] [] b) specifier hsp
      exact not_relative_of_binding _ (fun p => by simpa [VAL_BINDING] using this p)

theorem cellUnder_Derelativize (v : Cell) (specifier : Option REBNOD) (j : Nat)
    (path : List Nat) :
    cellUnder (some (Derelativize v specifier)) (j :: path) = cellUnder (some v) (j :: path) := by
  unfold Derelativize
  split_ifs
  · cases v <;> simp [INIT_BINDING, cellUnder, VAL_ARRAY]
  · rfl

theorem Clonify_value_under_cloned (ts : Typesets) (types : REBU64) :
    ∀ (path : List Nat) (v : Cell) (specifier : Option REBNOD) (w : Cell),
    (∀ p, specifier ≠ some (.paramlist p)) →
    clonedUnder ts types (some v) path = true →
    cellUnder (some (Clonify_value ts types specifier v)) path = some w →
    IS_RELATIVE w = false
  | [], v, specifier, w, hsp, _, hw => by
    simp only [cellUnder, Option.some.injEq] at hw
    rw [← hw]
    exact Clonify_value_not_relative ts types v specifier hsp
  | j :: path, .word k q s b i, specifier, w, _, hc, _ => by simp [clonedUnder] at hc
  | j :: path, .action q b, specifier, w, _, hc, _ => by simp [clonedUnder] at hc
  | j :: path, .other y q, specifier, w, _, hc, _ => by simp [clonedUnder] at hc
  | j :: path, .array k q past rest b, specifier, w, hsp, hc, hw => by
    have hb := VAL_SPECIFIER_Derelativize_not_paramlist (.array k q [] [] b) specifier hsp
    simp only [clonedUnder, Bool.and_eq_true, Bool.or_eq_true] at hc
    obtain ⟨⟨hcopies, hdeep⟩, hchild⟩ := hc
    rw [Clonify_value, if_pos hcopies] at hw
    by_cases hd : Clonify_deep ts types (.array k) = true
    · rw [if_pos hd] at hw
      simp only [cellUnder, VAL_ARRAY, Clonify_value_each_eq_map] at hw
      rw [← List.map_append, List.getElem?_map] at hw
      cases hch : (past ++ rest)[j]? with
      | none => rw [hch] at hw; simp [cellUnder_none] at hw
      | some child =>
        rw [hch] at hw hchild
        exact Clonify_value_under_cloned ts types path child _ w hb hchild hw
    · rw [if_neg hd] at hw
      have hp : path = [] := by
        rcases hdeep with h | h
        · simpa using h
        · exact absurd h hd
      subst hp
      simp only [cellUnder, VAL_ARRAY] at hw
      rw [← List.map_append, List.getElem?_map] at hw
      cases hch : (past ++ rest)[j]? with
      | none => rw [hch] at hw; simp at hw
      | some child =>
        rw [hch] at hw
        simp only [Option.map_some', Option.some.injEq] at hw
        rw [← hw]
        exact Derelativize_not_relative _ _ hb

theorem Clonify_value_under_any (ts : Typesets) (types : REBU64) :
    ∀ (path : List Nat) (v : Cell) (specifier : Option REBNOD) (w : Cell),
    cellUnder (some v) path = some w →
    ∃ w2, cellUnder (some (Clonify_value ts types specifier v)) path = some w2 ∧
      (w2 = w ∨ ∃ sp, w2 = Derelativize w sp ∨ w2 = Clonify_value ts types sp w)
  | [], v, specifier, w, hw => by
    simp only [cellUnder, Option.some.injEq] at hw
    subst hw
    exact ⟨_, rfl, Or.inr ⟨specifier, Or.inr rfl⟩⟩
  | j :: path, .word k q s b i, specifier, w, hw => by
    simp [cellUnder, VAL_ARRAY, cellUnder_none] at hw
  | j :: path, .action q b, specifier, w, hw => by
    simp [cellUnder, VAL_ARRAY, cellUnder_none] at hw
  | j :: path, .other y q, specifier, w, hw => by
    simp [cellUnder, VAL_ARRAY, cellUnder_none] at hw
  | j :: path, .array k q past rest b, specifier, w, hw => by
    simp only [cellUnder, VAL_ARRAY] at hw
    cases hch : (past ++ rest)[j]? with
    | none => rw [hch] at hw; simp [cellUnder_none] at hw
    | some child =>
      rw [hch] at hw
      rw [Clonify_value]
      split_ifs with hcopies hd
      · simp only [cellUnder, VAL_ARRAY, Clonify_value_each_eq_map]
        rw [← List.map_append, List.getElem?_map, hch, Option.map_some']
        exact Clonify_value_under_any ts types path child _ w hw
      · simp only [cellUnder, VAL_ARRAY]
        rw [← List.map_append, List.getElem?_map, hch, Option.map_some']
        cases path with
        | nil =>
          simp only [cellUnder, Option.some.injEq] at hw ⊢
          subst hw
          exact ⟨_, rfl, Or.inr ⟨_, Or.inl rfl⟩⟩
        | cons j2 path2 =>
          rw [cellUnder_Derelativize]
          exact ⟨w, hw, Or.inl rfl⟩
      · simp only [cellUnder, VAL_ARRAY, hch]
        exact ⟨w, hw, Or.inl rfl⟩

theorem Clonify_value_under_clonified (ts : Typesets) (types : REBU64) :
    ∀ (path : List Nat) (v : Cell) (specifier : Option REBNOD) (w : Cell),
    (∀ p, specifier ≠ some (.paramlist p)) →
    clonifiedUnder ts types (some v) path = true →
    cellUnder (some v) path = some w →
    ∃ sp, (∀ p, sp ≠ some (.paramlist p)) ∧
      cellUnder (some (Clonify_value ts types specifier v)) path
        = some (Clonify_value ts types sp w)
  | [], v, specifier, w, hsp, _, hw => by
    simp only [cellUnder, Option.some.injEq] at hw
    subst hw
    exact ⟨specifier, hsp, rfl⟩
  | j :: path, .word k q s b i, specifier, w, _, hc, _ => by simp [clonifiedUnder] at hc
  | j :: path, .action q b, specifier, w, _, hc, _ => by simp [clonifiedUnder] at hc
  | j :: path, .other y q, specifier, w, _, hc, _ => by simp [clonifiedUnder] at hc
  | j :: path, .array k q past rest b, specifier, w, hsp, hc, hw => by
    have hb := VAL_SPECIFIER_Derelativize_not_paramlist (.array k q [] [] b) specifier hsp
    simp only [clonifiedUnder, Bool.and_eq_true] at hc
    obtain ⟨⟨hcopies, hdeep⟩, hchild⟩ := hc
    rw [Clonify_value, if_pos hcopies, if_pos hdeep]
    simp only [cellUnder, VAL_ARRAY, Clonify_value_each_eq_map] at hw ⊢
    rw [← List.map_append, List.getElem?_map]
    cases hch : (past ++ rest)[j]? with
    | none => rw [hch] at hw; simp [cellUnder_none] at hw
    | some child =>
      rw [hch] at hw hchild
      exact Clonify_value_under_clonified ts types path child _ w hb hchild hw

theorem getElem?_slice (original : List Cell) (index n i : Nat) (hi : i < n) :
    ((original.drop index).take n)[i]? = original[index + i]? := by
  rw [List.getElem?_take, if_pos hi, List.getElem?_drop]

theorem Copy_Array_Core_Managed_at (ts : Typesets) (types : REBU64) (stack : Nat)
    (original : List Cell) (index tail : Nat) (specifier : Option REBNOD) (copy : List Cell)
    (hidx : index ≤ tail) (htail : tail ≤ original.length)
    (h : Copy_Array_Core_Managed ts stack original index specifier tail types = .ok copy) :
    copy.length = tail - index ∧
    ∀ (i : Nat), i < tail - index →
      copy[i]? = (original[index + i]?).map (Clonify_value ts types specifier) := by
  have hv := Copy_Array_Core_Managed_value ts types stack original index tail specifier copy
    hidx htail h
  subst hv
  refine ⟨?_, fun i hi => ?_⟩
  · simp only [List.length_map, List.length_take, List.length_drop]
    omega
  · rw [List.getElem?_map, getElem?_slice original index _ i hi]

/-! ## The heap -/

theorem Heap.cells_append_lt (heap : Heap) (s : List HeapCell) (id : Nat) (h : id < heap.length) :
    Heap.cells (heap ++ [s]) id = heap.cells id := by
  unfold Heap.cells
  simp [List.getD, List.getElem?_append_left h]

theorem Heap.cells_append_new (heap : Heap) (s : List HeapCell) :
    Heap.cells (heap ++ [s]) heap.length = s := by
  unfold Heap.cells
  simp [List.getD]

theorem Heap.length_write (heap : Heap) (id j : Nat) (v : HeapCell) :
    (heap.write id j v).length = heap.length := by
  simp [Heap.write]

theorem Heap.length_push (heap : Heap) (id : Nat) (v : HeapCell) :
    (heap.push id v).length = heap.length := by
  simp [Heap.push]

theorem Heap.cells_set_ne (heap : Heap) (id id2 : Nat) (s : List HeapCell) (h : id2 ≠ id) :
    Heap.cells (heap.set id s) id2 = heap.cells id2 := by
  unfold Heap.cells
  simp [List.getD, List.getElem?_set_ne (Ne.symm h)]

theorem Heap.cells_set_same (heap : Heap) (id : Nat) (s : List HeapCell) (h : id < heap.length) :
    Heap.cells (heap.set id s) id = s := by
  unfold Heap.cells
  simp [List.getD, List.getElem?_set_self, h]

theorem Heap.cells_write_ne (heap : Heap) (id j : Nat) (v : HeapCell) (id2 : Nat) (h : id2 ≠ id) :
    (heap.write id j v).cells id2 = heap.cells id2 :=
  Heap.cells_set_ne heap id id2 _ h

theorem Heap.cells_write_same (heap : Heap) (id j : Nat) (v : HeapCell) (h : id < heap.length) :
    (heap.write id j v).cells id = (heap.cells id).set j v :=
  Heap.cells_set_same heap id _ h

theorem Heap.cells_push_ne (heap : Heap) (id : Nat) (v : HeapCell) (id2 : Nat) (h : id2 ≠ id) :
    (heap.push id v).cells id2 = heap.cells id2 :=
  Heap.cells_set_ne heap id id2 _ h

theorem Heap.cells_push_same (heap : Heap) (id : Nat) (v : HeapCell) (h : id < heap.length) :
    (heap.push id v).cells id = heap.cells id ++ [v] :=
  Heap.cells_set_same heap id _ h

theorem HeapCell.holds_Derelativize (heap : Heap) (depth : Nat) (v : HeapCell)
    (specifier : Option REBNOD) :
    heap.holds depth (v.Derelativize specifier) = heap.holds depth v := by
  cases v <;> simp only [HeapCell.Derelativize, HeapCell.VAL_BINDING] <;> split <;> rfl

theorem Heap.nests_cells (heap : Heap) (depth id : Nat) (h : heap.nests (depth + 1) id = true) :
    id < heap.length ∧ ∀ v, v ∈ heap.cells id → heap.holds depth v = true := by
  unfold Heap.nests at h
  simp only [Bool.and_eq_true, decide_eq_true_eq, List.all_eq_true] at h
  refine ⟨h.1, fun v hv => ?_⟩
  have := h.2 v hv
  cases v <;> first | rfl | exact this

theorem ClonedIn_mono (ts : Typesets) (types : REBU64) (original after after2 : Heap)
    (lo hi lo2 hi2 : Nat) (hlo : lo2 ≤ lo) (hhi : hi ≤ hi2)
    (hsame : ∀ id, lo ≤ id → id < hi → after2.cells id = after.cells id) :
    ∀ (depth : Nat) (v v2 : HeapCell), ClonedIn ts types original after lo hi depth v v2 →
      ClonedIn ts types original after2 lo2 hi2 depth v v2 := by
  intro depth
  induction depth with
  | zero => intro v v2 _; cases v <;> trivial
  | succ depth ih =>
    intro v v2 h
    cases v with
    | word k q s b i => exact h
    | action q b => exact h
    | other y q => exact h
    | array k q ser idx b =>
      unfold ClonedIn at h ⊢
      by_cases hc : Clonify_copies ts types (.array k) = true
      · rw [if_pos hc] at h ⊢
        obtain ⟨series, h1, h2, h3, h4, h5⟩ := h
        refine ⟨series, h1, by omega, by omega, by rw [hsame series h2 h3]; exact h4, ?_⟩
        intro j sub hsub
        obtain ⟨sub2, h6, h7⟩ := h5 j sub hsub
        refine ⟨sub2, by rw [hsame series h2 h3]; exact h6, ?_⟩
        by_cases hd : Clonify_deep ts types (.array k) = true
        · rw [if_pos hd] at h7 ⊢
          exact ih _ _ h7
        · rw [if_neg hd] at h7 ⊢
          exact h7
      · rw [if_neg hc] at h ⊢
        exact h

theorem set_of_getElem?_some {α : Type} (l : List α) (j : Nat) (v : α) (h : l[j]? = some v) :
    l.set j v = l := by
  apply List.ext_getElem?
  intro i
  by_cases hi : j = i
  · subst hi
    rw [List.getElem?_set_self (by
      rcases Nat.lt_or_ge j l.length with hl | hl
      · exact hl
      · rw [List.getElem?_eq_none hl] at h; cases h), h]
  · rw [List.getElem?_set_ne hi]

theorem Heap.keeps_of_frame (original H H2 : Heap) (P : Nat) (hk : H.keeps original)
    (hP : original.length ≤ P) (hlen : H.length ≤ H2.length)
    (hframe : ∀ id, id < H.length → id ≠ P → H2.cells id = H.cells id) :
    H2.keeps original := by
  refine ⟨le_trans hk.1 hlen, fun id hid => ?_⟩
  rw [hframe id (lt_of_lt_of_le hid hk.1) (by omega), hk.2 id hid]

theorem ClonedIn_refl_of_not_copied (ts : Typesets) (types : REBU64) (original after : Heap)
    (lo hi : Nat) (v : HeapCell)
    (h : ∀ k q ser idx b, v = .array k q ser idx b → Clonify_copies ts types (.array k) = false) :
    ∀ depth, ClonedIn ts types original after lo hi depth v v := by
  intro depth
  cases depth with
  | zero => cases v <;> trivial
  | succ depth =>
    cases v with
    | word k q s b i => rfl
    | action q b => rfl
    | other y q => rfl
    | array k q ser idx b =>
      unfold ClonedIn
      rw [if_neg (by rw [h k q ser idx b rfl]; decide)]

theorem Clonify_heap_loop_spec (ts : Typesets) (types : REBU64) (original : Heap) (d : Nat)
    (clonify : Heap → Nat → Nat → Except Error Heap)
    (hC : ∀ (H : Heap) (P j : Nat) (v : HeapCell), H.keeps original → original.length ≤ P →
      P < H.length → (H.cells P)[j]? = some v → original.holds d v = true →
      ∃ H2, clonify H P j = .ok H2 ∧ H.length ≤ H2.length ∧
        (∀ id, id < H.length → id ≠ P → H2.cells id = H.cells id) ∧
        ∃ v2, H2.cells P = (H.cells P).set j v2 ∧
          ∀ depth, ClonedIn ts types original H2 H.length H2.length depth v v2)
    (series : Nat) (hs : original.length ≤ series) :
    ∀ (count : Nat) (H : Heap) (j : Nat), H.keeps original → series < H.length →
      (H.cells series).length = j + count →
      (∀ (i : Nat) (v : HeapCell), j ≤ i → (H.cells series)[i]? = some v →
        original.holds d v = true) →
      ∃ H2, Clonify_heap_loop clonify series H j count = .ok H2 ∧ H.length ≤ H2.length ∧
        (∀ id, id < H.length → id ≠ series → H2.cells id = H.cells id) ∧
        (H2.cells series).length = (H.cells series).length ∧
        (∀ (i : Nat), i < j → (H2.cells series)[i]? = (H.cells series)[i]?) ∧
        ∀ (i : Nat) (v : HeapCell), j ≤ i → (H.cells series)[i]? = some v →
          ∃ v2, (H2.cells series)[i]? = some v2 ∧
            ∀ depth, ClonedIn ts types original H2 H.length H2.length depth v v2 := by
  intro count
  induction count with
  | zero =>
    intro H j _ _ hlen _
    refine ⟨H, rfl, le_refl _, fun _ _ _ => rfl, rfl, fun _ _ => rfl, ?_⟩
    intro i v hji hv
    rw [List.getElem?_eq_none (by omega)] at hv
    cases hv
  | succ count ih =>
    intro H j hk hser hlen hholds
    have hj : j < (H.cells series).length := by omega
    have hvj : (H.cells series)[j]? = some ((H.cells series)[j]) := List.getElem?_eq_getElem hj
    obtain ⟨H1, hc1, hlen1, hframe1, v2, hset1, hcl1⟩ :=
      hC H series j _ hk hs hser hvj (hholds j _ (le_refl _) hvj)
    have hk1 : H1.keeps original := Heap.keeps_of_frame original H H1 series hk hs hlen1 hframe1
    obtain ⟨H2, hc2, hlen2, hframe2, hsl2, hlow2, hhigh2⟩ :=
      ih H1 (j + 1) hk1 (by omega) (by rw [hset1, List.length_set]; omega) (by
        intro i v hji hv
        rw [hset1, List.getElem?_set_ne (by omega)] at hv
        exact hholds i v (by omega) hv)
    refine ⟨H2, ?_, by omega, ?_, ?_, ?_, ?_⟩
    · unfold Clonify_heap_loop
      rw [if_pos hj, hc1]
      exact hc2
    · intro id hid hne
      rw [hframe2 id (by omega) hne, hframe1 id hid hne]
    · rw [hsl2, hset1, List.length_set]
    · intro i hi
      rw [hlow2 i (by omega), hset1, List.getElem?_set_ne (by omega)]
    · intro i v hji hv
      by_cases hij : i = j
      · subst hij
        rw [hvj] at hv
        cases hv
        refine ⟨v2, ?_, ?_⟩
        · rw [hlow2 i (by omega), hset1, List.getElem?_set_self hj]
        · intro depth
          exact ClonedIn_mono ts types original H1 H2 H.length H1.length H.length H2.length
            (le_refl _) hlen2 (fun id h1 h2 => hframe2 id h2 (by omega)) depth _ _ (hcl1 depth)
      · have hv1 : (H1.cells series)[i]? = some v := by
          rw [hset1, List.getElem?_set_ne (by omega)]
          exact hv
        obtain ⟨v3, h3, h4⟩ := hhigh2 i v (by omega) hv1
        refine ⟨v3, h3, fun depth => ?_⟩
        exact ClonedIn_mono ts types original H2 H2 H1.length H2.length H.length H2.length
          hlen1 (le_refl _) (fun _ _ _ => rfl) depth _ _ (h4 depth)

theorem Clonify_heap_spec (ts : Typesets) (types : REBU64) (original : Heap) :
    ∀ (stack d : Nat), d < stack →
    ∀ (H : Heap) (P j : Nat) (v : HeapCell), H.keeps original → original.length ≤ P →
      P < H.length → (H.cells P)[j]? = some v → original.holds d v = true →
      ∃ H2, Clonify_heap ts types stack H P j = .ok H2 ∧ H.length ≤ H2.length ∧
        (∀ id, id < H.length → id ≠ P → H2.cells id = H.cells id) ∧
        ∃ v2, H2.cells P = (H.cells P).set j v2 ∧
          ∀ depth, ClonedIn ts types original H2 H.length H2.length depth v v2 := by
  intro stack
  induction stack with
  | zero => intro d hd; omega
  | succ stack ih =>
    intro d hd H P j v hk hP hPH hv hholds
    have hsame : (H.cells P).set j v = H.cells P := set_of_getElem?_some _ _ _ hv
    cases v with
    | word k q s b i =>
      refine ⟨H, by unfold Clonify_heap; rw [hv], le_refl _, fun _ _ _ => rfl, _, hsame.symm, ?_⟩
      exact ClonedIn_refl_of_not_copied ts types original H _ _ _ (fun _ _ _ _ _ h => by cases h)
    | action q b =>
      refine ⟨H, by unfold Clonify_heap; rw [hv], le_refl _, fun _ _ _ => rfl, _, hsame.symm, ?_⟩
      exact ClonedIn_refl_of_not_copied ts types original H _ _ _ (fun _ _ _ _ _ h => by cases h)
    | other y q =>
      refine ⟨H, by unfold Clonify_heap; rw [hv], le_refl _, fun _ _ _ => rfl, _, hsame.symm, ?_⟩
      exact ClonedIn_refl_of_not_copied ts types original H _ _ _ (fun _ _ _ _ _ h => by cases h)
    | array k q ser idx b =>
      by_cases hc : Clonify_copies ts types (.array k) = true
      swap
      · refine ⟨H, by unfold Clonify_heap; rw [hv]; simp only [hc]; rfl, le_refl _,
          fun _ _ _ => rfl, _, hsame.symm, ?_⟩
        exact ClonedIn_refl_of_not_copied ts types original H _ _ _ (fun _ _ _ _ _ h => by
          cases h; simpa using hc)
      · cases d with
        | zero => simp [Heap.holds, Heap.nests] at hholds
        | succ d =>
          obtain ⟨hser, hcells⟩ := Heap.nests_cells original d ser hholds
          have hserH : H.cells ser = original.cells ser := hk.2 ser hser
          -- the heap after the shallow copy is made and the cell is written
          have hH1len : ((H ++ [(H.cells ser).map (fun src => src.Derelativize b)]).write P j
              (.array k q H.length idx UNBOUND)).length = H.length + 1 := by
            rw [Heap.length_write]; simp
          have hH1old : ∀ id, id < H.length → id ≠ P →
              ((H ++ [(H.cells ser).map (fun src => src.Derelativize b)]).write P j
                (.array k q H.length idx UNBOUND)).cells id = H.cells id := by
            intro id hid hne
            rw [Heap.cells_write_ne _ _ _ _ _ hne, Heap.cells_append_lt _ _ _ hid]
          have hH1P : ((H ++ [(H.cells ser).map (fun src => src.Derelativize b)]).write P j
              (.array k q H.length idx UNBOUND)).cells P
                = (H.cells P).set j (.array k q H.length idx UNBOUND) := by
            rw [Heap.cells_write_same _ _ _ _ (by simp; omega), Heap.cells_append_lt _ _ _ hPH]
          have hH1new : ((H ++ [(H.cells ser).map (fun src => src.Derelativize b)]).write P j
              (.array k q H.length idx UNBOUND)).cells H.length
                = (original.cells ser).map (fun src => src.Derelativize b) := by
            rw [Heap.cells_write_ne _ _ _ _ _ (by omega), Heap.cells_append_new, hserH]
          generalize hH1 : (H ++ [(H.cells ser).map (fun src => src.Derelativize b)]).write P j
              (.array k q H.length idx UNBOUND) = H1 at hH1len hH1old hH1P hH1new
          have hk1 : H1.keeps original :=
            Heap.keeps_of_frame original H H1 P hk hP (by omega) hH1old
          by_cases hdeep : Clonify_deep ts types (.array k) = true
          · obtain ⟨H2, hc2, hlen2, hframe2, hsl2, _, hhigh2⟩ :=
              Clonify_heap_loop_spec ts types original d (Clonify_heap ts types stack)
                (ih d (by omega)) H.length hk.1 (original.cells ser).length H1 0 hk1 (by omega)
                (by rw [hH1new]; simp) (by
                  intro i v _ hv1
                  rw [hH1new, List.getElem?_map] at hv1
                  cases hsub : (original.cells ser)[i]? with
                  | none => rw [hsub] at hv1; cases hv1
                  | some sub =>
                    rw [hsub] at hv1
                    cases hv1
                    rw [HeapCell.holds_Derelativize]
                    exact hcells sub (List.getElem?_mem hsub))
            refine ⟨H2, ?_, by omega, ?_, .array k q H.length idx UNBOUND, ?_, ?_⟩
            · unfold Clonify_heap
              rw [hv]
              simp only [hc, hdeep, if_true, List.length_map, hserH]
              rw [← hserH, hH1]
              rw [hserH]
              exact hc2
            · intro id hid hne
              rw [hframe2 id (by omega) (by omega), hH1old id hid hne]
            · rw [hframe2 P (by omega) (by omega), hH1P]
            · intro depth
              cases depth with
              | zero => trivial
              | succ depth =>
                unfold ClonedIn
                rw [if_pos hc]
                refine ⟨H.length, rfl, le_refl _, by omega, by rw [hsl2, hH1new]; simp, ?_⟩
                intro i sub hsub
                obtain ⟨v3, h3, h4⟩ := hhigh2 i (sub.Derelativize b) (Nat.zero_le _) (by
                  rw [hH1new, List.getElem?_map, hsub]; rfl)
                refine ⟨v3, h3, ?_⟩
                rw [if_pos hdeep]
                exact ClonedIn_mono ts types original H2 H2 H1.length H2.length H.length H2.length
                  (by omega) (le_refl _) (fun _ _ _ => rfl) depth _ _ (h4 depth)
          · refine ⟨H1, ?_, by omega, hH1old, .array k q H.length idx UNBOUND, hH1P, ?_⟩
            · unfold Clonify_heap
              rw [hv]
              simp only [hc, hdeep, if_true]
              rw [hH1]
              rfl
            · intro depth
              cases depth with
              | zero => trivial
              | succ depth =>
                unfold ClonedIn
                rw [if_pos hc]
                refine ⟨H.length, rfl, le_refl _, by omega, by rw [hH1new]; simp, ?_⟩
                intro i sub hsub
                refine ⟨sub.Derelativize b, by rw [hH1new, List.getElem?_map, hsub]; rfl, ?_⟩
                rw [if_neg hdeep]

theorem Copy_Array_Core_Managed_Inner_Loop_heap_loop_spec (ts : Typesets) (types : REBU64)
    (heap : Heap) (stack d : Nat) (hd : d < stack) (original copy : Nat)
    (specifier : Option REBNOD) (hcopy : heap.length ≤ copy) (horig : original < heap.length)
    (hholds : ∀ v, v ∈ heap.cells original → heap.holds d v = true) :
    ∀ (count : Nat) (H : Heap) (src dest : Nat), H.keeps heap → copy < H.length →
      (H.cells copy).length = dest → src + count ≤ (heap.cells original).length →
      ∃ H2, Copy_Array_Core_Managed_Inner_Loop_heap_loop ts types stack original copy specifier
          H src dest count = .ok H2 ∧ H.length ≤ H2.length ∧
        (∀ id, id < H.length → id ≠ copy → H2.cells id = H.cells id) ∧
        (H2.cells copy).length = dest + count ∧
        (∀ (i : Nat), i < dest → (H2.cells copy)[i]? = (H.cells copy)[i]?) ∧
        ∀ (i : Nat) (v : HeapCell), i < count → (heap.cells original)[src + i]? = some v →
          ∃ v2, (H2.cells copy)[dest + i]? = some v2 ∧
            ∀ depth, ClonedIn ts types heap H2 H.length H2.length depth
              (v.Derelativize specifier) v2 := by
  intro count
  induction count with
  | zero =>
    intro H src dest _ _ hlen _
    exact ⟨H, rfl, le_refl _, fun _ _ _ => rfl, by simpa using hlen, fun _ _ => rfl,
      fun i v hi _ => absurd hi (by omega)⟩
  | succ count ih =>
    intro H src dest hk hcH hlen hsrc
    have hs : src < (heap.cells original).length := by omega
    have hv : (H.cells original)[src]? = some ((heap.cells original)[src]) := by
      rw [hk.2 original horig]
      exact List.getElem?_eq_getElem hs
    generalize hvdef : (heap.cells original)[src] = v at hv
    have hv0 : (heap.cells original)[src]? = some v := by
      rw [← hvdef]; exact List.getElem?_eq_getElem hs
    have hkp : (H.push copy (v.Derelativize specifier)).keeps heap :=
      Heap.keeps_of_frame heap H _ copy hk hcopy (by rw [Heap.length_push])
        (fun id _ hne => Heap.cells_push_ne _ _ _ _ hne)
    have hpc : (H.push copy (v.Derelativize specifier)).cells copy
        = H.cells copy ++ [v.Derelativize specifier] := Heap.cells_push_same _ _ _ hcH
    have hpd : ((H.push copy (v.Derelativize specifier)).cells copy)[dest]?
        = some (v.Derelativize specifier) := by
      rw [hpc, List.getElem?_append_right (by omega)]
      simp [hlen]
    obtain ⟨H1, hc1, hlen1, hframe1, v2, hset1, hcl1⟩ :=
      Clonify_heap_spec ts types heap stack d hd _ copy dest _ hkp hcopy
        (by rw [Heap.length_push]; exact hcH) hpd (by
          rw [HeapCell.holds_Derelativize]
          exact hholds v (List.getElem?_mem hv0))
    rw [Heap.length_push] at hlen1 hframe1 hcl1
    have hk1 : H1.keeps heap :=
      Heap.keeps_of_frame heap _ H1 copy hkp hcopy (by rw [Heap.length_push]; exact hlen1)
        (by rw [Heap.length_push]; exact hframe1)
    have hlen1c : (H1.cells copy).length = dest + 1 := by
      rw [hset1, List.length_set, hpc]; simp [hlen]
    obtain ⟨H2, hc2, hlen2, hframe2, hsl2, hlow2, hhigh2⟩ :=
      ih H1 (src + 1) (dest + 1) hk1 (by omega) hlen1c (by omega)
    refine ⟨H2, ?_, by omega, ?_, by omega, ?_, ?_⟩
    · unfold Copy_Array_Core_Managed_Inner_Loop_heap_loop
      rw [hv]
      simp only [hc1]
      exact hc2
    · intro id hid hne
      rw [hframe2 id (by omega) hne, hframe1 id hid hne, Heap.cells_push_ne _ _ _ _ hne]
    · intro i hi
      rw [hlow2 i (by omega), hset1, List.getElem?_set_ne (by omega), hpc,
        List.getElem?_append_left (by omega)]
    · intro i w hi hw
      cases i with
      | zero =>
        rw [Nat.add_zero, hv0] at hw
        cases hw
        refine ⟨v2, ?_, fun depth => ?_⟩
        · rw [Nat.add_zero, hlow2 dest (by omega), hset1,
            List.getElem?_set_self (by rw [hpc]; simp [hlen])]
        · exact ClonedIn_mono ts types heap H1 H2 H.length H1.length H.length H2.length
            (le_refl _) hlen2 (fun id h1 h2 => hframe2 id h2 (by omega)) depth _ _ (hcl1 depth)
      | succ i =>
        obtain ⟨v3, h3, h4⟩ := hhigh2 i w (by omega) (by
          rw [show src + 1 + i = src + (i + 1) by omega]; exact hw)
        refine ⟨v3, by rw [show dest + (i + 1) = dest + 1 + i by omega]; exact h3,
          fun depth => ?_⟩
        exact ClonedIn_mono ts types heap H2 H2 H1.length H2.length H.length H2.length
          hlen1 (le_refl _) (fun _ _ _ => rfl) depth _ _ (h4 depth)

theorem ClonedTo_of_ClonedIn (ts : Typesets) (types : REBU64) (original after : Heap) :
    ∀ (depth d : Nat) (v v2 : HeapCell), original.holds d v = true →
      ClonedIn ts types original after original.length after.length depth v v2 →
      ClonedTo ts types original after depth v v2 := by
  intro depth
  induction depth with
  | zero => intro d v v2 _ _; cases v <;> trivial
  | succ depth ih =>
    intro d v v2 hholds h
    cases v with
    | word k q s b i => exact h
    | action q b => exact h
    | other y q => exact h
    | array k q ser idx b =>
      unfold ClonedIn at h
      unfold ClonedTo
      by_cases hc : Clonify_copies ts types (.array k) = true
      · rw [if_pos hc] at h ⊢
        obtain ⟨series, h1, h2, h3, h4, h5⟩ := h
        cases d with
        | zero => simp [Heap.holds, Heap.nests] at hholds
        | succ d =>
          obtain ⟨hser, hcells⟩ := Heap.nests_cells original d ser hholds
          refine ⟨series, h1, hser, h2, h3,
            fun j x => Heap.cells_write_ne _ _ _ _ _ (by omega),
            fun j x => Heap.cells_write_ne _ _ _ _ _ (by omega), h4, ?_⟩
          intro j sub hsub
          obtain ⟨sub2, h6, h7⟩ := h5 j sub hsub
          refine ⟨sub2, h6, ?_⟩
          by_cases hdeep : Clonify_deep ts types (.array k) = true
          · rw [if_pos hdeep] at h7 ⊢
            exact ih d _ _ (by
              rw [HeapCell.holds_Derelativize]; exact hcells sub (List.getElem?_mem hsub)) h7
          · rw [if_neg hdeep] at h7 ⊢
            exact h7
      · rw [if_neg hc] at h ⊢
        exact h

theorem Copy_Array_Core_Managed_heap_spec (ts : Typesets) (types : REBU64) (heap : Heap)
    (original index tail d : Nat) (specifier : Option REBNOD)
    (hnests : heap.nests d original = true) (hindex : index ≤ tail)
    (htail : tail ≤ (heap.cells original).length) (stack : Nat) (hstack : d ≤ stack) :
    ∃ after, Copy_Array_Core_Managed_heap ts stack heap original index specifier tail types
        = .ok (after, heap.length) ∧
      heap.length < after.length ∧
      (∀ id, id < heap.length → after.cells id = heap.cells id) ∧
      (after.cells heap.length).length = tail - index ∧
      ∀ (i : Nat) (v : HeapCell), i < tail - index →
        (heap.cells original)[index + i]? = some v →
        ∃ v2, (after.cells heap.length)[i]? = some v2 ∧
          ∀ depth, ClonedTo ts types heap after depth (v.Derelativize specifier) v2 := by
  cases d with
  | zero => simp [Heap.nests] at hnests
  | succ d =>
    obtain ⟨horig, hcells⟩ := Heap.nests_cells heap d original hnests
    have hk0 : Heap.keeps (heap ++ [[]]) heap :=
      ⟨by simp, fun id hid => Heap.cells_append_lt heap [] id hid⟩
    obtain ⟨H2, hc2, hlen2, hframe2, hsl2, _, hhigh2⟩ :=
      Copy_Array_Core_Managed_Inner_Loop_heap_loop_spec ts types heap stack d (by omega)
        original heap.length specifier (le_refl _) horig hcells (tail - index) (heap ++ [[]])
        index 0 hk0 (by simp) (by rw [Heap.cells_append_new]; rfl) (by omega)
    have hl : (heap ++ [([] : List HeapCell)]).length = heap.length + 1 := by simp
    rw [hl] at hlen2 hframe2 hhigh2
    refine ⟨H2, ?_, by omega, ?_, by omega, ?_⟩
    · unfold Copy_Array_Core_Managed_heap Copy_Array_Core_Managed_Inner_Loop_heap
      simp only [show ¬ index > tail by omega, if_false,
        show ¬ index > (heap.cells original).length by omega, hindex, htail, and_self, if_true,
        hc2]
    · intro id hid
      rw [hframe2 id (by omega) (by omega), Heap.cells_append_lt heap [] id hid]
    · intro i v hi hv
      obtain ⟨v2, h1, h2⟩ := hhigh2 i v hi hv
      refine ⟨v2, by rw [Nat.zero_add] at h1; exact h1, fun depth => ?_⟩
      refine ClonedTo_of_ClonedIn ts types heap H2 depth d _ _ (by
        rw [HeapCell.holds_Derelativize]; exact hcells v (List.getElem?_mem hv)) ?_
      exact ClonedIn_mono ts types heap H2 H2 (heap.length + 1) H2.length heap.length H2.length
        (by omega) (le_refl _) (fun _ _ _ => rfl) depth _ _ (h2 depth)

/-! ## The quote level and the depth of `Clonify` -/

theorem Derelativize_own_binding (v : Cell) : Derelativize v (VAL_BINDING v) = v := by
  unfold Derelativize
  split_ifs
  · cases v <;> rfl
  · rfl

theorem VAL_BINDING_Derelativize_array (k : ArrayKind) (q : Nat) (past rest : List Cell)
    (b specifier : Option REBNOD) :
    ∃ b2, Derelativize (.array k q past rest b) specifier = .array k q past rest b2 := by
  unfold Derelativize
  split_ifs
  · exact ⟨specifier, rfl⟩
  · exact ⟨b, rfl⟩

theorem Clonify_of_Derelativize (ts : Typesets) (types : REBU64) (stack : Nat) (src : Cell)
    (specifier : Option REBNOD) :
    Clonify ts types stack (Derelativize src specifier)
      = Clonify_Derelativized ts types stack specifier src := by
  unfold Clonify
  cases stack with
  | zero => simp [Clonify_Derelativized]
  | succ stack =>
    cases src with
    | word k q s b i =>
      simp only [Clonify_Derelativized]
      obtain ⟨b2, hb2⟩ : ∃ b2, Derelativize (.word k q s b i) specifier = .word k q s b2 i := by
        unfold Derelativize; split_ifs
        · exact ⟨specifier, rfl⟩
        · exact ⟨b, rfl⟩
      rw [hb2]
      simp only [Clonify_Derelativized, VAL_BINDING]
      congr 1
      exact Derelativize_own_binding (.word k q s b2 i)
    | action q b =>
      simp only [Clonify_Derelativized]
      obtain ⟨b2, hb2⟩ : ∃ b2, Derelativize (.action q b) specifier = .action q b2 := by
        unfold Derelativize; split_ifs
        · exact ⟨specifier, rfl⟩
        · exact ⟨b, rfl⟩
      rw [hb2]
      simp only [Clonify_Derelativized, VAL_BINDING]
      congr 1
      exact Derelativize_own_binding (.action q b2)
    | other y q =>
      have : Derelativize (.other y q) specifier = .other y q := by
        unfold Derelativize; split_ifs <;> rfl
      rw [this]
      simp only [Clonify_Derelativized]
    | array k q past rest b =>
      obtain ⟨b2, hb2⟩ := VAL_BINDING_Derelativize_array k q past rest b specifier
      have hown : Derelativize (.array k q past rest b2) b2 = .array k q past rest b2 :=
        Derelativize_own_binding (.array k q past rest b2)
      rw [hb2]
      simp only [Clonify_Derelativized, VAL_BINDING, hb2, VAL_SPECIFIER, hown]

theorem Clonify_each_of_Derelativize (ts : Typesets) (types : REBU64) (stack : Nat)
    (specifier : Option REBNOD) :
    ∀ (srcs : List Cell),
      Clonify_each ts types stack (srcs.map (fun src => Derelativize src specifier))
        = Clonify_Derelativized_each ts types stack specifier srcs
  | [] => by simp [Clonify_each, Clonify_Derelativized_each]
  | src :: rest => by
    simp only [List.map_cons, Clonify_each, Clonify_Derelativized_each,
      Clonify_of_Derelativize, Clonify_each_of_Derelativize ts types stack specifier rest]

theorem Copy_Array_At_Extra_Shallow_zero (original : List Cell) (specifier : Option REBNOD) :
    Copy_Array_At_Extra_Shallow original 0 specifier
      = original.map (fun src => Derelativize src specifier) := by
  simp [Copy_Array_At_Extra_Shallow]

theorem Clonify_quoted_eq (ts : Typesets) (types : REBU64) (stack : Nat) (v : Cell) :
    Clonify_quoted ts types stack v = Clonify ts types stack v := by
  unfold Clonify
  cases stack with
  | zero => simp [Clonify_quoted, Clonify_Derelativized]
  | succ stack =>
    cases v with
    | word k q s b i =>
      have hown := Derelativize_own_binding (.word k q s b i)
      simp only [VAL_BINDING] at hown
      simp [Clonify_quoted, Clonify_unescaped, Dequotify, Quotify, VAL_NUM_QUOTES,
        Clonify_Derelativized, VAL_BINDING, hown]
    | action q b =>
      have hown := Derelativize_own_binding (.action q b)
      simp only [VAL_BINDING] at hown
      simp [Clonify_quoted, Clonify_unescaped, Dequotify, Quotify, VAL_NUM_QUOTES,
        Clonify_Derelativized, VAL_BINDING, hown]
    | other y q =>
      simp [Clonify_quoted, Clonify_unescaped, Dequotify, Quotify, VAL_NUM_QUOTES,
        Clonify_Derelativized]
    | array k q past rest b =>
      have hown := Derelativize_own_binding (.array k q past rest b)
      simp only [VAL_BINDING] at hown
      simp only [Clonify_quoted, Clonify_unescaped, Dequotify, VAL_NUM_QUOTES,
        Clonify_Derelativized, VAL_BINDING, VAL_SPECIFIER, hown, CELL_KIND,
        Copy_Array_At_Extra_Shallow_zero, Clonify_each_of_Derelativize]
      by_cases hc : Clonify_copies ts types (.array k) = true
      · by_cases hd : Clonify_deep ts types (.array k) = true
        · simp only [hc, hd, if_true]
          cases h1 : Clonify_Derelativized_each ts types stack b past with
          | error e => rfl
          | ok past2 =>
            cases h2 : Clonify_Derelativized_each ts types stack b rest with
            | error e => rfl
            | ok rest2 => simp [INIT_BINDING, Quotify]
        · simp [hc, hd, INIT_BINDING, Quotify]
      · simp [hc, Quotify]

theorem Clonify_unescaped_keeps (ts : Typesets) (types : REBU64) (stack : Nat) (v r : Cell)
    (h : Clonify_unescaped ts types stack v = .ok r) :
    VAL_NUM_QUOTES r = VAL_NUM_QUOTES v ∧ CELL_KIND r = CELL_KIND v := by
  cases v with
  | word k q s b i => simp only [Clonify_unescaped, Except.ok.injEq] at h; subst h; exact ⟨rfl, rfl⟩
  | action q b => simp only [Clonify_unescaped, Except.ok.injEq] at h; subst h; exact ⟨rfl, rfl⟩
  | other y q => simp only [Clonify_unescaped, Except.ok.injEq] at h; subst h; exact ⟨rfl, rfl⟩
  | array k q past rest b =>
    simp only [Clonify_unescaped] at h
    split_ifs at h
    · cases h1 : Clonify_each ts types stack
          (Copy_Array_At_Extra_Shallow past 0 (VAL_SPECIFIER (.array k q past rest b))) with
      | error e => rw [h1] at h; simp at h
      | ok past2 =>
        rw [h1] at h
        cases h2 : Clonify_each ts types stack
            (Copy_Array_At_Extra_Shallow rest 0 (VAL_SPECIFIER (.array k q past rest b))) with
        | error e => rw [h2] at h; simp at h
        | ok rest2 =>
          rw [h2] at h
          simp only [Except.ok.injEq] at h
          subst h
          exact ⟨rfl, rfl⟩
    · simp only [Except.ok.injEq] at h
      subst h
      exact ⟨rfl, rfl⟩
    · simp only [Except.ok.injEq] at h
      subst h
      exact ⟨rfl, rfl⟩

theorem VAL_NUM_QUOTES_Quotify (v : Cell) (depth : Nat) :
    VAL_NUM_QUOTES (Quotify v depth) = VAL_NUM_QUOTES v + depth ∧
    CELL_KIND (Quotify v depth) = CELL_KIND v := by
  cases v <;> exact ⟨rfl, rfl⟩

theorem VAL_NUM_QUOTES_Dequotify (v : Cell) :
    (Dequotify v).1 = VAL_NUM_QUOTES v ∧ VAL_NUM_QUOTES (Dequotify v).2 = 0 ∧
    CELL_KIND (Dequotify v).2 = CELL_KIND v := by
  cases v <;> exact ⟨rfl, rfl, rfl⟩

theorem Clonify_quoted_keeps (ts : Typesets) (types : REBU64) (stack : Nat) (v r : Cell)
    (h : Clonify_quoted ts types stack v = .ok r) :
    VAL_NUM_QUOTES r = VAL_NUM_QUOTES v ∧ CELL_KIND r = CELL_KIND v := by
  cases stack with
  | zero => simp [Clonify_quoted] at h
  | succ stack =>
    simp only [Clonify_quoted] at h
    cases h1 : Clonify_unescaped ts types stack (Dequotify v).2 with
    | error e => rw [h1] at h; simp at h
    | ok r0 =>
      rw [h1] at h
      simp only [Except.ok.injEq] at h
      subst h
      obtain ⟨hq, hk⟩ := Clonify_unescaped_keeps ts types stack _ _ h1
      obtain ⟨-, hd0, hdk⟩ := VAL_NUM_QUOTES_Dequotify v
      obtain ⟨hQ, hK⟩ := VAL_NUM_QUOTES_Quotify r0 (VAL_NUM_QUOTES v)
      exact ⟨by rw [hQ, hq, hd0, Nat.zero_add], by rw [hK, hk, hdk]⟩

mutual
theorem Clonify_Derelativized_ok_iff (ts : Typesets) (types : REBU64) :
    ∀ (src : Cell) (stack : Nat) (specifier : Option REBNOD),
      (∃ r, Clonify_Derelativized ts types stack specifier src = .ok r) ↔
        Clonify_levels ts types src ≤ stack
  | src, 0, specifier => by
    have : 0 < Clonify_levels ts types src := by
      cases src <;> simp only [Clonify_levels] <;> first | omega | (split_ifs <;> omega)
    simp only [Clonify_Derelativized]
    constructor
    · rintro ⟨r, hr⟩; cases hr
    · intro h; omega
  | .word k q s b i, stack + 1, specifier => by
    simp only [Clonify_Derelativized, Clonify_levels]
    exact ⟨fun _ => by omega, fun _ => ⟨_, rfl⟩⟩
  | .action q b, stack + 1, specifier => by
    simp only [Clonify_Derelativized, Clonify_levels]
    exact ⟨fun _ => by omega, fun _ => ⟨_, rfl⟩⟩
  | .other y q, stack + 1, specifier => by
    simp only [Clonify_Derelativized, Clonify_levels]
    exact ⟨fun _ => by omega, fun _ => ⟨_, rfl⟩⟩
  | .array k q past rest b, stack + 1, specifier => by
    have h1 := Clonify_Derelativized_each_ok_iff ts types past stack
      (VAL_SPECIFIER (Derelativize (.array k q past rest b) specifier))
    have h2 := Clonify_Derelativized_each_ok_iff ts types rest stack
      (VAL_SPECIFIER (Derelativize (.array k q past rest b) specifier))
    simp only [Clonify_Derelativized, Clonify_levels]
    by_cases hc : Clonify_copies ts types (.array k) = true
    · by_cases hd : Clonify_deep ts types (.array k) = true
      · simp only [hc, hd, if_true, Bool.and_self]
        cases e1 : Clonify_Derelativized_each ts types stack
            (VAL_SPECIFIER (Derelativize (.array k q past rest b) specifier)) past with
        | error e =>
          rw [e1] at h1
          have hn : ¬ Clonify_levels_each ts types past ≤ stack := fun h => by
            obtain ⟨r, hr⟩ := h1.mpr h; cases hr
          constructor
          · rintro ⟨r, hr⟩; cases hr
          · intro h; exfalso; omega
        | ok past2 =>
          rw [e1] at h1
          have hp : Clonify_levels_each ts types past ≤ stack := h1.mp ⟨_, rfl⟩
          cases e2 : Clonify_Derelativized_each ts types stack
              (VAL_SPECIFIER (Derelativize (.array k q past rest b) specifier)) rest with
          | error e =>
            rw [e2] at h2
            have hn : ¬ Clonify_levels_each ts types rest ≤ stack := fun h => by
              obtain ⟨r, hr⟩ := h2.mpr h; cases hr
            constructor
            · rintro ⟨r, hr⟩; cases hr
            · intro h; exfalso; omega
          | ok rest2 =>
            rw [e2] at h2
            have hr : Clonify_levels_each ts types rest ≤ stack := h2.mp ⟨_, rfl⟩
            exact ⟨fun _ => by omega, fun _ => ⟨_, rfl⟩⟩
      · simp only [hc, hd, if_true, Bool.and_false, Bool.false_eq_true, if_false]
        exact ⟨fun _ => by omega, fun _ => ⟨_, rfl⟩⟩
    · simp only [hc, if_false, Bool.false_and, Bool.false_eq_true]
      exact ⟨fun _ => by omega, fun _ => ⟨_, rfl⟩⟩
theorem Clonify_Derelativized_each_ok_iff (ts : Typesets) (types : REBU64) :
    ∀ (srcs : List Cell) (stack : Nat) (specifier : Option REBNOD),
      (∃ rs, Clonify_Derelativized_each ts types stack specifier srcs = .ok rs) ↔
        Clonify_levels_each ts types srcs ≤ stack
  | [], stack, specifier => by
    simp only [Clonify_Derelativized_each, Clonify_levels_each]
    exact ⟨fun _ => Nat.zero_le _, fun _ => ⟨_, rfl⟩⟩
  | src :: rest, stack, specifier => by
    have h1 := Clonify_Derelativized_ok_iff ts types src stack specifier
    have h2 := Clonify_Derelativized_each_ok_iff ts types rest stack specifier
    simp only [Clonify_Derelativized_each, Clonify_levels_each]
    cases e1 : Clonify_Derelativized ts types stack specifier src with
    | error e =>
      rw [e1] at h1
      have hn : ¬ Clonify_levels ts types src ≤ stack := fun h => by
        obtain ⟨r, hr⟩ := h1.mpr h; cases hr
      constructor
      · rintro ⟨r, hr⟩; cases hr
      · intro h; exfalso; omega
    | ok dest =>
      rw [e1] at h1
      have hp : Clonify_levels ts types src ≤ stack := h1.mp ⟨_, rfl⟩
      cases e2 : Clonify_Derelativized_each ts types stack specifier rest with
      | error e =>
        rw [e2] at h2
        have hn : ¬ Clonify_levels_each ts types rest ≤ stack := fun h => by
          obtain ⟨r, hr⟩ := h2.mpr h; cases hr
        constructor
        · rintro ⟨r, hr⟩; cases hr
        · intro h; exfalso; omega
      | ok dests =>
        rw [e2] at h2
        have hr : Clonify_levels_each ts types rest ≤ stack := h2.mp ⟨_, rfl⟩
        exact ⟨fun _ => by omega, fun _ => ⟨_, rfl⟩⟩
end

theorem Clonify_Derelativized_overflow (ts : Typesets) (types : REBU64) (src : Cell)
    (stack : Nat) (specifier : Option REBNOD) (h : stack < Clonify_levels ts types src) :
    Clonify_Derelativized ts types stack specifier src = .error .StackOverflow := by
  cases hr : Clonify_Derelativized ts types stack specifier src with
  | ok r =>
    have := (Clonify_Derelativized_ok_iff ts types src stack specifier).mp ⟨r, hr⟩
    omega
  | error e => rw [Clonify_Derelativized_error ts types src stack specifier e hr]

theorem Clonify_Derelativized_each_overflow (ts : Typesets) (types : REBU64)
    (srcs : List Cell) (stack : Nat) (specifier : Option REBNOD)
    (h : stack < Clonify_levels_each ts types srcs) :
    Clonify_Derelativized_each ts types stack specifier srcs = .error .StackOverflow := by
  cases hr : Clonify_Derelativized_each ts types stack specifier srcs with
  | ok r =>
    have := (Clonify_Derelativized_each_ok_iff ts types srcs stack specifier).mp ⟨r, hr⟩
    omega
  | error e => rw [Clonify_Derelativized_each_error ts types srcs stack specifier e hr]

/-! ## The body that the virtual bind leaves -/

theorem skeleton_length : ∀ (xs : List Cell), (skeleton xs).length = xs.length
  | [] => by simp [skeleton]
  | x :: xs => by simp [skeleton, skeleton_length xs]

theorem Virtual_Bind_body_of_copy (ts : Typesets) (stack id : Nat) (binder : Reb_Binder)
    (past rest : List Cell) (b : Option REBNOD) (spec : Cell) (copy : List Cell)
    (hne : Virtual_Bind_Deep_To_New_Context_items spec ≠ [])
    (hvalid : ∀ item ∈ Virtual_Bind_Deep_To_New_Context_items spec,
      IS_WORD item = true ∨ IS_QUOTED_WORD item = true)
    (hplain : (Virtual_Bind_Deep_To_New_Context_items spec).any IS_WORD = true)
    (hcopy : Copy_Array_Core_Managed ts stack (past ++ rest) past.length b
      (past ++ rest).length TS_ARRAY = .ok copy) :
    ∃ cells, (Virtual_Bind_Deep_To_New_Context ts stack id binder
        (.array .REB_BLOCK 0 past rest b) spec).body = .array .REB_BLOCK 0 [] cells UNBOUND ∧
      skeleton cells = skeleton copy := by
  rw [Virtual_Bind_unfold_rebinding ts stack id binder past rest b spec copy hne hvalid hplain
    hcopy]
  generalize Virtual_Bind_Deep_To_New_Context_slots true
    (if IS_BLOCK spec then VAL_SPECIFIER spec else none) binder none
    (Virtual_Bind_Deep_To_New_Context_items spec) 1 = slots
  obtain ⟨sb, sk, sv, sd, se⟩ := slots
  cases sd with
  | some d => exact ⟨copy, rfl, rfl⟩
  | none =>
    refine ⟨_, rfl, ?_⟩
    have hkinds : ∀ kind, TS_WORD kind = true → TS_WORD kind = true := fun _ h => h
    have hbind := Bind_Values_Inner_Loop_no_midstream sb ⟨id, false, sk, sv, true⟩ TS_WORD
      (fun _ => false) true hkinds (fun _ => rfl) copy
    have hsk := Bind_Values_Inner_Loop_skeleton TS_WORD (fun _ => false) true copy sb
      ⟨id, false, sk, sv, true⟩ (by rw [hbind])
    rw [hbind] at hsk
    exact hsk

/-! ## Flatten -/

theorem IS_BLOCK_Derelativize (v : Cell) (specifier : Option REBNOD) :
    IS_BLOCK (Derelativize v specifier) = IS_BLOCK v := by
  unfold Derelativize
  split_ifs
  · cases v with
    | array k q past rest b => cases k <;> rfl
    | word k q s b i => rfl
    | action q b => rfl
    | other y q => rfl
  · rfl

theorem PushedFrom_map (specifier : Option REBNOD) :
    ∀ (src : List Cell), PushedFrom (src.map (fun c => DS_PUSH_RELVAL c specifier)) src
  | [] => List.Forall₂.nil
  | _ :: rest => List.Forall₂.cons ⟨specifier, rfl⟩ (PushedFrom_map specifier rest)

theorem PushedFrom_append (o1 o2 s1 s2 : List Cell) (h1 : PushedFrom o1 s1)
    (h2 : PushedFrom o2 s2) : PushedFrom (o1 ++ o2) (s1 ++ s2) :=
  List.rel_append h1 h2

theorem PushedFrom_at (out src : List Cell) (h : PushedFrom out src) :
    out.length = src.length ∧
    ∀ (i : Nat) (v : Cell), src[i]? = some v →
      ∃ o specifier, out[i]? = some o ∧ o = Derelativize v specifier ∧
        (IS_RELATIVE v = false → o = v) := by
  induction h with
  | nil => exact ⟨rfl, fun i v hv => by simp at hv⟩
  | cons hab _ ih =>
    obtain ⟨sp, hsp⟩ := hab
    refine ⟨by simp [ih.1], fun i v hv => ?_⟩
    cases i with
    | zero =>
      simp only [List.getElem?_cons_zero, Option.some.injEq] at hv
      subst hv
      exact ⟨_, sp, by simp, hsp, fun hr => by
        rw [hsp, DS_PUSH_RELVAL, Derelativize_of_not_relative _ _ hr]⟩
    | succ i =>
      simp only [List.getElem?_cons_succ] at hv ⊢
      exact ih.2 i v hv

theorem Flatten_Core_not (D : Option REBNOD → Cell → Option REBNOD)
    (specifier : Option REBNOD) :
    ∀ (head : List Cell), Flatten_Core D head specifier .FLATTEN_NOT
      = head.map (fun c => DS_PUSH_RELVAL c specifier)
  | [] => by simp [Flatten_Core]
  | c :: rest => by
    rw [Flatten_Core, Flatten_Core_not D specifier rest]
    cases c <;> simp [Flatten_Core_item]

theorem Flatten_Core_once (D : Option REBNOD → Cell → Option REBNOD)
    (specifier : Option REBNOD) :
    ∀ (head : List Cell),
      PushedFrom (Flatten_Core D head specifier .FLATTEN_ONCE) (blocks_opened_once head)
  | [] => by simp [Flatten_Core, blocks_opened_once, PushedFrom]
  | c :: rest => by
    have ih := Flatten_Core_once D specifier rest
    rw [Flatten_Core]
    have hsplit : blocks_opened_once (c :: rest)
        = (if IS_BLOCK c then VAL_ARRAY_AT c else [c]) ++ blocks_opened_once rest := by
      simp [blocks_opened_once]
    rw [hsplit]
    apply PushedFrom_append _ _ _ _ _ ih
    cases c with
    | word k q s b i =>
      simp only [Flatten_Core_item, IS_BLOCK, Bool.false_eq_true, if_false]
      exact PushedFrom_map specifier [_]
    | action q b =>
      simp only [Flatten_Core_item, IS_BLOCK, Bool.false_eq_true, if_false]
      exact PushedFrom_map specifier [_]
    | other y q =>
      simp only [Flatten_Core_item, IS_BLOCK, Bool.false_eq_true, if_false]
      exact PushedFrom_map specifier [_]
    | array k q past r b =>
      by_cases hb : IS_BLOCK (.array k q past r b) = true
      · have h1 : Flatten_Core_item D (.array k q past r b) specifier .FLATTEN_ONCE
            = Flatten_Core D r (D specifier (.array k q past r b)) .FLATTEN_NOT := by
          simp [Flatten_Core_item, hb]
        rw [h1, if_pos hb, Flatten_Core_not]
        exact PushedFrom_map _ r
      · have h1 : Flatten_Core_item D (.array k q past r b) specifier .FLATTEN_ONCE
            = [DS_PUSH_RELVAL (.array k q past r b) specifier] := by
          simp [Flatten_Core_item, hb]
        rw [h1, if_neg hb]
        exact PushedFrom_map specifier [_]

mutual
theorem Flatten_Core_deep (D : Option REBNOD → Cell → Option REBNOD) :
    ∀ (head : List Cell) (specifier : Option REBNOD),
      PushedFrom (Flatten_Core D head specifier .FLATTEN_DEEP) (block_leaves head) ∧
      ∀ c ∈ Flatten_Core D head specifier .FLATTEN_DEEP, IS_BLOCK c = false
  | [], specifier => by simp [Flatten_Core, block_leaves, PushedFrom]
  | c :: rest, specifier => by
    have h1 := Flatten_Core_item_deep D c specifier
    have h2 := Flatten_Core_deep D rest specifier
    rw [Flatten_Core, block_leaves]
    refine ⟨PushedFrom_append _ _ _ _ h1.1 h2.1, fun x hx => ?_⟩
    rcases List.mem_append.mp hx with h | h
    · exact h1.2 x h
    · exact h2.2 x h
theorem Flatten_Core_item_deep (D : Option REBNOD → Cell → Option REBNOD) :
    ∀ (item : Cell) (specifier : Option REBNOD),
      PushedFrom (Flatten_Core_item D item specifier .FLATTEN_DEEP) (block_leaves_cell item) ∧
      ∀ c ∈ Flatten_Core_item D item specifier .FLATTEN_DEEP, IS_BLOCK c = false
  | .word k q s b i, specifier => by
    simp only [Flatten_Core_item, block_leaves_cell]
    refine ⟨PushedFrom_map specifier [_], fun c hc => ?_⟩
    rw [List.mem_singleton] at hc
    rw [hc, DS_PUSH_RELVAL, IS_BLOCK_Derelativize]
    rfl
  | .action q b, specifier => by
    simp only [Flatten_Core_item, block_leaves_cell]
    refine ⟨PushedFrom_map specifier [_], fun c hc => ?_⟩
    rw [List.mem_singleton] at hc
    rw [hc, DS_PUSH_RELVAL, IS_BLOCK_Derelativize]
    rfl
  | .other y q, specifier => by
    simp only [Flatten_Core_item, block_leaves_cell]
    refine ⟨PushedFrom_map specifier [_], fun c hc => ?_⟩
    rw [List.mem_singleton] at hc
    rw [hc, DS_PUSH_RELVAL, IS_BLOCK_Derelativize]
    rfl
  | .array k q past r b, specifier => by
    by_cases hb : IS_BLOCK (.array k q past r b) = true
    · have h1 : Flatten_Core_item D (.array k q past r b) specifier .FLATTEN_DEEP
          = Flatten_Core D r (D specifier (.array k q past r b)) .FLATTEN_DEEP := by
        simp [Flatten_Core_item, hb]
      have h2 : block_leaves_cell (.array k q past r b) = block_leaves r := by
        simp [block_leaves_cell, hb]
      rw [h1, h2]
      exact Flatten_Core_deep D r _
    · have h1 : Flatten_Core_item D (.array k q past r b) specifier .FLATTEN_DEEP
          = [DS_PUSH_RELVAL (.array k q past r b) specifier] := by
        simp [Flatten_Core_item, hb]
      have h2 : block_leaves_cell (.array k q past r b) = [.array k q past r b] := by
        simp [block_leaves_cell, hb]
      rw [h1, h2]
      refine ⟨PushedFrom_map specifier [_], fun c hc => ?_⟩
      rw [List.mem_singleton] at hc
      rw [hc, DS_PUSH_RELVAL, IS_BLOCK_Derelativize]
      simpa using hb
end

theorem Flatten_Core_item_closed (D : Option REBNOD → Cell → Option REBNOD) (c : Cell)
    (specifier : Option REBNOD) (level : FLATTEN_LEVEL) (h : IS_BLOCK c = false) :
    Flatten_Core D [c] specifier level = [DS_PUSH_RELVAL c specifier] := by
  cases c <;> simp [Flatten_Core, Flatten_Core_item, h]

/-! ## The signs of the Binder indices of the virtual bind and the assertions on them -/

theorem Virtual_Bind_slots_sign (specifier : Option REBNOD) :
    ∀ (items : List Cell) (binder : Reb_Binder) (duplicate : Option REBSTR) (index : Nat),
    0 < index →
    (∀ item ∈ items, IS_WORD item = true ∨ IS_QUOTED_WORD item = true) →
    ∀ c,
      (binder.index c ≠ 0 →
        (Virtual_Bind_Deep_To_New_Context_slots true specifier binder duplicate items
          index).binder.index c = binder.index c) ∧
      (binder.index c = 0 → ∀ e, items.find? (fun e => VAL_WORD_CANON e == some c) = some e →
        (IS_WORD e = true →
          (Virtual_Bind_Deep_To_New_Context_slots true specifier binder duplicate items
            index).binder.index c > 0) ∧
        (IS_WORD e = false →
          (Virtual_Bind_Deep_To_New_Context_slots true specifier binder duplicate items
            index).binder.index c < 0))
  | [], _, _, _, _, _, c => by simp [Virtual_Bind_Deep_To_New_Context_slots]
  | item :: rest, binder, duplicate, index, hidx, h, c => by
    have hrest : ∀ e ∈ rest, IS_WORD e = true ∨ IS_QUOTED_WORD e = true :=
      fun e he => h e (List.mem_cons_of_mem _ he)
    obtain ⟨s, b, i, rfl | rfl⟩ := spec_item_shape item (h item (List.mem_cons_self _ _))
    · rw [Virtual_Bind_Deep_To_New_Context_slots, Virtual_Bind_slot_plain]
      simp only []
      have ih := Virtual_Bind_slots_sign specifier rest
        (if binder.index s.canon ≠ 0 then binder
          else ⟨Function.update binder.index s.canon index⟩)
        (if binder.index s.canon ≠ 0 then
            (match duplicate with
              | none => some s
              | some d => some d)
          else duplicate) (index + 1) (Nat.succ_pos _) hrest c
      by_cases h0 : binder.index s.canon = 0
      · simp only [h0, ne_eq, not_true_eq_false, if_false] at ih ⊢
        by_cases hc : c = s.canon
        · subst hc
          have hnz : Function.update binder.index s.canon (index : Int) s.canon ≠ 0 := by
            rw [Function.update_same]; omega
          have h1 := ih.1 hnz
          rw [Function.update_same] at h1
          refine ⟨fun hne => absurd h0 hne, fun _ e he => ?_⟩
          simp only [List.find?_cons, VAL_WORD_CANON, beq_self_eq_true, Option.some.injEq] at he
          subst he
          exact ⟨fun _ => by rw [h1]; omega, fun hw => by simp [IS_WORD] at hw⟩
        · have hu : Function.update binder.index s.canon (index : Int) c = binder.index c :=
            Function.update_noteq hc _ _
          rw [hu] at ih
          refine ⟨ih.1, fun hz e he => ?_⟩
          have hne : (VAL_WORD_CANON (Cell.word .REB_WORD 0 s b i) == some c) = false := by
            simp only [VAL_WORD_CANON, beq_eq_false_iff_ne, ne_eq, Option.some.injEq]
            exact fun h => hc h.symm
          rw [List.find?_cons, hne] at he
          exact ih.2 hz e he
      · simp only [ne_eq, h0, not_false_eq_true, if_true] at ih ⊢
        refine ⟨ih.1, fun hz e he => ?_⟩
        have hc : c ≠ s.canon := fun hc => h0 (hc ▸ hz)
        have hne : (VAL_WORD_CANON (Cell.word .REB_WORD 0 s b i) == some c) = false := by
          simp only [VAL_WORD_CANON, beq_eq_false_iff_ne, ne_eq, Option.some.injEq]
          exact fun h => hc h.symm
        rw [List.find?_cons, hne] at he
        exact ih.2 hz e he
    · rw [Virtual_Bind_Deep_To_New_Context_slots, Virtual_Bind_slot_quoted]
      simp only [true_and]
      have ih := Virtual_Bind_slots_sign specifier rest
        (if binder.index s.canon = 0
          then ⟨Function.update binder.index s.canon (-1)⟩ else binder)
        (if binder.index s.canon > 0 then
            (match duplicate with
              | none => some s
              | some d => some d)
          else duplicate) (index + 1) (Nat.succ_pos _) hrest c
      by_cases h0 : binder.index s.canon = 0
      · simp only [h0, if_true] at ih ⊢
        by_cases hc : c = s.canon
        · subst hc
          have hnz : Function.update binder.index s.canon (-1 : Int) s.canon ≠ 0 := by
            rw [Function.update_same]; omega
          have h1 := ih.1 hnz
          rw [Function.update_same] at h1
          refine ⟨fun hne => absurd h0 hne, fun _ e he => ?_⟩
          simp only [List.find?_cons, VAL_WORD_CANON, beq_self_eq_true, Option.some.injEq] at he
          subst he
          exact ⟨fun hw => by simp [IS_WORD] at hw, fun _ => by rw [h1]; omega⟩
        · have hu : Function.update binder.index s.canon (-1 : Int) c = binder.index c :=
            Function.update_noteq hc _ _
          rw [hu] at ih
          refine ⟨ih.1, fun hz e he => ?_⟩
          have hne : (VAL_WORD_CANON (Cell.word .REB_WORD 1 s b i) == some c) = false := by
            simp only [VAL_WORD_CANON, beq_eq_false_iff_ne, ne_eq, Option.some.injEq]
            exact fun h => hc h.symm
          rw [List.find?_cons, hne] at he
          exact ih.2 hz e he
      · simp only [h0, if_false] at ih ⊢
        refine ⟨ih.1, fun hz e he => ?_⟩
        have hc : c ≠ s.canon := fun hc => h0 (hc ▸ hz)
        have hne : (VAL_WORD_CANON (Cell.word .REB_WORD 1 s b i) == some c) = false := by
          simp only [VAL_WORD_CANON, beq_eq_false_iff_ne, ne_eq, Option.some.injEq]
          exact fun h => hc h.symm
        rw [List.find?_cons, hne] at he
        exact ih.2 hz e he

theorem Virtual_Bind_reset_asserts_hold (specifier : Option REBNOD)
    (duplicate : Option REBSTR) :
    ∀ (items : List Cell) (ks : List REBKEY) (B : Reb_Binder),
    (∀ item ∈ items, IS_WORD item = true ∨ IS_QUOTED_WORD item = true) →
    ks.map some = items.map specKey →
    (∀ c e, items.find? (fun e => VAL_WORD_CANON e == some c) = some e →
      (B.index c > 0 → IS_WORD e = true) ∧ (B.index c < 0 → IS_WORD e = false) ∧
      (B.index c = 0 → duplicate.isSome = true)) →
    (duplicate.isSome = true ∨ (items.map VAL_WORD_CANON).Nodup) →
    Virtual_Bind_Deep_To_New_Context_reset_asserts B ks (items.map (specVar specifier))
      duplicate = true
  | [], ks, B, _, _, _, _ => by
    cases ks <;> simp [Virtual_Bind_Deep_To_New_Context_reset_asserts]
  | item :: rest, [], B, _, hk, _, _ => by simp at hk
  | item :: rest, k :: ks, B, h, hk, hH, hd => by
    have hrest : ∀ e ∈ rest, IS_WORD e = true ∨ IS_QUOTED_WORD e = true :=
      fun e he => h e (List.mem_cons_of_mem _ he)
    simp only [List.map_cons, List.cons.injEq] at hk
    obtain ⟨s, b, i, hshape⟩ := spec_item_shape item (h item (List.mem_cons_self _ _))
    have hcanon : VAL_WORD_CANON item = some s.canon := by
      rcases hshape with rfl | rfl <;> rfl
    have hkc : VAL_KEY_CANON k = s.canon := by
      have := hk.1
      rcases hshape with rfl | rfl <;>
        simp only [specKey, VAL_WORD_SPELLING, Option.some.injEq] at this <;>
        rw [this] <;> rfl
    have hfirst : (item :: rest).find? (fun e => VAL_WORD_CANON e == some s.canon)
        = some item := by
      rw [List.find?_cons, hcanon]
      simp
    obtain ⟨hpos, hneg, hzero⟩ := hH s.canon item hfirst
    have hmarked : (specVar specifier item).marked = !IS_WORD item := by
      unfold specVar
      split_ifs with hw
      · simp [hw]
      · simp [hw]
    have ih := Virtual_Bind_reset_asserts_hold specifier duplicate rest ks
      ⟨Function.update B.index s.canon 0⟩ hrest hk.2 (by
        intro c e he
        by_cases hc : c = s.canon
        · subst hc
          simp only [Function.update_same]
          refine ⟨fun h => absurd h (by omega), fun h => absurd h (by omega), fun _ => ?_⟩
          rcases hd with hd | hd
          · exact hd
          · exfalso
            simp only [List.map_cons, List.nodup_cons, hcanon] at hd
            apply hd.1
            have hmem := List.mem_of_find?_eq_some he
            have hp := List.find?_some he
            simp only [beq_iff_eq] at hp
            rw [← hp]
            exact List.mem_map_of_mem _ hmem
        · simp only [Function.update_noteq hc]
          apply hH c e
          rw [List.find?_cons, hcanon]
          have : (some s.canon == some c) = false := by
            simp only [beq_eq_false_iff_ne, ne_eq, Option.some.injEq]
            exact fun h => hc h.symm
          rw [this]
          exact he) (by
        rcases hd with hd | hd
        · exact Or.inl hd
        · simp only [List.map_cons, List.nodup_cons] at hd
          exact Or.inr hd.2)
    simp only [List.map_cons, Virtual_Bind_Deep_To_New_Context_reset_asserts,
      Remove_Binder_Index_Else_0, hkc, Bool.and_eq_true]
    refine ⟨?_, ih⟩
    rcases lt_trichotomy (B.index s.canon) 0 with hlt | heq | hgt
    · have h1 : ¬ B.index s.canon = 0 := by omega
      have h2 : ¬ B.index s.canon > 0 := by omega
      simp only [h1, h2, if_false, hmarked, hneg hlt]
      rfl
    · simp only [heq, if_true]
      exact hzero heq
    · have h1 : ¬ B.index s.canon = 0 := by omega
      simp only [h1, hgt, if_false, if_true, hmarked, hpos hgt]
      rfl

theorem Virtual_Bind_reset_asserts_fail_zero (specifier : Option REBNOD) :
    ∀ (items : List Cell) (ks : List REBKEY) (B : Reb_Binder),
    (∀ item ∈ items, IS_WORD item = true ∨ IS_QUOTED_WORD item = true) →
    ks.map some = items.map specKey →
    (∃ e ∈ items, ∃ c, VAL_WORD_CANON e = some c ∧ B.index c = 0) →
    Virtual_Bind_Deep_To_New_Context_reset_asserts B ks (items.map (specVar specifier))
      none = false
  | [], ks, B, _, _, hex => by
    obtain ⟨e, he, -⟩ := hex
    simp at he
  | item :: rest, [], B, _, hk, _ => by simp at hk
  | item :: rest, k :: ks, B, h, hk, hex => by
    have hrest : ∀ e ∈ rest, IS_WORD e = true ∨ IS_QUOTED_WORD e = true :=
      fun e he => h e (List.mem_cons_of_mem _ he)
    simp only [List.map_cons, List.cons.injEq] at hk
    obtain ⟨s, b, i, hshape⟩ := spec_item_shape item (h item (List.mem_cons_self _ _))
    have hcanon : VAL_WORD_CANON item = some s.canon := by
      rcases hshape with rfl | rfl <;> rfl
    have hkc : VAL_KEY_CANON k = s.canon := by
      have := hk.1
      rcases hshape with rfl | rfl <;>
        simp only [specKey, VAL_WORD_SPELLING, Option.some.injEq] at this <;>
        rw [this] <;> rfl
    simp only [List.map_cons, Virtual_Bind_Deep_To_New_Context_reset_asserts,
      Remove_Binder_Index_Else_0, hkc, Bool.and_eq_false_iff]
    by_cases h0 : B.index s.canon = 0
    · left
      simp [h0]
    · right
      obtain ⟨e, he, c, hc, hz⟩ := hex
      apply Virtual_Bind_reset_asserts_fail_zero specifier rest ks _ hrest hk.2
      rcases List.mem_cons.mp he with rfl | he
      · rw [hcanon] at hc
        simp only [Option.some.injEq] at hc
        subst hc
        exact absurd hz h0
      · refine ⟨e, he, c, hc, ?_⟩
        by_cases hcs : c = s.canon
        · subst hcs; simp
        · simp only [Function.update_noteq hcs]; exact hz

theorem Virtual_Bind_reset_asserts_fail_repeat (specifier : Option REBNOD) :
    ∀ (items : List Cell) (ks : List REBKEY) (B : Reb_Binder),
    (∀ item ∈ items, IS_WORD item = true ∨ IS_QUOTED_WORD item = true) →
    ks.map some = items.map specKey →
    ¬ (items.map VAL_WORD_CANON).Nodup →
    Virtual_Bind_Deep_To_New_Context_reset_asserts B ks (items.map (specVar specifier))
      none = false
  | [], ks, B, _, _, hnd => by simp at hnd
  | item :: rest, [], B, _, hk, _ => by simp at hk
  | item :: rest, k :: ks, B, h, hk, hnd => by
    have hrest : ∀ e ∈ rest, IS_WORD e = true ∨ IS_QUOTED_WORD e = true :=
      fun e he => h e (List.mem_cons_of_mem _ he)
    simp only [List.map_cons, List.cons.injEq] at hk
    obtain ⟨s, b, i, hshape⟩ := spec_item_shape item (h item (List.mem_cons_self _ _))
    have hcanon : VAL_WORD_CANON item = some s.canon := by
      rcases hshape with rfl | rfl <;> rfl
    have hkc : VAL_KEY_CANON k = s.canon := by
      have := hk.1
      rcases hshape with rfl | rfl <;>
        simp only [specKey, VAL_WORD_SPELLING, Option.some.injEq] at this <;>
        rw [this] <;> rfl
    simp only [List.map_cons, Virtual_Bind_Deep_To_New_Context_reset_asserts,
      Remove_Binder_Index_Else_0, hkc, Bool.and_eq_false_iff]
    right
    simp only [List.map_cons, List.nodup_cons, not_and_or, not_not, hcanon] at hnd
    rcases hnd with hmem | hnd
    · obtain ⟨e, he, hec⟩ := List.mem_map.mp hmem
      exact Virtual_Bind_reset_asserts_fail_zero specifier rest ks _ hrest hk.2
        ⟨e, he, s.canon, hec, by simp⟩
    · exact Virtual_Bind_reset_asserts_fail_repeat specifier rest ks _ hrest hk.2 hnd

theorem Virtual_Bind_reset_asserts_iff (specifier : Option REBNOD) (binder : Reb_Binder)
    (items : List Cell)
    (hempty : ∀ canon, Get_Binder_Index_Else_0 binder canon = 0)
    (hvalid : ∀ item ∈ items, IS_WORD item = true ∨ IS_QUOTED_WORD item = true) :
    Virtual_Bind_Deep_To_New_Context_reset_asserts
        (Virtual_Bind_Deep_To_New_Context_slots true specifier binder none items 1).binder
        (Virtual_Bind_Deep_To_New_Context_slots true specifier binder none items 1).keys
        (Virtual_Bind_Deep_To_New_Context_slots true specifier binder none items 1).vars
        (Virtual_Bind_Deep_To_New_Context_slots true specifier binder none items 1).duplicate
        = true ↔
      ((Virtual_Bind_Deep_To_New_Context_slots true specifier binder none items
          1).duplicate.isSome = true ∨
        (items.map VAL_WORD_CANON).Nodup) := by
  obtain ⟨-, hk, hv⟩ := Virtual_Bind_slots_keys specifier true items binder none 1 hvalid
  have hsign := Virtual_Bind_slots_sign specifier items binder none 1 (by omega) hvalid
  rw [hv]
  constructor
  · intro h
    by_contra hcon
    rw [not_or] at hcon
    have hnone : (Virtual_Bind_Deep_To_New_Context_slots true specifier binder none items
        1).duplicate = none := by
      cases hd : (Virtual_Bind_Deep_To_New_Context_slots true specifier binder none items
          1).duplicate with
      | none => rfl
      | some d => rw [hd] at hcon; simp at hcon
    rw [hnone, Virtual_Bind_reset_asserts_fail_repeat specifier items _ _ hvalid hk hcon.2] at h
    exact Bool.noConfusion h
  · intro h
    apply Virtual_Bind_reset_asserts_hold specifier _ items _ _ hvalid hk _ h
    intro c e he
    obtain ⟨hp, hn⟩ := (hsign c).2 (hempty c) e he
    refine ⟨fun hgt => ?_, fun hlt => ?_, fun hz => ?_⟩
    · cases hw : IS_WORD e with
      | true => rfl
      | false => have := hn hw; omega
    · cases hw : IS_WORD e with
      | false => rfl
      | true => have := hp hw; omega
    · cases hw : IS_WORD e with
      | false => have := hn hw; omega
      | true => have := hp hw; omega

/-! ## A Bind without midstream additions, run twice -/

theorem Bind_cell_word_no_midstream (binder : Reb_Binder) (context : REBCTX)
    (bt amt : REBU64) (deep : Bool) (hamt : ∀ kind, amt kind = false)
    (k : WordKind) (q : Nat) (s : REBSTR) (b : Option REBNOD) (i : Int) :
    (Bind_Values_Inner_Loop_cell binder (.word k q s b i) context bt amt deep).cells.headD
        (.word k q s b i)
      = if bt (.word k) = true ∧ Get_Binder_Index_Else_0 binder s.canon > 0
          then .word k q s (some (NOD context)) (Get_Binder_Index_Else_0 binder s.canon)
          else .word k q s b i := by
  simp only [Bind_Values_Inner_Loop_cell, Bind_word_no_midstream binder context amt hamt]
  by_cases h1 : bt (.word k) = true
  · by_cases h2 : Get_Binder_Index_Else_0 binder s.canon > 0
    · simp [h1, h2]
    · simp [h1, h2]
  · simp [h1]

theorem Bind_cell_leaf_no_midstream (binder : Reb_Binder) (context : REBCTX)
    (bt amt : REBU64) (deep : Bool) (hkinds : ∀ kind, bt kind = true → TS_WORD kind = true) :
    (∀ q b, (Bind_Values_Inner_Loop_cell binder (.action q b) context bt amt deep).cells.headD
      (.action q b) = .action q b) ∧
    (∀ y q, (Bind_Values_Inner_Loop_cell binder (.other y q) context bt amt deep).cells.headD
      (.other y q) = .other y q) := by
  constructor
  · intro q b
    have : bt .REB_ACTION = false := by
      cases h : bt .REB_ACTION
      · rfl
      · have := hkinds _ h
        simp [TS_WORD] at this
    simp [Bind_Values_Inner_Loop_cell, this]
  · intro y q
    have : bt (.other y) = false := by
      cases h : bt (.other y)
      · rfl
      · have := hkinds _ h
        simp [TS_WORD] at this
    simp [Bind_Values_Inner_Loop_cell, this]

theorem Bind_cell_array_any_no_midstream (binder : Reb_Binder) (context : REBCTX)
    (bt amt : REBU64) (deep : Bool) (hkinds : ∀ kind, bt kind = true → TS_WORD kind = true)
    (hamt : ∀ kind, amt kind = false)
    (k : ArrayKind) (q : Nat) (past rest : List Cell) (b : Option REBNOD) :
    (Bind_Values_Inner_Loop_cell binder (.array k q past rest b) context bt amt deep).cells.headD
        (.array k q past rest b)
      = .array k q past
          (if deep then rest.map (fun v =>
            (Bind_Values_Inner_Loop_cell binder v context bt amt deep).cells.headD v)
            else rest) b := by
  have : bt (.array k) = false := by
    cases h : bt (.array k)
    · rfl
    · have := hkinds _ h
      simp [TS_WORD] at this
  cases deep
  · simp [Bind_Values_Inner_Loop_cell, this]
  · simp [Bind_Values_Inner_Loop_cell, this,
      Bind_Values_Inner_Loop_no_midstream binder context bt amt true hkinds hamt rest]

mutual
theorem Bind_cell_idempotent (binder : Reb_Binder) (context : REBCTX)
    (bt amt : REBU64) (deep : Bool) (hkinds : ∀ kind, bt kind = true → TS_WORD kind = true)
    (hamt : ∀ kind, amt kind = false) :
    ∀ (v : Cell),
      (Bind_Values_Inner_Loop_cell binder
          ((Bind_Values_Inner_Loop_cell binder v context bt amt deep).cells.headD v)
          context bt amt deep).cells.headD
        ((Bind_Values_Inner_Loop_cell binder v context bt amt deep).cells.headD v)
      = (Bind_Values_Inner_Loop_cell binder v context bt amt deep).cells.headD v
  | .word k q s b i => by
    rw [Bind_cell_word_no_midstream binder context bt amt deep hamt]
    split_ifs with h
    · rw [Bind_cell_word_no_midstream binder context bt amt deep hamt, if_pos h]
    · rw [Bind_cell_word_no_midstream binder context bt amt deep hamt, if_neg h]
  | .action q b => by
    rw [(Bind_cell_leaf_no_midstream binder context bt amt deep hkinds).1,
      (Bind_cell_leaf_no_midstream binder context bt amt deep hkinds).1]
  | .other y q => by
    rw [(Bind_cell_leaf_no_midstream binder context bt amt deep hkinds).2,
      (Bind_cell_leaf_no_midstream binder context bt amt deep hkinds).2]
  | .array k q past rest b => by
    rw [Bind_cell_array_any_no_midstream binder context bt amt deep hkinds hamt,
      Bind_cell_array_any_no_midstream binder context bt amt deep hkinds hamt]
    cases deep with
    | false => rfl
    | true =>
      simp only [if_true]
      rw [Bind_cells_idempotent binder context bt amt true hkinds hamt rest]
theorem Bind_cells_idempotent (binder : Reb_Binder) (context : REBCTX)
    (bt amt : REBU64) (deep : Bool) (hkinds : ∀ kind, bt kind = true → TS_WORD kind = true)
    (hamt : ∀ kind, amt kind = false) :
    ∀ (vs : List Cell),
      (vs.map (fun v =>
          (Bind_Values_Inner_Loop_cell binder v context bt amt deep).cells.headD v)).map
        (fun v => (Bind_Values_Inner_Loop_cell binder v context bt amt deep).cells.headD v)
      = vs.map (fun v =>
          (Bind_Values_Inner_Loop_cell binder v context bt amt deep).cells.headD v)
  | [] => rfl
  | v :: rest => by
    simp only [List.map_cons]
    rw [Bind_cell_idempotent binder context bt amt deep hkinds hamt v,
      Bind_cells_idempotent binder context bt amt deep hkinds hamt rest]
end

theorem Bind_under_any_no_midstream (binder : Reb_Binder) (context : REBCTX)
    (bt amt : REBU64) (deep : Bool) (hkinds : ∀ kind, bt kind = true → TS_WORD kind = true)
    (hamt : ∀ kind, amt kind = false) :
    ∀ (path : List Nat) (o : Option Cell),
    cellUnder (o.map (fun v =>
        (Bind_Values_Inner_Loop_cell binder v context bt amt deep).cells.headD v)) path
      = (cellUnder o path).map (fun v =>
          (Bind_Values_Inner_Loop_cell binder v context bt amt deep).cells.headD v) ∨
    cellUnder (o.map (fun v =>
        (Bind_Values_Inner_Loop_cell binder v context bt amt deep).cells.headD v)) path
      = cellUnder o path
  | [], o => Or.inl (by simp [cellUnder])
  | j :: path, none => Or.inr (by simp [cellUnder])
  | j :: path, some c => by
    cases c with
    | word k q s b i =>
      right
      rw [Option.map_some', Bind_cell_word_no_midstream binder context bt amt deep hamt]
      split_ifs <;> simp [cellUnder, VAL_ARRAY, cellUnder_none]
    | action q b =>
      right
      rw [Option.map_some', (Bind_cell_leaf_no_midstream binder context bt amt deep hkinds).1]
    | other y q =>
      right
      rw [Option.map_some', (Bind_cell_leaf_no_midstream binder context bt amt deep hkinds).2]
    | array k q past rest b =>
      rw [Option.map_some', Bind_cell_array_any_no_midstream binder context bt amt deep hkinds
        hamt]
      cases deep with
      | false => right; rfl
      | true =>
        simp only [if_true, cellUnder, VAL_ARRAY]
        by_cases hj : j < past.length
        · right
          rw [List.getElem?_append_left hj, List.getElem?_append_left hj]
        · have hle : past.length ≤ j := by omega
          rw [List.getElem?_append_right hle, List.getElem?_append_right hle,
            List.getElem?_map]
          exact Bind_under_any_no_midstream binder context bt amt true hkinds hamt path
            (rest[j - past.length]?)

theorem Seeded_unique (b1 b2 : Reb_Binder) (keys : List REBKEY) (h1 : Seeded b1 keys)
    (h2 : Seeded b2 keys) : b1 = b2 := by
  cases b1 with
  | mk i1 =>
    cases b2 with
    | mk i2 =>
      have : i1 = i2 := funext (fun s => by
        have a := h1 s
        have c := h2 s
        simp only at a c
        rw [a, c])
      rw [this]

theorem Bind_Values_Core_no_midstream (binder : Reb_Binder) (head : List Cell)
    (context : REBCTX) (bt amt : REBU64) (deep : Bool)
    (hempty : ∀ canon, Get_Binder_Index_Else_0 binder canon = 0)
    (hdistinct : (bindableCanons context.keys).Nodup)
    (hkinds : ∀ kind, bt kind = true → TS_WORD kind = true)
    (hamt : ∀ kind, amt kind = false) :
    Seeded (Bind_Values_Core_seed binder context.keys 1).1 context.keys ∧
    Bind_Values_Core binder head context bt amt deep
      = ⟨Bind_Values_Core_reset (Bind_Values_Core_seed binder context.keys 1).1 context.keys,
          context,
          head.map (fun v =>
            (Bind_Values_Inner_Loop_cell (Bind_Values_Core_seed binder context.keys 1).1 v
              context bt amt deep).cells.headD v), none⟩ ∧
    ∀ canon, Get_Binder_Index_Else_0
      (Bind_Values_Core_reset (Bind_Values_Core_seed binder context.keys 1).1 context.keys)
      canon = 0 := by
  obtain ⟨hs1, hs2⟩ := Bind_Values_Core_seed_ok context.keys [] binder (Seeded_nil binder hempty)
    (by simpa using hdistinct)
  simp only [List.length_nil, Nat.zero_add, List.nil_append] at hs1 hs2
  refine ⟨hs2, ?_, ?_⟩
  · unfold Bind_Values_Core
    rcases hseed : Bind_Values_Core_seed binder context.keys 1 with ⟨sb, se⟩
    rw [hseed] at hs1
    simp only at hs1
    subst hs1
    simp only [Bind_Values_Inner_Loop_no_midstream sb context bt amt deep hkinds hamt head]
  · exact (Bind_Values_Core_reset_spec context.keys 1 _ Nat.one_pos hs2 hdistinct).1

/-! ## The claims about Bind -/

/-- C1: midstream addition gives every symbol one slot.  Entered with an
empty Binder, on a context whose bindable keys have pairwise distinct canons
and with only word kinds in `bind_types`, `Bind_Values_Core` returns without
error and (i) the keys of the context are the old keys followed by one new
bindable key for each distinct canon that occurs in a tested cell whose kind
is also in `add_midstream_types` and that was not a bindable key before;
(ii) every tested cell of such a canon, from the first one whose kind is in
`add_midstream_types` on in document order, ends bound to the context at
the position of the one bindable key of that canon, a position past the old
length. -/
theorem Bind_Values_Core_midstream_one_slot (binder : Reb_Binder) (head : List Cell)
    (context : REBCTX) (bind_types add_midstream_types : REBU64) (deep : Bool)
    (hempty : ∀ canon, Get_Binder_Index_Else_0 binder canon = 0)
    (hdistinct : (bindableCanons context.keys).Nodup)
    (hkinds : ∀ kind, bind_types kind = true → TS_WORD kind = true) :
    (Bind_Values_Core binder head context bind_types add_midstream_types deep).error = none ∧
    (∃ added : List REBKEY,
      (Bind_Values_Core binder head context bind_types add_midstream_types deep).context.keys
        = context.keys ++ added ∧
      (∀ key ∈ added, Is_Param_Unbindable key = false) ∧
      (added.map VAL_KEY_CANON).Nodup ∧
      ∀ canon, canon ∈ added.map VAL_KEY_CANON ↔
        (canon ∉ bindableCanons context.keys ∧
          ∃ w ∈ Bind_targets bind_types deep head,
            VAL_WORD_CANON w = some canon ∧ add_midstream_types (CELL_KIND w) = true)) ∧
    ∀ (i j : Nat) (k kj : WordKind) (q qj : Nat) (s sj : REBSTR) (old oldj : Option REBNOD)
      (ix ixj : Int),
      (Bind_targets bind_types deep head)[j]? = some (.word kj qj sj oldj ixj) →
      add_midstream_types (.word kj) = true → sj.canon = s.canon → j ≤ i →
      (Bind_targets bind_types deep head)[i]? = some (.word k q s old ix) →
      s.canon ∉ bindableCanons context.keys →
      ∃ (pos : Nat) (key : REBKEY), CTX_LEN context < pos ∧
        (Bind_Values_Core binder head context bind_types add_midstream_types
          deep).context.keys[pos - 1]? = some key ∧
        Is_Param_Unbindable key = false ∧ VAL_KEY_CANON key = s.canon ∧
        (∀ (pos2 : Nat) (key2 : REBKEY), 1 ≤ pos2 →
          (Bind_Values_Core binder head context bind_types add_midstream_types
            deep).context.keys[pos2 - 1]? = some key2 →
          Is_Param_Unbindable key2 = false → VAL_KEY_CANON key2 = s.canon → pos2 = pos) ∧
        (Bind_targets bind_types deep
          (Bind_Values_Core binder head context bind_types add_midstream_types
            deep).cells)[i]? = some (.word k q s (some (NOD context)) pos) := by
  obtain ⟨seeded, -, hs, hw, he, hc, -, -⟩ := Bind_Values_Core_flat binder head context bind_types
    add_midstream_types deep hempty hdistinct hkinds
  obtain ⟨-, -, -, -, more, m1, m2, m3, m4⟩ := Bind_flat_context add_midstream_types
    (Bind_targets bind_types deep head) seeded context hs hw
  refine ⟨he, ⟨more, by rw [hc, m1], m2, m3, ?_⟩, ?_⟩
  · intro t
    rw [m4 t, bindableIndex_eq_zero_iff t context.keys 1 Nat.one_pos]
  · intro i j k kj q qj s sj old oldj ix ixj hj hamt hsj hji hi hnew
    obtain ⟨pos, key, h1, -, h3, h4, h5, h6, h7⟩ := Bind_Values_Core_new_slot binder head context
      bind_types add_midstream_types deep hempty hdistinct hkinds i j k kj q qj s sj old oldj
      ix ixj hj hamt hsj hji hi hnew
    exact ⟨pos, key, h1, h3, h4, h5, h6, h7⟩

/-- The witness of C1: binding `[a b a]` against an empty context with every
word kind bound and added midstream yields exactly two keys, both `a` at
slot 1 and `b` at slot 2. -/
theorem Bind_Values_Core_midstream_one_slot_witness :
    (∀ canon, Get_Binder_Index_Else_0 Reb_Binder.empty canon = 0) ∧
    (bindableCanons (empty_context 7).keys).Nodup ∧
    (Bind_Values_Core Reb_Binder.empty [plain_word sym_a, plain_word sym_b, plain_word sym_a]
      (empty_context 7) TS_WORD TS_WORD true).error = none ∧
    (Bind_Values_Core Reb_Binder.empty [plain_word sym_a, plain_word sym_b, plain_word sym_a]
      (empty_context 7) TS_WORD TS_WORD true).context.keys
        = [⟨sym_a, false, false⟩, ⟨sym_b, false, false⟩] ∧
    (Bind_Values_Core Reb_Binder.empty [plain_word sym_a, plain_word sym_b, plain_word sym_a]
      (empty_context 7) TS_WORD TS_WORD true).cells
        = [.word .REB_WORD 0 sym_a (some (.varlist 7 false)) 1,
           .word .REB_WORD 0 sym_b (some (.varlist 7 false)) 2,
           .word .REB_WORD 0 sym_a (some (.varlist 7 false)) 1] :=
  ⟨fun _ => rfl, by decide,
    (Bind_Values_Core_midstream_one_slot Reb_Binder.empty
      [plain_word sym_a, plain_word sym_b, plain_word sym_a] (empty_context 7) TS_WORD TS_WORD
      true (fun _ => rfl) (by decide) (fun _ h => h)).1,
    by rfl, by rfl⟩

/-- C2: rebind always wins.  Entered with an empty Binder, on a context
whose bindable keys have pairwise distinct canons and with only word kinds
in `bind_types`, `Bind_Values_Core` returns without error, and every tested
cell (kind in `bind_types`, reached by the walk) whose canon is that of the
bindable key at position `n` ends bound to the context at index `n`,
whatever binding `old` and index it had before. -/
theorem Bind_Values_Core_rebind_always_wins (binder : Reb_Binder) (head : List Cell)
    (context : REBCTX) (bind_types add_midstream_types : REBU64) (deep : Bool)
    (hempty : ∀ canon, Get_Binder_Index_Else_0 binder canon = 0)
    (hdistinct : (bindableCanons context.keys).Nodup)
    (hkinds : ∀ kind, bind_types kind = true → TS_WORD kind = true)
    (i : Nat) (k : WordKind) (q : Nat) (s : REBSTR) (old : Option REBNOD) (ix : Int)
    (hcell : (Bind_targets bind_types deep head)[i]? = some (.word k q s old ix))
    (n : Nat) (key : REBKEY) (hn : 1 ≤ n) (hkey : context.keys[n - 1]? = some key)
    (hbindable : Is_Param_Unbindable key = false) (hcanon : VAL_KEY_CANON key = s.canon) :
    n ≤ CTX_LEN context ∧
    (Bind_Values_Core binder head context bind_types add_midstream_types deep).error = none ∧
    (Bind_targets bind_types deep
      (Bind_Values_Core binder head context bind_types add_midstream_types deep).cells)[i]?
      = some (.word k q s (some (NOD context)) n) := by
  obtain ⟨seeded, -, hs, hw, he, -, -, ht⟩ := Bind_Values_Core_flat binder head context bind_types
    add_midstream_types deep hempty hdistinct hkinds
  obtain ⟨-, -, -, -, more, m1, -⟩ := Bind_flat_context add_midstream_types
    (Bind_targets bind_types deep head) seeded context hs hw
  have hidx : bindableIndex context.keys s.canon 1 = n := by
    have := bindableIndex_of_get s.canon context.keys 1 (n - 1) key hdistinct hkey hbindable hcanon
    omega
  have hne : bindableIndex context.keys s.canon 1 ≠ 0 := by omega
  obtain ⟨hyes, -⟩ := Bind_flat_cells add_midstream_types _ seeded context hs hw i k q s old ix
    hcell
  obtain ⟨h1, -⟩ := hyes (Or.inl hne)
  rw [m1, bindableIndex_stable _ _ _ hne, hidx] at h1
  refine ⟨?_, he, by rw [ht]; exact h1⟩
  have := (List.getElem?_eq_some.mp hkey).1
  unfold CTX_LEN
  omega

/-- The witness of C2: the word `a`, already bound relative to a paramlist,
in `[b a]` bound against a context with keys `a b`, ends bound to that
context at index 1. -/
theorem Bind_Values_Core_rebind_always_wins_witness :
    (Bind_targets TS_WORD true
      [plain_word sym_b, .word .REB_WORD 0 sym_a (some (.paramlist 3)) 5])[1]?
      = some (.word .REB_WORD 0 sym_a (some (.paramlist 3)) 5) ∧
    (1 ≤ CTX_LEN (context_of 7 [sym_a, sym_b]) ∧
    (Bind_Values_Core Reb_Binder.empty
      [plain_word sym_b, .word .REB_WORD 0 sym_a (some (.paramlist 3)) 5]
      (context_of 7 [sym_a, sym_b]) TS_WORD (fun _ => false) true).error = none ∧
    (Bind_targets TS_WORD true
      (Bind_Values_Core Reb_Binder.empty
        [plain_word sym_b, .word .REB_WORD 0 sym_a (some (.paramlist 3)) 5]
        (context_of 7 [sym_a, sym_b]) TS_WORD (fun _ => false) true).cells)[1]?
      = some (.word .REB_WORD 0 sym_a (some (NOD (context_of 7 [sym_a, sym_b]))) (1 : Nat))) :=
  ⟨by rfl,
    Bind_Values_Core_rebind_always_wins Reb_Binder.empty
      [plain_word sym_b, .word .REB_WORD 0 sym_a (some (.paramlist 3)) 5]
      (context_of 7 [sym_a, sym_b]) TS_WORD (fun _ => false) true (fun _ => rfl) (by decide)
      (fun _ h => h) 1 .REB_WORD 0 sym_a (some (.paramlist 3)) 5 (by rfl) 1
      ⟨sym_a, false, false⟩ (le_refl 1) (by rfl) rfl rfl⟩

/-- C3: midstream additions are visible only to later references.  Under
the preconditions of a Bind, a tested cell (kind in `bind_types`) whose kind
is not in `add_midstream_types`, whose canon is not a bindable key, and
before which no tested cell of the same canon has a kind in
`add_midstream_types`, is left exactly as it was; and when a later tested
cell of that canon does have such a kind, that cell and every tested cell
of the canon after it are bound to one new slot past the old length. -/
theorem Bind_Values_Core_midstream_later_only (binder : Reb_Binder) (head : List Cell)
    (context : REBCTX) (bind_types add_midstream_types : REBU64) (deep : Bool)
    (hempty : ∀ canon, Get_Binder_Index_Else_0 binder canon = 0)
    (hdistinct : (bindableCanons context.keys).Nodup)
    (hkinds : ∀ kind, bind_types kind = true → TS_WORD kind = true)
    (i : Nat) (k : WordKind) (q : Nat) (s : REBSTR) (old : Option REBNOD) (ix : Int)
    (hcell : (Bind_targets bind_types deep head)[i]? = some (.word k q s old ix))
    (hnot : add_midstream_types (.word k) = false)
    (hnew : s.canon ∉ bindableCanons context.keys)
    (hbefore : ∀ (j : Nat) (w : Cell), j < i →
      (Bind_targets bind_types deep head)[j]? = some w →
      VAL_WORD_CANON w = some s.canon → add_midstream_types (CELL_KIND w) = false) :
    (Bind_Values_Core binder head context bind_types add_midstream_types deep).error = none ∧
    (Bind_targets bind_types deep
      (Bind_Values_Core binder head context bind_types add_midstream_types deep).cells)[i]?
      = some (.word k q s old ix) ∧
    ∀ (a : Nat) (ka : WordKind) (qa : Nat) (sa : REBSTR) (olda : Option REBNOD) (ixa : Int),
      (Bind_targets bind_types deep head)[a]? = some (.word ka qa sa olda ixa) →
      sa.canon = s.canon → add_midstream_types (.word ka) = true →
      i < a ∧
      ∃ pos : Nat, CTX_LEN context < pos ∧
        ∀ (j : Nat) (kj : WordKind) (qj : Nat) (sj : REBSTR) (oldj : Option REBNOD)
          (ixj : Int), a ≤ j →
          (Bind_targets bind_types deep head)[j]? = some (.word kj qj sj oldj ixj) →
          sj.canon = s.canon →
          (Bind_targets bind_types deep
            (Bind_Values_Core binder head context bind_types add_midstream_types
              deep).cells)[j]? = some (.word kj qj sj (some (NOD context)) pos) := by
  obtain ⟨seeded, -, hs, hw, he, -, -, ht⟩ := Bind_Values_Core_flat binder head context
    bind_types add_midstream_types deep hempty hdistinct hkinds
  obtain ⟨-, hno⟩ := Bind_flat_cells add_midstream_types _ seeded context hs hw i k q s old ix
    hcell
  refine ⟨he, ?_, ?_⟩
  · rw [ht]
    apply hno
    rintro (h | ⟨w, hmem, hw1, hw2⟩)
    · exact h ((bindableIndex_eq_zero_iff _ _ 1 Nat.one_pos).mpr hnew)
    · obtain ⟨j, hj⟩ := List.mem_iff_getElem?.mp hmem
      rw [List.getElem?_take] at hj
      split_ifs at hj with hlt
      rcases Nat.lt_or_ge j i with hji | hji
      · rw [hbefore j w hji hj hw1] at hw2
        exact Bool.noConfusion hw2
      · have hje : j = i := by omega
        subst hje
        rw [hcell] at hj
        cases hj
        simp only [CELL_KIND] at hw2
        rw [hnot] at hw2
        exact Bool.noConfusion hw2
  · intro a ka qa sa olda ixa ha hsa hamt
    have hia : i < a := by
      rcases Nat.lt_trichotomy a i with h | h | h
      · have := hbefore a _ h ha (by simp [VAL_WORD_CANON, hsa])
        simp only [CELL_KIND] at this
        rw [hamt] at this
        exact Bool.noConfusion this
      · subst h
        rw [hcell] at ha
        cases ha
        rw [hnot] at hamt
        exact Bool.noConfusion hamt
      · exact h
    refine ⟨hia, bindableIndex
      (Bind_Values_Core binder head context bind_types add_midstream_types deep).context.keys
      s.canon 1, ?_, ?_⟩
    · obtain ⟨pos, key, h1, h2, -⟩ := Bind_Values_Core_new_slot binder head context
        bind_types add_midstream_types deep hempty hdistinct hkinds a a ka ka qa qa sa sa olda
        olda ixa ixa ha hamt rfl (le_refl a) ha (hsa ▸ hnew)
      rw [hsa] at h2
      rw [← h2]
      exact h1
    · intro j kj qj sj oldj ixj haj hj hsj
      obtain ⟨pos, key, -, h2, -, -, -, -, h7⟩ := Bind_Values_Core_new_slot binder head context
        bind_types add_midstream_types deep hempty hdistinct hkinds j a kj ka qj qa sj sa oldj
        olda ixj ixa ha hamt (hsa.trans hsj.symm) haj hj (hsj ▸ hnew)
      rw [hsj] at h2
      rw [← h2]
      exact h7

/-- The witness of C3: with `bind_types` WORD! and SET-WORD! and only
SET-WORD! added midstream, binding `[a a:]` against an empty context leaves
the first `a` as it was and binds `a:` to slot 1. -/
theorem Bind_Values_Core_midstream_later_only_witness :
    (Bind_Values_Core Reb_Binder.empty [plain_word sym_a, plain_set_word sym_a]
      (empty_context 7)
      (fun kind => FLAGIT_KIND (.word .REB_WORD) kind || FLAGIT_KIND (.word .REB_SET_WORD) kind)
      (FLAGIT_KIND (.word .REB_SET_WORD)) true).cells
        = [plain_word sym_a, .word .REB_SET_WORD 0 sym_a (some (.varlist 7 false)) 1] ∧
    (Bind_Values_Core Reb_Binder.empty [plain_word sym_a, plain_set_word sym_a]
      (empty_context 7)
      (fun kind => FLAGIT_KIND (.word .REB_WORD) kind || FLAGIT_KIND (.word .REB_SET_WORD) kind)
      (FLAGIT_KIND (.word .REB_SET_WORD)) true).error = none :=
  ⟨by rfl,
    (Bind_Values_Core_midstream_later_only Reb_Binder.empty
      [plain_word sym_a, plain_set_word sym_a] (empty_context 7)
      (fun kind => FLAGIT_KIND (.word .REB_WORD) kind || FLAGIT_KIND (.word .REB_SET_WORD) kind)
      (FLAGIT_KIND (.word .REB_SET_WORD)) true (fun _ => rfl) (by decide)
      (by intro kind h; cases kind <;> simp_all [FLAGIT_KIND, TS_WORD])
      0 .REB_WORD 0 sym_a none 0 (by rfl) (by rfl) (by decide)
      (fun j w hj => absurd hj (Nat.not_lt_zero j))).1⟩

/-- C5: binding is transparent to quoting.  From any Binder and context,
`Bind_Values_Inner_Loop` leaves the same Binder, context and error for a word
wrapped in `d` quote levels as for the same word unquoted, and when it
returns without error the quoted cell has the binding target and index the
unquoted word gets and still carries `d` quote levels (found branch,
midstream branch, and no change alike). -/
theorem Bind_Values_Inner_Loop_quote_transparent (binder : Reb_Binder) (context : REBCTX)
    (bind_types add_midstream_types : REBU64) (deep : Bool) (k : WordKind) (d : Nat)
    (s : REBSTR) (old : Option REBNOD) (ix : Int) :
    (Bind_Values_Inner_Loop binder [.word k d s old ix] context bind_types add_midstream_types
      deep).binder
      = (Bind_Values_Inner_Loop binder [.word k 0 s old ix] context bind_types
          add_midstream_types deep).binder ∧
    (Bind_Values_Inner_Loop binder [.word k d s old ix] context bind_types add_midstream_types
      deep).context
      = (Bind_Values_Inner_Loop binder [.word k 0 s old ix] context bind_types
          add_midstream_types deep).context ∧
    (Bind_Values_Inner_Loop binder [.word k d s old ix] context bind_types add_midstream_types
      deep).error
      = (Bind_Values_Inner_Loop binder [.word k 0 s old ix] context bind_types
          add_midstream_types deep).error ∧
    ((Bind_Values_Inner_Loop binder [.word k d s old ix] context bind_types add_midstream_types
      deep).error = none →
      ∃ (target : Option REBNOD) (index : Int),
        (Bind_Values_Inner_Loop binder [.word k 0 s old ix] context bind_types
          add_midstream_types deep).cells = [.word k 0 s target index] ∧
        (Bind_Values_Inner_Loop binder [.word k d s old ix] context bind_types
          add_midstream_types deep).cells = [.word k d s target index]) := by
  simp only [Bind_Values_Inner_Loop, Bind_Values_Inner_Loop_cell]
  by_cases hb : bind_types (.word k) = true
  · simp only [hb, if_true, Bind_Values_Inner_Loop_word, VAL_WORD_CANON, CELL_KIND, Dequotify]
    by_cases hn : Get_Binder_Index_Else_0 binder s.canon > 0
    · simp only [hn, if_true, INIT_BINDING, INIT_WORD_INDEX, Quotify, Nat.zero_add,
        List.append_nil, List.singleton_append, true_and]
      intro _
      exact ⟨_, _, rfl, rfl⟩
    · simp only [hn, if_false]
      by_cases ha : add_midstream_types (.word k) = true
      · simp only [ha, if_true, Append_Context, VAL_WORD_INDEX]
        cases hadd : Add_Binder_Index binder s.canon
            (CTX_LEN { context with
              keys := context.keys ++ [{ spelling := s, unbindable := false, hidden := false }]
              vars := context.vars ++
                [{ cell := .other REB_NULLED 0, isProtected := false, marked := false }] }) with
        | error e => simp
        | ok b2 =>
          simp only [Quotify, Nat.zero_add, List.append_nil, List.singleton_append, true_and]
          intro _
          exact ⟨_, _, rfl, rfl⟩
      · simp only [ha, Bool.false_eq_true, if_false, List.append_nil, List.singleton_append,
          true_and]
        intro _
        exact ⟨_, _, rfl, rfl⟩
  · simp only [hb, Bool.false_eq_true, if_false, List.append_nil, List.singleton_append,
      true_and]
    intro _
    exact ⟨_, _, rfl, rfl⟩

/-- The witness of C5: a word under two quote levels is bound like the bare
word and keeps its two quote levels, on the found branch (context with key
`a`) and on the midstream branch (empty context). -/
theorem Bind_Values_Inner_Loop_quote_transparent_witness :
    ((Bind_Values_Core Reb_Binder.empty [.word .REB_WORD 2 sym_a none 0]
        (context_of 7 [sym_b, sym_a]) TS_WORD (fun _ => false) true).cells
      = [.word .REB_WORD 2 sym_a (some (.varlist 7 false)) 2] ∧
    (Bind_Values_Core Reb_Binder.empty [.word .REB_WORD 2 sym_a none 0]
        (empty_context 7) TS_WORD TS_WORD true).cells
      = [.word .REB_WORD 2 sym_a (some (.varlist 7 false)) 1]) ∧
    (Bind_Values_Inner_Loop Reb_Binder.empty [.word .REB_WORD 2 sym_a none 0]
        (empty_context 7) TS_WORD TS_WORD true).context
      = (Bind_Values_Inner_Loop Reb_Binder.empty [.word .REB_WORD 0 sym_a none 0]
        (empty_context 7) TS_WORD TS_WORD true).context :=
  ⟨⟨by rfl, by rfl⟩,
    (Bind_Values_Inner_Loop_quote_transparent Reb_Binder.empty (empty_context 7) TS_WORD
      TS_WORD true .REB_WORD 2 sym_a none 0).2.1⟩

/-- C6: the Bind driver leaves the Binder balanced.  Entered with a Binder
that holds no entry, on a context whose bindable keys have pairwise distinct
canons and with only word kinds in `bind_types`, `Bind_Values_Core`
returns without error with a Binder that holds no entry.  When the walk is
over the Binder holds an entry exactly for the canons of the bindable keys
of the context as it then is (the seeded ones and the ones added
midstream), these canons are pairwise distinct, so the reset loop removes
each once, and every removal of the reset loop finds its entry. -/
theorem Bind_Values_Core_binder_balanced (binder : Reb_Binder) (head : List Cell)
    (context : REBCTX) (bind_types add_midstream_types : REBU64) (deep : Bool)
    (hempty : ∀ canon, Get_Binder_Index_Else_0 binder canon = 0)
    (hdistinct : (bindableCanons context.keys).Nodup)
    (hkinds : ∀ kind, bind_types kind = true → TS_WORD kind = true) :
    (Bind_Values_Core binder head context bind_types add_midstream_types deep).error = none ∧
    (∀ canon, Get_Binder_Index_Else_0
      (Bind_Values_Core binder head context bind_types add_midstream_types deep).binder canon
        = 0) ∧
    (∀ canon, Get_Binder_Index_Else_0
      (Bind_Values_Inner_Loop (Bind_Values_Core_seed binder context.keys 1).1 head context
        bind_types add_midstream_types deep).binder canon ≠ 0 ↔
      canon ∈ bindableCanons
        (Bind_Values_Core binder head context bind_types add_midstream_types
          deep).context.keys) ∧
    (bindableCanons
      (Bind_Values_Core binder head context bind_types add_midstream_types
        deep).context.keys).Nodup ∧
    Bind_Values_Core_reset_hits
      (Bind_Values_Inner_Loop (Bind_Values_Core_seed binder context.keys 1).1 head context
        bind_types add_midstream_types deep).binder
      (Bind_Values_Core binder head context bind_types add_midstream_types
        deep).context.keys = true := by
  obtain ⟨seeded, hseed, hs, hw, he, hc, hb, -⟩ := Bind_Values_Core_flat binder head context
    bind_types add_midstream_types deep hempty hdistinct hkinds
  obtain ⟨-, f2, -, -, more, m1, m2, m3, m4⟩ := Bind_flat_context add_midstream_types
    (Bind_targets bind_types deep head) seeded context hs hw
  obtain ⟨a1, -⟩ := Bind_loop_agrees bind_types add_midstream_types deep head seeded context
  have hnd := bindableCanons_grow_nodup context.keys more hdistinct m2 m3
    (fun t ht => ((m4 t).mp ht).1)
  rw [← m1] at hnd
  obtain ⟨r1, r2⟩ := Bind_Values_Core_reset_spec _ 1 _ Nat.one_pos f2 hnd
  rw [← hseed, a1, hb, hc]
  refine ⟨he, r1, ?_, hnd, r2⟩
  intro canon
  rw [Get_Binder_Index_Else_0, f2 canon, ← not_iff_not]
  simp only [ne_eq, not_not, Nat.cast_eq_zero]
  exact bindableIndex_eq_zero_iff canon _ 1 Nat.one_pos

/-- The witness of C6: binding `[a b a]` midstream against a context that
already has the key `b` leaves the empty Binder empty. -/
theorem Bind_Values_Core_binder_balanced_witness :
    (∀ canon, Get_Binder_Index_Else_0 Reb_Binder.empty canon = 0) ∧
    (bindableCanons (context_of 7 [sym_b]).keys).Nodup ∧
    (∀ canon, Get_Binder_Index_Else_0
      (Bind_Values_Core Reb_Binder.empty
        [plain_word sym_a, plain_word sym_b, plain_word sym_a] (context_of 7 [sym_b])
        TS_WORD TS_WORD true).binder canon = 0) :=
  ⟨fun _ => rfl, by decide,
    (Bind_Values_Core_binder_balanced Reb_Binder.empty
      [plain_word sym_a, plain_word sym_b, plain_word sym_a] (context_of 7 [sym_b])
      TS_WORD TS_WORD true (fun _ => rfl) (by decide) (fun _ h => h)).2.1⟩

/-- The counterexample to C7: seeding from a context with the keys `a a`,
both bindable, fails with DuplicateKey on the second key, and the entry
added for the first key, absent before the call, is still in the Binder when
the error escapes. -/
theorem Bind_Values_Core_no_unwind_counterexample :
    Get_Binder_Index_Else_0 Reb_Binder.empty sym_a.canon = 0 ∧
    (Bind_Values_Core Reb_Binder.empty [] (context_of 7 [sym_a, sym_a]) TS_WORD TS_WORD
      true).error = some (.DuplicateKey sym_a.canon) ∧
    Get_Binder_Index_Else_0
      (Bind_Values_Core Reb_Binder.empty [] (context_of 7 [sym_a, sym_a]) TS_WORD TS_WORD
        true).binder sym_a.canon = 1 := by
  decide

/-- C7, amended: `Bind_Values_Core` does not unwind the Binder on failure.
Entered with an empty Binder and only word kinds in `bind_types`, it can
fail only while seeding, with DuplicateKey on a bindable key whose canon
repeats that of an earlier bindable key; the error escapes at once: the
array and the context are untouched, and the Binder still holds the
positions of the bindable keys before the failing one, the entry of the
repeated canon among them. -/
theorem Bind_Values_Core_failure_keeps_seeded (binder : Reb_Binder) (head : List Cell)
    (context : REBCTX) (bind_types add_midstream_types : REBU64) (deep : Bool)
    (hempty : ∀ canon, Get_Binder_Index_Else_0 binder canon = 0)
    (hkinds : ∀ kind, bind_types kind = true → TS_WORD kind = true)
    (e : Error)
    (hfail : (Bind_Values_Core binder head context bind_types add_midstream_types deep).error
      = some e) :
    ∃ (p : Nat) (key : REBKEY), context.keys[p]? = some key ∧
      Is_Param_Unbindable key = false ∧ e = .DuplicateKey (VAL_KEY_CANON key) ∧
      (∃ (p0 : Nat) (key0 : REBKEY), p0 < p ∧ context.keys[p0]? = some key0 ∧
        Is_Param_Unbindable key0 = false ∧ VAL_KEY_CANON key0 = VAL_KEY_CANON key ∧
        Get_Binder_Index_Else_0
          (Bind_Values_Core binder head context bind_types add_midstream_types deep).binder
          (VAL_KEY_CANON key) = ((p0 + 1 : Nat) : Int)) ∧
      (Bind_Values_Core binder head context bind_types add_midstream_types deep).cells = head ∧
      (Bind_Values_Core binder head context bind_types add_midstream_types deep).context
        = context ∧
      ∀ canon, Get_Binder_Index_Else_0
        (Bind_Values_Core binder head context bind_types add_midstream_types deep).binder canon
          = ((bindableIndex (context.keys.take p) canon 1 : Nat) : Int) := by
  cases hseed : (Bind_Values_Core_seed binder context.keys 1).2 with
  | none =>
    exfalso
    have hwalk := Bind_Values_Inner_Loop_after_seed binder head context bind_types
      add_midstream_types deep hempty hkinds hseed
    rw [Bind_Values_Core] at hfail
    rcases hs : Bind_Values_Core_seed binder context.keys 1 with ⟨sb, se⟩
    rw [hs] at hseed hwalk hfail
    simp only at hseed hwalk
    subst hseed
    simp [hwalk] at hfail
  | some e2 =>
    obtain ⟨p, key, -, h2, h3, h4, h5, h6⟩ := Bind_Values_Core_seed_fail context.keys [] binder
      e2 (Seeded_nil binder hempty) hseed
    simp only [List.nil_append, List.length_nil, Nat.zero_add] at h2 h5 h6
    have hres : Bind_Values_Core binder head context bind_types add_midstream_types deep
        = ⟨(Bind_Values_Core_seed binder context.keys 1).1, context, head, some e2⟩ := by
      rw [Bind_Values_Core]
      rcases hs : Bind_Values_Core_seed binder context.keys 1 with ⟨sb, se⟩
      rw [hs] at hseed
      simp only at hseed
      subst hseed
      rfl
    rw [hres] at hfail ⊢
    simp only [Option.some.injEq] at hfail
    subst hfail
    obtain ⟨key0, g1, g2, g3⟩ := bindableIndex_get (VAL_KEY_CANON key) _ 1 Nat.one_pos h5
    have hlt : bindableIndex (context.keys.take p) (VAL_KEY_CANON key) 1 - 1 < p := by
      have := (List.getElem?_eq_some.mp g1).1
      simp only [List.length_take] at this
      omega
    rw [List.getElem?_take] at g1
    simp only [hlt, if_true] at g1
    refine ⟨p, key, h2, h3, h4, ⟨_, key0, hlt, g1, g2, g3, ?_⟩, rfl, rfl, h6⟩
    simp only [Get_Binder_Index_Else_0]
    rw [h6]
    have : bindableIndex (context.keys.take p) (VAL_KEY_CANON key) 1 ≠ 0 := h5
    congr 1
    omega

/-- The witness of C7, amended: the failing run on the keys `a a`. -/
theorem Bind_Values_Core_failure_keeps_seeded_witness :
    (Bind_Values_Core Reb_Binder.empty [] (context_of 7 [sym_a, sym_a]) TS_WORD TS_WORD
      true).error = some (.DuplicateKey sym_a.canon) ∧
    ∃ (p : Nat) (key : REBKEY), (context_of 7 [sym_a, sym_a]).keys[p]? = some key ∧
      Is_Param_Unbindable key = false ∧
      Error.DuplicateKey sym_a.canon = .DuplicateKey (VAL_KEY_CANON key) :=
  ⟨by decide, by
    obtain ⟨p, key, h1, h2, h3, -⟩ := Bind_Values_Core_failure_keeps_seeded Reb_Binder.empty []
      (context_of 7 [sym_a, sym_a]) TS_WORD TS_WORD true (fun _ => rfl) (fun _ h => h)
      (.DuplicateKey sym_a.canon) (by decide)
    exact ⟨p, key, h1, h2, h3⟩⟩

/-! ## The claims about Unbind and Rebind -/

/-- C8: Unbind is selective.  A word cell is a cell for which `ANY_WORD`
holds and a sub-array a cell for which `ANY_ARRAY_OR_PATH` holds.  For every
cell `v` of the array, at any depth, `Unbind_Values_Core` leaves a cell `v2` in
the same place, and: a word cell the walk reaches is reset to `UNBOUND` (and
nothing else in it changes) when no context is given or its binding is the
context, and is unchanged when a context is given and its binding is
anything else; a cell that is neither a word cell nor a sub-array is unchanged,
and so is every cell when `deep` is off; a sub-array keeps its header and
position; a cell the walk does not reach is unchanged; and the cells of a
sub-array are reached exactly when the sub-array itself is reached, `deep` is
set, and they lie at or after its index. -/
theorem Unbind_Values_Core_selective (head : List Cell) (context : Option REBCTX)
    (deep : Bool) (i : Nat) (path : List Nat) (v : Cell)
    (hv : cellAt head i path = some v) :
    ∃ v2, cellAt (Unbind_Values_Core head context deep) i path = some v2 ∧
      (Walk_reaches deep head i path = true → ANY_WORD v = true →
        ((context = none ∨ VAL_BINDING v = context.map NOD) →
          VAL_BINDING v2 = UNBOUND ∧ v2 = INIT_BINDING v UNBOUND) ∧
        (context ≠ none → VAL_BINDING v ≠ context.map NOD → v2 = v)) ∧
      (ANY_WORD v = false → (ANY_ARRAY_OR_PATH v = false ∨ deep = false) → v2 = v) ∧
      (∀ k q past rest b, v = .array k q past rest b →
        ∃ rest2, v2 = .array k q past rest2 b ∧ rest2.length = rest.length) ∧
      (Walk_reaches deep head i path = false → v2 = v) ∧
      (∀ j, Walk_reaches deep head i (path ++ [j]) = true ↔
        (Walk_reaches deep head i path = true ∧ deep = true ∧ ANY_ARRAY_OR_PATH v = true ∧
          ∃ k q past rest b, v = .array k q past rest b ∧ past.length ≤ j)) := by
  have hat := Unbind_at context deep head i path
  rw [hv, Option.map_some'] at hat
  refine ⟨_, hat, ?_, ?_, ?_, ?_, ?_⟩
  · intro hr hw
    rw [hr]
    cases v with
    | word k q s b ix =>
      simp only [ANY_WORD, beq_iff_eq] at hw
      subst hw
      simp only [if_true, Unbind_Values_Core_cell, ANY_WORD, beq_self_eq_true, Bool.true_and,
        VAL_BINDING, Unbind_Any_Word]
      constructor
      · intro hc
        have : (context.isNone || b == Option.map NOD context) = true := by
          rcases hc with h | h
          · simp [h]
          · simp [h]
        simp [this, INIT_BINDING, UNBOUND, VAL_BINDING]
      · intro hc hb
        have : (context.isNone || b == Option.map NOD context) = false := by
          cases context with
          | none => exact absurd rfl hc
          | some c => simpa using hb
        simp [this]
    | array k q past rest b => simp [ANY_WORD] at hw
    | action q b => simp [ANY_WORD] at hw
    | other y q => simp [ANY_WORD] at hw
  · intro hw hd
    split_ifs
    · cases v with
      | word k q s b ix =>
        simp only [ANY_WORD] at hw
        simp [Unbind_Values_Core_cell, ANY_WORD, hw]
      | array k q past rest b =>
        rcases hd with h | h
        · simp [Unbind_Values_Core_cell, h]
        · simp [Unbind_Values_Core_cell, h]
      | action q b => rfl
      | other y q => rfl
    · rfl
  · intro k q past rest b hveq
    subst hveq
    split_ifs
    · simp only [Unbind_Values_Core_cell]
      split_ifs
      · exact ⟨_, rfl, by simp [Unbind_Values_Core_eq_map]⟩
      · exact ⟨_, rfl, rfl⟩
    · exact ⟨_, rfl, rfl⟩
  · intro hr
    simp [hr]
  · intro j
    exact Walk_reaches_snoc deep head i path v hv j

/-- The witness of C8: in `[a [a b]]` with `a` bound to the context 7 and `b`
to the context 8, unbinding from context 7 with `deep` resets the inner
`a`, at position 0 of the block at position 1, and nothing else. -/
theorem Unbind_Values_Core_selective_witness :
    cellAt [.word .REB_WORD 0 sym_a (some (.varlist 7 false)) 1,
        .array .REB_BLOCK 0 [] [.word .REB_WORD 0 sym_a (some (.varlist 7 false)) 1,
          .word .REB_WORD 0 sym_b (some (.varlist 8 false)) 1] none] 1 [0]
      = some (.word .REB_WORD 0 sym_a (some (.varlist 7 false)) 1) ∧
    Unbind_Values_Core [.word .REB_WORD 0 sym_a (some (.varlist 7 false)) 1,
        .array .REB_BLOCK 0 [] [.word .REB_WORD 0 sym_a (some (.varlist 7 false)) 1,
          .word .REB_WORD 0 sym_b (some (.varlist 8 false)) 1] none]
        (some (empty_context 7)) true
      = [.word .REB_WORD 0 sym_a none 1,
        .array .REB_BLOCK 0 [] [.word .REB_WORD 0 sym_a none 1,
          .word .REB_WORD 0 sym_b (some (.varlist 8 false)) 1] none] ∧
    ∃ v2, cellAt (Unbind_Values_Core [.word .REB_WORD 0 sym_a (some (.varlist 7 false)) 1,
        .array .REB_BLOCK 0 [] [.word .REB_WORD 0 sym_a (some (.varlist 7 false)) 1,
          .word .REB_WORD 0 sym_b (some (.varlist 8 false)) 1] none]
        (some (empty_context 7)) true) 1 [0] = some v2 ∧ VAL_BINDING v2 = UNBOUND :=
  ⟨by rfl, by rfl, by
    obtain ⟨v2, h1, h2, -⟩ := Unbind_Values_Core_selective
      [.word .REB_WORD 0 sym_a (some (.varlist 7 false)) 1,
        .array .REB_BLOCK 0 [] [.word .REB_WORD 0 sym_a (some (.varlist 7 false)) 1,
          .word .REB_WORD 0 sym_b (some (.varlist 8 false)) 1] none]
      (some (empty_context 7)) true 1 [0]
      (.word .REB_WORD 0 sym_a (some (.varlist 7 false)) 1) (by rfl)
    exact ⟨v2, h1, ((h2 (by rfl) (by rfl)).1 (Or.inr (by rfl))).1⟩⟩

/-- C9: Rebind retargets exactly the words of the source context.  A word
cell is a cell for which `ANY_WORD` holds; the walk goes through the cells
for which `ANY_ARRAY_OR_PATH` holds, from their index, at every depth.  For
every cell `v` of the array, at any depth, `Rebind_Values_Deep` leaves a cell
in the same place; a word cell the walk reaches that is bound to `src` with
index `ix` ends bound to `dst`, with index `ix` when no Binder is given and
with the Binder index of its canon when one is given; a word not bound
to `src` is unchanged, and so are a word under quote levels (not a word
cell by its kind byte) and a cell the walk does not reach; the walk
reaches every cell of the array itself and, below a cell it reaches, the
cells of a sub-array from its index on. -/
theorem Rebind_Values_Deep_retargets (Is_Overriding_Context : REBNOD → REBNOD → Bool)
    (src dst : REBCTX) (head : List Cell) (opt_binder : Option Reb_Binder)
    (i : Nat) (path : List Nat) (v : Cell) (hv : cellAt head i path = some v) :
    ∃ v2, cellAt (Rebind_Values_Deep Is_Overriding_Context src dst head opt_binder) i path
        = some v2 ∧
      (∀ k s ix, Walk_reaches true head i path = true →
        v = .word k 0 s (some (NOD src)) ix →
        v2 = .word k 0 s (some (NOD dst))
          (match opt_binder with
            | none => ix
            | some binder => Get_Binder_Index_Else_0 binder s.canon)) ∧
      (∀ k q s b ix, v = .word k q s b ix → (b ≠ some (NOD src) ∨ q ≠ 0) → v2 = v) ∧
      (Walk_reaches true head i path = false → v2 = v) ∧
      (∀ j, Walk_reaches true head i (path ++ [j]) = true ↔
        (Walk_reaches true head i path = true ∧ ANY_ARRAY_OR_PATH v = true ∧
          ∃ k q past rest b, v = .array k q past rest b ∧ past.length ≤ j)) := by
  have hat := Rebind_at Is_Overriding_Context src dst opt_binder head i path
  rw [hv, Option.map_some'] at hat
  refine ⟨_, hat, ?_, ?_, ?_, fun j => by
    rw [Walk_reaches_snoc true head i path v hv j]
    simp⟩
  · intro k s ix hr hveq
    subst hveq
    rw [hr]
    cases opt_binder <;>
      simp [Rebind_Values_Deep_cell, ANY_WORD, VAL_BINDING, INIT_BINDING, INIT_WORD_INDEX]
  · intro k q s b ix hveq hb
    subst hveq
    split_ifs
    · rcases hb with hb | hq
      · have : (b == some (NOD src)) = false := by simpa using hb
        simp [Rebind_Values_Deep_cell, VAL_BINDING, this]
      · simp [Rebind_Values_Deep_cell, ANY_WORD, hq]
    · rfl
  · intro hr
    simp [hr]

/-- The witness of C9: in `[a [a]]` with both `a` bound to the context 7 at
index 3, rebinding from context 7 to context 8 with no Binder retargets the
inner `a` to context 8 and keeps the index 3. -/
theorem Rebind_Values_Deep_retargets_witness :
    cellAt [.word .REB_WORD 0 sym_a (some (.varlist 7 false)) 3,
        .array .REB_BLOCK 0 [] [.word .REB_WORD 0 sym_a (some (.varlist 7 false)) 3] none]
        1 [0] = some (.word .REB_WORD 0 sym_a (some (.varlist 7 false)) 3) ∧
    ∃ v2, cellAt (Rebind_Values_Deep (fun _ _ => false) (empty_context 7) (empty_context 8)
        [.word .REB_WORD 0 sym_a (some (.varlist 7 false)) 3,
          .array .REB_BLOCK 0 [] [.word .REB_WORD 0 sym_a (some (.varlist 7 false)) 3] none]
        none) 1 [0] = some v2 ∧
      v2 = .word .REB_WORD 0 sym_a (some (.varlist 8 false)) 3 :=
  ⟨by rfl, by
    obtain ⟨v2, h1, h2, -⟩ := Rebind_Values_Deep_retargets (fun _ _ => false)
      (empty_context 7) (empty_context 8)
      [.word .REB_WORD 0 sym_a (some (.varlist 7 false)) 3,
        .array .REB_BLOCK 0 [] [.word .REB_WORD 0 sym_a (some (.varlist 7 false)) 3] none]
      none 1 [0] (.word .REB_WORD 0 sym_a (some (.varlist 7 false)) 3) (by rfl)
    exact ⟨v2, h1, h2 .REB_WORD sym_a 3 (by rfl) (by rfl)⟩⟩

/-- C10: Rebind forwards a function's binding only to an overriding
context.  For an ACTION! cell the walk reaches: when it is bound to the
heap context `src`, `Rebind_Values_Deep` from `src` to `dst` leaves it bound to
`dst` when `Is_Overriding_Context` holds of its binding and `dst`, and bound to
`src` when it does not; when it is unbound, or bound to a node with
`SERIES_FLAG_STACK`, it is unchanged whatever `src`, `dst` and the
overriding relation are. -/
theorem Rebind_Values_Deep_forwards_function
    (Is_Overriding_Context : REBNOD → REBNOD → Bool)
    (src dst : REBCTX) (head : List Cell) (opt_binder : Option Reb_Binder)
    (i : Nat) (path : List Nat) (b : Option REBNOD)
    (hv : cellAt head i path = some (.action 0 b))
    (hreach : Walk_reaches true head i path = true) :
    ∃ v2, cellAt (Rebind_Values_Deep Is_Overriding_Context src dst head opt_binder) i path
        = some v2 ∧
      (b = some (NOD src) → src.stack = false →
        (Is_Overriding_Context (NOD src) (NOD dst) = true → v2 = .action 0 (some (NOD dst))) ∧
        (Is_Overriding_Context (NOD src) (NOD dst) = false → v2 = .action 0 (some (NOD src)))) ∧
      (b = UNBOUND → v2 = .action 0 b) ∧
      (∀ node, b = some node → node.isStack = true → v2 = .action 0 b) := by
  have hat := Rebind_at Is_Overriding_Context src dst opt_binder head i path
  rw [hv, Option.map_some', hreach] at hat
  refine ⟨_, hat, ?_, ?_, ?_⟩
  · intro hb hs
    subst hb
    have hst : (NOD src).isStack = false := by simp [NOD, REBNOD.isStack, hs]
    constructor
    · intro ho
      simp [Rebind_Values_Deep_cell, IS_ACTION, VAL_BINDING, hst, ho, INIT_BINDING]
    · intro ho
      simp [Rebind_Values_Deep_cell, IS_ACTION, VAL_BINDING, hst, ho]
  · intro hb
    subst hb
    simp [Rebind_Values_Deep_cell, IS_ACTION, VAL_BINDING, UNBOUND]
  · intro node hb hst
    subst hb
    simp [Rebind_Values_Deep_cell, IS_ACTION, VAL_BINDING, hst]

/-- The witness of C10: a function bound to the heap context 7, rebound from
context 7 to a context 8 that overrides it, ends bound to context 8. -/
theorem Rebind_Values_Deep_forwards_function_witness :
    cellAt [Cell.action 0 (some (.varlist 7 false))] 0 [] =
      some (.action 0 (some (.varlist 7 false))) ∧
    Walk_reaches true [Cell.action 0 (some (.varlist 7 false))] 0 [] = true ∧
    ∃ v2, cellAt (Rebind_Values_Deep (fun _ _ => true) (empty_context 7) (empty_context 8)
        [Cell.action 0 (some (.varlist 7 false))] none) 0 [] = some v2 ∧
      v2 = .action 0 (some (.varlist 8 false)) :=
  ⟨by rfl, by rfl, by
    obtain ⟨v2, h1, h2, -⟩ := Rebind_Values_Deep_forwards_function (fun _ _ => true)
      (empty_context 7) (empty_context 8) [Cell.action 0 (some (.varlist 7 false))] none 0 []
      (some (.varlist 7 false)) (by rfl) (by rfl)
    exact ⟨v2, h1, (h2 (by rfl) (by rfl)).1 (by rfl)⟩⟩

/-- C4 at its failing input: binding `['a]` (the word `a` under one quote
level) against a context with the key `a` binds the quoted word to the
context, and `Unbind_Values_Core` with the same context and `deep` leaves it
bound, because `ANY_WORD` does not hold of a quoted cell; the same happens
to a word inside a quoted block. -/
theorem Bind_then_Unbind_quoted_word_stays_bound :
    (Bind_Values_Core Reb_Binder.empty [.word .REB_WORD 1 sym_a none 0]
      (context_of 7 [sym_a]) TS_WORD (fun _ => false) true).cells
      = [.word .REB_WORD 1 sym_a (some (.varlist 7 false)) 1] ∧
    Unbind_Values_Core
      (Bind_Values_Core Reb_Binder.empty [.word .REB_WORD 1 sym_a none 0]
        (context_of 7 [sym_a]) TS_WORD (fun _ => false) true).cells
      (some (context_of 7 [sym_a])) true
      = [.word .REB_WORD 1 sym_a (some (.varlist 7 false)) 1] ∧
    Unbind_Values_Core
      (Bind_Values_Core Reb_Binder.empty [.array .REB_BLOCK 1 [] [plain_word sym_a] none]
        (context_of 7 [sym_a]) TS_WORD (fun _ => false) true).cells
      (some (context_of 7 [sym_a])) true
      = [.array .REB_BLOCK 1 [] [.word .REB_WORD 0 sym_a (some (.varlist 7 false)) 1] none] :=
  ⟨by rfl, by rfl, by rfl⟩

/-! ## The claims about relative binding -/

/-- C13: the rerelativized copy swaps the template and nothing else.  For
every array and every two actions, `Copy_Rerelativized_Array_Deep_Managed`
returns an array of the same length in which, position by position: a cell
that is not relative is the cell of the original; a relative word has the
kind, quote level, symbol and index of the original and the paramlist of
`after` as its binding; a relative array or path cell (`ANY_ARRAY_OR_PATH`)
has its kind and index, the paramlist of `after` as its binding, and the
rerelativized copies of its cells as contents; a relative array cell under
quote levels, which is not an array cell by its kind byte, gets the binding
and keeps its contents.  When `after` is not `before`, no cell reached in the
result through relative array or path cells is bound to the paramlist of
`before`.  The routine is a function of the original, which it only reads. -/
theorem Copy_Rerelativized_Array_Deep_Managed_swaps (original : List Cell)
    (before after : Nat) :
    (Copy_Rerelativized_Array_Deep_Managed original before after).length = original.length ∧
    (∀ (i : Nat) (v : Cell), original[i]? = some v →
      ∃ v2 : Cell, (Copy_Rerelativized_Array_Deep_Managed original before after)[i]? = some v2 ∧
        (IS_RELATIVE v = false → v2 = v) ∧
        (∀ k q s p ix, v = .word k q s (some (.paramlist p)) ix →
          v2 = .word k q s (some (.paramlist after)) ix) ∧
        (∀ k past rest p, v = .array k 0 past rest (some (.paramlist p)) →
          v2 = .array k 0 (Copy_Rerelativized_Array_Deep_Managed past before after)
            (Copy_Rerelativized_Array_Deep_Managed rest before after)
            (some (.paramlist after)) ∧
          (Copy_Rerelativized_Array_Deep_Managed past before after).length = past.length) ∧
        (∀ k q past rest p, q ≠ 0 → v = .array k q past rest (some (.paramlist p)) →
          v2 = .array k q past rest (some (.paramlist after)))) ∧
    (after ≠ before → ∀ (i : Nat) (path : List Nat) (w : Cell),
      cellAt (Copy_Rerelativized_Array_Deep_Managed original before after) i path = some w →
      relativeUnder ((Copy_Rerelativized_Array_Deep_Managed original before after)[i]?) path
        = true →
      VAL_BINDING w ≠ some (.paramlist before)) := by
  refine ⟨Copy_Rerelativized_length before after original, ?_, ?_⟩
  · intro i v hv
    refine ⟨Copy_Rerelativized_Array_Deep_Managed_cell v before after, ?_, ?_, ?_, ?_, ?_⟩
    · rw [Copy_Rerelativized_eq_map, List.getElem?_map, hv, Option.map_some']
    · intro hrel
      cases v <;> simp [Copy_Rerelativized_Array_Deep_Managed_cell, hrel]
    · intro k q s p ix hveq
      subst hveq
      simp [Copy_Rerelativized_Array_Deep_Managed_cell, IS_RELATIVE, VAL_BINDING, INIT_BINDING]
    · intro k past rest p hveq
      subst hveq
      refine ⟨?_, Copy_Rerelativized_length before after past⟩
      simp [Copy_Rerelativized_Array_Deep_Managed_cell, IS_RELATIVE, VAL_BINDING,
        ANY_ARRAY_OR_PATH]
    · intro k q past rest p hq hveq
      subst hveq
      simp [Copy_Rerelativized_Array_Deep_Managed_cell, IS_RELATIVE, VAL_BINDING,
        ANY_ARRAY_OR_PATH, hq, INIT_BINDING]
  · intro hne i path w hw hr
    rw [cellAt, Copy_Rerelativized_eq_map, List.getElem?_map] at hw
    rw [Copy_Rerelativized_eq_map, List.getElem?_map] at hr
    exact Copy_Rerelativized_under before after hne path _ w hw hr

/-- The witness of C13: in `[a [a]]` with the block and both words relative to
the action 1, the copy from action 1 to action 2 has the inner `a` relative
to action 2 with its index 3, and no longer relative to action 1. -/
theorem Copy_Rerelativized_Array_Deep_Managed_swaps_witness :
    (Copy_Rerelativized_Array_Deep_Managed
      [.word .REB_WORD 0 sym_a (some (.paramlist 1)) 3,
        .array .REB_BLOCK 0 [] [.word .REB_WORD 0 sym_a (some (.paramlist 1)) 3]
          (some (.paramlist 1))] 1 2)[1]?
      = some (.array .REB_BLOCK 0 [] [.word .REB_WORD 0 sym_a (some (.paramlist 2)) 3]
          (some (.paramlist 2))) ∧
    VAL_BINDING (.word .REB_WORD 0 sym_a (some (.paramlist 2)) 3) ≠ some (.paramlist 1) :=
  ⟨by rfl,
    (Copy_Rerelativized_Array_Deep_Managed_swaps
      [.word .REB_WORD 0 sym_a (some (.paramlist 1)) 3,
        .array .REB_BLOCK 0 [] [.word .REB_WORD 0 sym_a (some (.paramlist 1)) 3]
          (some (.paramlist 1))] 1 2).2.2 (by decide) 1 [0]
      (.word .REB_WORD 0 sym_a (some (.paramlist 2)) 3) (by rfl) (by rfl)⟩

/-- C11: `Copy_And_Bind_Relative_Deep_Managed` relativizes the matching words
with the right index.  For a body that is an array cell, a paramlist whose
keys have pairwise distinct canons, word kinds only in `bind_types` and a
Binder that holds no entry on entry: with enough stack the routine returns
without failure; and whenever the deep copy `Copy_Array_Core_Managed` of the
body returns an array `copy`, the routine returns without failure an array
that has a cell wherever `copy` has one, in which a word the walk reaches
(through array and path cells at any quote level, from their index), of a
kind in `bind_types` and with the canon of the key at position `m + 1` of the
paramlist, has its kind, quote level and symbol, the paramlist as binding
and `m + 1` as index, and a word whose kind is not in `bind_types` or whose
canon is the canon of no key is the word of `copy`. -/
theorem Copy_And_Bind_Relative_Deep_Managed_relativizes (ts : Typesets)
    (binder : Reb_Binder) (k : ArrayKind) (q : Nat) (past rest : List Cell)
    (b : Option REBNOD) (paramlist : Paramlist) (bind_types : REBU64)
    (hempty : ∀ canon, Get_Binder_Index_Else_0 binder canon = 0)
    (hdistinct : (paramlist.params.map VAL_KEY_CANON).Nodup)
    (hkinds : ∀ kind, bind_types kind = true → TS_WORD kind = true) :
    (∃ n, ∀ stack, n ≤ stack →
      (Copy_And_Bind_Relative_Deep_Managed ts stack binder (.array k q past rest b) paramlist
        bind_types).error = none) ∧
    (∀ (stack : Nat) (copy : List Cell),
      Copy_Array_Core_Managed ts stack (past ++ rest) past.length b rest.length
        (fun kind => (ts.TS_SERIES kind || TS_PATH kind) && !ts.TS_NOT_COPIED kind)
        = .ok copy →
      (Copy_And_Bind_Relative_Deep_Managed ts stack binder (.array k q past rest b) paramlist
        bind_types).error = none ∧
      ∀ (i : Nat) (path : List Nat) (v : Cell), cellAt copy i path = some v →
        ∃ v2, cellAt (Copy_And_Bind_Relative_Deep_Managed ts stack binder
            (.array k q past rest b) paramlist bind_types).copy i path = some v2 ∧
          (∀ wk wq s bd ix m key, relativeWalkUnder (copy[i]?) path = true →
            v = .word wk wq s bd ix → bind_types (.word wk) = true →
            paramlist.params[m]? = some key → VAL_KEY_CANON key = s.canon →
            v2 = .word wk wq s (some (.paramlist paramlist.id)) ((m + 1 : Nat) : Int)) ∧
          (∀ wk wq s bd ix, v = .word wk wq s bd ix →
            (bind_types (.word wk) = false ∨ s.canon ∉ paramlist.params.map VAL_KEY_CANON) →
            v2 = v)) := by
  constructor
  · obtain ⟨n, hn⟩ := Copy_Array_Core_Managed_total ts
      (fun kind => (ts.TS_SERIES kind || TS_PATH kind) && !ts.TS_NOT_COPIED kind)
      (past ++ rest) past.length rest.length (by simp)
    refine ⟨n, fun stack h => ?_⟩
    obtain ⟨copy, hcopy⟩ := hn stack h b
    obtain ⟨seeded, -, he, -⟩ := Copy_And_Bind_Relative_Deep_Managed_unfold ts stack binder k q
      past rest b paramlist bind_types copy hempty hdistinct hkinds hcopy
    exact he
  · intro stack copy hcopy
    obtain ⟨seeded, hidx, he, hc, -⟩ := Copy_And_Bind_Relative_Deep_Managed_unfold ts stack
      binder k q past rest b paramlist bind_types copy hempty hdistinct hkinds hcopy
    refine ⟨he, fun i path v hv => ?_⟩
    have hat := Bind_Relative_at seeded paramlist.id bind_types hkinds copy i path
    rw [hv, Option.map_some'] at hat
    rw [hc]
    refine ⟨_, hat, ?_, ?_⟩
    · intro wk wq s bd ix m key hr hveq hbt hget hcanon
      subst hveq
      obtain ⟨hmem, hio⟩ := indexOf_canon_of_get paramlist.params m key hdistinct hget
      rw [hcanon] at hmem hio
      have hs := hidx s.canon
      rw [if_pos hmem, hio] at hs
      have hne : seeded.index s.canon ≠ 0 := by rw [hs]; omega
      rw [hr]
      simp only [if_true, Bind_Relative_Inner_Loop_cell, hbt, Get_Binder_Index_Else_0,
        Dequotify, Unbind_Any_Word, INIT_BINDING, INIT_WORD_INDEX, Quotify, hs, Nat.zero_add]
      split_ifs with h0
      · rw [Nat.add_comm]
      · exact absurd h0 (by omega)
    · intro wk wq s bd ix hveq hor
      subst hveq
      split_ifs
      · rcases hor with hbt | hmem
        · simp [Bind_Relative_Inner_Loop_cell, hbt]
        · have hs := hidx s.canon
          rw [if_neg hmem] at hs
          simp [Bind_Relative_Inner_Loop_cell, Get_Binder_Index_Else_0, hs]
      · rfl

/-- The witness of C11: the body `[b [b a]]` copied and bound for a paramlist
with the keys `a` and `b`: the inner `a` ends relative to the paramlist with
index 1. -/
theorem Copy_And_Bind_Relative_Deep_Managed_relativizes_witness :
    (∀ canon, Get_Binder_Index_Else_0 Reb_Binder.empty canon = 0) ∧
    (([⟨sym_a, false, false⟩, ⟨sym_b, false, false⟩] : List REBKEY).map VAL_KEY_CANON).Nodup ∧
    ∃ v2, cellAt (Copy_And_Bind_Relative_Deep_Managed sample_typesets 3 Reb_Binder.empty
        (.array .REB_BLOCK 0 [] [plain_word sym_b,
          .array .REB_BLOCK 0 [] [plain_word sym_b, plain_word sym_a] none] none)
        ⟨9, [⟨sym_a, false, false⟩, ⟨sym_b, false, false⟩]⟩ TS_WORD).copy 1 [1] = some v2 ∧
      v2 = .word .REB_WORD 0 sym_a (some (.paramlist 9)) 1 :=
  ⟨fun _ => rfl, by decide, by
    obtain ⟨v2, h1, h2, -⟩ := ((Copy_And_Bind_Relative_Deep_Managed_relativizes sample_typesets
      Reb_Binder.empty .REB_BLOCK 0 [] [plain_word sym_b,
          .array .REB_BLOCK 0 [] [plain_word sym_b, plain_word sym_a] none] none
      ⟨9, [⟨sym_a, false, false⟩, ⟨sym_b, false, false⟩]⟩ TS_WORD (fun _ => rfl) (by decide)
      (fun _ h => h)).2 3
      [plain_word sym_b, .array .REB_BLOCK 0 [] [plain_word sym_b, plain_word sym_a] none]
      (by rfl)).2 1 [1] (plain_word sym_a) (by rfl)
    exact ⟨v2, h1, h2 .REB_WORD 0 sym_a none 0 0 ⟨sym_a, false, false⟩ (by rfl) (by rfl)
      (by rfl) (by rfl) (by rfl)⟩⟩

/-- C12: `Copy_And_Bind_Relative_Deep_Managed` marks every sub-array.  Under
the preconditions of C11, whenever the deep copy of the body returns an array
`copy`, every array or path cell of `copy` that the walk reaches, at any
depth and at any quote level, is in the returned array an array cell of the
same kind, the same quote level, the same index and as many cells, with the
paramlist as its binding, whether or not a word below it matches a key. -/
theorem Copy_And_Bind_Relative_Deep_Managed_marks_arrays (ts : Typesets)
    (binder : Reb_Binder) (k : ArrayKind) (q : Nat) (past rest : List Cell)
    (b : Option REBNOD) (paramlist : Paramlist) (bind_types : REBU64)
    (hempty : ∀ canon, Get_Binder_Index_Else_0 binder canon = 0)
    (hdistinct : (paramlist.params.map VAL_KEY_CANON).Nodup)
    (hkinds : ∀ kind, bind_types kind = true → TS_WORD kind = true)
    (stack : Nat) (copy : List Cell)
    (hcopy : Copy_Array_Core_Managed ts stack (past ++ rest) past.length b rest.length
      (fun kind => (ts.TS_SERIES kind || TS_PATH kind) && !ts.TS_NOT_COPIED kind) = .ok copy)
    (i : Nat) (path : List Nat) (ak : ArrayKind) (aq : Nat) (apast arest : List Cell)
    (ab : Option REBNOD)
    (hv : cellAt copy i path = some (.array ak aq apast arest ab))
    (hreach : relativeWalkUnder (copy[i]?) path = true) :
    ∃ arest2, cellAt (Copy_And_Bind_Relative_Deep_Managed ts stack binder
        (.array k q past rest b) paramlist bind_types).copy i path
        = some (.array ak aq apast arest2 (some (.paramlist paramlist.id))) ∧
      arest2.length = arest.length := by
  obtain ⟨seeded, -, -, hc, -⟩ := Copy_And_Bind_Relative_Deep_Managed_unfold ts stack
    binder k q past rest b paramlist bind_types copy hempty hdistinct hkinds hcopy
  have hat := Bind_Relative_at seeded paramlist.id bind_types hkinds copy i path
  rw [hv, Option.map_some', hreach, if_pos rfl,
    Bind_Relative_Inner_Loop_cell_array seeded paramlist.id bind_types hkinds] at hat
  rw [hc]
  exact ⟨_, hat, by simp⟩

/-- The witness of C12: in the body `[b '[b]]` copied and bound for a
paramlist with the one key `a`, the quoted inner block, which holds no word
matching a key, ends bound to the paramlist with its one quote level. -/
theorem Copy_And_Bind_Relative_Deep_Managed_marks_arrays_witness :
    ∃ arest2, cellAt (Copy_And_Bind_Relative_Deep_Managed sample_typesets 3 Reb_Binder.empty
        (.array .REB_BLOCK 0 [] [plain_word sym_b,
          .array .REB_BLOCK 1 [] [plain_word sym_b] none] none)
        ⟨9, [⟨sym_a, false, false⟩]⟩ TS_WORD).copy 1 []
        = some (.array .REB_BLOCK 1 [] arest2 (some (.paramlist 9))) ∧
      arest2.length = [plain_word sym_b].length :=
  Copy_And_Bind_Relative_Deep_Managed_marks_arrays sample_typesets
    Reb_Binder.empty .REB_BLOCK 0 [] [plain_word sym_b,
      .array .REB_BLOCK 1 [] [plain_word sym_b] none] none
    ⟨9, [⟨sym_a, false, false⟩]⟩ TS_WORD (fun _ => rfl) (by decide) (fun _ h => h) 3
    [plain_word sym_b, .array .REB_BLOCK 1 [] [plain_word sym_b] none] (by rfl)
    1 [] .REB_BLOCK 1 [] [plain_word sym_b] none (by rfl) (by rfl)

/-! ## The claims about the virtual bind -/

/-- C14: the check of the loop spec covers a block spec only.  For a body
that is a block: when the spec is a block that holds, from its index on, an
item that is neither a plain nor a quoted word,
`Virtual_Bind_Deep_To_New_Context` fails with `InvalidLoopSpec`, with the body
as it was, no context allocated and the Binder as it was; when the spec is
a single cell that is not a block and neither a plain nor a quoted word, no
check is made: the context is allocated, and the routine stops at
`assert(IS_QUOTED_WORD(item))`, not with `InvalidLoopSpec`. -/
theorem Virtual_Bind_Deep_To_New_Context_checks_block_spec_only (ts : Typesets)
    (stack id : Nat) (binder : Reb_Binder) (past rest : List Cell) (b : Option REBNOD) :
    (∀ (spast srest : List Cell) (sb : Option REBNOD),
      (∃ item ∈ srest, IS_WORD item = false ∧ IS_QUOTED_WORD item = false) →
      Virtual_Bind_Deep_To_New_Context ts stack id binder (.array .REB_BLOCK 0 past rest b)
          (.array .REB_BLOCK 0 spast srest sb)
        = ⟨.array .REB_BLOCK 0 past rest b, none, binder, some .InvalidLoopSpec⟩) ∧
    (∀ (spec : Cell), IS_BLOCK spec = false → IS_WORD spec = false →
      IS_QUOTED_WORD spec = false →
      Virtual_Bind_Deep_To_New_Context ts stack id binder (.array .REB_BLOCK 0 past rest b) spec
        = ⟨.array .REB_BLOCK 0 past rest b, some ⟨id, false, [], [], false⟩, binder,
            some .AssertFailed⟩) := by
  have hb1 : IS_BLOCK (Cell.array .REB_BLOCK 0 past rest b) = true := rfl
  constructor
  · intro spast srest sb hinv
    have hsb : IS_BLOCK (Cell.array .REB_BLOCK 0 spast srest sb) = true := rfl
    have hitems : Virtual_Bind_Deep_To_New_Context_items (Cell.array .REB_BLOCK 0 spast srest sb)
        = srest := rfl
    have hlen : srest.length ≠ 0 := by
      obtain ⟨item, hm, -⟩ := hinv
      intro h
      rw [List.length_eq_zero.mp h] at hm
      simp at hm
    have hchk := Virtual_Bind_check_invalid srest false hinv
    generalize hc : Virtual_Bind_Deep_To_New_Context_check srest false = chk at hchk
    obtain ⟨rb, err⟩ := chk
    simp only at hchk
    subst hchk
    unfold Virtual_Bind_Deep_To_New_Context
    simp only [hb1, hsb, hitems, Bool.not_true, Bool.false_eq_true, if_false, hlen, if_true, hc]
  · intro spec hblock hword hquoted
    have hitems : Virtual_Bind_Deep_To_New_Context_items spec = [spec] := by
      simp [Virtual_Bind_Deep_To_New_Context_items, hblock]
    unfold Virtual_Bind_Deep_To_New_Context
    simp [hb1, hitems, hblock, hword, Virtual_Bind_Deep_To_New_Context_slots,
      Virtual_Bind_slot_invalid _ _ _ _ spec 1 hword hquoted]

/-- The witness of C14: with the body `[a]`, the block spec `[a:]` is refused
with `InvalidLoopSpec` and the single spec `a:` is not. -/
theorem Virtual_Bind_Deep_To_New_Context_checks_block_spec_only_witness :
    (Virtual_Bind_Deep_To_New_Context sample_typesets 3 7 Reb_Binder.empty
        (.array .REB_BLOCK 0 [] [plain_word sym_a] none)
        (.array .REB_BLOCK 0 [] [plain_set_word sym_a] none)).error = some .InvalidLoopSpec ∧
    (Virtual_Bind_Deep_To_New_Context sample_typesets 3 7 Reb_Binder.empty
        (.array .REB_BLOCK 0 [] [plain_word sym_a] none)
        (plain_set_word sym_a)).error = some .AssertFailed :=
  ⟨by
    rw [(Virtual_Bind_Deep_To_New_Context_checks_block_spec_only sample_typesets 3 7
      Reb_Binder.empty [] [plain_word sym_a] none).1 [] [plain_set_word sym_a] none
      ⟨plain_set_word sym_a, by simp, by rfl, by rfl⟩], by
    rw [(Virtual_Bind_Deep_To_New_Context_checks_block_spec_only sample_typesets 3 7
      Reb_Binder.empty [] [plain_word sym_a] none).2 (plain_set_word sym_a) (by rfl) (by rfl)
      (by rfl)]⟩

/-- C19: a spec of quoted words only makes no copy and no new binding.  For a
body that is a block and a spec whose items (the spec itself, or the cells
of a block spec from its index on, at least one) are all quoted words,
`Virtual_Bind_Deep_To_New_Context` returns without failure, with a context
allocated, `body_in_out` the very cell passed in (the same cells at the same
index, the same binding) and the Binder indices as they were on entry. -/
theorem Virtual_Bind_Deep_To_New_Context_all_quoted (ts : Typesets) (stack id : Nat)
    (binder : Reb_Binder) (past rest : List Cell) (b : Option REBNOD) (spec : Cell)
    (hne : Virtual_Bind_Deep_To_New_Context_items spec ≠ [])
    (hquoted : ∀ item ∈ Virtual_Bind_Deep_To_New_Context_items spec,
      IS_QUOTED_WORD item = true) :
    (Virtual_Bind_Deep_To_New_Context ts stack id binder (.array .REB_BLOCK 0 past rest b)
        spec).error = none ∧
    (Virtual_Bind_Deep_To_New_Context ts stack id binder (.array .REB_BLOCK 0 past rest b)
        spec).body = .array .REB_BLOCK 0 past rest b ∧
    (Virtual_Bind_Deep_To_New_Context ts stack id binder (.array .REB_BLOCK 0 past rest b)
        spec).binder = binder ∧
    (Virtual_Bind_Deep_To_New_Context ts stack id binder (.array .REB_BLOCK 0 past rest b)
        spec).context.isSome = true := by
  rw [Virtual_Bind_unfold_quoted ts stack id binder past rest b spec hne hquoted]
  exact ⟨rfl, rfl, rfl, rfl⟩

/-- The witness of C19: with the spec `['a 'a]` the body `[a]`, whose word is
bound to the context 5, comes back as it was, and the empty Binder stays
empty. -/
theorem Virtual_Bind_Deep_To_New_Context_all_quoted_witness :
    (Virtual_Bind_Deep_To_New_Context sample_typesets 0 7 Reb_Binder.empty
        (.array .REB_BLOCK 0 [] [.word .REB_WORD 0 sym_a (some (.varlist 5 false)) 1] none)
        (.array .REB_BLOCK 0 [] [quoted_word sym_a, quoted_word sym_a] none)).body
      = .array .REB_BLOCK 0 [] [.word .REB_WORD 0 sym_a (some (.varlist 5 false)) 1] none :=
  (Virtual_Bind_Deep_To_New_Context_all_quoted sample_typesets 0 7 Reb_Binder.empty []
    [.word .REB_WORD 0 sym_a (some (.varlist 5 false)) 1] none
    (.array .REB_BLOCK 0 [] [quoted_word sym_a, quoted_word sym_a] none)
    (by simp [Virtual_Bind_Deep_To_New_Context_items, IS_BLOCK, VAL_ARRAY_AT])
    (by
      intro item hitem
      simp only [Virtual_Bind_Deep_To_New_Context_items, IS_BLOCK, VAL_ARRAY_AT,
        beq_self_eq_true, if_true, List.mem_cons, List.mem_singleton, or_self,
        List.not_mem_nil, or_false] at hitem
      subst hitem
      rfl)).2.1

/-- C20: the loop context has `num_vars` slots in spec order.  For a body that
is a block and a spec whose items are all plain or quoted words, when
`Virtual_Bind_Deep_To_New_Context` returns without failure the context in
`context_out` has as many keys and as many variable slots as the spec has
items (one for a spec that is not a block, the cells from the index on for a
block spec), its varlist has `SERIES_FLAG_DONT_RELOCATE`, key `i` has the
spelling of item `i`, and the slot of a plain word is the nulled cell. -/
theorem Virtual_Bind_Deep_To_New_Context_context_slots (ts : Typesets) (stack id : Nat)
    (binder : Reb_Binder) (past rest : List Cell) (b : Option REBNOD) (spec : Cell)
    (hvalid : ∀ item ∈ Virtual_Bind_Deep_To_New_Context_items spec,
      IS_WORD item = true ∨ IS_QUOTED_WORD item = true)
    (hok : (Virtual_Bind_Deep_To_New_Context ts stack id binder
      (.array .REB_BLOCK 0 past rest b) spec).error = none) :
    ∃ c, (Virtual_Bind_Deep_To_New_Context ts stack id binder
        (.array .REB_BLOCK 0 past rest b) spec).context = some c ∧
      c.keys.length = (Virtual_Bind_Deep_To_New_Context_items spec).length ∧
      c.vars.length = (Virtual_Bind_Deep_To_New_Context_items spec).length ∧
      (IS_BLOCK spec = false → (Virtual_Bind_Deep_To_New_Context_items spec).length = 1) ∧
      (IS_BLOCK spec = true →
        (Virtual_Bind_Deep_To_New_Context_items spec).length = (VAL_ARRAY_AT spec).length) ∧
      c.dontRelocate = true ∧
      ∀ (i : Nat) (item : Cell), (Virtual_Bind_Deep_To_New_Context_items spec)[i]? = some item →
        ∃ key var, c.keys[i]? = some key ∧ c.vars[i]? = some var ∧
          VAL_WORD_SPELLING item = some key.spelling ∧
          (IS_WORD item = true → var.cell = .other REB_NULLED 0) := by
  have hshape : ∀ (ks : List REBKEY) (vs : List REBVAR) (sp : Option REBNOD),
      ks.map some = (Virtual_Bind_Deep_To_New_Context_items spec).map specKey →
      vs = (Virtual_Bind_Deep_To_New_Context_items spec).map (specVar sp) →
      (Virtual_Bind_Deep_To_New_Context ts stack id binder
        (.array .REB_BLOCK 0 past rest b) spec).context = some ⟨id, false, ks, vs, true⟩ →
      ∃ c, (Virtual_Bind_Deep_To_New_Context ts stack id binder
        (.array .REB_BLOCK 0 past rest b) spec).context = some c ∧
      c.keys.length = (Virtual_Bind_Deep_To_New_Context_items spec).length ∧
      c.vars.length = (Virtual_Bind_Deep_To_New_Context_items spec).length ∧
      (IS_BLOCK spec = false → (Virtual_Bind_Deep_To_New_Context_items spec).length = 1) ∧
      (IS_BLOCK spec = true →
        (Virtual_Bind_Deep_To_New_Context_items spec).length = (VAL_ARRAY_AT spec).length) ∧
      c.dontRelocate = true ∧
      ∀ (i : Nat) (item : Cell), (Virtual_Bind_Deep_To_New_Context_items spec)[i]? = some item →
        ∃ key var, c.keys[i]? = some key ∧ c.vars[i]? = some var ∧
          VAL_WORD_SPELLING item = some key.spelling ∧
          (IS_WORD item = true → var.cell = .other REB_NULLED 0) := by
    intro ks vs sp hk hv hc
    obtain ⟨h1, h2, h3⟩ := spec_slots_at sp _ ks vs hk hv
    refine ⟨_, hc, h1, h2, ?_, ?_, rfl, ?_⟩
    · intro hb
      simp [Virtual_Bind_Deep_To_New_Context_items, hb]
    · intro hb
      simp [Virtual_Bind_Deep_To_New_Context_items, hb]
    · intro i item hi
      obtain ⟨key, var, hk1, hv1, hs, -, -, hvar⟩ := h3 i item hi
      refine ⟨key, var, hk1, hv1, hs, ?_⟩
      intro hw
      rw [hvar]
      simp [specVar, hw]
  by_cases hne : Virtual_Bind_Deep_To_New_Context_items spec = []
  · rw [Virtual_Bind_empty_spec ts stack id binder past rest b spec hne] at hok
    simp at hok
  by_cases hplain : (Virtual_Bind_Deep_To_New_Context_items spec).any IS_WORD = true
  · cases hcopy : Copy_Array_Core_Managed ts stack (past ++ rest) past.length b
        (past ++ rest).length TS_ARRAY with
    | error e =>
      rw [Virtual_Bind_unfold_copy_error ts stack id binder past rest b spec e hne hvalid
        hplain hcopy] at hok
      simp at hok
    | ok copy =>
      have hk := Virtual_Bind_slots_keys (if IS_BLOCK spec then VAL_SPECIFIER spec else none)
        true (Virtual_Bind_Deep_To_New_Context_items spec) binder none 1 hvalid
      apply hshape _ _ _ hk.2.1 hk.2.2
      rw [Virtual_Bind_unfold_rebinding ts stack id binder past rest b spec copy hne hvalid
        hplain hcopy]
  · have hquoted := spec_all_quoted_of_not_plain _ hvalid hplain
    have hk := Virtual_Bind_slots_keys (if IS_BLOCK spec then VAL_SPECIFIER spec else none)
      false (Virtual_Bind_Deep_To_New_Context_items spec) binder none 1 hvalid
    apply hshape _ _ _ hk.2.1 hk.2.2
    rw [Virtual_Bind_unfold_quoted ts stack id binder past rest b spec hne hquoted]

/-- The witness of C20: with the body `[a]` and the spec `[a 'b]` the call
returns without failure a context of two keys, the first with the spelling
`a` and a nulled slot. -/
theorem Virtual_Bind_Deep_To_New_Context_context_slots_witness :
    (Virtual_Bind_Deep_To_New_Context sample_typesets 3 7 Reb_Binder.empty
        (.array .REB_BLOCK 0 [] [plain_word sym_a] none)
        (.array .REB_BLOCK 0 [] [plain_word sym_a, quoted_word sym_b] none)).error = none ∧
    ∃ c, (Virtual_Bind_Deep_To_New_Context sample_typesets 3 7 Reb_Binder.empty
        (.array .REB_BLOCK 0 [] [plain_word sym_a] none)
        (.array .REB_BLOCK 0 [] [plain_word sym_a, quoted_word sym_b] none)).context = some c ∧
      c.keys.length = 2 :=
  ⟨by rfl, by
    obtain ⟨c, h1, h2, -⟩ := Virtual_Bind_Deep_To_New_Context_context_slots sample_typesets 3 7
      Reb_Binder.empty [] [plain_word sym_a] none
      (.array .REB_BLOCK 0 [] [plain_word sym_a, quoted_word sym_b] none)
      (by
        intro item hitem
        simp only [Virtual_Bind_Deep_To_New_Context_items, IS_BLOCK, VAL_ARRAY_AT,
          beq_self_eq_true, if_true, List.mem_cons, List.mem_singleton,
          List.not_mem_nil, or_false] at hitem
        rcases hitem with rfl | rfl
        · exact Or.inl rfl
        · exact Or.inr rfl)
      (by rfl)
    exact ⟨c, h1, h2⟩⟩

/-- C15: `Virtual_Bind_Deep_To_New_Context` fails with `DuplicateLoopVariable`
exactly when it should.  For a body that is a block, a spec of at least one
item whose items are all plain or quoted words, and a Binder that holds no
entry on entry: whatever the stack, a failure with `DuplicateLoopVariable`
means that two items of the spec name the same canon and one of the two is a
plain word; and with enough stack for the copy of the body, two such items
make the call fail with `DuplicateLoopVariable`, and a spec without two such
items makes it return without failure. -/
theorem Virtual_Bind_Deep_To_New_Context_duplicate_iff (ts : Typesets) (id : Nat)
    (binder : Reb_Binder) (past rest : List Cell) (b : Option REBNOD) (spec : Cell)
    (hempty : ∀ canon, Get_Binder_Index_Else_0 binder canon = 0)
    (hne : Virtual_Bind_Deep_To_New_Context_items spec ≠ [])
    (hvalid : ∀ item ∈ Virtual_Bind_Deep_To_New_Context_items spec,
      IS_WORD item = true ∨ IS_QUOTED_WORD item = true) :
    (∀ (stack : Nat) (sym : REBSTR),
      (Virtual_Bind_Deep_To_New_Context ts stack id binder (.array .REB_BLOCK 0 past rest b)
        spec).error = some (.DuplicateLoopVariable sym) →
      ∃ (i j : Nat) (a c : Cell), i < j ∧
        (Virtual_Bind_Deep_To_New_Context_items spec)[i]? = some a ∧
        (Virtual_Bind_Deep_To_New_Context_items spec)[j]? = some c ∧
        VAL_WORD_CANON a = VAL_WORD_CANON c ∧ (IS_WORD a = true ∨ IS_WORD c = true)) ∧
    (∃ n, ∀ stack, n ≤ stack →
      ((∃ (i j : Nat) (a c : Cell), i < j ∧
          (Virtual_Bind_Deep_To_New_Context_items spec)[i]? = some a ∧
          (Virtual_Bind_Deep_To_New_Context_items spec)[j]? = some c ∧
          VAL_WORD_CANON a = VAL_WORD_CANON c ∧ (IS_WORD a = true ∨ IS_WORD c = true)) →
        ∃ sym, (Virtual_Bind_Deep_To_New_Context ts stack id binder
          (.array .REB_BLOCK 0 past rest b) spec).error = some (.DuplicateLoopVariable sym)) ∧
      ((¬ ∃ (i j : Nat) (a c : Cell), i < j ∧
          (Virtual_Bind_Deep_To_New_Context_items spec)[i]? = some a ∧
          (Virtual_Bind_Deep_To_New_Context_items spec)[j]? = some c ∧
          VAL_WORD_CANON a = VAL_WORD_CANON c ∧ (IS_WORD a = true ∨ IS_WORD c = true)) →
        (Virtual_Bind_Deep_To_New_Context ts stack id binder
          (.array .REB_BLOCK 0 past rest b) spec).error = none)) := by
  constructor
  · intro stack sym herr
    have := Virtual_Bind_error_dup ts stack id binder past rest b spec sym hempty hvalid herr
    exact (firstConflict_iff _ hvalid).mp ⟨sym, this⟩
  · obtain ⟨n, hn⟩ := Copy_Array_Core_Managed_total ts TS_ARRAY (past ++ rest) past.length
      (past ++ rest).length (le_refl _)
    refine ⟨n, fun stack hstack => ?_⟩
    obtain ⟨copy, hcopy⟩ := hn stack hstack b
    constructor
    · intro hcon
      have hplain := spec_plain_of_conflict _ hcon
      obtain ⟨sym, hsym⟩ := (firstConflict_iff _ hvalid).mpr hcon
      refine ⟨sym, ?_⟩
      rw [Virtual_Bind_error_of_copy ts stack id binder past rest b spec copy hempty hne
        hvalid hplain hcopy, hsym]
    · intro hcon
      by_cases hplain : (Virtual_Bind_Deep_To_New_Context_items spec).any IS_WORD = true
      · rw [Virtual_Bind_error_of_copy ts stack id binder past rest b spec copy hempty hne
          hvalid hplain hcopy]
        cases hfc : firstConflict [] (Virtual_Bind_Deep_To_New_Context_items spec) with
        | none => rfl
        | some d => exact absurd ((firstConflict_iff _ hvalid).mp ⟨d, hfc⟩) hcon
      · have hquoted := spec_all_quoted_of_not_plain _ hvalid hplain
        rw [Virtual_Bind_unfold_quoted ts stack id binder past rest b spec hne hquoted]

/-- The witness of C15: with the body `[a]` and an empty Binder the specs
`[a a]`, `[a 'a]` and `['a a]` fail with `DuplicateLoopVariable`, the specs
`['a 'a]` and `['a 'a b]` return without failure, and the failure on
`[a 'a]` comes with two items that name the same canon. -/
theorem Virtual_Bind_Deep_To_New_Context_duplicate_iff_witness :
    (Virtual_Bind_Deep_To_New_Context sample_typesets 3 7 Reb_Binder.empty
        (.array .REB_BLOCK 0 [] [plain_word sym_a] none)
        (.array .REB_BLOCK 0 [] [plain_word sym_a, plain_word sym_a] none)).error
      = some (.DuplicateLoopVariable sym_a) ∧
    (Virtual_Bind_Deep_To_New_Context sample_typesets 3 7 Reb_Binder.empty
        (.array .REB_BLOCK 0 [] [plain_word sym_a] none)
        (.array .REB_BLOCK 0 [] [quoted_word sym_a, plain_word sym_a] none)).error
      = some (.DuplicateLoopVariable sym_a) ∧
    (Virtual_Bind_Deep_To_New_Context sample_typesets 3 7 Reb_Binder.empty
        (.array .REB_BLOCK 0 [] [plain_word sym_a] none)
        (.array .REB_BLOCK 0 [] [quoted_word sym_a, quoted_word sym_a] none)).error = none ∧
    (Virtual_Bind_Deep_To_New_Context sample_typesets 3 7 Reb_Binder.empty
        (.array .REB_BLOCK 0 [] [plain_word sym_a] none)
        (.array .REB_BLOCK 0 [] [quoted_word sym_a, quoted_word sym_a, plain_word sym_b]
          none)).error = none ∧
    (Virtual_Bind_Deep_To_New_Context sample_typesets 3 7 Reb_Binder.empty
        (.array .REB_BLOCK 0 [] [plain_word sym_a] none)
        (.array .REB_BLOCK 0 [] [plain_word sym_a, quoted_word sym_a] none)).error
      = some (.DuplicateLoopVariable sym_a) ∧
    ∃ (i j : Nat) (a c : Cell), i < j ∧
      (Virtual_Bind_Deep_To_New_Context_items
        (.array .REB_BLOCK 0 [] [plain_word sym_a, quoted_word sym_a] none))[i]? = some a ∧
      (Virtual_Bind_Deep_To_New_Context_items
        (.array .REB_BLOCK 0 [] [plain_word sym_a, quoted_word sym_a] none))[j]? = some c ∧
      VAL_WORD_CANON a = VAL_WORD_CANON c ∧ (IS_WORD a = true ∨ IS_WORD c = true) :=
  ⟨by rfl, by rfl, by rfl, by rfl, by rfl,
    (Virtual_Bind_Deep_To_New_Context_duplicate_iff sample_typesets 7 Reb_Binder.empty []
      [plain_word sym_a] none
      (.array .REB_BLOCK 0 [] [plain_word sym_a, quoted_word sym_a] none) (fun _ => rfl)
      (by simp [Virtual_Bind_Deep_To_New_Context_items, IS_BLOCK, VAL_ARRAY_AT])
      (by
        intro item hitem
        simp only [Virtual_Bind_Deep_To_New_Context_items, IS_BLOCK, VAL_ARRAY_AT,
          beq_self_eq_true, if_true, List.mem_cons, List.mem_singleton,
          List.not_mem_nil, or_false] at hitem
        rcases hitem with rfl | rfl
        · exact Or.inl rfl
        · exact Or.inr rfl)).1 3 sym_a (by rfl)⟩

/-- C16: only the first duplicate is reported.  For a body that is a block, a
spec whose items are all plain or quoted words and a Binder that holds no
entry on entry: when `Virtual_Bind_Deep_To_New_Context` fails with
`DuplicateLoopVariable`, the symbol of the failure is the spelling of a spec
item that is in conflict with an item before it (same canon, one of the two
a plain word), and no item to the left of that one is in conflict with an
item before it. -/
theorem Virtual_Bind_Deep_To_New_Context_first_duplicate (ts : Typesets) (stack id : Nat)
    (binder : Reb_Binder) (past rest : List Cell) (b : Option REBNOD) (spec : Cell)
    (sym : REBSTR)
    (hempty : ∀ canon, Get_Binder_Index_Else_0 binder canon = 0)
    (hvalid : ∀ item ∈ Virtual_Bind_Deep_To_New_Context_items spec,
      IS_WORD item = true ∨ IS_QUOTED_WORD item = true)
    (herr : (Virtual_Bind_Deep_To_New_Context ts stack id binder
      (.array .REB_BLOCK 0 past rest b) spec).error = some (.DuplicateLoopVariable sym)) :
    ∃ (j : Nat) (f : Cell), (Virtual_Bind_Deep_To_New_Context_items spec)[j]? = some f ∧
      VAL_WORD_SPELLING f = some sym ∧
      (∃ (i : Nat) (a : Cell), i < j ∧
        (Virtual_Bind_Deep_To_New_Context_items spec)[i]? = some a ∧
        VAL_WORD_CANON a = VAL_WORD_CANON f ∧ (IS_WORD a = true ∨ IS_WORD f = true)) ∧
      ∀ (j2 : Nat) (f2 : Cell), j2 < j →
        (Virtual_Bind_Deep_To_New_Context_items spec)[j2]? = some f2 →
        ¬ ∃ (i : Nat) (a : Cell), i < j2 ∧
          (Virtual_Bind_Deep_To_New_Context_items spec)[i]? = some a ∧
          VAL_WORD_CANON a = VAL_WORD_CANON f2 ∧ (IS_WORD a = true ∨ IS_WORD f2 = true) := by
  have hfc := Virtual_Bind_error_dup ts stack id binder past rest b spec sym hempty hvalid herr
  obtain ⟨j, f, hf, hsp, hany, hmin⟩ := firstConflict_some _ [] sym hfc
  rw [List.nil_append, any_take_iff] at hany
  obtain ⟨i, a, hlt, ha, hc⟩ := hany
  refine ⟨j, f, hf, hsp, ⟨i, a, hlt, ha, (specConflict_iff a f).mp hc⟩, ?_⟩
  rintro j2 f2 hlt2 hf2 ⟨i2, a2, hi2, ha2, hc2⟩
  have hfalse := hmin j2 f2 hlt2 hf2
  rw [List.nil_append] at hfalse
  have htrue : ((Virtual_Bind_Deep_To_New_Context_items spec).take j2).any
      (fun e => specConflict e f2) = true :=
    (any_take_iff _ j2 _).mpr ⟨i2, a2, hi2, ha2, (specConflict_iff a2 f2).mpr hc2⟩
  rw [hfalse] at htrue
  exact Bool.noConfusion htrue

/-- The witness of C16: with the body `[a]` the spec `[a b b a]` reports `b`
and the spec `[a a b b]` reports `a`; the item reported for `[a b b a]` has
the spelling `b`. -/
theorem Virtual_Bind_Deep_To_New_Context_first_duplicate_witness :
    (Virtual_Bind_Deep_To_New_Context sample_typesets 3 7 Reb_Binder.empty
        (.array .REB_BLOCK 0 [] [plain_word sym_a] none)
        (.array .REB_BLOCK 0 [] [plain_word sym_a, plain_word sym_b, plain_word sym_b,
          plain_word sym_a] none)).error = some (.DuplicateLoopVariable sym_b) ∧
    (Virtual_Bind_Deep_To_New_Context sample_typesets 3 7 Reb_Binder.empty
        (.array .REB_BLOCK 0 [] [plain_word sym_a] none)
        (.array .REB_BLOCK 0 [] [plain_word sym_a, plain_word sym_a, plain_word sym_b,
          plain_word sym_b] none)).error = some (.DuplicateLoopVariable sym_a) ∧
    ∃ (j : Nat) (f : Cell), (Virtual_Bind_Deep_To_New_Context_items
        (.array .REB_BLOCK 0 [] [plain_word sym_a, plain_word sym_b, plain_word sym_b,
          plain_word sym_a] none))[j]? = some f ∧
      VAL_WORD_SPELLING f = some sym_b := by
  refine ⟨by rfl, by rfl, ?_⟩
  obtain ⟨j, f, h1, h2, -⟩ := Virtual_Bind_Deep_To_New_Context_first_duplicate sample_typesets
    3 7 Reb_Binder.empty [] [plain_word sym_a] none
    (.array .REB_BLOCK 0 [] [plain_word sym_a, plain_word sym_b, plain_word sym_b,
      plain_word sym_a] none) sym_b (fun _ => rfl)
    (by
      intro item hitem
      simp only [Virtual_Bind_Deep_To_New_Context_items, IS_BLOCK, VAL_ARRAY_AT,
        beq_self_eq_true, if_true, List.mem_cons, List.mem_singleton,
        List.not_mem_nil, or_false] at hitem
      rcases hitem with rfl | rfl | rfl | rfl <;> exact Or.inl rfl)
    (by rfl)
  exact ⟨j, f, h1, h2⟩

/-- C18: `Virtual_Bind_Deep_To_New_Context` binds the copied body to the fresh
variables and skips the reused ones.  For a body that is a block, a spec
whose items are all plain or quoted words, at least one of them plain and no
two of them in conflict, and a Binder that holds no entry on entry: with
enough stack the call returns without failure; and whenever the deep copy
of the body returns an array `copy`, the call returns without failure and
`body_in_out` is a block at the head of an array that has a cell wherever
`copy` has one, in which a word of any word kind and any quote level that
the walk reaches (through array and path cells, from their index) and whose
canon is that of the plain spec word at position `m + 1` is bound to the new
context with index `m + 1`, and a word whose canon no plain spec word has
(it is named by quoted items only, or by no item) is the word of `copy`. -/
theorem Virtual_Bind_Deep_To_New_Context_binds_copy (ts : Typesets) (id : Nat)
    (binder : Reb_Binder) (past rest : List Cell) (b : Option REBNOD) (spec : Cell)
    (hempty : ∀ canon, Get_Binder_Index_Else_0 binder canon = 0)
    (hvalid : ∀ item ∈ Virtual_Bind_Deep_To_New_Context_items spec,
      IS_WORD item = true ∨ IS_QUOTED_WORD item = true)
    (hplain : (Virtual_Bind_Deep_To_New_Context_items spec).any IS_WORD = true)
    (hnodup : ¬ ∃ (i j : Nat) (a c : Cell), i < j ∧
      (Virtual_Bind_Deep_To_New_Context_items spec)[i]? = some a ∧
      (Virtual_Bind_Deep_To_New_Context_items spec)[j]? = some c ∧
      VAL_WORD_CANON a = VAL_WORD_CANON c ∧ (IS_WORD a = true ∨ IS_WORD c = true)) :
    (∃ n, ∀ stack, n ≤ stack →
      (Virtual_Bind_Deep_To_New_Context ts stack id binder (.array .REB_BLOCK 0 past rest b)
        spec).error = none) ∧
    (∀ (stack : Nat) (copy : List Cell),
      Copy_Array_Core_Managed ts stack (past ++ rest) past.length b (past ++ rest).length
        TS_ARRAY = .ok copy →
      (Virtual_Bind_Deep_To_New_Context ts stack id binder (.array .REB_BLOCK 0 past rest b)
        spec).error = none ∧
      ∃ cells, (Virtual_Bind_Deep_To_New_Context ts stack id binder
          (.array .REB_BLOCK 0 past rest b) spec).body = .array .REB_BLOCK 0 [] cells UNBOUND ∧
        ∀ (i : Nat) (path : List Nat) (v : Cell), cellAt copy i path = some v →
          ∃ v2, cellAt cells i path = some v2 ∧
            (∀ k q s bd ix (m : Nat) item, relativeWalkUnder (copy[i]?) path = true →
              v = .word k q s bd ix →
              (Virtual_Bind_Deep_To_New_Context_items spec)[m]? = some item →
              IS_WORD item = true → VAL_WORD_CANON item = some s.canon →
              v2 = .word k q s (some (.varlist id false)) ((m + 1 : Nat) : Int)) ∧
            (∀ k q s bd ix, v = .word k q s bd ix →
              (∀ item ∈ Virtual_Bind_Deep_To_New_Context_items spec,
                VAL_WORD_CANON item = some s.canon → IS_WORD item = false) →
              v2 = v)) := by
  have hne : Virtual_Bind_Deep_To_New_Context_items spec ≠ [] := by
    intro h
    rw [h] at hplain
    simp at hplain
  have hfc : firstConflict [] (Virtual_Bind_Deep_To_New_Context_items spec) = none := by
    cases h : firstConflict [] (Virtual_Bind_Deep_To_New_Context_items spec) with
    | none => rfl
    | some d => exact absurd ((firstConflict_iff _ hvalid).mp ⟨d, h⟩) hnodup
  have herr : ∀ (stack : Nat) (copy : List Cell),
      Copy_Array_Core_Managed ts stack (past ++ rest) past.length b (past ++ rest).length
        TS_ARRAY = .ok copy →
      (Virtual_Bind_Deep_To_New_Context ts stack id binder (.array .REB_BLOCK 0 past rest b)
        spec).error = none := by
    intro stack copy hcopy
    rw [Virtual_Bind_error_of_copy ts stack id binder past rest b spec copy hempty hne hvalid
      hplain hcopy, hfc]
  constructor
  · obtain ⟨n, hn⟩ := Copy_Array_Core_Managed_total ts TS_ARRAY (past ++ rest) past.length
      (past ++ rest).length (le_refl _)
    refine ⟨n, fun stack hstack => ?_⟩
    obtain ⟨copy, hcopy⟩ := hn stack hstack b
    exact herr stack copy hcopy
  · intro stack copy hcopy
    refine ⟨herr stack copy hcopy, ?_⟩
    obtain ⟨hdup, hseed⟩ := Virtual_Bind_slots_duplicate
      (if IS_BLOCK spec then VAL_SPECIFIER spec else none) binder _ hempty hvalid
    rw [hfc] at hdup
    obtain ⟨-, hB, hC⟩ := hseed hdup
    rw [Virtual_Bind_unfold_rebinding ts stack id binder past rest b spec copy hne hvalid hplain
      hcopy]
    generalize (if IS_BLOCK spec = true then VAL_SPECIFIER spec else none) = sp at hdup hB hC ⊢
    generalize Virtual_Bind_Deep_To_New_Context_slots true sp binder none
      (Virtual_Bind_Deep_To_New_Context_items spec) 1 = slots at hdup hB hC ⊢
    simp only [hdup]
    refine ⟨_, rfl, fun i path v hv => ?_⟩
    have hkinds : ∀ kind, TS_WORD kind = true → TS_WORD kind = true := fun _ h => h
    have hat := Bind_under_no_midstream slots.binder
      ⟨id, false, slots.keys, slots.vars, true⟩
      TS_WORD (fun _ => false) hkinds (fun _ => rfl) path (copy[i]?)
    unfold cellAt at hv ⊢
    rw [List.getElem?_map, hat, hv, Option.map_some']
    refine ⟨_, rfl, ?_, ?_⟩
    · intro k q s bd ix m item hr hveq hitem hw hcanon
      subst hveq
      have hidx := hB s.canon m item hitem hcanon hw
      have hpos : Get_Binder_Index_Else_0 slots.binder s.canon > 0 := by
        rw [Get_Binder_Index_Else_0, hidx]
        omega
      rw [hr, if_pos rfl]
      simp only [Bind_Values_Inner_Loop_cell, TS_WORD, if_true,
        Bind_word_no_midstream _ _ _ (fun _ => rfl), hpos, List.headD_cons]
      simp only [Get_Binder_Index_Else_0, hidx, NOD]
    · intro k q s bd ix hveq hnone
      subst hveq
      have hnpos : ¬ Get_Binder_Index_Else_0 slots.binder s.canon > 0 := by
        intro hpos
        obtain ⟨e, he, hce, hwe⟩ := hC s.canon hpos
        have := hnone e he hce
        rw [hwe] at this
        exact Bool.noConfusion this
      by_cases hr : relativeWalkUnder (copy[i]?) path = true
      · rw [if_pos hr]
        simp only [Bind_Values_Inner_Loop_cell, TS_WORD, if_true,
          Bind_word_no_midstream _ _ _ (fun _ => rfl), hnpos, if_false, List.headD_cons]
      · rw [if_neg hr]

/-- The witness of C18: with the body `[a b [a]]` and the spec `[a 'b]` the
inner `a` of the copy ends bound to the new context 7 with index 1. -/
theorem Virtual_Bind_Deep_To_New_Context_binds_copy_witness :
    ∃ cells, (Virtual_Bind_Deep_To_New_Context sample_typesets 3 7 Reb_Binder.empty
        (.array .REB_BLOCK 0 [] [plain_word sym_a, plain_word sym_b,
          .array .REB_BLOCK 0 [] [plain_word sym_a] none] none)
        (.array .REB_BLOCK 0 [] [plain_word sym_a, quoted_word sym_b] none)).body
        = .array .REB_BLOCK 0 [] cells UNBOUND ∧
      ∃ v2, cellAt cells 2 [0] = some v2 ∧
        v2 = .word .REB_WORD 0 sym_a (some (.varlist 7 false)) 1 := by
  obtain ⟨-, cells, hbody, hcells⟩ := (Virtual_Bind_Deep_To_New_Context_binds_copy
    sample_typesets 7 Reb_Binder.empty []
    [plain_word sym_a, plain_word sym_b, .array .REB_BLOCK 0 [] [plain_word sym_a] none] none
    (.array .REB_BLOCK 0 [] [plain_word sym_a, quoted_word sym_b] none) (fun _ => rfl)
    (by
      intro item hitem
      simp only [Virtual_Bind_Deep_To_New_Context_items, IS_BLOCK, VAL_ARRAY_AT,
        beq_self_eq_true, if_true, List.mem_cons, List.mem_singleton,
        List.not_mem_nil, or_false] at hitem
      rcases hitem with rfl | rfl
      · exact Or.inl rfl
      · exact Or.inr rfl)
    (by rfl)
    (by
      rintro ⟨i, j, a, c, hlt, ha, hc, hcanon, hw⟩
      have hj : j < 2 := by
        have := (List.getElem?_eq_some.mp hc).1
        simpa [Virtual_Bind_Deep_To_New_Context_items, IS_BLOCK, VAL_ARRAY_AT] using this
      have hi0 : i = 0 := by omega
      have hj1 : j = 1 := by omega
      subst hi0 hj1
      simp only [Virtual_Bind_Deep_To_New_Context_items, IS_BLOCK, VAL_ARRAY_AT,
        beq_self_eq_true, if_true, List.getElem?_cons_zero, List.getElem?_cons_succ,
        Option.some.injEq] at ha hc
      subst ha hc
      simp [VAL_WORD_CANON, plain_word, quoted_word, sym_a, sym_b] at hcanon)).2 3
    [plain_word sym_a, plain_word sym_b, .array .REB_BLOCK 0 [] [plain_word sym_a] none]
    (by rfl)
  obtain ⟨v2, h1, h2, -⟩ := hcells 2 [0] (plain_word sym_a) (by rfl)
  exact ⟨cells, hbody, v2, h1, h2 .REB_WORD 0 sym_a none 0 0 (plain_word sym_a) (by rfl)
    (by rfl) (by rfl) (by rfl) (by rfl)⟩

/-- C17: the copy that `Virtual_Bind_Deep_To_New_Context` makes of the body
does not copy the arrays of path cells, and the walk binds inside them.
Whatever the typeset constants are, `Clonify` with the types `TS_ARRAY` does
not copy the series of a PATH! cell (`Clonify_copies` is false for it, and
the cell comes back as it was), so the path cell of the copy refers to the
array that the path cell of the original body refers to; and with the body
`[a/b]` and the spec `a` the call returns without failure a body in which
the `a` inside that path array is bound to the new context with index 1. -/
theorem Virtual_Bind_Deep_To_New_Context_binds_inside_uncopied_path (ts : Typesets) :
    Clonify_copies ts TS_ARRAY (.array .REB_PATH) = false ∧
    Clonify ts TS_ARRAY 1 (.array .REB_PATH 0 [] [plain_word sym_a, plain_word sym_b] none)
      = .ok (.array .REB_PATH 0 [] [plain_word sym_a, plain_word sym_b] none) ∧
    (Virtual_Bind_Deep_To_New_Context ts 1 7 Reb_Binder.empty
        (.array .REB_BLOCK 0 []
          [.array .REB_PATH 0 [] [plain_word sym_a, plain_word sym_b] none] none)
        (plain_word sym_a)).error = none ∧
    (Virtual_Bind_Deep_To_New_Context ts 1 7 Reb_Binder.empty
        (.array .REB_BLOCK 0 []
          [.array .REB_PATH 0 [] [plain_word sym_a, plain_word sym_b] none] none)
        (plain_word sym_a)).body
      = .array .REB_BLOCK 0 []
          [.array .REB_PATH 0 []
            [.word .REB_WORD 0 sym_a (some (.varlist 7 false)) 1, plain_word sym_b] none]
          none :=
  ⟨by rfl, by rfl, by rfl, by rfl⟩

/-! ## The claims about single words and shallow copies -/

/-- C29: `Try_Bind_Word` returns the position of the word or 0.  For every
context and every word cell the routine returns the count `n` that
`Find_Canon_In_Context` gives for the canon of the word; `n` is 0 exactly
when no key that is not unbindable has that canon, and the word is then
left as it was; otherwise `n` is the position, from 1 to the length of the
context, of a key that is not unbindable and has that canon, and the word is
left with its kind, quote level and symbol, the context as binding and `n`
as index, whatever its binding was before. -/
theorem Try_Bind_Word_position (context : REBCTX) (k : WordKind) (q : Nat) (s : REBSTR)
    (b : Option REBNOD) (i : Int) :
    ∃ n word2, Try_Bind_Word context (.word k q s b i) = .ok (n, word2) ∧
      n = Find_Canon_In_Context context s.canon false ∧
      (n = 0 ↔ s.canon ∉ bindableCanons context.keys) ∧
      (n = 0 → word2 = .word k q s b i) ∧
      (n ≠ 0 → 1 ≤ n ∧ n ≤ CTX_LEN context ∧
        (∃ key, context.keys[n - 1]? = some key ∧ Is_Param_Unbindable key = false ∧
          VAL_KEY_CANON key = s.canon) ∧
        word2 = .word k q s (some (NOD context)) (n : Int)) := by
  have hfind : Find_Canon_In_Context context s.canon false
      = bindableIndex context.keys s.canon 1 := Find_Canon_In_Context_scan_eq _ _ _
  by_cases h0 : bindableIndex context.keys s.canon 1 = 0
  · refine ⟨0, .word k q s b i, ?_, ?_, ?_, fun _ => rfl, fun h => absurd rfl h⟩
    · simp [Try_Bind_Word, VAL_WORD_CANON, hfind, h0]
    · rw [hfind, h0]
    · simp only [true_iff]
      exact (bindableIndex_eq_zero_iff s.canon context.keys 1 (by omega)).mp h0
  · refine ⟨bindableIndex context.keys s.canon 1,
      .word k q s (some (NOD context)) (bindableIndex context.keys s.canon 1 : Nat), ?_,
      hfind.symm, ?_, fun h => absurd h h0, fun _ => ?_⟩
    · simp [Try_Bind_Word, VAL_WORD_CANON, hfind, h0, INIT_BINDING, INIT_WORD_INDEX]
    · constructor
      · intro h
        exact absurd h h0
      · intro h
        exact absurd ((bindableIndex_eq_zero_iff s.canon context.keys 1 (by omega)).mpr h) h0
    · rcases bindableIndex_range s.canon context.keys 1 with h | ⟨h1, h2⟩
      · exact absurd h h0
      · refine ⟨h1, by unfold CTX_LEN; omega, ?_, rfl⟩
        exact bindableIndex_get s.canon context.keys 1 (by omega) h0

/-- C30: `Copy_Array_At_Max_Shallow` clips to the array only while `index + max`
does not wrap around.  For 32-bit counts `index` and `max`: when
`index + max` is below `2 ^ 32` the routine returns the derelativized copies
of the cells from `index` on, at most `max` of them, so `min(max, len - index)`
cells when `index <= len` and none when `index > len`; when `index <= len` and
`index + max` reaches `2 ^ 32` the sum wraps to a value below `index`, `max` is
not clipped and the loop reads past the tail of the original. -/
theorem Copy_Array_At_Max_Shallow_clips_unless_wraparound (original : List Cell)
    (index : Nat) (specifier : Option REBNOD) (max : Nat) :
    (index + max < 2 ^ 32 →
      Copy_Array_At_Max_Shallow original index specifier max
        = some (((original.drop index).take max).map (fun v => Derelativize v specifier)) ∧
      (((original.drop index).take max).map (fun v => Derelativize v specifier)).length
        = if index ≤ original.length then min max (original.length - index) else 0) ∧
    (index ≤ original.length → original.length < 2 ^ 32 → max < 2 ^ 32 →
      2 ^ 32 ≤ index + max →
      Copy_Array_At_Max_Shallow original index specifier max = none) := by
  constructor
  · intro hsum
    constructor
    · unfold Copy_Array_At_Max_Shallow
      by_cases hi : index > original.length
      · rw [if_pos hi]
        have : original.drop index = [] := List.drop_eq_nil_of_le (by omega)
        simp [this]
      · rw [if_neg hi, Nat.mod_eq_of_lt hsum]
        by_cases hc : index + max > original.length
        · simp only [hc, if_true]
          rw [Copy_Array_At_Max_Shallow_loop_ok specifier _ _ (by simp)]
          congr 1
          rw [List.take_of_length_le (by simp), List.take_of_length_le (by simp; omega)]
        · simp only [hc, if_false]
          exact Copy_Array_At_Max_Shallow_loop_ok specifier _ _ (by simp; omega)
    · simp only [List.length_map, List.length_take, List.length_drop]
      split_ifs with hi
      · rfl
      · omega
  · intro hi hlen hmax hwrap
    unfold Copy_Array_At_Max_Shallow
    have hmod : (index + max) % 2 ^ 32 = index + max - 2 ^ 32 := by
      rw [Nat.mod_eq_sub_mod hwrap, Nat.mod_eq_of_lt (by omega)]
    rw [if_neg (by omega), hmod]
    have hc : ¬ index + max - 2 ^ 32 > original.length := by omega
    simp only [hc, if_false]
    exact Copy_Array_At_Max_Shallow_loop_past specifier _ _ (by simp; omega)

/-- The witness of C30: of the array `[a b]` the copy from index 1 of at most 1
cell holds `b`, and the copy from index 1 of at most `2 ^ 32 - 1` cells reads
past the tail. -/
theorem Copy_Array_At_Max_Shallow_clips_unless_wraparound_witness :
    Copy_Array_At_Max_Shallow [plain_word sym_a, plain_word sym_b] 1 none 1
      = some ([plain_word sym_b].map (fun v => Derelativize v none)) ∧
    Copy_Array_At_Max_Shallow [plain_word sym_a, plain_word sym_b] 1 none (2 ^ 32 - 1)
      = none :=
  ⟨((Copy_Array_At_Max_Shallow_clips_unless_wraparound [plain_word sym_a, plain_word sym_b] 1
      none 1).1 (by decide)).1,
    (Copy_Array_At_Max_Shallow_clips_unless_wraparound [plain_word sym_a, plain_word sym_b] 1
      none (2 ^ 32 - 1)).2 (by decide) (by decide) (by decide) (by decide)⟩

/-! ## The claims about the interning Binder -/

/-- C27: the interning Binder classifies every symbol in one lookup.  After
`Init_Interning_Binder` on a Binder that holds no entry, with the canons of
the keys of `ctx` pairwise distinct and those of the lib context pairwise
distinct, the routine has not failed and for every canon `s`: the lookup
gives `p > 0` exactly when `s` is the canon of the key at position `p` of
`ctx`; it gives `-q < 0` exactly when `ctx` is not the lib context, `s` is the
canon of no key of `ctx` and is the canon of the key at position `q` of the
lib context; it gives 0 exactly when `s` is the canon of no key of `ctx` and,
if `ctx` is not the lib context, of no key of the lib context; and when `ctx`
is the lib context no lookup is negative. -/
theorem Init_Interning_Binder_classifies (Lib_Context : REBCTX) (binder : Reb_Binder)
    (ctx : REBCTX)
    (hempty : ∀ canon, Get_Binder_Index_Else_0 binder canon = 0)
    (hctx : (ctx.keys.map VAL_KEY_CANON).Nodup)
    (hlib : (Lib_Context.keys.map VAL_KEY_CANON).Nodup) :
    (Init_Interning_Binder Lib_Context binder ctx).2 = none ∧
    ∀ s : Nat,
      (∀ p : Nat, 0 < p →
        (Get_Binder_Index_Else_0 (Init_Interning_Binder Lib_Context binder ctx).1 s = (p : Int) ↔
          ∃ key, ctx.keys[p - 1]? = some key ∧ VAL_KEY_CANON key = s)) ∧
      (∀ q : Nat, 0 < q →
        (Get_Binder_Index_Else_0 (Init_Interning_Binder Lib_Context binder ctx).1 s = -(q : Int) ↔
          NOD ctx ≠ NOD Lib_Context ∧ s ∉ ctx.keys.map VAL_KEY_CANON ∧
            ∃ key, Lib_Context.keys[q - 1]? = some key ∧ VAL_KEY_CANON key = s)) ∧
      (Get_Binder_Index_Else_0 (Init_Interning_Binder Lib_Context binder ctx).1 s = 0 ↔
        s ∉ ctx.keys.map VAL_KEY_CANON ∧
          (NOD ctx ≠ NOD Lib_Context → s ∉ Lib_Context.keys.map VAL_KEY_CANON)) ∧
      (NOD ctx = NOD Lib_Context →
        0 ≤ Get_Binder_Index_Else_0 (Init_Interning_Binder Lib_Context binder ctx).1 s) := by
  obtain ⟨herr, hidx⟩ := Init_Interning_Binder_spec Lib_Context binder ctx hempty hctx
  refine ⟨herr, fun s => ?_⟩
  simp only [Get_Binder_Index_Else_0, hidx s]
  by_cases hm : s ∈ ctx.keys.map VAL_KEY_CANON
  · simp only [hm, if_true, not_true_eq_false, false_and, and_false, iff_false]
    refine ⟨fun p hp => ?_, fun q hq => by omega, by omega, fun _ => by omega⟩
    rw [← canon_position_iff ctx.keys s p hp hctx]
    constructor
    · intro h
      exact ⟨hm, by omega⟩
    · rintro ⟨-, h⟩
      omega
  · simp only [hm, if_false, not_false_eq_true, true_and]
    by_cases hl : NOD ctx ≠ NOD Lib_Context ∧ s ∈ Lib_Context.keys.map VAL_KEY_CANON
    · rw [if_pos hl]
      refine ⟨fun p hp => ?_, fun q hq => ?_, ?_, fun h => absurd h hl.1⟩
      · constructor
        · intro h
          omega
        · intro h
          exact absurd ((canon_position_iff ctx.keys s p hp hctx).mpr h).1 hm
      · rw [← canon_position_iff Lib_Context.keys s q hq hlib]
        constructor
        · intro h
          exact ⟨hl.1, hl.2, by omega⟩
        · rintro ⟨-, -, h⟩
          omega
      · constructor
        · intro h
          omega
        · intro h
          exact absurd hl.2 (h hl.1)
    · rw [if_neg hl]
      refine ⟨fun p hp => ?_, fun q hq => ?_, ?_, fun _ => le_refl _⟩
      · constructor
        · intro h
          omega
        · intro h
          exact absurd ((canon_position_iff ctx.keys s p hp hctx).mpr h).1 hm
      · constructor
        · intro h
          omega
        · rintro ⟨hne, key, hk⟩
          exact absurd ⟨hne, ((canon_position_iff Lib_Context.keys s q hq hlib).mpr
            ⟨key, hk⟩).1⟩ hl
      · simp only [true_iff]
        intro hne hs
        exact hl ⟨hne, hs⟩

/-- The witness of C27: with the lib context holding the keys `a` and `b` and
`ctx` the key `b`, the lookup of `b` gives 1 and the lookup of `a` gives -1. -/
theorem Init_Interning_Binder_classifies_witness :
    Get_Binder_Index_Else_0 (Init_Interning_Binder (context_of 1 [sym_a, sym_b])
        Reb_Binder.empty (context_of 2 [sym_b])).1 sym_b.canon = 1 ∧
    Get_Binder_Index_Else_0 (Init_Interning_Binder (context_of 1 [sym_a, sym_b])
        Reb_Binder.empty (context_of 2 [sym_b])).1 sym_a.canon = -1 :=
  ⟨(((Init_Interning_Binder_classifies (context_of 1 [sym_a, sym_b]) Reb_Binder.empty
      (context_of 2 [sym_b]) (fun _ => rfl) (by decide) (by decide)).2 sym_b.canon).1 1
      (by decide)).mpr ⟨⟨sym_b, false, false⟩, by rfl, by rfl⟩,
    (((Init_Interning_Binder_classifies (context_of 1 [sym_a, sym_b]) Reb_Binder.empty
      (context_of 2 [sym_b]) (fun _ => rfl) (by decide) (by decide)).2 sym_a.canon).2.1 1
      (by decide)).mpr ⟨by decide, by decide, ⟨sym_a, false, false⟩, by rfl, by rfl⟩⟩

/-- C28: the shutdown of the interning Binder reverses the init.  For a Binder
that holds no entry and a context `ctx` whose keys have pairwise distinct
canons, `Init_Interning_Binder` returns without failure, and
`Shutdown_Interning_Binder` run on the Binder it leaves, with the same `ctx`,
leaves a Binder with no entry, every assertion of its two loops holding (the
value removed for a key of `ctx` is its position; the value removed for a key
of the lib context is 0 or minus its position). -/
theorem Shutdown_Interning_Binder_reverses_Init (Lib_Context : REBCTX) (binder : Reb_Binder)
    (ctx : REBCTX)
    (hempty : ∀ canon, Get_Binder_Index_Else_0 binder canon = 0)
    (hctx : (ctx.keys.map VAL_KEY_CANON).Nodup) :
    (Init_Interning_Binder Lib_Context binder ctx).2 = none ∧
    (Shutdown_Interning_Binder Lib_Context (Init_Interning_Binder Lib_Context binder ctx).1
        ctx).2 = true ∧
    ∀ canon, Get_Binder_Index_Else_0 (Shutdown_Interning_Binder Lib_Context
        (Init_Interning_Binder Lib_Context binder ctx).1 ctx).1 canon = 0 := by
  obtain ⟨h1, h2⟩ := Shutdown_after_Init Lib_Context binder ctx hempty hctx
  exact ⟨(Init_Interning_Binder_spec Lib_Context binder ctx hempty hctx).1, h1, h2⟩

/-- The witness of C28: with the lib context holding the keys `a` and `b` and
`ctx` the key `b`, every assertion of the shutdown holds and the lookup of `a`
is 0 afterwards. -/
theorem Shutdown_Interning_Binder_reverses_Init_witness :
    (Shutdown_Interning_Binder (context_of 1 [sym_a, sym_b])
      (Init_Interning_Binder (context_of 1 [sym_a, sym_b]) Reb_Binder.empty
        (context_of 2 [sym_b])).1 (context_of 2 [sym_b])).2 = true ∧
    Get_Binder_Index_Else_0 (Shutdown_Interning_Binder (context_of 1 [sym_a, sym_b])
      (Init_Interning_Binder (context_of 1 [sym_a, sym_b]) Reb_Binder.empty
        (context_of 2 [sym_b])).1 (context_of 2 [sym_b])).1 sym_a.canon = 0 :=
  ⟨(Shutdown_Interning_Binder_reverses_Init (context_of 1 [sym_a, sym_b]) Reb_Binder.empty
      (context_of 2 [sym_b]) (fun _ => rfl) (by decide)).2.1,
    (Shutdown_Interning_Binder_reverses_Init (context_of 1 [sym_a, sym_b]) Reb_Binder.empty
      (context_of 2 [sym_b]) (fun _ => rfl) (by decide)).2.2 sym_a.canon⟩

/-! ## The claims about the context and the Binder of the virtual bind -/

/-- C21: a quoted loop variable keeps its binding in a hidden slot.  For a
body that is a block and a spec of at least one item whose items are all
plain or quoted words: with enough stack `Virtual_Bind_Deep_To_New_Context`
leaves a context in `context_out`; and whenever it leaves one, for the spec
item at position `i`: when the item is a quoted word, key `i` has
`REB_TS_UNBINDABLE` and `REB_TS_HIDDEN`, and slot `i` holds the spec word as
`Derelativize` writes it with the specifier of the spec (the word itself, with
its symbol, quote level and binding, when it is not relative), flagged
protected and marked as reused; when the item is a plain word, key `i` has
neither flag. -/
theorem Virtual_Bind_Deep_To_New_Context_reused_slot (ts : Typesets) (id : Nat)
    (binder : Reb_Binder) (past rest : List Cell) (b : Option REBNOD) (spec : Cell)
    (hne : Virtual_Bind_Deep_To_New_Context_items spec ≠ [])
    (hvalid : ∀ item ∈ Virtual_Bind_Deep_To_New_Context_items spec,
      IS_WORD item = true ∨ IS_QUOTED_WORD item = true) :
    (∃ n, ∀ stack, n ≤ stack →
      (Virtual_Bind_Deep_To_New_Context ts stack id binder (.array .REB_BLOCK 0 past rest b)
        spec).context.isSome = true) ∧
    (∀ (stack : Nat) (c : REBCTX),
      (Virtual_Bind_Deep_To_New_Context ts stack id binder (.array .REB_BLOCK 0 past rest b)
        spec).context = some c →
      ∀ (i : Nat) (item : Cell), (Virtual_Bind_Deep_To_New_Context_items spec)[i]? = some item →
        ∃ key var, c.keys[i]? = some key ∧ c.vars[i]? = some var ∧
          (IS_QUOTED_WORD item = true →
            key.unbindable = true ∧ key.hidden = true ∧
            var.cell = Derelativize item (if IS_BLOCK spec then VAL_SPECIFIER spec else none) ∧
            (IS_RELATIVE item = false → var.cell = item) ∧
            var.isProtected = true ∧ var.marked = true) ∧
          (IS_WORD item = true → key.unbindable = false ∧ key.hidden = false)) := by
  refine ⟨Virtual_Bind_context_some ts id binder past rest b spec hne hvalid, ?_⟩
  intro stack c hctx i item hitem
  obtain ⟨hk, hv, -⟩ := Virtual_Bind_context_spec ts stack id binder past rest b spec c hvalid
    hctx
  obtain ⟨-, -, hat⟩ := spec_slots_at _ _ c.keys c.vars hk hv
  obtain ⟨key, var, hk1, hv1, -, hu, hh, hvar⟩ := hat i item hitem
  refine ⟨key, var, hk1, hv1, ?_, ?_⟩
  · intro hq
    have hw : IS_WORD item = false := by
      obtain ⟨s, bd, ix, rfl | rfl⟩ := spec_item_shape item (Or.inr hq)
      · simp [IS_QUOTED_WORD] at hq
      · rfl
    rw [hu, hh, hvar, hw]
    refine ⟨rfl, rfl, by simp [specVar, hw], ?_, by simp [specVar, hw], by simp [specVar, hw]⟩
    intro hrel
    simp [specVar, hw, Derelativize, hrel]
  · intro hw
    rw [hu, hh, hw]
    exact ⟨rfl, rfl⟩

/-- The witness of C21: with the body `[a]` and the spec `[a 'b]`, where the
quoted `b` is bound to the context 5 at index 2, slot 2 of the new context
holds that word with that binding. -/
theorem Virtual_Bind_Deep_To_New_Context_reused_slot_witness :
    ∃ c key var, (Virtual_Bind_Deep_To_New_Context sample_typesets 3 7 Reb_Binder.empty
        (.array .REB_BLOCK 0 [] [plain_word sym_a] none)
        (.array .REB_BLOCK 0 [] [plain_word sym_a,
          .word .REB_WORD 1 sym_b (some (.varlist 5 false)) 2] none)).context = some c ∧
      c.keys[1]? = some key ∧ c.vars[1]? = some var ∧ key.hidden = true ∧
      var.cell = .word .REB_WORD 1 sym_b (some (.varlist 5 false)) 2 := by
  obtain ⟨key, var, h1, h2, h3, -⟩ := (Virtual_Bind_Deep_To_New_Context_reused_slot
    sample_typesets 7 Reb_Binder.empty [] [plain_word sym_a] none
    (.array .REB_BLOCK 0 [] [plain_word sym_a,
      .word .REB_WORD 1 sym_b (some (.varlist 5 false)) 2] none)
    (by simp [Virtual_Bind_Deep_To_New_Context_items, IS_BLOCK, VAL_ARRAY_AT])
    (by
      intro item hitem
      simp only [Virtual_Bind_Deep_To_New_Context_items, IS_BLOCK, VAL_ARRAY_AT,
        beq_self_eq_true, if_true, List.mem_cons, List.mem_singleton,
        List.not_mem_nil, or_false] at hitem
      rcases hitem with rfl | rfl
      · exact Or.inl rfl
      · exact Or.inr rfl)).2 3
    ⟨7, false, [⟨sym_a, false, false⟩, ⟨sym_b, true, true⟩],
      [⟨.other REB_NULLED 0, false, false⟩,
        ⟨.word .REB_WORD 1 sym_b (some (.varlist 5 false)) 2, true, true⟩], true⟩
    (by rfl) 1 (.word .REB_WORD 1 sym_b (some (.varlist 5 false)) 2) (by rfl)
  obtain ⟨-, hh, -, hcell, -⟩ := h3 (by rfl)
  exact ⟨_, key, var, by rfl, h1, h2, hh, hcell (by rfl)⟩

/-- C22: the scratch Binder is empty on every exit of the virtual bind.  For a
body that is a block, a spec whose items are all plain or quoted words, at
least one of them plain, and a Binder that holds no entry on entry: whatever
the stack, the Binder that `Virtual_Bind_Deep_To_New_Context` leaves holds no
entry; and whenever the copy of the body returns, the call ends either
without failure or with `DuplicateLoopVariable`, the Binder that the loop
over the spec items leaves holds an entry exactly for the canons that the
spec items name, and the Binder left is what the removal loop makes of it. -/
theorem Virtual_Bind_Deep_To_New_Context_binder_empty_on_exit (ts : Typesets) (id : Nat)
    (binder : Reb_Binder) (past rest : List Cell) (b : Option REBNOD) (spec : Cell)
    (hempty : ∀ canon, Get_Binder_Index_Else_0 binder canon = 0)
    (hvalid : ∀ item ∈ Virtual_Bind_Deep_To_New_Context_items spec,
      IS_WORD item = true ∨ IS_QUOTED_WORD item = true)
    (hplain : (Virtual_Bind_Deep_To_New_Context_items spec).any IS_WORD = true) :
    (∀ (stack : Nat) (canon : Nat),
      Get_Binder_Index_Else_0 (Virtual_Bind_Deep_To_New_Context ts stack id binder
        (.array .REB_BLOCK 0 past rest b) spec).binder canon = 0) ∧
    (∀ (stack : Nat) (copy : List Cell),
      Copy_Array_Core_Managed ts stack (past ++ rest) past.length b (past ++ rest).length
        TS_ARRAY = .ok copy →
      ((Virtual_Bind_Deep_To_New_Context ts stack id binder (.array .REB_BLOCK 0 past rest b)
          spec).error = none ∨
        ∃ sym, (Virtual_Bind_Deep_To_New_Context ts stack id binder
          (.array .REB_BLOCK 0 past rest b) spec).error = some (.DuplicateLoopVariable sym)) ∧
      (∀ canon, Get_Binder_Index_Else_0
          (Virtual_Bind_Deep_To_New_Context_slots true
            (if IS_BLOCK spec then VAL_SPECIFIER spec else none) binder none
            (Virtual_Bind_Deep_To_New_Context_items spec) 1).binder canon ≠ 0 ↔
        ∃ e ∈ Virtual_Bind_Deep_To_New_Context_items spec, VAL_WORD_CANON e = some canon) ∧
      (Virtual_Bind_Deep_To_New_Context ts stack id binder (.array .REB_BLOCK 0 past rest b)
          spec).binder
        = Virtual_Bind_Deep_To_New_Context_reset
          (Virtual_Bind_Deep_To_New_Context_slots true
            (if IS_BLOCK spec then VAL_SPECIFIER spec else none) binder none
            (Virtual_Bind_Deep_To_New_Context_items spec) 1).binder
          (Virtual_Bind_Deep_To_New_Context_slots true
            (if IS_BLOCK spec then VAL_SPECIFIER spec else none) binder none
            (Virtual_Bind_Deep_To_New_Context_items spec) 1).keys) := by
  have hne : Virtual_Bind_Deep_To_New_Context_items spec ≠ [] := by
    intro h
    rw [h] at hplain
    simp at hplain
  constructor
  · intro stack canon
    exact Virtual_Bind_binder_at_exit ts stack id binder past rest b spec hempty hvalid canon
  · intro stack copy hcopy
    refine ⟨?_, ?_, ?_⟩
    · rw [Virtual_Bind_error_of_copy ts stack id binder past rest b spec copy hempty hne hvalid
        hplain hcopy]
      cases firstConflict [] (Virtual_Bind_Deep_To_New_Context_items spec) with
      | none => exact Or.inl rfl
      | some d => exact Or.inr ⟨d, rfl⟩
    · intro canon
      rw [Get_Binder_Index_Else_0, Virtual_Bind_slots_entries _ _ binder none 1 (by omega) hvalid]
      have := hempty canon
      rw [Get_Binder_Index_Else_0] at this
      simp [this]
    · rw [Virtual_Bind_unfold_rebinding ts stack id binder past rest b spec copy hne hvalid
        hplain hcopy]

/-- The witness of C22: with the body `[a]` and the spec `[a 'b a]`, which
fails with `DuplicateLoopVariable`, the Binder left holds no entry for `a`
nor for `b`. -/
theorem Virtual_Bind_Deep_To_New_Context_binder_empty_on_exit_witness :
    (Virtual_Bind_Deep_To_New_Context sample_typesets 3 7 Reb_Binder.empty
        (.array .REB_BLOCK 0 [] [plain_word sym_a] none)
        (.array .REB_BLOCK 0 [] [plain_word sym_a, quoted_word sym_b, plain_word sym_a]
          none)).error = some (.DuplicateLoopVariable sym_a) ∧
    Get_Binder_Index_Else_0 (Virtual_Bind_Deep_To_New_Context sample_typesets 3 7
        Reb_Binder.empty (.array .REB_BLOCK 0 [] [plain_word sym_a] none)
        (.array .REB_BLOCK 0 [] [plain_word sym_a, quoted_word sym_b, plain_word sym_a]
          none)).binder sym_b.canon = 0 :=
  ⟨by rfl, (Virtual_Bind_Deep_To_New_Context_binder_empty_on_exit sample_typesets 7
    Reb_Binder.empty [] [plain_word sym_a] none
    (.array .REB_BLOCK 0 [] [plain_word sym_a, quoted_word sym_b, plain_word sym_a] none)
    (fun _ => rfl)
    (by
      intro item hitem
      simp only [Virtual_Bind_Deep_To_New_Context_items, IS_BLOCK, VAL_ARRAY_AT,
        beq_self_eq_true, if_true, List.mem_cons, List.mem_singleton,
        List.not_mem_nil, or_false] at hitem
      rcases hitem with rfl | rfl | rfl
      · exact Or.inl rfl
      · exact Or.inr rfl
      · exact Or.inl rfl)
    (by rfl)).1 3 sym_b.canon⟩

/-- C23: a duplicate failure still leaves a well-formed context.  For a body
that is a block and a spec whose items are all plain or quoted words: when
`Virtual_Bind_Deep_To_New_Context` fails with `DuplicateLoopVariable`,
`context_out` holds a context with as many keys and as many slots as the
spec has items, key `i` and slot `i` being those of the spec item at position
`i` (for a plain word the key with its spelling and no flag and the nulled
slot; for a quoted word the key with both flags and the spec word, protected
and marked), and `body_in_out` is the block at the head of the copy of the
body as `Copy_Array_Core_Managed` returned it: no walk has bound it. -/
theorem Virtual_Bind_Deep_To_New_Context_duplicate_leaves_context (ts : Typesets)
    (stack id : Nat) (binder : Reb_Binder) (past rest : List Cell) (b : Option REBNOD)
    (spec : Cell) (sym : REBSTR)
    (hvalid : ∀ item ∈ Virtual_Bind_Deep_To_New_Context_items spec,
      IS_WORD item = true ∨ IS_QUOTED_WORD item = true)
    (herr : (Virtual_Bind_Deep_To_New_Context ts stack id binder
      (.array .REB_BLOCK 0 past rest b) spec).error = some (.DuplicateLoopVariable sym)) :
    ∃ c copy, (Virtual_Bind_Deep_To_New_Context ts stack id binder
        (.array .REB_BLOCK 0 past rest b) spec).context = some c ∧
      Copy_Array_Core_Managed ts stack (past ++ rest) past.length b (past ++ rest).length
        TS_ARRAY = .ok copy ∧
      (Virtual_Bind_Deep_To_New_Context ts stack id binder
        (.array .REB_BLOCK 0 past rest b) spec).body = .array .REB_BLOCK 0 [] copy UNBOUND ∧
      c.keys.length = (Virtual_Bind_Deep_To_New_Context_items spec).length ∧
      c.vars.length = (Virtual_Bind_Deep_To_New_Context_items spec).length ∧
      ∀ (i : Nat) (item : Cell), (Virtual_Bind_Deep_To_New_Context_items spec)[i]? = some item →
        ∃ key var, c.keys[i]? = some key ∧ c.vars[i]? = some var ∧
          VAL_WORD_SPELLING item = some key.spelling ∧
          (IS_WORD item = true → key.unbindable = false ∧ key.hidden = false ∧
            var = ⟨.other REB_NULLED 0, false, false⟩) ∧
          (IS_QUOTED_WORD item = true → key.unbindable = true ∧ key.hidden = true ∧
            var = ⟨Derelativize item (if IS_BLOCK spec then VAL_SPECIFIER spec else none),
              true, true⟩) := by
  obtain ⟨copy, hcopy, hbody, hsome⟩ := Virtual_Bind_dup_unfold ts stack id binder past rest b
    spec sym hvalid herr
  obtain ⟨c, hc⟩ := Option.isSome_iff_exists.mp hsome
  obtain ⟨hk, hv, -⟩ := Virtual_Bind_context_spec ts stack id binder past rest b spec c hvalid hc
  obtain ⟨hl1, hl2, hat⟩ := spec_slots_at _ _ c.keys c.vars hk hv
  refine ⟨c, copy, hc, hcopy, hbody, hl1, hl2, fun i item hitem => ?_⟩
  obtain ⟨key, var, hk1, hv1, hs, hu, hh, hvar⟩ := hat i item hitem
  refine ⟨key, var, hk1, hv1, hs, ?_, ?_⟩
  · intro hw
    rw [hu, hh, hvar, hw]
    exact ⟨rfl, rfl, by simp [specVar, hw]⟩
  · intro hq
    have hw : IS_WORD item = false := by
      obtain ⟨s, bd, ix, rfl | rfl⟩ := spec_item_shape item (Or.inr hq)
      · simp [IS_QUOTED_WORD] at hq
      · rfl
    rw [hu, hh, hvar, hw]
    exact ⟨rfl, rfl, by simp [specVar, hw]⟩

/-- The witness of C23: with the body `[a]` and the spec `[a a]` the call
fails with `DuplicateLoopVariable`, the context has two keys, and the body
left is the copy with its `a` still unbound. -/
theorem Virtual_Bind_Deep_To_New_Context_duplicate_leaves_context_witness :
    ∃ c copy, (Virtual_Bind_Deep_To_New_Context sample_typesets 3 7 Reb_Binder.empty
        (.array .REB_BLOCK 0 [] [plain_word sym_a] none)
        (.array .REB_BLOCK 0 [] [plain_word sym_a, plain_word sym_a] none)).context = some c ∧
      (Virtual_Bind_Deep_To_New_Context sample_typesets 3 7 Reb_Binder.empty
        (.array .REB_BLOCK 0 [] [plain_word sym_a] none)
        (.array .REB_BLOCK 0 [] [plain_word sym_a, plain_word sym_a] none)).body
        = .array .REB_BLOCK 0 [] copy UNBOUND ∧
      c.keys.length = 2 ∧ cellAt copy 0 [] = some (plain_word sym_a) := by
  obtain ⟨c, copy, h1, h2, h3, h4, -⟩ :=
    Virtual_Bind_Deep_To_New_Context_duplicate_leaves_context sample_typesets 3 7
      Reb_Binder.empty [] [plain_word sym_a] none
      (.array .REB_BLOCK 0 [] [plain_word sym_a, plain_word sym_a] none) sym_a
      (by
        intro item hitem
        simp only [Virtual_Bind_Deep_To_New_Context_items, IS_BLOCK, VAL_ARRAY_AT,
          beq_self_eq_true, if_true, List.mem_cons, List.mem_singleton,
          List.not_mem_nil, or_false] at hitem
        rcases hitem with rfl | rfl <;> exact Or.inl rfl)
      (by rfl)
  have hcopy : Copy_Array_Core_Managed sample_typesets 3 ([] ++ [plain_word sym_a])
      ([] : List Cell).length none ([] ++ [plain_word sym_a]).length TS_ARRAY
      = .ok [plain_word sym_a] := by rfl
  rw [hcopy] at h2
  simp only [Except.ok.injEq] at h2
  subst h2
  exact ⟨c, _, h1, h3, h4, by rfl⟩

/-! ## The claims about deep copies -/

/-- C25: a copy holds no relative binding.  For every array, every range
`index <= tail <= len` of it and every specifier (a varlist or none, never a
paramlist): with enough stack `Copy_Array_Core_Managed` returns; and
whenever it returns an array, that array has `tail - index` cells, none of
its cells that lies in an array the copy made, at any depth, is relative
(each is the `Derelativize` of the cell of the original), and every array
cell on which `Clonify` ran and whose series it copied has no binding. -/
theorem Copy_Array_Core_Managed_no_relative (ts : Typesets) (types : REBU64)
    (original : List Cell) (index tail : Nat) (specifier : Option REBNOD)
    (hidx : index ≤ tail) (htail : tail ≤ original.length)
    (hsp : ∀ p, specifier ≠ some (.paramlist p)) :
    (∃ n, ∀ stack, n ≤ stack →
      ∃ copy, Copy_Array_Core_Managed ts stack original index specifier tail types
        = .ok copy) ∧
    (∀ (stack : Nat) (copy : List Cell),
      Copy_Array_Core_Managed ts stack original index specifier tail types = .ok copy →
      copy.length = tail - index ∧
      (∀ (i : Nat) (path : List Nat) (w : Cell), i < tail - index →
        clonedUnder ts types (original[index + i]?) path = true →
        cellAt copy i path = some w → IS_RELATIVE w = false) ∧
      (∀ (i : Nat) (path : List Nat) (k : ArrayKind) (q : Nat) (past rest : List Cell)
        (b : Option REBNOD), i < tail - index →
        clonifiedUnder ts types (original[index + i]?) path = true →
        cellAt original (index + i) path = some (.array k q past rest b) →
        Clonify_copies ts types (.array k) = true →
        ∃ past2 rest2, cellAt copy i path = some (.array k q past2 rest2 UNBOUND) ∧
          past2.length = past.length ∧ rest2.length = rest.length)) := by
  constructor
  · obtain ⟨n, hn⟩ := Copy_Array_Core_Managed_total ts types original index tail htail
    exact ⟨n, fun stack hstack => hn stack hstack specifier⟩
  · intro stack copy hcopy
    obtain ⟨hlen, hat⟩ := Copy_Array_Core_Managed_at ts types stack original index tail
      specifier copy hidx htail hcopy
    refine ⟨hlen, ?_, ?_⟩
    · intro i path w hi hcl hw
      unfold cellAt at hw
      rw [hat i hi] at hw
      cases ho : original[index + i]? with
      | none => rw [ho] at hw; simp [cellUnder_none] at hw
      | some v =>
        rw [ho] at hw hcl
        exact Clonify_value_under_cloned ts types path v specifier w hsp hcl hw
    · intro i path k q past rest b hi hcl hv hcopies
      unfold cellAt at hv ⊢
      rw [hat i hi]
      cases ho : original[index + i]? with
      | none => rw [ho] at hv; simp [cellUnder_none] at hv
      | some v =>
        rw [ho] at hv hcl
        obtain ⟨sp, -, hres⟩ := Clonify_value_under_clonified ts types path v specifier _ hsp
          hcl hv
        rw [Option.map_some', hres, Clonify_value, if_pos hcopies]
        split_ifs
        · exact ⟨_, _, rfl, by simp [Clonify_value_each_eq_map],
            by simp [Clonify_value_each_eq_map]⟩
        · exact ⟨_, _, rfl, by simp, by simp⟩

/-- The witness of C25: the copy of `[[a]]`, whose inner block and word are
relative to the paramlist 4, with the specifier 6: the inner `a` of the copy
is not relative. -/
theorem Copy_Array_Core_Managed_no_relative_witness :
    Copy_Array_Core_Managed sample_typesets 3
        [.array .REB_BLOCK 0 [] [.word .REB_WORD 0 sym_a (some (.paramlist 4)) 1]
          (some (.paramlist 4))] 0 (some (.varlist 6 true)) 1 TS_ARRAY
      = .ok [.array .REB_BLOCK 0 [] [.word .REB_WORD 0 sym_a (some (.varlist 6 true)) 1]
          UNBOUND] ∧
    IS_RELATIVE (.word .REB_WORD 0 sym_a (some (.varlist 6 true)) 1) = false :=
  ⟨by rfl, ((Copy_Array_Core_Managed_no_relative sample_typesets TS_ARRAY
    [.array .REB_BLOCK 0 [] [.word .REB_WORD 0 sym_a (some (.paramlist 4)) 1]
      (some (.paramlist 4))] 0 1 (some (.varlist 6 true)) (by decide) (by decide)
    (by intro p h; cases h)).2 3 _ (by rfl)).2.1 0 [0] _ (by decide) (by rfl) (by rfl)⟩

/-- C26: a copy keeps specific bindings verbatim.  For every array and every
range `index <= tail <= len` of it: with enough stack `Copy_Array_Core_Managed`
returns; and whenever it returns an array, a word that is bound to the
varlist of a context, at any depth below the cell at position `index + i` of
the original, is at the same depth below the cell at position `i` of the
copy the same word: same kind, quote level and symbol, bound to the same
varlist with the same index. -/
theorem Copy_Array_Core_Managed_keeps_specific (ts : Typesets) (types : REBU64)
    (original : List Cell) (index tail : Nat) (specifier : Option REBNOD)
    (hidx : index ≤ tail) (htail : tail ≤ original.length) :
    (∃ n, ∀ stack, n ≤ stack →
      ∃ copy, Copy_Array_Core_Managed ts stack original index specifier tail types
        = .ok copy) ∧
    (∀ (stack : Nat) (copy : List Cell),
      Copy_Array_Core_Managed ts stack original index specifier tail types = .ok copy →
      ∀ (i : Nat) (path : List Nat) (k : WordKind) (q : Nat) (s : REBSTR) (id : Nat)
        (st : Bool) (ix : Int), i < tail - index →
        cellAt original (index + i) path = some (.word k q s (some (.varlist id st)) ix) →
        cellAt copy i path = some (.word k q s (some (.varlist id st)) ix)) := by
  constructor
  · obtain ⟨n, hn⟩ := Copy_Array_Core_Managed_total ts types original index tail htail
    exact ⟨n, fun stack hstack => hn stack hstack specifier⟩
  · intro stack copy hcopy i path k q s id st ix hi hv
    obtain ⟨-, hat⟩ := Copy_Array_Core_Managed_at ts types stack original index tail
      specifier copy hidx htail hcopy
    unfold cellAt at hv ⊢
    rw [hat i hi]
    cases ho : original[index + i]? with
    | none => rw [ho] at hv; simp [cellUnder_none] at hv
    | some v =>
      rw [ho] at hv
      obtain ⟨w2, hw2, hor⟩ := Clonify_value_under_any ts types path v specifier _ hv
      rw [Option.map_some', hw2]
      have hnr : IS_RELATIVE (.word k q s (some (.varlist id st)) ix) = false := rfl
      rcases hor with h | ⟨sp, h | h⟩
      · rw [h]
      · rw [h, Derelativize_of_not_relative _ _ hnr]
      · rw [h, Clonify_value, Derelativize_of_not_relative _ _ hnr]

/-- The witness of C26: in the copy of `[[a]]`, whose `a` is bound to the
context 5 at index 2, the inner `a` is bound to the context 5 at index 2. -/
theorem Copy_Array_Core_Managed_keeps_specific_witness :
    ∃ copy, Copy_Array_Core_Managed sample_typesets 3
        [.array .REB_BLOCK 0 [] [.word .REB_WORD 0 sym_a (some (.varlist 5 false)) 2] none]
        0 none 1 TS_ARRAY = .ok copy ∧
      cellAt copy 0 [0] = some (.word .REB_WORD 0 sym_a (some (.varlist 5 false)) 2) :=
  ⟨[.array .REB_BLOCK 0 [] [.word .REB_WORD 0 sym_a (some (.varlist 5 false)) 2] none],
    by rfl,
    (Copy_Array_Core_Managed_keeps_specific sample_typesets TS_ARRAY
      [.array .REB_BLOCK 0 [] [.word .REB_WORD 0 sym_a (some (.varlist 5 false)) 2] none]
      0 1 none (by decide) (by decide)).2 3
      [.array .REB_BLOCK 0 [] [.word .REB_WORD 0 sym_a (some (.varlist 5 false)) 2] none]
      (by rfl) 0 [0] .REB_WORD 0 sym_a 5 false 2 (by decide) (by rfl)⟩

/-! ## The claim about shared arrays -/

/-- C24: a deep copy shares no nested array with its source.  Over the heap of
series, let the series `original` and every array nested in it be in the
heap, the nesting at most `d` levels deep, and let the range be within the
array.  With room for `d` nested calls, `Copy_Array_Core_Managed` returns a
series that the heap did not have and leaves every series of the heap as it
was; the new series has one cell for each cell of the range, and each
answers to the `Derelativize` of the cell of the original as `ClonedTo`
says, to every depth: where the kind of an array cell is cloned, the cell
of the copy refers to a series made by the copy, other than the series of
the original, of the same length and of the derelativized cells, so that
writing a cell of either series leaves the other as it is. -/
theorem Copy_Array_Core_Managed_heap_shares_no_nested_array (ts : Typesets) (types : REBU64)
    (heap : Heap) (original index tail d : Nat) (specifier : Option REBNOD)
    (hnests : heap.nests d original = true) (hindex : index ≤ tail)
    (htail : tail ≤ (heap.cells original).length) (stack : Nat) (hstack : d ≤ stack) :
    ∃ after, Copy_Array_Core_Managed_heap ts stack heap original index specifier tail types
        = .ok (after, heap.length) ∧
      heap.length < after.length ∧
      (∀ id, id < heap.length → after.cells id = heap.cells id) ∧
      (after.cells heap.length).length = tail - index ∧
      ∀ (i : Nat) (v : HeapCell), i < tail - index →
        (heap.cells original)[index + i]? = some v →
        ∃ v2, (after.cells heap.length)[i]? = some v2 ∧
          ∀ depth, ClonedTo ts types heap after depth (v.Derelativize specifier) v2 :=
  Copy_Array_Core_Managed_heap_spec ts types heap original index tail d specifier hnests hindex
    htail stack hstack

/-- C24 at the block `[a [b (a)]]` of `sample_heap`, copied whole with room for
five nested calls: the cell of the copy that answers to the nested block
refers to a series made by the copy. -/
theorem Copy_Array_Core_Managed_heap_shares_no_nested_array_witness :
    sample_heap.nests 3 0 = true ∧ 0 ≤ 2 ∧ 2 ≤ (sample_heap.cells 0).length ∧ 3 ≤ 5 ∧
    ∃ after, Copy_Array_Core_Managed_heap sample_typesets 5 sample_heap 0 0
        (some (.varlist 9 false)) 2 TS_ARRAY = .ok (after, sample_heap.length) ∧
      sample_heap.length < after.length ∧
      (∀ id, id < sample_heap.length → after.cells id = sample_heap.cells id) ∧
      (after.cells sample_heap.length).length = 2 - 0 ∧
      ∀ (i : Nat) (v : HeapCell), i < 2 - 0 →
        (sample_heap.cells 0)[0 + i]? = some v →
        ∃ v2, (after.cells sample_heap.length)[i]? = some v2 ∧
          ∀ depth, ClonedTo sample_typesets TS_ARRAY sample_heap after depth
            (v.Derelativize (some (.varlist 9 false))) v2 :=
  ⟨by decide, by decide, by decide, by decide,
    Copy_Array_Core_Managed_heap_shares_no_nested_array sample_typesets TS_ARRAY sample_heap
      0 0 2 3 (some (.varlist 9 false)) (by decide) (by decide) (by decide) 5 (by decide)⟩

/-! ## The claims about the empty spec and the Rebind of missing symbols and functions -/

/-- C35: an empty block spec is rejected.  For every body that is a block and
every spec that is a block with no cell from its index on (`num_vars` is 0),
whatever the cells before the index, the stack and the Binder,
`Virtual_Bind_Deep_To_New_Context` fails with the error of an invalid spec and
leaves `body_in_out` as it was passed, no context in `context_out` and the
Binder as it was: nothing has been copied, allocated or initialised. -/
theorem Virtual_Bind_Deep_To_New_Context_rejects_empty_block_spec (ts : Typesets)
    (stack id : Nat) (binder : Reb_Binder) (past rest : List Cell) (b : Option REBNOD)
    (spec_past : List Cell) (spec_binding : Option REBNOD) :
    Virtual_Bind_Deep_To_New_Context_items (.array .REB_BLOCK 0 spec_past [] spec_binding)
      = [] ∧
    Virtual_Bind_Deep_To_New_Context ts stack id binder (.array .REB_BLOCK 0 past rest b)
        (.array .REB_BLOCK 0 spec_past [] spec_binding)
      = ⟨.array .REB_BLOCK 0 past rest b, none, binder, some .InvalidLoopSpec⟩ :=
  ⟨rfl, Virtual_Bind_empty_spec ts stack id binder past rest b _ rfl⟩

/-- C37: Rebind with a Binder retargets even when the symbol is missing.  For a
word cell that the walk of `Rebind_Values_Deep` reaches, at any depth, and
that is bound to `src`: with a Binder supplied the cell ends bound to `dst`
with the Binder index of its canon as index, whatever that index is, so
with index 0 when the Binder has no entry for the canon and with the
negative index when it has one; the binding is then neither none nor,
unless `dst` is `src`, that of `src`. -/
theorem Rebind_Values_Deep_retargets_missing_symbol
    (Is_Overriding_Context : REBNOD → REBNOD → Bool) (src dst : REBCTX) (head : List Cell)
    (binder : Reb_Binder) (i : Nat) (path : List Nat) (k : WordKind) (s : REBSTR) (ix : Int)
    (hv : cellAt head i path = some (.word k 0 s (some (NOD src)) ix))
    (hreach : Walk_reaches true head i path = true) :
    cellAt (Rebind_Values_Deep Is_Overriding_Context src dst head (some binder)) i path
      = some (.word k 0 s (some (NOD dst)) (Get_Binder_Index_Else_0 binder s.canon)) ∧
    (Get_Binder_Index_Else_0 binder s.canon = 0 →
      cellAt (Rebind_Values_Deep Is_Overriding_Context src dst head (some binder)) i path
        = some (.word k 0 s (some (NOD dst)) 0)) ∧
    (∀ v2, cellAt (Rebind_Values_Deep Is_Overriding_Context src dst head (some binder)) i path
        = some v2 →
      VAL_BINDING v2 = some (NOD dst) ∧ VAL_BINDING v2 ≠ UNBOUND ∧
      (NOD dst ≠ NOD src → VAL_BINDING v2 ≠ some (NOD src))) := by
  have h : cellAt (Rebind_Values_Deep Is_Overriding_Context src dst head (some binder)) i path
      = some (.word k 0 s (some (NOD dst)) (Get_Binder_Index_Else_0 binder s.canon)) := by
    rw [Rebind_at, hv, hreach]
    simp [Rebind_Values_Deep_cell, ANY_WORD, VAL_BINDING, INIT_BINDING, INIT_WORD_INDEX]
  refine ⟨h, fun h0 => by rw [h, h0], ?_⟩
  intro v2 hv2
  rw [h] at hv2
  cases hv2
  refine ⟨rfl, by simp [VAL_BINDING, UNBOUND], fun hne heq => ?_⟩
  simp only [VAL_BINDING, Option.some.injEq] at heq
  exact hne heq

/-- The witness of C37: in `[a]` with `a` bound to the context 1 at index 4, a
Rebind from the context 1 to the context 2 with a Binder that holds no entry
leaves `a` bound to the context 2 with index 0. -/
theorem Rebind_Values_Deep_retargets_missing_symbol_witness :
    cellAt (Rebind_Values_Deep (fun _ _ => false) (empty_context 1) (empty_context 2)
        [.word .REB_WORD 0 sym_a (some (NOD (empty_context 1))) 4] (some Reb_Binder.empty))
        0 []
      = some (.word .REB_WORD 0 sym_a (some (NOD (empty_context 2))) 0) :=
  (Rebind_Values_Deep_retargets_missing_symbol (fun _ _ => false) (empty_context 1)
    (empty_context 2) [.word .REB_WORD 0 sym_a (some (NOD (empty_context 1))) 4]
    Reb_Binder.empty 0 [] .REB_WORD sym_a 4 (by rfl) (by rfl)).2.1 (by rfl)

/-- C38: the forwarding of a function in Rebind does not depend on the source
context.  For an ACTION! cell that the walk reaches, at any depth, bound to
a node `S` without `SERIES_FLAG_STACK`: whatever the source contexts `src1`,
`src2` and the Binders, `Rebind_Values_Deep` to `dst` leaves the cell bound to
`dst` when `Is_Overriding_Context` holds of `S` and `dst` and bound to `S` when it
does not; so the two calls leave the same cell, and a function bound to
another context than the source is forwarded when `dst` overrides it. -/
theorem Rebind_Values_Deep_forwarding_ignores_source
    (Is_Overriding_Context : REBNOD → REBNOD → Bool) (src1 src2 dst : REBCTX)
    (head : List Cell) (opt_binder1 opt_binder2 : Option Reb_Binder) (i : Nat)
    (path : List Nat) (S : REBNOD)
    (hv : cellAt head i path = some (.action 0 (some S)))
    (hreach : Walk_reaches true head i path = true)
    (hheap : S.isStack = false) :
    cellAt (Rebind_Values_Deep Is_Overriding_Context src1 dst head opt_binder1) i path
      = some (.action 0
          (some (if Is_Overriding_Context S (NOD dst) then NOD dst else S))) ∧
    cellAt (Rebind_Values_Deep Is_Overriding_Context src2 dst head opt_binder2) i path
      = cellAt (Rebind_Values_Deep Is_Overriding_Context src1 dst head opt_binder1) i path := by
  have h : ∀ (src : REBCTX) (ob : Option Reb_Binder),
      cellAt (Rebind_Values_Deep Is_Overriding_Context src dst head ob) i path
        = some (.action 0
            (some (if Is_Overriding_Context S (NOD dst) then NOD dst else S))) := by
    intro src ob
    rw [Rebind_at, hv, hreach]
    simp only [Option.map_some', if_true, Rebind_Values_Deep_cell, IS_ACTION, beq_self_eq_true,
      VAL_BINDING, hheap, Bool.false_eq_true, if_false]
    split_ifs <;> rfl
  exact ⟨h src1 opt_binder1, by rw [h src1, h src2]⟩

/-- The witness of C38: the function in `[f]` is bound to the heap context 7,
which the context 2 overrides; a Rebind from the context 1 and a Rebind from
the context 3 both leave it bound to the context 2. -/
theorem Rebind_Values_Deep_forwarding_ignores_source_witness :
    cellAt (Rebind_Values_Deep (fun _ _ => true) (empty_context 1) (empty_context 2)
        [.action 0 (some (.varlist 7 false))] none) 0 []
      = some (.action 0 (some (NOD (empty_context 2)))) ∧
    cellAt (Rebind_Values_Deep (fun _ _ => true) (empty_context 3) (empty_context 2)
        [.action 0 (some (.varlist 7 false))] none) 0 []
      = cellAt (Rebind_Values_Deep (fun _ _ => true) (empty_context 1) (empty_context 2)
        [.action 0 (some (.varlist 7 false))] none) 0 [] :=
  Rebind_Values_Deep_forwarding_ignores_source (fun _ _ => true) (empty_context 1)
    (empty_context 3) (empty_context 2) [.action 0 (some (.varlist 7 false))] none none 0 []
    (.varlist 7 false) (by rfl) (by rfl) (by rfl)

/-! ## The claims about the stack guard and the quote level of `Clonify` -/

/-- C31: the recursion of the deep copy is guarded.  `Clonify` checks the stack
before anything else: with no room left it fails with `StackOverflow` whatever
the cell, one with no series included.  A cell whose cloning nests
`Clonify_levels` calls fails with `StackOverflow`, and with no other failure,
when the stack has room for fewer, and returns when it has room for that
many; and so does `Copy_Array_Core_Managed` on a range `index <= tail <= len`,
for the deepest nesting among the cells of the range. -/
theorem Clonify_stack_guard (ts : Typesets) (types : REBU64) :
    (∀ v, Clonify ts types 0 v = .error .StackOverflow) ∧
    (∀ v stack, stack < Clonify_levels ts types v →
      Clonify ts types stack v = .error .StackOverflow) ∧
    (∀ v stack, Clonify_levels ts types v ≤ stack → ∃ r, Clonify ts types stack v = .ok r) ∧
    (∀ (original : List Cell) (index tail : Nat) (specifier : Option REBNOD) (stack : Nat),
      index ≤ tail → tail ≤ original.length →
      (stack < Clonify_levels_each ts types ((original.drop index).take (tail - index)) →
        Copy_Array_Core_Managed ts stack original index specifier tail types
          = .error .StackOverflow) ∧
      (Clonify_levels_each ts types ((original.drop index).take (tail - index)) ≤ stack →
        ∃ copy, Copy_Array_Core_Managed ts stack original index specifier tail types
          = .ok copy)) := by
  refine ⟨fun v => ?_, fun v stack h => ?_, fun v stack h => ?_, ?_⟩
  · simp [Clonify, Clonify_Derelativized]
  · exact Clonify_Derelativized_overflow ts types v stack _ h
  · exact (Clonify_Derelativized_ok_iff ts types v stack _).mpr h
  · intro original index tail specifier stack hidx htail
    have h1 : ¬ index > tail := by omega
    have h2 : ¬ index > original.length := by omega
    simp only [Copy_Array_Core_Managed, Copy_Array_Core_Managed_Inner_Loop, h1, if_false, h2,
      hidx, htail, and_self, if_true]
    exact ⟨fun h => Clonify_Derelativized_each_overflow ts types _ stack specifier h,
      fun h => (Clonify_Derelativized_each_ok_iff ts types _ stack specifier).mpr h⟩

/-- The witness of C31: the copy of `[[[a]]]`, nested three calls deep, fails
with `StackOverflow` with room for two calls and returns with room for three. -/
theorem Clonify_stack_guard_witness :
    Copy_Array_Core_Managed sample_typesets 2
        [.array .REB_BLOCK 0 [] [.array .REB_BLOCK 0 [] [plain_word sym_a] none] none]
        0 none 1 TS_ARRAY = .error .StackOverflow ∧
    ∃ copy, Copy_Array_Core_Managed sample_typesets 3
        [.array .REB_BLOCK 0 [] [.array .REB_BLOCK 0 [] [plain_word sym_a] none] none]
        0 none 1 TS_ARRAY = .ok copy :=
  ⟨((Clonify_stack_guard sample_typesets TS_ARRAY).2.2.2
      [.array .REB_BLOCK 0 [] [.array .REB_BLOCK 0 [] [plain_word sym_a] none] none]
      0 1 none 2 (by decide) (by decide)).1 (by decide),
    ((Clonify_stack_guard sample_typesets TS_ARRAY).2.2.2
      [.array .REB_BLOCK 0 [] [.array .REB_BLOCK 0 [] [plain_word sym_a] none] none]
      0 1 none 3 (by decide) (by decide)).2 (by decide)⟩

/-- C33: `Clonify` keeps the quote level.  `Clonify` is the routine with its
steps on the quote level written out (`Clonify_quoted`: the count of quote
levels, `Dequotify`, the cloning of the unescaped cell, `Quotify` by the
count); it returns when the stack has room for `Clonify_levels` calls, and
whenever it returns, the cell it leaves has the quote levels and the
unescaped kind of the cell it was given, for every cell and every set of
types, whether the series was copied or not. -/
theorem Clonify_keeps_quote_level (ts : Typesets) (types : REBU64) (v : Cell) :
    (∀ stack, Clonify_quoted ts types stack v = Clonify ts types stack v) ∧
    (∀ stack, Clonify_levels ts types v ≤ stack → ∃ r, Clonify ts types stack v = .ok r) ∧
    ∀ stack r, Clonify ts types stack v = .ok r →
      VAL_NUM_QUOTES r = VAL_NUM_QUOTES v ∧ CELL_KIND r = CELL_KIND v := by
  refine ⟨fun stack => Clonify_quoted_eq ts types stack v,
    fun stack h => (Clonify_Derelativized_ok_iff ts types v stack _).mpr h, ?_⟩
  intro stack r h
  rw [← Clonify_quoted_eq] at h
  exact Clonify_quoted_keeps ts types stack v r h

/-- The witness of C33: the block `[a]` under two quote levels, whose series is
copied, comes back under two quote levels; the word `a` under one quote
level, which has no series, comes back under one. -/
theorem Clonify_keeps_quote_level_witness :
    (∃ r, Clonify sample_typesets TS_ARRAY 2 (.array .REB_BLOCK 2 [] [plain_word sym_a] none)
        = .ok r ∧ VAL_NUM_QUOTES r = 2 ∧ CELL_KIND r = .array .REB_BLOCK) ∧
    (∃ r, Clonify sample_typesets TS_ARRAY 2 (quoted_word sym_a) = .ok r ∧
      VAL_NUM_QUOTES r = 1 ∧ CELL_KIND r = .word .REB_WORD) :=
  ⟨⟨.array .REB_BLOCK 2 [] [plain_word sym_a] none, by rfl,
      (Clonify_keeps_quote_level sample_typesets TS_ARRAY
        (.array .REB_BLOCK 2 [] [plain_word sym_a] none)).2.2 2 _ (by rfl)⟩,
    ⟨quoted_word sym_a, by rfl,
      (Clonify_keeps_quote_level sample_typesets TS_ARRAY (quoted_word sym_a)).2.2 2 _
        (by rfl)⟩⟩

/-! ## The claim about the body that the virtual bind copies -/

/-- C32: the copy of the body made by the virtual bind starts at the index of
the body.  For a body that is a block at index `i` of an array of `len`
cells and a spec whose items are all plain or quoted words, at least one of
them plain: with enough stack the copy of the body returns; and whenever it
returns, the copy has `len - i` cells, its cell `k` being what `Clonify`
leaves of the `Derelativize` of cell `i + k` of the original, and
`body_in_out` is a block at index 0 of an array of `len - i` cells that is
the copy up to the bindings and indices of its words, which the bind walk
sets: no cell before the index is in it. -/
theorem Virtual_Bind_Deep_To_New_Context_body_copy_from_index (ts : Typesets) (id : Nat)
    (binder : Reb_Binder) (past rest : List Cell) (b : Option REBNOD) (spec : Cell)
    (hvalid : ∀ item ∈ Virtual_Bind_Deep_To_New_Context_items spec,
      IS_WORD item = true ∨ IS_QUOTED_WORD item = true)
    (hplain : (Virtual_Bind_Deep_To_New_Context_items spec).any IS_WORD = true) :
    (∃ n, ∀ stack, n ≤ stack →
      ∃ copy, Copy_Array_Core_Managed ts stack (past ++ rest) past.length b
        (past ++ rest).length TS_ARRAY = .ok copy) ∧
    (∀ (stack : Nat) (copy : List Cell),
      Copy_Array_Core_Managed ts stack (past ++ rest) past.length b (past ++ rest).length
        TS_ARRAY = .ok copy →
      copy.length = (past ++ rest).length - past.length ∧
      copy.length = rest.length ∧
      (∀ (k : Nat), k < rest.length →
        copy[k]? = ((past ++ rest)[past.length + k]?).map (Clonify_value ts TS_ARRAY b)) ∧
      ∃ cells, (Virtual_Bind_Deep_To_New_Context ts stack id binder
          (.array .REB_BLOCK 0 past rest b) spec).body = .array .REB_BLOCK 0 [] cells UNBOUND ∧
        VAL_INDEX (Virtual_Bind_Deep_To_New_Context ts stack id binder
          (.array .REB_BLOCK 0 past rest b) spec).body = 0 ∧
        cells.length = rest.length ∧
        skeleton cells = skeleton copy) := by
  have hne : Virtual_Bind_Deep_To_New_Context_items spec ≠ [] := by
    intro h
    rw [h] at hplain
    simp at hplain
  constructor
  · obtain ⟨n, hn⟩ := Copy_Array_Core_Managed_total ts TS_ARRAY (past ++ rest) past.length
      (past ++ rest).length (le_refl _)
    exact ⟨n, fun stack hstack => hn stack hstack b⟩
  · intro stack copy hcopy
    obtain ⟨hlen, hat⟩ := Copy_Array_Core_Managed_at ts TS_ARRAY stack (past ++ rest)
      past.length (past ++ rest).length b copy (by simp) (le_refl _) hcopy
    have hlen2 : copy.length = rest.length := by rw [hlen]; simp
    obtain ⟨cells, hbody, hsk⟩ := Virtual_Bind_body_of_copy ts stack id binder past rest b
      spec copy hne hvalid hplain hcopy
    refine ⟨hlen, hlen2, fun k hk => hat k (by simp; omega), cells, hbody, ?_, ?_, hsk⟩
    · rw [hbody]; rfl
    · rw [← skeleton_length cells, hsk, skeleton_length, hlen2]

/-- The witness of C32: the body is the block `[a b]` at index 1 and the spec
is `[b]`; the block left in `body_in_out` is at index 0 of an array of one cell. -/
theorem Virtual_Bind_Deep_To_New_Context_body_copy_from_index_witness :
    ∃ cells, (Virtual_Bind_Deep_To_New_Context sample_typesets 3 7 Reb_Binder.empty
        (.array .REB_BLOCK 0 [plain_word sym_a] [plain_word sym_b] none)
        (.array .REB_BLOCK 0 [] [plain_word sym_b] none)).body
        = .array .REB_BLOCK 0 [] cells UNBOUND ∧
      cells.length = 1 ∧ skeleton cells = skeleton [plain_word sym_b] :=
  have h := ((Virtual_Bind_Deep_To_New_Context_body_copy_from_index sample_typesets 7
    Reb_Binder.empty [plain_word sym_a] [plain_word sym_b] none
    (.array .REB_BLOCK 0 [] [plain_word sym_b] none)
    (by
      intro item hitem
      simp only [Virtual_Bind_Deep_To_New_Context_items, IS_BLOCK, VAL_ARRAY_AT,
        beq_self_eq_true, if_true, List.mem_singleton] at hitem
      subst hitem
      exact Or.inl rfl)
    (by rfl)).2 3 [plain_word sym_b] (by rfl)).2.2.2
  match h with
  | ⟨cells, h1, _, h3, h4⟩ => ⟨cells, h1, h3, h4⟩

/-! ## The claim about Flatten -/

/-- C34: `Flatten_Core` flattens the plain blocks, to the depth of its level.
For every list of cells, every specifier and every `Derive_Specifier`, the
cells pushed are, one for one and in order (`PushedFrom`): with `FLATTEN_DEEP`
the leaves of the tree of blocks (`block_leaves`), none of the pushed cells
being a plain block; with `FLATTEN_ONCE` the cells with every plain block
among them replaced by its cells from its index on (`blocks_opened_once`),
the blocks among those pushed as cells; with `FLATTEN_NOT` the cells
themselves.  At every level a cell that is not a plain block (a group, a
path, a quoted block, a word) is pushed as one cell.  A pushed cell is the
cell through `Derelativize`, hence the very cell when it is not relative. -/
theorem Flatten_Core_flattens_plain_blocks
    (Derive_Specifier : Option REBNOD → Cell → Option REBNOD) (head : List Cell)
    (specifier : Option REBNOD) :
    PushedFrom (Flatten_Core Derive_Specifier head specifier .FLATTEN_DEEP)
      (block_leaves head) ∧
    (∀ c ∈ Flatten_Core Derive_Specifier head specifier .FLATTEN_DEEP, IS_BLOCK c = false) ∧
    PushedFrom (Flatten_Core Derive_Specifier head specifier .FLATTEN_ONCE)
      (blocks_opened_once head) ∧
    Flatten_Core Derive_Specifier head specifier .FLATTEN_NOT
      = head.map (fun c => DS_PUSH_RELVAL c specifier) ∧
    (∀ (c : Cell) (level : FLATTEN_LEVEL), IS_BLOCK c = false →
      Flatten_Core Derive_Specifier [c] specifier level = [DS_PUSH_RELVAL c specifier]) ∧
    (∀ (out src : List Cell), PushedFrom out src →
      out.length = src.length ∧
      ∀ (i : Nat) (v : Cell), src[i]? = some v →
        ∃ o sp, out[i]? = some o ∧ o = Derelativize v sp ∧ (IS_RELATIVE v = false → o = v)) :=
  ⟨(Flatten_Core_deep Derive_Specifier head specifier).1,
    (Flatten_Core_deep Derive_Specifier head specifier).2,
    Flatten_Core_once Derive_Specifier specifier head,
    Flatten_Core_not Derive_Specifier specifier head,
    fun c level h => Flatten_Core_item_closed Derive_Specifier c specifier level h,
    fun out src h => PushedFrom_at out src h⟩

/-- The witness of C34: of the cells `a [b [a]] (b) '[a]`, `Flatten_Core` pushes
`a b a (b) '[a]` with `FLATTEN_DEEP`, none of them a plain block, and
`a b [a] (b) '[a]` with `FLATTEN_ONCE`. -/
theorem Flatten_Core_flattens_plain_blocks_witness :
    Flatten_Core (fun _ item => VAL_SPECIFIER item)
        [plain_word sym_a,
          .array .REB_BLOCK 0 [] [plain_word sym_b,
            .array .REB_BLOCK 0 [] [plain_word sym_a] none] none,
          .array .REB_GROUP 0 [] [plain_word sym_b] none,
          .array .REB_BLOCK 1 [] [plain_word sym_a] none] none .FLATTEN_DEEP
      = [plain_word sym_a, plain_word sym_b, plain_word sym_a,
          .array .REB_GROUP 0 [] [plain_word sym_b] none,
          .array .REB_BLOCK 1 [] [plain_word sym_a] none] ∧
    Flatten_Core (fun _ item => VAL_SPECIFIER item)
        [plain_word sym_a,
          .array .REB_BLOCK 0 [] [plain_word sym_b,
            .array .REB_BLOCK 0 [] [plain_word sym_a] none] none,
          .array .REB_GROUP 0 [] [plain_word sym_b] none,
          .array .REB_BLOCK 1 [] [plain_word sym_a] none] none .FLATTEN_ONCE
      = [plain_word sym_a, plain_word sym_b, .array .REB_BLOCK 0 [] [plain_word sym_a] none,
          .array .REB_GROUP 0 [] [plain_word sym_b] none,
          .array .REB_BLOCK 1 [] [plain_word sym_a] none] ∧
    ∀ c ∈ Flatten_Core (fun _ item => VAL_SPECIFIER item)
        [plain_word sym_a,
          .array .REB_BLOCK 0 [] [plain_word sym_b,
            .array .REB_BLOCK 0 [] [plain_word sym_a] none] none,
          .array .REB_GROUP 0 [] [plain_word sym_b] none,
          .array .REB_BLOCK 1 [] [plain_word sym_a] none] none .FLATTEN_DEEP,
      IS_BLOCK c = false :=
  ⟨by rfl, by rfl,
    (Flatten_Core_flattens_plain_blocks (fun _ item => VAL_SPECIFIER item)
      [plain_word sym_a,
        .array .REB_BLOCK 0 [] [plain_word sym_b,
          .array .REB_BLOCK 0 [] [plain_word sym_a] none] none,
        .array .REB_GROUP 0 [] [plain_word sym_b] none,
        .array .REB_BLOCK 1 [] [plain_word sym_a] none] none).2.1⟩

/-! ## The claim about the assertions of the loop that empties the Binder -/

/-- C36: the assertions of the loop that empties the Binder hold only when no
two quoted words of the spec name one symbol.  For spec items that are all
plain or quoted words and a Binder that holds no entry on entry, take the
Binder, the keys, the slots and the duplicate that the loop over the spec
items leaves when rebinding; the bind walk that follows changes neither the
Binder nor the context.  The three assertions of the removal loop all hold
exactly when a duplicate was recorded or the canons of the spec items are
pairwise distinct; so when two quoted words name the same symbol and no
plain word names it, the second removal finds 0 and `assert(duplicate)` does
not hold. -/
theorem Virtual_Bind_Deep_To_New_Context_teardown_asserts_iff (specifier : Option REBNOD)
    (binder : Reb_Binder) (items : List Cell) (id : Nat)
    (hempty : ∀ canon, Get_Binder_Index_Else_0 binder canon = 0)
    (hvalid : ∀ item ∈ items, IS_WORD item = true ∨ IS_QUOTED_WORD item = true) :
    (Virtual_Bind_Deep_To_New_Context_reset_asserts
        (Virtual_Bind_Deep_To_New_Context_slots true specifier binder none items 1).binder
        (Virtual_Bind_Deep_To_New_Context_slots true specifier binder none items 1).keys
        (Virtual_Bind_Deep_To_New_Context_slots true specifier binder none items 1).vars
        (Virtual_Bind_Deep_To_New_Context_slots true specifier binder none items 1).duplicate
        = true ↔
      ((Virtual_Bind_Deep_To_New_Context_slots true specifier binder none items
          1).duplicate.isSome = true ∨
        (items.map VAL_WORD_CANON).Nodup)) ∧
    (∀ (copy : List Cell),
      (Bind_Values_Inner_Loop
        (Virtual_Bind_Deep_To_New_Context_slots true specifier binder none items 1).binder copy
        ⟨id, false,
          (Virtual_Bind_Deep_To_New_Context_slots true specifier binder none items 1).keys,
          (Virtual_Bind_Deep_To_New_Context_slots true specifier binder none items 1).vars,
          true⟩ TS_WORD (fun _ => false) true).binder
        = (Virtual_Bind_Deep_To_New_Context_slots true specifier binder none items 1).binder ∧
      (Bind_Values_Inner_Loop
        (Virtual_Bind_Deep_To_New_Context_slots true specifier binder none items 1).binder copy
        ⟨id, false,
          (Virtual_Bind_Deep_To_New_Context_slots true specifier binder none items 1).keys,
          (Virtual_Bind_Deep_To_New_Context_slots true specifier binder none items 1).vars,
          true⟩ TS_WORD (fun _ => false) true).context
        = ⟨id, false,
          (Virtual_Bind_Deep_To_New_Context_slots true specifier binder none items 1).keys,
          (Virtual_Bind_Deep_To_New_Context_slots true specifier binder none items 1).vars,
          true⟩) := by
  refine ⟨Virtual_Bind_reset_asserts_iff specifier binder items hempty hvalid, fun copy => ?_⟩
  rw [Bind_Values_Inner_Loop_no_midstream _ _ TS_WORD (fun _ => false) true (fun _ h => h)
    (fun _ => rfl) copy]
  exact ⟨rfl, rfl⟩

/-- The witness of C36: with the spec items `'a 'a b` no duplicate is recorded
and an assertion of the removal loop does not hold; with `a 'b` all of them
hold. -/
theorem Virtual_Bind_Deep_To_New_Context_teardown_asserts_iff_witness :
    (Virtual_Bind_Deep_To_New_Context_slots true none Reb_Binder.empty none
      [quoted_word sym_a, quoted_word sym_a, plain_word sym_b] 1).duplicate = none ∧
    Virtual_Bind_Deep_To_New_Context_reset_asserts
      (Virtual_Bind_Deep_To_New_Context_slots true none Reb_Binder.empty none
        [quoted_word sym_a, quoted_word sym_a, plain_word sym_b] 1).binder
      (Virtual_Bind_Deep_To_New_Context_slots true none Reb_Binder.empty none
        [quoted_word sym_a, quoted_word sym_a, plain_word sym_b] 1).keys
      (Virtual_Bind_Deep_To_New_Context_slots true none Reb_Binder.empty none
        [quoted_word sym_a, quoted_word sym_a, plain_word sym_b] 1).vars
      (Virtual_Bind_Deep_To_New_Context_slots true none Reb_Binder.empty none
        [quoted_word sym_a, quoted_word sym_a, plain_word sym_b] 1).duplicate = false ∧
    Virtual_Bind_Deep_To_New_Context_reset_asserts
      (Virtual_Bind_Deep_To_New_Context_slots true none Reb_Binder.empty none
        [plain_word sym_a, quoted_word sym_b] 1).binder
      (Virtual_Bind_Deep_To_New_Context_slots true none Reb_Binder.empty none
        [plain_word sym_a, quoted_word sym_b] 1).keys
      (Virtual_Bind_Deep_To_New_Context_slots true none Reb_Binder.empty none
        [plain_word sym_a, quoted_word sym_b] 1).vars
      (Virtual_Bind_Deep_To_New_Context_slots true none Reb_Binder.empty none
        [plain_word sym_a, quoted_word sym_b] 1).duplicate = true :=
  ⟨by rfl,
    Bool.eq_false_iff.mpr (fun h =>
      absurd ((Virtual_Bind_Deep_To_New_Context_teardown_asserts_iff none Reb_Binder.empty
        [quoted_word sym_a, quoted_word sym_a, plain_word sym_b] 7 (fun _ => rfl)
        (by
          intro item hitem
          simp only [List.mem_cons, List.mem_singleton, List.not_mem_nil, or_false] at hitem
          rcases hitem with rfl | rfl | rfl
          · exact Or.inr rfl
          · exact Or.inr rfl
          · exact Or.inl rfl)).1.mp h) (by decide)),
    (Virtual_Bind_Deep_To_New_Context_teardown_asserts_iff none Reb_Binder.empty
      [plain_word sym_a, quoted_word sym_b] 7 (fun _ => rfl)
      (by
        intro item hitem
        simp only [List.mem_cons, List.mem_singleton, List.not_mem_nil, or_false] at hitem
        rcases hitem with rfl | rfl
        · exact Or.inl rfl
        · exact Or.inr rfl)).1.mpr (Or.inr (by decide))⟩

/-! ## The claim about a Bind without midstream additions -/

/-- C39: a Bind without midstream additions is idempotent and leaves the
context alone.  Entered with a Binder that holds no entry, on a context
whose bindable keys have pairwise distinct canons, with only word kinds in
`bind_types` and no kind in `add_midstream_types`, `Bind_Values_Core` returns
without error; the context is the context passed in, keys and length
included; the array has the same number of cells and is the array passed in
up to the bindings and indices of its words, at every depth; a word whose
kind is not in `bind_types` or whose canon no bindable key has is left as it
was, and so are a function and a cell of any other kind, while an array or
path cell keeps its kind, quote level, index, binding and number of cells;
and a second `Bind_Values_Core` on what the first one left, with the same
arguments, leaves exactly that again. -/
theorem Bind_Values_Core_no_midstream_idempotent (binder : Reb_Binder) (head : List Cell)
    (context : REBCTX) (bind_types : REBU64) (deep : Bool)
    (hempty : ∀ canon, Get_Binder_Index_Else_0 binder canon = 0)
    (hdistinct : (bindableCanons context.keys).Nodup)
    (hkinds : ∀ kind, bind_types kind = true → TS_WORD kind = true) :
    (Bind_Values_Core binder head context bind_types (fun _ => false) deep).error = none ∧
    (Bind_Values_Core binder head context bind_types (fun _ => false) deep).context = context ∧
    (Bind_Values_Core binder head context bind_types (fun _ => false) deep).cells.length
      = head.length ∧
    skeleton (Bind_Values_Core binder head context bind_types (fun _ => false) deep).cells
      = skeleton head ∧
    (∀ (i : Nat) (path : List Nat) (v : Cell), cellAt head i path = some v →
      ∃ v2, cellAt (Bind_Values_Core binder head context bind_types (fun _ => false)
          deep).cells i path = some v2 ∧
        (∀ k q s b ix, v = .word k q s b ix →
          (bind_types (.word k) = false ∨ s.canon ∉ bindableCanons context.keys) → v2 = v) ∧
        (∀ q b, v = .action q b → v2 = v) ∧
        (∀ y q, v = .other y q → v2 = v) ∧
        (∀ k q past rest b, v = .array k q past rest b →
          ∃ rest2, v2 = .array k q past rest2 b ∧ rest2.length = rest.length)) ∧
    Bind_Values_Core
        (Bind_Values_Core binder head context bind_types (fun _ => false) deep).binder
        (Bind_Values_Core binder head context bind_types (fun _ => false) deep).cells
        (Bind_Values_Core binder head context bind_types (fun _ => false) deep).context
        bind_types (fun _ => false) deep
      = Bind_Values_Core binder head context bind_types (fun _ => false) deep := by
  have hamt : ∀ kind : Reb_Kind, (fun _ => false : REBU64) kind = false := fun _ => rfl
  obtain ⟨hseeded, hcore, hzero⟩ := Bind_Values_Core_no_midstream binder head context bind_types
    (fun _ => false) deep hempty hdistinct hkinds hamt
  have herr : (Bind_Values_Core binder head context bind_types (fun _ => false) deep).error
      = none := by rw [hcore]
  refine ⟨herr, by rw [hcore], by rw [hcore]; simp,
    Bind_Values_Core_skeleton binder head context bind_types _ deep herr, ?_, ?_⟩
  · intro i path v hv
    have hcells : (Bind_Values_Core binder head context bind_types (fun _ => false)
        deep).cells = head.map (fun v =>
          (Bind_Values_Inner_Loop_cell (Bind_Values_Core_seed binder context.keys 1).1 v
            context bind_types (fun _ => false) deep).cells.headD v) := by rw [hcore]
    unfold cellAt at hv ⊢
    rw [hcells, List.getElem?_map]
    have hword : ∀ k q s b ix,
        (bind_types (.word k) = false ∨ s.canon ∉ bindableCanons context.keys) →
        (Bind_Values_Inner_Loop_cell (Bind_Values_Core_seed binder context.keys 1).1
          (.word k q s b ix) context bind_types (fun _ => false) deep).cells.headD
            (.word k q s b ix) = .word k q s b ix := by
      intro k q s b ix hor
      rw [Bind_cell_word_no_midstream _ context bind_types _ deep hamt, if_neg]
      rintro ⟨h1, h2⟩
      rcases hor with h | h
      · rw [h] at h1; exact Bool.noConfusion h1
      · have h0 := (bindableIndex_eq_zero_iff s.canon context.keys 1 (by omega)).mpr h
        have hs := hseeded s.canon
        simp only [Get_Binder_Index_Else_0] at h2
        rw [hs, h0] at h2
        exact absurd h2 (by decide)
    rcases Bind_under_any_no_midstream (Bind_Values_Core_seed binder context.keys 1).1 context
      bind_types (fun _ => false) deep hkinds hamt path (head[i]?) with h | h
    · rw [h, hv, Option.map_some']
      refine ⟨_, rfl, ?_, ?_, ?_, ?_⟩
      · intro k q s b ix hvk hor
        subst hvk
        exact hword k q s b ix hor
      · intro q b hvk
        subst hvk
        exact (Bind_cell_leaf_no_midstream _ context bind_types _ deep hkinds).1 q b
      · intro y q hvk
        subst hvk
        exact (Bind_cell_leaf_no_midstream _ context bind_types _ deep hkinds).2 y q
      · intro k q past rest b hvk
        subst hvk
        rw [Bind_cell_array_any_no_midstream _ context bind_types _ deep hkinds hamt]
        refine ⟨_, rfl, ?_⟩
        split_ifs
        · simp
        · rfl
    · rw [h, hv]
      exact ⟨v, rfl, fun _ _ _ _ _ _ _ => rfl, fun _ _ _ => rfl, fun _ _ _ => rfl,
        fun k q past rest b hvk => ⟨rest, hvk, rfl⟩⟩
  · obtain ⟨hseeded2, hcore2, -⟩ := Bind_Values_Core_no_midstream
      (Bind_Values_Core_reset (Bind_Values_Core_seed binder context.keys 1).1 context.keys)
      (head.map (fun v =>
        (Bind_Values_Inner_Loop_cell (Bind_Values_Core_seed binder context.keys 1).1 v
          context bind_types (fun _ => false) deep).cells.headD v))
      context bind_types (fun _ => false) deep hzero hdistinct hkinds hamt
    have hsame := Seeded_unique _ _ context.keys hseeded2 hseeded
    rw [hsame] at hcore2
    rw [hcore]
    simp only []
    rw [hcore2, Bind_cells_idempotent _ context bind_types _ deep hkinds hamt head]

/-- The witness of C39: on `[a b [a]]` and a context with the key `a`, a deep
Bind of the words without midstream additions binds both `a`, leaves `b` and
the context, and a second Bind leaves the same again. -/
theorem Bind_Values_Core_no_midstream_idempotent_witness :
    (Bind_Values_Core Reb_Binder.empty
        [plain_word sym_a, plain_word sym_b, .array .REB_BLOCK 0 [] [plain_word sym_a] none]
        (context_of 9 [sym_a]) TS_WORD (fun _ => false) true).cells
      = [.word .REB_WORD 0 sym_a (some (NOD (context_of 9 [sym_a]))) 1, plain_word sym_b,
          .array .REB_BLOCK 0 []
            [.word .REB_WORD 0 sym_a (some (NOD (context_of 9 [sym_a]))) 1] none] ∧
    Bind_Values_Core
        (Bind_Values_Core Reb_Binder.empty
          [plain_word sym_a, plain_word sym_b, .array .REB_BLOCK 0 [] [plain_word sym_a] none]
          (context_of 9 [sym_a]) TS_WORD (fun _ => false) true).binder
        (Bind_Values_Core Reb_Binder.empty
          [plain_word sym_a, plain_word sym_b, .array .REB_BLOCK 0 [] [plain_word sym_a] none]
          (context_of 9 [sym_a]) TS_WORD (fun _ => false) true).cells
        (Bind_Values_Core Reb_Binder.empty
          [plain_word sym_a, plain_word sym_b, .array .REB_BLOCK 0 [] [plain_word sym_a] none]
          (context_of 9 [sym_a]) TS_WORD (fun _ => false) true).context
        TS_WORD (fun _ => false) true
      = Bind_Values_Core Reb_Binder.empty
          [plain_word sym_a, plain_word sym_b, .array .REB_BLOCK 0 [] [plain_word sym_a] none]
          (context_of 9 [sym_a]) TS_WORD (fun _ => false) true :=
  ⟨by rfl,
    (Bind_Values_Core_no_midstream_idempotent Reb_Binder.empty
      [plain_word sym_a, plain_word sym_b, .array .REB_BLOCK 0 [] [plain_word sym_a] none]
      (context_of 9 [sym_a]) TS_WORD true (fun _ => rfl) (by decide)
      (fun _ h => h)).2.2.2.2.2⟩
